import Mathlib

/-!
# Accumulate block execution core: a shallow embedding

The development follows `internal/chain/state.go`, `internal/chain/executor.go`
and `internal/url/url.go`.  Go pointers and in-place mutation become explicit
state passing; Go `error` values become `Error`; a Go `panic` is an `Error` of
kind `panic` which callers propagate without running their `err != nil`
handlers.  Packages whose source is not part of the repository snapshot
(`types`, `protocol`, `types/state`, `smt/storage`, `types/api/transactions`,
the Go standard library) are either modelled from the specification, in which
case the definition says so, or supplied through the record `Env`.
-/

set_option autoImplicit false
set_option linter.dupNamespace false

namespace Accumulate

/-! ## Definitions -/

/-- Byte strings (`[]byte`, `[32]byte`, `types.Bytes`), one natural number per byte. -/
abbrev Bytes := List Nat

/-- The three ways a failure is told apart by the callers: an ordinary error,
an error for which `errors.Is(err, storage.ErrNotFound)` holds, and a panic. -/
inductive ErrKind where
  | plain
  | notFound
  | panic
deriving DecidableEq, Repr

/-- A Go `error` value: its message and its kind. -/
structure Error where
  msg : String
  kind : ErrKind
deriving DecidableEq, Repr

/-- The result of `fmt.Errorf` with no `%w` verb: a plain error. -/
def errorf (msg : String) : Error := { msg := msg, kind := ErrKind.plain }

/-- A Go `panic(msg)`. -/
def goPanic (msg : String) : Error := { msg := msg, kind := ErrKind.panic }

/-- Go `errors.Is(err, storage.ErrNotFound)`. -/
def Error.isNotFound (e : Error) : Bool := e.kind == ErrKind.notFound

/-- Whether the failure is a panic rather than a returned error. -/
def Error.isPanic (e : Error) : Bool := e.kind == ErrKind.panic

/-- Modelled from the spec: `storage.ErrNotFound`, the KV miss ("NotFound"). -/
def ErrNotFound : Error := { msg := "not found", kind := ErrKind.notFound }

/-- The 32-byte zero value `types.Bytes32{}`. -/
def zeroBytes32 : Bytes := List.replicate 32 0

/-- Go `copy(dst[:], src)` into a fresh `[32]byte`: truncate or pad with zeros. -/
def toBytes32 (b : Bytes) : Bytes := (b ++ List.replicate 32 0).take 32

/-- Modelled from the spec: `types.TxType`.  The source names four synthetic
types; every other type is either another synthetic type or a user type. -/
inductive TxType where
  | SyntheticGenesis
  | SyntheticCreateChain
  | SyntheticDepositTokens
  | SyntheticSignTransactions
  | otherSynthetic (n : Nat)
  | user (n : Nat)
deriving DecidableEq, Repr

/-- Modelled from the spec: `TxType.IsSynthetic`. -/
def TxType.IsSynthetic : TxType → Bool
  | TxType.user _ => false
  | _ => true

/-- Modelled from the spec: `types.ChainType`, the record discriminant of a
chain header, with the eight types `unmarshalRecord` knows. -/
inductive ChainType where
  | Identity
  | TokenAccount
  | LiteTokenAccount
  | TransactionReference
  | Transaction
  | PendingTransaction
  | KeyPage
  | KeyBook
  | unknown (n : Nat)
deriving DecidableEq, Repr

/-- Modelled from the spec: `ChainType.IsTransaction`, true of the three
transaction record types. -/
def ChainType.IsTransaction : ChainType → Bool
  | ChainType.Transaction => true
  | ChainType.PendingTransaction => true
  | ChainType.TransactionReference => true
  | _ => false

/-- The header `state.ChainHeader` every record carries. -/
structure ChainHeader where
  type : ChainType
  ChainUrl : String
  SigSpecId : Bytes
deriving DecidableEq, Repr

/-- An entry `{publicKey, nonce}` of a key page (`protocol.KeySpec`). -/
structure KeySpec where
  PublicKey : Bytes
  Nonce : Nat
deriving DecidableEq, Repr

/-- The Go dynamic type of a record held behind the `state.Chain` interface. -/
inductive RecordKind where
  | AdiState
  | TokenAccount
  | AnonTokenAccount
  | TxReference
  | Transaction
  | PendingTransaction
  | SigSpec
  | SigSpecGroup
deriving DecidableEq, Repr

/-- The fields of a record that the execution core reads, whatever its type:
the header, the nonce of a lite account, the keys of a key page (`SigSpec`),
the page IDs of a key book (`SigSpecGroup`); `payload` stands for the rest. -/
structure RecordData where
  header : ChainHeader
  Nonce : Nat
  Keys : List KeySpec
  SigSpecs : List Bytes
  payload : Bytes
deriving DecidableEq, Repr

/-- A record behind the `state.Chain` interface: its Go type and its fields. -/
structure Record where
  kind : RecordKind
  data : RecordData
deriving DecidableEq, Repr

/-- Go `record.Header()`. -/
def Record.Header (r : Record) : ChainHeader := r.data.header

/-- The wrapper `state.Object`; only `Entry` is set by the core. -/
structure Object where
  Entry : Bytes
deriving DecidableEq, Repr

/-- An Accumulate URL (`internal/url.URL`). -/
structure URL where
  UserInfo : String
  Authority : String
  Path : String
  Query : String
  Fragment : String
deriving DecidableEq, Repr

/-- The parts of a Go `net/url.URL` that `internal/url` reads and writes.
`User` is the user name and the password (empty when none was given). -/
structure NetURL where
  Scheme : String
  User : Option (String × String)
  Host : String
  Path : String
  RawQuery : String
  Fragment : String
deriving DecidableEq, Repr

/-- A signature of the envelope (`transactions.ED25519Sig`). -/
structure ED25519Sig where
  Nonce : Nat
  PublicKey : Bytes
  Signature : Bytes
deriving DecidableEq, Repr

/-- The signature-info sidecar `{url, msHeight, priorityIdx, nonce}`. -/
structure SignatureInfo where
  URL : String
  MSHeight : Nat
  PriorityIdx : Nat
  Nonce : Nat
deriving DecidableEq, Repr

/-- The envelope `transactions.GenTransaction`.  `SigInfo` and `Transaction`
are `none` when the Go pointer or slice is nil. -/
structure GenTransaction where
  Signature : List ED25519Sig
  Routing : Nat
  ChainID : Bytes
  SigInfo : Option SignatureInfo
  Transaction : Option Bytes
deriving DecidableEq, Repr

/-- Modelled from the spec: `state.PendingTransaction`, the full envelope plus
the status JSON (`json.RawMessage`, kept as text). -/
structure PendingTransaction where
  ChainUrl : String
  Signature : List ED25519Sig
  SigInfo : Option SignatureInfo
  Transaction : Option Bytes
  TransactionHash : Bytes
  Status : String
deriving DecidableEq, Repr

/-- Modelled from the spec: `state.Transaction`, the accepted body of an
envelope, content-addressed by the transaction hash. -/
structure Transaction where
  ChainUrl : String
  SigInfo : Option SignatureInfo
  Transaction : Option Bytes
  TransactionHash : Bytes
deriving DecidableEq, Repr

/-- One record of a `protocol.SyntheticCreateChain` body. -/
structure ChainParams where
  Data : Bytes
deriving DecidableEq, Repr

/-- The body `protocol.SyntheticCreateChain`. -/
structure SyntheticCreateChain where
  Cause : Bytes
  Chains : List ChainParams
deriving DecidableEq, Repr

/-- A synthetic transaction body behind `encoding.BinaryMarshaler`: either a
`SyntheticCreateChain` built by `commit`, or a body an executor submitted. -/
inductive Body where
  | createChain (scc : SyntheticCreateChain)
  | other (payload : Bytes)
deriving DecidableEq, Repr

/-- A part of a storage key, as passed to `storage.ComputeKey`. -/
inductive KeyPart where
  | str (s : String)
  | bytes (b : Bytes)
  | uint (n : Nat)
deriving DecidableEq, Repr

/-- The reference `protocol.TxSynthRef` returned for a broadcast synthetic
transaction. -/
structure TxSynthRef where
  type : TxType
  Url : String
  Hash : Bytes
  TxRef : Bytes
deriving DecidableEq, Repr

/-- The result `protocol.TxResult` of a delivery. -/
structure TxResult where
  SyntheticTxs : List TxSynthRef
deriving DecidableEq, Repr

/-- One call of `DBTransaction.AddStateEntry(chainId, txHash, object)`. -/
structure StateEntry where
  chainId : Bytes
  txHash : Bytes
  object : Object
deriving DecidableEq, Repr

/-- One call of `DBTransaction.AddTransaction(chainId, txId, pending, accepted)`;
`accepted` is `none` when the Go argument is nil. -/
structure TxRecord where
  chainId : Bytes
  txId : Bytes
  pending : Object
  accepted : Option Object
deriving DecidableEq, Repr

/-- One call of `DBTransaction.AddSynthTx(parentTxId, synthTxId, object)`. -/
structure SynthRecord where
  parentTxId : Bytes
  synthTxId : Bytes
  object : Object
deriving DecidableEq, Repr

/-- Modelled from the spec: `state.DBTransaction`, whose source is not part of
the snapshot.  It is the committed state the block started from (`committed`
for chain objects, `committedKV` for raw keys) together with the calls made on
it since `Begin`, each kind in call order, oldest first. -/
structure DBTransaction where
  committed : Bytes → Except Error Object
  committedKV : Bytes → Except Error Bytes
  stateEntries : List StateEntry
  transactions : List TxRecord
  synthTxs : List SynthRecord
  writes : List (Bytes × Bytes)

/-- Modelled from the spec: `state.StateDB`, whose source is not part of the
snapshot: the last-committed state that the query service reads.  Each field
is one read operation: `getPersistentEntry(id, allowDirty=false)`,
`GetTransaction`, `GetTx`, `GetPendingTx`, `GetSyntheticTxIds`, `GetTxRange`
(the transaction IDs of the range and the total count), and the raw keys under
which the secondary indices live. -/
structure StateDB where
  entries : Bytes → Except Error Object
  txEntries : Bytes → Except Error Object
  txs : Bytes → Except Error Bytes
  pendingTxs : Bytes → Except Error Bytes
  synthTxIds : Bytes → Except Error Bytes
  txRange : Bytes → Int → Int → Except Error (List Bytes × Int)
  kv : Bytes → Except Error Bytes

/-- The discriminant `types.QueryType` of a query. -/
inductive QueryType where
  | TxId
  | TxHistory
  | Url
  | DirectoryUrl
  | ChainId
  | other (n : Nat)
deriving DecidableEq, Repr

/-- What the core takes from packages outside the repository snapshot: the Go
standard library (`net/url`, `crypto/sha256`, `strings`), the binary codecs of
the record and transaction types, the signature scheme, the relay, and the
conditions under which the database layer reports a failure. -/
structure Env where
  /-- Go `sha256.Sum256` -/
  sha256 : Bytes → Bytes
  /-- Go `[]byte(s)` -/
  stringBytes : String → Bytes
  /-- Go `strings.ToLower` -/
  toLower : String → String
  /-- Go `net/url.Parse` -/
  netUrlParse : String → Except Error NetURL
  /-- Go `(*net/url.URL).String` -/
  netUrlString : NetURL → String
  /-- The discriminant `tx.TransactionType()`, read from the body of the envelope -/
  transactionType : Option Bytes → TxType
  /-- The hash `tx.TransactionHash()` -/
  transactionHash : GenTransaction → Bytes
  /-- The check `tx.ValidateSig()` -/
  validateSig : GenTransaction → Bool
  /-- The text `TxType.Name()` -/
  txTypeName : TxType → String
  /-- The text of a transaction type under the verb `%v` -/
  txTypeText : TxType → String
  /-- The URL `protocol.AcmeUrl()` -/
  acmeUrl : URL
  /-- The record `genesis.ACME` -/
  genesisACME : Record
  /-- The text of a chain type under the verb `%v` -/
  chainTypeName : ChainType → String
  /-- The text of a record's Go type under the verb `%T` -/
  kindName : RecordKind → String
  /-- The codec `record.MarshalBinary()` -/
  marshalRecord : Record → Except Error Bytes
  /-- The decoder `obj.As(header)` -/
  unmarshalHeader : Bytes → Except Error ChainHeader
  /-- The decoder `obj.As(record)` for a record of the given Go type -/
  unmarshalAs : RecordKind → Bytes → Except Error RecordData
  /-- The codec `PendingTransaction.MarshalBinary` -/
  marshalPending : PendingTransaction → Except Error Bytes
  /-- The codec `Transaction.MarshalBinary` -/
  marshalTransaction : Transaction → Except Error Bytes
  /-- The codec `body.MarshalBinary()` of a submitted body -/
  marshalBody : Body → Except Error Bytes
  /-- The lookup `SigSpec.FindKey(publicKey)` in a key page -/
  findKey : Record → Bytes → Option KeySpec
  /-- The parser `protocol.ParseAnonymousAddress`: key digest and token URL -/
  parseAnonymousAddress : URL → Except Error (Bytes × String)
  /-- The failure, if any, of `DBTransaction.AddTransaction` on these arguments -/
  addTransactionError : Bytes → Bytes → Object → Option Object → Option Error
  /-- The key derivation `storage.ComputeKey` -/
  computeKey : List KeyPart → Bytes
  /-- The codec `common.Uint64Bytes` -/
  uint64Bytes : Nat → Bytes
  /-- The decoder `common.BytesUint64`, without the remaining bytes -/
  bytesUint64 : Bytes → Nat
  /-- The signature `ed.Sign(nonce, key, hash)` -/
  sign : Nat → Bytes → Bytes → Except Error Bytes
  /-- The relay `query.BroadcastTx`, returning the reference ID -/
  broadcastTx : GenTransaction → Except Error Bytes
  /-- The database layer's `DBTransaction.Commit(height)`: the root and the DBTx afterwards -/
  dbCommit : DBTransaction → Int → Except Error (Bytes × DBTransaction)
  /-- The transaction ranges of the state database after the DBTx was committed on it -/
  txRangeCommit : (Bytes → Int → Int → Except Error (List Bytes × Int)) → DBTransaction →
    Bytes → Int → Int → Except Error (List Bytes × Int)
  /-- The codec `common.SliceBytes` -/
  sliceBytes : Bytes → Bytes
  /-- Go `string(b)` -/
  bytesString : Bytes → String
  /-- The lookup `net/url.ParseQuery(query).Get(key)`, malformed pairs discarded -/
  queryGet : String → String → String
  /-- Go `hex.DecodeString` -/
  hexDecode : String → Except Error Bytes
  /-- The text of a byte string under the verb `%X` -/
  hexUpper : Bytes → String
  /-- The text of a byte string under the verb `%x` -/
  hexLower : Bytes → String
  /-- The text of the run-time panic for the index against the length -/
  indexPanicText : Nat → Nat → String
  /-- The constant `state.DirectoryIndex` -/
  directoryIndex : String
  /-- The codec `DirectoryIndexMetadata.MarshalBinary`, of the count -/
  marshalMetadata : Nat → Except Error Bytes
  /-- The decoder `DirectoryIndexMetadata.UnmarshalBinary`: the count -/
  unmarshalMetadata : Bytes → Except Error Nat
  /-- The decoder `RequestByUrl.UnmarshalBinary`: the URL text -/
  unmarshalRequestByUrl : Bytes → Except Error String
  /-- The decoder `RequestByChainId.UnmarshalBinary`: the chain ID -/
  unmarshalRequestByChainId : Bytes → Except Error Bytes
  /-- The codec `ResponseByChainId.MarshalBinary`, of the object -/
  marshalResponseByChainId : Object → Except Error Bytes
  /-- The codec `DirectoryQueryResult.MarshalBinary`, of the entries -/
  marshalDirectoryResult : List String → Except Error Bytes
  /-- The text `QueryType.Name()` -/
  queryTypeName : QueryType → String
  /-- The number `QueryType.AsUint64()` -/
  queryTypeNumber : QueryType → Nat
  /-- The bytes that remain after the value that `common.BytesUint64` decodes -/
  uint64Rest : Bytes → Bytes
  /-- The decoder `common.BytesSlice`: the slice and the remaining bytes -/
  bytesSlice : Bytes → Bytes × Bytes
  /-- The codec `ED25519Sig.Marshal` of the package `proto` -/
  sigMarshal : ED25519Sig → Bytes
  /-- The decoder `ED25519Sig.Unmarshal` of the package `proto`: the signature and the remaining bytes -/
  sigUnmarshal : Bytes → ED25519Sig × Bytes
  /-- The check `ED25519Sig.Verify` of the package `proto`, of a signature against a digest -/
  sigVerify : ED25519Sig → Bytes → Bool
  /-- The hash `types.GetChainIdFromChainPath` of the text of a URL -/
  chainIdFromChainPath : String → Bytes
  /-- Go `(*net/url.URL).Port`, of the host: the port without the colon, or the empty string -/
  hostPort : String → String
  /-- Go `net.ParseIP`: the sixteen bytes of the address, or nil -/
  parseIP : String → Option Bytes
  /-- The text of a `net.IP` under the verb `%v` -/
  ipText : Bytes → String
  /-- The run-time panic of `common.BytesSlice` on the input, if it panics, as `recover` shows it -/
  bytesSlicePanic : Bytes → Option String
  /-- The text of the run-time panic for the slice bound against the length -/
  slicePanicText : Nat → Nat → String
  /-- The array that `types.Bytes32.FromBytes` leaves in a zero-valued `Bytes32` on the input -/
  bytes32FromBytes : Bytes → Bytes

/-! ### `internal/url` -/

/-- The error `url.ErrMissingHost`. -/
def ErrMissingHost : Error := errorf "missing host"

/-- The error `url.ErrWrongScheme`. -/
def ErrWrongScheme : Error := errorf "wrong scheme"

/-- Go `url.Parse`: the scheme may be omitted, and must otherwise be `acc`; the
host must be non-empty and must not start with a colon. -/
def URL.Parse (env : Env) (s : String) : Except Error URL :=
  let first : Except Error NetURL :=
    match env.netUrlParse s with
    | Except.ok u => if u.Scheme = "" then env.netUrlParse ("acc://" ++ s) else Except.ok u
    | Except.error e => Except.error e
  match first with
  | Except.error e => Except.error e
  | Except.ok u =>
    if u.Scheme ≠ "acc" then Except.error ErrWrongScheme
    else if u.Host = "" ∨ u.Host.data.head? = some ':' then Except.error ErrMissingHost
    else
      Except.ok
        { UserInfo :=
            match u.User with
            | none => ""
            | some (name, pw) => if pw ≠ "" then name ++ ":" ++ pw else name
          Authority := u.Host
          Path := u.Path
          Query := u.RawQuery
          Fragment := u.Fragment }

/-- Go `splitColon`: split at the first colon. -/
def splitColon (s : String) : String × String :=
  match s.data.span (fun c => c != ':') with
  | (_, []) => (s, "")
  | (a, _ :: b) => (String.mk a, String.mk b)

/-- Go `URL.URL()`: the `net/url.URL` with scheme `acc`. -/
def URL.toNetURL (u : URL) : NetURL :=
  { Scheme := "acc"
    Host := u.Authority
    Path := u.Path
    RawQuery := u.Query
    Fragment := u.Fragment
    User := if u.UserInfo ≠ "" then some (splitColon u.UserInfo) else none }

/-- Go `URL.String()`. -/
def URL.toText (env : Env) (u : URL) : String := env.netUrlString u.toNetURL

/-- Go `URL.Hostname()`. -/
def URL.Hostname (u : URL) : String := (splitColon u.Authority).1

/-- Go `chain`: the SHA-256 of the lower-cased string. -/
def chain (env : Env) (s : String) : Bytes := env.sha256 (env.stringBytes (env.toLower s))

/-- Go `ensurePath`. -/
def ensurePath (s : String) : String :=
  if s = "" ∨ s.data.head? = some '/' then s else "/" ++ s

/-- Go `URL.Identity()`: a copy with an empty path. -/
def URL.Identity (u : URL) : URL := { u with Path := "" }

/-- Go `URL.IdentityChain()`. -/
def URL.IdentityChain (env : Env) (u : URL) : Bytes := chain env u.Hostname

/-- Go `URL.ResourceChain()`. -/
def URL.ResourceChain (env : Env) (u : URL) : Bytes :=
  chain env (u.Hostname ++ ensurePath u.Path)

/-- Modelled from the spec: `ChainHeader.ParseUrl` (and `AnonTokenAccount.ParseUrl`),
which parses the chain URL of the header. -/
def ChainHeader.ParseUrl (env : Env) (h : ChainHeader) : Except Error URL :=
  URL.Parse env h.ChainUrl

/-! ### The database transaction -/

/-- Modelled from the spec: `getPersistentEntry(id, allowDirty=false)` returns
the last-committed object, independent of uncommitted writes in this DBTx. -/
def DBTransaction.GetPersistentEntry (db : DBTransaction) (id : Bytes) : Except Error Object :=
  db.committed id

/-- Modelled from the spec: `getCurrentEntry(id)` returns the latest object
visible within this DBTx (reads-your-writes). -/
def DBTransaction.GetCurrentEntry (db : DBTransaction) (id : Bytes) : Except Error Object :=
  match db.stateEntries.reverse.find? (fun e => e.chainId == id) with
  | some e => Except.ok e.object
  | none => db.committed id

/-- Modelled from the spec: `addStateEntry(chainID, txHash, obj)` queues the
state update. -/
def DBTransaction.AddStateEntry (db : DBTransaction) (chainId txHash : Bytes) (obj : Object) :
    DBTransaction :=
  { db with stateEntries := db.stateEntries ++ [{ chainId := chainId, txHash := txHash, object := obj }] }

/-- Modelled from the spec: `addTransaction(chainID, txHash, pendingObj, acceptedObj?)`
records the pending envelope and, if accepted, the body; it fails when the
database layer says so. -/
def DBTransaction.AddTransaction (env : Env) (db : DBTransaction) (chainId txId : Bytes)
    (pending : Object) (accepted : Option Object) : Except Error DBTransaction :=
  match env.addTransactionError chainId txId pending accepted with
  | some e => Except.error e
  | none =>
    Except.ok { db with transactions := db.transactions ++
      [{ chainId := chainId, txId := txId, pending := pending, accepted := accepted }] }

/-- Modelled from the spec: `addSynthTx(parentHash, synthHash, obj)` persists
the unsigned synthetic envelope and links it to its parent. -/
def DBTransaction.AddSynthTx (db : DBTransaction) (parentTxId synthTxId : Bytes) (obj : Object) :
    DBTransaction :=
  { db with synthTxs := db.synthTxs ++
      [{ parentTxId := parentTxId, synthTxId := synthTxId, object := obj }] }

/-- Modelled from the spec: `DBTransaction.Write(key, value)`, a batched write. -/
def DBTransaction.Write (db : DBTransaction) (k v : Bytes) : DBTransaction :=
  { db with writes := db.writes ++ [(k, v)] }

/-- Modelled from the spec: `DBTransaction.Read(key)`, the last value written
to the key in this DBTx, or else the committed one. -/
def DBTransaction.Read (db : DBTransaction) (k : Bytes) : Except Error Bytes :=
  match db.writes.reverse.find? (fun w => w.1 == k) with
  | some w => Except.ok w.2
  | none => db.committedKV k

/-- Modelled from the spec: `getTx(H)`, the read complement of `addTransaction`:
the accepted body most recently recorded for the hash. -/
def DBTransaction.GetTx (db : DBTransaction) (txId : Bytes) : Option Object :=
  (db.transactions.reverse.filterMap
    (fun r => if r.txId = txId then r.accepted else none)).head?

/-- Modelled from the spec: `getPendingTx(H)`, the read complement of
`addTransaction`: the pending envelope most recently recorded for the hash. -/
def DBTransaction.GetPendingTx (db : DBTransaction) (txId : Bytes) : Option Object :=
  (db.transactions.reverse.filterMap
    (fun r => if r.txId = txId then some r.pending else none)).head?

/-- Modelled from the spec: `getSyntheticTxIds(parentHash)`, the read
complement of `addSynthTx`: the hashes of the synthetic transactions linked to
the parent, oldest first. -/
def DBTransaction.GetSyntheticTxIds (db : DBTransaction) (parentTxId : Bytes) : List Bytes :=
  (db.synthTxs.filter (fun r => r.parentTxId = parentTxId)).map (fun r => r.synthTxId)

/-- Modelled from the spec: `DBTx.getIndex(bucket, chain, key)`, the entry of a
secondary index: the value under the storage key `ComputeKey(bucket, chain,
key)`, the key under which `commit` flushes the buffered index writes. -/
def DBTransaction.GetIndex (env : Env) (db : DBTransaction) (index : String) (chainId : Bytes)
    (key : KeyPart) : Except Error Bytes :=
  db.Read (env.computeKey [KeyPart.str index, KeyPart.bytes chainId, key])

/-- Modelled from the spec: `StateDB.GetIndex(bucket, chain, key)`, the
committed entry of a secondary index. -/
def StateDB.GetIndex (env : Env) (db : StateDB) (index : String) (chainId : Bytes)
    (key : KeyPart) : Except Error Bytes :=
  db.kv (env.computeKey [KeyPart.str index, KeyPart.bytes chainId, key])

/-- Modelled from the spec: the state database after `DBTx.commit(height)`
succeeded: all writes of the DBTx have landed.  Each read returns what the
DBTx added last for its argument (the read complements of `addStateEntry`,
`addTransaction`, `addSynthTx` and of the raw writes), and what it returned
before where the DBTx added nothing. -/
def StateDB.commit (env : Env) (db : StateDB) (tx : DBTransaction) : StateDB where
  entries := fun id =>
    match tx.stateEntries.reverse.find? (fun e => e.chainId == id) with
    | some e => Except.ok e.object
    | none => db.entries id
  txEntries := fun id =>
    match tx.GetTx id with
    | some obj => Except.ok obj
    | none => db.txEntries id
  txs := fun id =>
    match tx.GetTx id with
    | some obj => Except.ok obj.Entry
    | none => db.txs id
  pendingTxs := fun id =>
    match tx.GetPendingTx id with
    | some obj => Except.ok obj.Entry
    | none => db.pendingTxs id
  synthTxIds := fun id =>
    match tx.GetSyntheticTxIds id with
    | [] => db.synthTxIds id
    | ids =>
      match db.synthTxIds id with
      | Except.ok old => Except.ok (old ++ ids.flatten)
      | Except.error _ => Except.ok ids.flatten
  txRange := env.txRangeCommit db.txRange tx
  kv := fun k =>
    match tx.writes.reverse.find? (fun w => w.1 == k) with
    | some w => Except.ok w.2
    | none => db.kv k

/-! ### `internal/chain/state.go` -/

/-- Go `storeState`: a staged record with its intent and insertion sequence. -/
structure storeState where
  isCreate : Bool
  order : Nat
  chainId : Bytes
  record : Record
deriving DecidableEq, Repr

/-- Go `submittedTx`: a planned synthetic transaction. -/
structure submittedTx where
  url : URL
  body : Body
deriving DecidableEq, Repr

/-- Go `StateManager`.  The maps `stores`, `chains` and `writes` are association
lists (keyed by `chainId`, by chain ID and by storage key); the pointer `dbTx`
is not a field: the functions that use it take and return the `DBTransaction`. -/
structure StateManager where
  stores : List storeState
  chains : List (Bytes × Record)
  writes : List (Bytes × Bytes)
  submissions : List submittedTx
  storeCount : Nat
  txHash : Bytes
  txType : TxType
  Sponsor : Option Record
  SponsorUrl : Option URL
  SponsorChainId : Bytes
deriving DecidableEq, Repr

/-- Go `unmarshalRecord`: decode the header, pick the Go type from the header
type, decode the record as that type. -/
def unmarshalRecord (env : Env) (obj : Object) : Except Error Record :=
  match env.unmarshalHeader obj.Entry with
  | Except.error e => Except.error e
  | Except.ok header =>
    let kind : Except Error RecordKind :=
      match header.type with
      | ChainType.Identity => Except.ok RecordKind.AdiState
      | ChainType.TokenAccount => Except.ok RecordKind.TokenAccount
      | ChainType.LiteTokenAccount => Except.ok RecordKind.AnonTokenAccount
      | ChainType.TransactionReference => Except.ok RecordKind.TxReference
      | ChainType.Transaction => Except.ok RecordKind.Transaction
      | ChainType.PendingTransaction => Except.ok RecordKind.PendingTransaction
      | ChainType.KeyPage => Except.ok RecordKind.SigSpec
      | ChainType.KeyBook => Except.ok RecordKind.SigSpecGroup
      | ChainType.unknown _ =>
        Except.error (errorf ("unrecognized chain type " ++ env.chainTypeName header.type))
    match kind with
    | Except.error e => Except.error e
    | Except.ok k =>
      match env.unmarshalAs k obj.Entry with
      | Except.error e => Except.error e
      | Except.ok d => Except.ok { kind := k, data := d }

/-- The lookup `m.chains[chainId]`. -/
def lookupChain (chains : List (Bytes × Record)) (chainId : Bytes) : Option Record :=
  (chains.find? (fun p => p.1 == chainId)).map (fun p => p.2)

/-- The assignment `m.chains[chainId] = record`. -/
def setChain (chains : List (Bytes × Record)) (chainId : Bytes) (record : Record) :
    List (Bytes × Record) :=
  (chainId, record) :: chains.filter (fun p => p.1 != chainId)

/-- Go `StateManager.Load`: the cached record, or else the current entry of the
DBTx, decoded and cached. -/
def StateManager.Load (env : Env) (m : StateManager) (db : DBTransaction) (chainId : Bytes) :
    Except Error Record × StateManager :=
  match lookupChain m.chains chainId with
  | some record => (Except.ok record, m)
  | none =>
    match db.GetCurrentEntry chainId with
    | Except.error e => (Except.error e, m)
    | Except.ok obj =>
      match unmarshalRecord env obj with
      | Except.error e => (Except.error e, m)
      | Except.ok record => (Except.ok record, { m with chains := setChain m.chains chainId record })

/-- Go `StateManager.LoadAs`: load, then require the Go type of the target
(`want` is the type the caller's pointer `v` points to). -/
def StateManager.LoadAs (env : Env) (m : StateManager) (db : DBTransaction) (chainId : Bytes)
    (want : RecordKind) : Except Error Record × StateManager :=
  match m.Load env db chainId with
  | (Except.error e, m1) => (Except.error e, m1)
  | (Except.ok record, m1) =>
    if record.kind ≠ want then
      (Except.error (errorf ("want " ++ env.kindName want ++ ", got " ++ env.kindName record.kind)), m1)
    else (Except.ok record, m1)

/-- Go `NewStateManager`: the genesis transaction gets the ACME sponsor; for any
other the sponsor URL is parsed and the sponsor loaded.  When the sponsor is
not found the state manager is returned along with a not-found error, whose
message quotes the sponsor URL (the verb `%q`; the escapes it adds inside the
quotes are not modelled). -/
def NewStateManager (env : Env) (db : DBTransaction) (tx : GenTransaction) :
    Option StateManager × Option Error :=
  let m : StateManager :=
    { stores := [], chains := [], writes := [], submissions := [], storeCount := 0
      txHash := toBytes32 (env.transactionHash tx)
      txType := env.transactionType tx.Transaction
      Sponsor := none, SponsorUrl := none, SponsorChainId := zeroBytes32 }
  if env.transactionType tx.Transaction = TxType.SyntheticGenesis then
    (some { m with SponsorUrl := some env.acmeUrl, Sponsor := some env.genesisACME }, none)
  else
    match tx.SigInfo with
    | none => (none, some (goPanic "nil pointer dereference"))
    | some sigInfo =>
      match URL.Parse env sigInfo.URL with
      | Except.error e => (none, some e)
      | Except.ok u =>
        let m1 := { m with SponsorUrl := some u, SponsorChainId := toBytes32 (u.ResourceChain env) }
        match m1.Load env db m1.SponsorChainId with
        | (Except.ok record, m2) => (some { m2 with Sponsor := some record }, none)
        | (Except.error err, m2) =>
          if err.isNotFound then
            (some m2, some { msg := "sponsor \"" ++ u.toText env ++ "\" " ++ err.msg,
                             kind := ErrKind.notFound })
          else (none, some err)

/-- The assignment to `m.stores[chainId]`: the entry of that chain ID is
replaced where it stands, a new one is added. -/
def setStore (stores : List storeState) (s : storeState) : List storeState :=
  if stores.any (fun t => t.chainId == s.chainId) then
    stores.map (fun t => if t.chainId == s.chainId then s else t)
  else stores ++ [s]

/-- Go `StateManager.store`: cache the record and stage it with the next
sequence number; panics when the chain URL of the record does not parse. -/
def StateManager.store (env : Env) (m : StateManager) (record : Record) (isCreate : Bool) :
    Except Error StateManager :=
  match record.Header.ParseUrl env with
  | Except.error e => Except.error (goPanic ("attempted to add an invalid chain: " ++ e.msg))
  | Except.ok u =>
    let chainId := toBytes32 (u.ResourceChain env)
    Except.ok
      { m with
        chains := setChain m.chains chainId record
        stores := setStore m.stores
          { isCreate := isCreate, order := m.storeCount, chainId := chainId, record := record }
        storeCount := m.storeCount + 1 }

/-- Go `StateManager.Update`. -/
def StateManager.Update (env : Env) (m : StateManager) : List Record → Except Error StateManager
  | [] => Except.ok m
  | r :: rest =>
    match m.store env r false with
    | Except.error e => Except.error e
    | Except.ok m1 => StateManager.Update env m1 rest

/-- The loop of `Create` over the records. -/
def createLoop (env : Env) (m : StateManager) : List Record → Except Error StateManager
  | [] => Except.ok m
  | r :: rest =>
    if r.Header.type.IsTransaction then
      Except.error (goPanic "Called StateManager.Create with a transaction record!")
    else
      match m.store env r true with
      | Except.error e => Except.error e
      | Except.ok m1 => createLoop env m1 rest

/-- Go `StateManager.Create`: panics in a synthetic transaction and on a
transaction record, and otherwise stages the records with create intent. -/
def StateManager.Create (env : Env) (m : StateManager) (records : List Record) :
    Except Error StateManager :=
  if m.txType.IsSynthetic then
    Except.error (goPanic "Called StateManager.Create from a synthetic transaction!")
  else createLoop env m records

/-- Go `StateManager.Submit`: panics in a synthetic transaction, and otherwise
appends to the submission queue. -/
def StateManager.Submit (m : StateManager) (url : URL) (body : Body) : Except Error StateManager :=
  if m.txType.IsSynthetic then
    Except.error (goPanic "Called StateManager.Submit from a synthetic transaction!")
  else Except.ok { m with submissions := m.submissions ++ [{ url := url, body := body }] }

/-- The effect of `scc.Chains = append(scc.Chains, ...)` on the submission that
holds the pointer `scc`. -/
def addChain (data : Bytes) (s : submittedTx) : submittedTx :=
  match s.body with
  | Body.createChain scc =>
    { s with body := Body.createChain { scc with Chains := scc.Chains ++ [{ Data := data }] } }
  | Body.other _ => s

/-- The effect of `scc.Chains = append(scc.Chains, ...)` through the pointer
`scc` held by the submission at position `i` of the queue. -/
def appendChain : List submittedTx → Nat → Bytes → List submittedTx
  | [], _, _ => []
  | s :: rest, 0, data => addChain data s :: rest
  | s :: rest, i + 1, data => s :: appendChain rest i data

/-- The lookup `create[idStr]` in the map of `commit`; the value is the position
in the submission queue of the submission that holds the pointer. -/
def lookupCreate (create : List (String × Nat)) (idStr : String) : Option Nat :=
  (create.find? (fun p => p.1 == idStr)).map (fun p => p.2)

/-- The state of the loop of `commit`: the state manager (its submission queue
grows), the local map `create`, and the DBTx. -/
structure CommitState where
  m : StateManager
  create : List (String × Nat)
  db : DBTransaction

/-- The `store.isCreate` case of the loop of `commit`. -/
def commitCreate (env : Env) (s : CommitState) (store : storeState) (data : Bytes) :
    Except Error CommitState :=
  match store.record.Header.ParseUrl env with
  | Except.error e => Except.error (errorf ("record has invalid URL: " ++ e.msg))
  | Except.ok u =>
    let id := u.Identity
    let idStr := env.toLower (id.toText env)
    match lookupCreate s.create idStr with
    | some i => Except.ok { s with m := { s.m with submissions := appendChain s.m.submissions i data } }
    | none =>
      match s.m.Submit id (Body.createChain { Cause := s.m.txHash, Chains := [] }) with
      | Except.error e => Except.error e
      | Except.ok m1 =>
        let i := s.m.submissions.length
        Except.ok
          { s with
            m := { m1 with submissions := appendChain m1.submissions i data }
            create := (idStr, i) :: s.create }

/-- The default (update) case of the loop of `commit`. -/
def commitUpdate (s : CommitState) (store : storeState) (data : Bytes) : Except Error CommitState :=
  let write : Except Error CommitState :=
    Except.ok { s with db := s.db.AddStateEntry store.chainId s.m.txHash { Entry := data } }
  match s.db.GetPersistentEntry store.chainId with
  | Except.ok _ => write
  | Except.error err =>
    if !err.isNotFound then
      Except.error (errorf ("failed to check for an existing record: " ++ err.msg))
    else if store.record.Header.type.IsTransaction then write
    else if s.m.txType.IsSynthetic then write
    else Except.error (errorf "cannot create a data record in a non-synthetic transaction")

/-- The body of the loop of `commit` for one staged record. -/
def commitStore (env : Env) (s : CommitState) (store : storeState) : Except Error CommitState :=
  match env.marshalRecord store.record with
  | Except.error e => Except.error (errorf ("failed to marshal record: " ++ e.msg))
  | Except.ok data =>
    if store.isCreate then commitCreate env s store data else commitUpdate s store data

/-- The loop of `commit` over the ordered stores: it stops at the first failure
and keeps what was written before it. -/
def commitLoop (env : Env) : List storeState → CommitState → Option Error × CommitState
  | [], s => (none, s)
  | store :: rest, s =>
    match commitStore env s store with
    | Except.error e => (some e, s)
    | Except.ok s1 => commitLoop env rest s1

/-- The ordered list of state stores built by `commit` with `sort.Slice`. -/
def sortedStores (m : StateManager) : List storeState :=
  m.stores.insertionSort (fun a b => a.order ≤ b.order)

/-- The flush of the buffered index writes at the start of `commit`. -/
def flushWrites (db : DBTransaction) (writes : List (Bytes × Bytes)) : DBTransaction :=
  writes.foldl (fun d w => d.Write w.1 w.2) db

/-- The key under which `commit` groups the records of a submission: the
lower-cased text of the URL it is addressed to. -/
def submissionKey (env : Env) (sub : submittedTx) : String := env.toLower (sub.url.toText env)

/-- What the create case of the loop of `commit` reads off a create-staged
record: the lower-cased text of its identity URL, the identity URL, and the
marshalled record; `none` when the record does not marshal or its URL does not
parse. -/
def createItem (env : Env) (store : storeState) : Option (String × URL × Bytes) :=
  match env.marshalRecord store.record, store.record.Header.ParseUrl env with
  | Except.ok data, Except.ok u => some (env.toLower (u.Identity.toText env), u.Identity, data)
  | _, _ => none

/-- The create-staged records of a list of stores, as the loop reads them, in
the order of the list. -/
def createItems (env : Env) (stores : List storeState) : List (String × URL × Bytes) :=
  (stores.filter (fun s => s.isCreate)).filterMap (createItem env)

/-- The chain list of the identity `idStr`: the marshalled records of that
identity, in the order of the list. -/
def chainsOf (items : List (String × URL × Bytes)) (idStr : String) : List ChainParams :=
  (items.filter (fun item => item.1 == idStr)).map (fun item => { Data := item.2.2 })

/-- The state entry `commit` writes for an update-staged record. -/
def updateEntry (env : Env) (txHash : Bytes) (store : storeState) : Option StateEntry :=
  match env.marshalRecord store.record with
  | Except.ok data => some { chainId := store.chainId, txHash := txHash, object := { Entry := data } }
  | Except.error _ => none

/-- The state entries of the update-staged records of a list of stores, in the
order of the list. -/
def updateEntries (env : Env) (txHash : Bytes) (stores : List storeState) : List StateEntry :=
  (stores.filter (fun s => !s.isCreate)).filterMap (updateEntry env txHash)

/-- The invariant of the loop of `commit` on the submission queue: `subs0` is
the queue before the loop, `items` the create-staged records flushed so far.
The queue is `subs0` followed by the submissions `fresh` of the loop; the map
`create` holds exactly the positions of these submissions under their keys;
every one has the chain list of its key and is addressed to the identity of a
flushed record; every flushed record has its submission. -/
def CreateInv (env : Env) (txHash : Bytes) (subs0 : List submittedTx)
    (items : List (String × URL × Bytes)) (s : CommitState) : Prop :=
  ∃ fresh : List submittedTx,
    s.m.submissions = subs0 ++ fresh ∧
    (∀ k i, lookupCreate s.create k = some i ↔
      ∃ j : Nat, i = subs0.length + j ∧ (fresh[j]?).map (submissionKey env) = some k) ∧
    (∀ (j : Nat) (sub : submittedTx), fresh[j]? = some sub →
      sub.body = Body.createChain { Cause := txHash, Chains := chainsOf items (submissionKey env sub) } ∧
      ∃ item ∈ items, item.1 = submissionKey env sub ∧ sub.url = item.2.1) ∧
    (∀ item ∈ items, ∃ j : Nat, (fresh[j]?).map (submissionKey env) = some item.1)

/-- The state in which the loop of `commit` starts: the index writes flushed,
the map `create` empty. -/
def commitStart (m : StateManager) (db : DBTransaction) : CommitState :=
  { m := m, create := [], db := flushWrites db m.writes }

/-- What `commit` hands back when its loop ends: the error if any, and the state
manager and the DBTx as the loop left them. -/
def commitResult (r : Option Error × CommitState) : Option Error × StateManager × DBTransaction :=
  (r.1, r.2.m, r.2.db)

/-- Go `StateManager.commit`: flush the index writes, then push the staged
records in insertion order. -/
def StateManager.commit (env : Env) (m : StateManager) (db : DBTransaction) :
    Option Error × StateManager × DBTransaction :=
  commitResult (commitLoop env (sortedStores m) (commitStart m db))

/-! ### `internal/chain/executor.go` -/

/-- Go `TxExecutor`: an executor advertises its type and validates a
transaction against the state manager.  `Validate` may read the DBTx through
the state manager and stage records, index writes and submissions on it. -/
structure TxExecutor where
  type : TxType
  Validate : StateManager → DBTransaction → GenTransaction → Except Error StateManager

/-- Go `Executor`, from the first `BeginBlock` on (before it `dbTx` is nil).
The registry `executors` is an association list keyed by `TxExecutor.type`;
the wait groups, the mutex and the relay `query` are not part of the state. -/
structure Executor where
  db : StateDB
  executors : List TxExecutor
  key : Bytes
  leader : Bool
  height : Int
  dbTx : DBTransaction

/-- The lookup `m.executors[txt]`. -/
def lookupExecutor (executors : List TxExecutor) (txt : TxType) : Option TxExecutor :=
  executors.find? (fun x => x.type == txt)

/-- The removal `delete(m.executors, txt)`. -/
def deleteExecutor (executors : List TxExecutor) (txt : TxType) : List TxExecutor :=
  executors.filter (fun x => x.type != txt)

/-- Go `binary.BigEndian.Uint64` of the first eight bytes. -/
def bigEndianUint64 (b : Bytes) : Nat := (b.take 8).foldl (fun a x => a * 256 + x) 0

/-- Go `URL.Routing()`. -/
def URL.Routing (env : Env) (u : URL) : Nat := bigEndianUint64 (u.IdentityChain env)

/-- The conversion `uint64(h)` of an `int64`. -/
def uint64OfInt (h : Int) : Nat := (h % 18446744073709551616).toNat

/-- Modelled from the spec: `GenTransaction.SetRoutingChainID`, which recomputes
the routing and the chain ID from `SigInfo.URL`. -/
def GenTransaction.SetRoutingChainID (env : Env) (tx : GenTransaction) : Except Error GenTransaction :=
  match tx.SigInfo with
  | none => Except.error (goPanic "nil pointer dereference")
  | some sigInfo =>
    match URL.Parse env sigInfo.URL with
    | Except.error e => Except.error e
    | Except.ok u => Except.ok { tx with Routing := u.Routing env, ChainID := u.ResourceChain env }

/-- Modelled from the spec: `state.NewPendingTransaction`, the pending record of
an envelope: the full envelope, with no status yet. -/
def NewPendingTransaction (env : Env) (tx : GenTransaction) : PendingTransaction :=
  { ChainUrl := match tx.SigInfo with
      | some sigInfo => sigInfo.URL
      | none => ""
    Signature := tx.Signature
    SigInfo := tx.SigInfo
    Transaction := tx.Transaction
    TransactionHash := env.transactionHash tx
    Status := "" }

/-- Modelled from the spec: `state.NewTransaction`, which splits the envelope
in two: the body goes to the accepted transaction, the validation material
stays in the pending one. -/
def NewTransaction (p : PendingTransaction) : Transaction × PendingTransaction :=
  ({ ChainUrl := p.ChainUrl, SigInfo := p.SigInfo, Transaction := p.Transaction
     TransactionHash := p.TransactionHash },
   { p with Transaction := none })

/-- The status JSON `{"code":"0"}` of an accepted transaction. -/
def statusAccepted : String := "\x7b\"code\":\"0\"\x7d"

/-- The status JSON `{"code":"1", "error":"<msg>"}` of a rejected transaction. -/
def statusRejected (msg : String) : String :=
  "\x7b\"code\":\"1\", \"error\":\"" ++ msg ++ "\"\x7d"

/-- The loop over the signatures in `check`: each key must be on the page with a
stored nonce below the nonce of the signature. -/
def checkSignatures (env : Env) (sigSpec : Record) : List ED25519Sig → Nat → Option Error
  | [], _ => none
  | sig :: rest, i =>
    match env.findKey sigSpec sig.PublicKey with
    | none => some (errorf ("no key spec matches signature " ++ toString i))
    | some ks =>
      if ks.Nonce ≥ sig.Nonce then some (errorf "invalid nonce")
      else checkSignatures env sigSpec rest (i + 1)

/-- The last part of `check` (from the test of `PriorityIdx` on), once the key
book `sigGroup` is known. -/
def checkKeyBook (env : Env) (st : StateManager) (db : DBTransaction) (tx : GenTransaction)
    (sigGroup : Record) : Except Error StateManager :=
  match tx.SigInfo with
  | none => Except.error (goPanic "nil pointer dereference")
  | some sigInfo =>
    if sigInfo.PriorityIdx ≥ sigGroup.data.SigSpecs.length then
      Except.error (errorf "invalid sig spec index")
    else
      match st.LoadAs env db (sigGroup.data.SigSpecs.getD sigInfo.PriorityIdx []) RecordKind.SigSpec with
      | (Except.error e, _) => Except.error (errorf ("invalid sig spec: " ++ e.msg))
      | (Except.ok sigSpec, st1) =>
        match checkSignatures env sigSpec tx.Signature 0 with
        | some e => Except.error e
        | none => Except.ok st1

/-- The loop over the signatures in `checkAnonymous`. -/
def checkAnonymousSignatures (env : Env) (urlKH : Bytes) (nonce : Nat) :
    List ED25519Sig → Nat → Option Error
  | [], _ => none
  | sig :: rest, i =>
    if urlKH ≠ (env.sha256 sig.PublicKey).take 20 then
      some (errorf ("signature " ++ toString i ++ "'s public key does not match the sponsor"))
    else if nonce ≥ sig.Nonce then some (errorf "invalid nonce")
    else checkAnonymousSignatures env urlKH nonce rest (i + 1)

/-- Go `Executor.checkAnonymous`; `none` is the nil error. -/
def checkAnonymous (env : Env) (tx : GenTransaction) (account : Record) : Option Error :=
  match account.Header.ParseUrl env with
  | Except.error e => some (errorf ("invalid sponsor URL: " ++ e.msg))
  | Except.ok u =>
    match env.parseAnonymousAddress u with
    | Except.error e => some (errorf ("invalid anonymous token URL: " ++ e.msg))
    | Except.ok (urlKH, _) => checkAnonymousSignatures env urlKH account.data.Nonce tx.Signature 0

/-- Go `Executor.checkSynthetic`: a placeholder that accepts. -/
def checkSynthetic (_st : StateManager) (_tx : GenTransaction) : Option Error := none

/-- The type switch of `check` on the sponsor, for a transaction that is
neither the genesis one nor synthetic. -/
def checkSponsor (env : Env) (st : StateManager) (db : DBTransaction) (tx : GenTransaction) :
    Except Error StateManager :=
  match st.Sponsor with
  | none => Except.error (goPanic "nil pointer dereference")
  | some sponsor =>
    match sponsor.kind with
    | RecordKind.AnonTokenAccount =>
      match checkAnonymous env tx sponsor with
      | some e => Except.error e
      | none => Except.ok st
    | RecordKind.AdiState | RecordKind.TokenAccount | RecordKind.SigSpec =>
      if sponsor.Header.SigSpecId = zeroBytes32 then
        Except.error (errorf "sponsor has not been assigned to an SSG")
      else
        match st.LoadAs env db sponsor.Header.SigSpecId RecordKind.SigSpecGroup with
        | (Except.error e, _) => Except.error (errorf ("invalid SigSpecId: " ++ e.msg))
        | (Except.ok sigGroup, st1) => checkKeyBook env st1 db tx sigGroup
    | RecordKind.SigSpecGroup => checkKeyBook env st db tx sponsor
    | _ =>
      Except.error (errorf ("invalid sponsor: chain type " ++
        env.chainTypeName sponsor.Header.type ++ " cannot sponsor transactions"))

/-- Go `Executor.check`. -/
def Executor.check (env : Env) (ex : Executor) (tx : GenTransaction) : Except Error StateManager :=
  if env.transactionType tx.Transaction = TxType.SyntheticGenesis then
    match NewStateManager env ex.dbTx tx with
    | (_, some e) => Except.error e
    | (some st, none) => Except.ok st
    | (none, none) => Except.error (goPanic "nil pointer dereference")
  else if tx.Signature.length = 0 then Except.error (errorf "transaction is not signed")
  else if !env.validateSig tx then Except.error (errorf "invalid signature")
  else
    let txt := env.transactionType tx.Transaction
    let r := NewStateManager env ex.dbTx tx
    let tolerated : Option Error :=
      match r.2 with
      | none => none
      | some err =>
        if err.isNotFound then
          match txt with
          | TxType.SyntheticCreateChain => none
          | TxType.SyntheticDepositTokens => none
          | _ => some (errorf ("sponsor not found: " ++ err.msg))
        else some err
    match tolerated with
    | some e => Except.error e
    | none =>
      match r.1 with
      | none => Except.error (goPanic "nil pointer dereference")
      | some st =>
        if txt.IsSynthetic then
          match checkSynthetic st tx with
          | some e => Except.error e
          | none => Except.ok st
        else checkSponsor env st ex.dbTx tx

/-- Go `Executor.CheckTx`; `none` is the nil error.  Nothing is written. -/
def Executor.CheckTx (env : Env) (ex : Executor) (tx : GenTransaction) : Option Error :=
  match tx.SetRoutingChainID env with
  | Except.error e => some e
  | Except.ok tx1 =>
    match ex.check env tx1 with
    | Except.error e => some e
    | Except.ok st =>
      match lookupExecutor ex.executors (env.transactionType tx1.Transaction) with
      | none =>
        some (errorf ("unsupported TX type: " ++ env.txTypeText (env.transactionType tx1.Transaction)))
      | some executor =>
        match executor.Validate st ex.dbTx tx1 with
        | Except.error e => some e
        | Except.ok _ => none

/-- Go `Executor.recordTransactionError`: set the status of the pending
transaction to code "1" with the error, record it with no accepted body, and
return the error (or the error of the recording). -/
def Executor.recordTransactionError (env : Env) (ex : Executor) (txPending : PendingTransaction)
    (chainId txid : Bytes) (err : Error) : Error × Executor :=
  let txPending1 := { txPending with Status := statusRejected err.msg }
  match env.marshalPending txPending1 with
  | Except.error err1 =>
    (errorf ("failed marshaling pending tx (" ++ err1.msg ++ ") on error: " ++ err.msg), ex)
  | Except.ok e =>
    match ex.dbTx.AddTransaction env chainId txid { Entry := e } none with
    | Except.error err1 =>
      (errorf ("error adding pending tx (" ++ err1.msg ++ ") on error " ++ err.msg), ex)
    | Except.ok db => (err, { ex with dbTx := db })

/-- Go `Executor.nextSynthCount`: read the counter, store its successor, return
the value read. -/
def nextSynthCount (env : Env) (db : DBTransaction) : Except Error Nat × DBTransaction :=
  let k := env.computeKey [KeyPart.str "SyntheticTransactionCount"]
  let bump : Bytes → Except Error Nat × DBTransaction := fun b =>
    let n := if b.length > 0 then env.bytesUint64 b else 0
    (Except.ok n, db.Write k (env.uint64Bytes ((n + 1) % 18446744073709551616)))
  match db.Read k with
  | Except.ok b => bump b
  | Except.error err => if !err.isNotFound then (Except.error err, db) else bump []

/-- The loop of `submitSyntheticTx` over the submission queue; `refs` collects
the references of the leader.  The slice `m.key[32:]` panics when the node key
has fewer than 32 bytes; the hash of the envelope is the one computed before the
signature is appended. -/
def submitLoop (env : Env) (leader : Bool) (height : Int) (key parentTxId : Bytes) :
    List submittedTx → DBTransaction → List TxSynthRef → Except Error (List TxSynthRef) × DBTransaction
  | [], db, refs => (Except.ok refs, db)
  | sub :: rest, db, refs =>
    match env.marshalBody sub.body with
    | Except.error e =>
      (Except.error (errorf ("failed to marshal synthetic transaction payload: " ++ e.msg)), db)
    | Except.ok body =>
      match nextSynthCount env db with
      | (Except.error e, db1) => (Except.error e, db1)
      | (Except.ok n, db1) =>
        let tx : GenTransaction :=
          { Signature := [], Routing := 0, ChainID := []
            SigInfo := some { URL := sub.url.toText env, MSHeight := uint64OfInt height
                              PriorityIdx := 0, Nonce := n }
            Transaction := some body }
        let hash := env.transactionHash tx
        match env.marshalPending (NewPendingTransaction env tx) with
        | Except.error e => (Except.error e, db1)
        | Except.ok synthTxData =>
          let db2 := db1.AddSynthTx parentTxId hash { Entry := synthTxData }
          if leader then
            if key.length < 32 then
              (Except.error (goPanic "slice bounds out of range"), db2)
            else
            match env.sign n key hash with
            | Except.error e =>
              (Except.error (errorf ("error signing sythetic transaction, " ++ e.msg)), db2)
            | Except.ok signature =>
              let tx1 := { tx with Signature := tx.Signature ++
                [{ Nonce := n, PublicKey := key.drop 32, Signature := signature }] }
              match env.broadcastTx tx1 with
              | Except.error e => (Except.error e, db2)
              | Except.ok referenceId =>
                submitLoop env leader height key parentTxId rest db2
                  (refs ++ [{ type := env.transactionType tx1.Transaction
                              Url := sub.url.toText env
                              Hash := toBytes32 hash
                              TxRef := toBytes32 referenceId }])
          else submitLoop env leader height key parentTxId rest db2 refs

/-- Go `Executor.submitSyntheticTx`. -/
def Executor.submitSyntheticTx (env : Env) (ex : Executor) (parentTxId : Bytes) (st : StateManager) :
    Except Error (List TxSynthRef) × Executor :=
  let r := submitLoop env ex.leader ex.height ex.key parentTxId st.submissions ex.dbTx []
  (r.1, { ex with dbTx := r.2 })

/-- The tail of `DeliverTx` once `Validate` has succeeded: record the accepted
body and the pending envelope, flush the state manager, produce the synthetic
transactions. -/
def Executor.deliverAccepted (env : Env) (ex : Executor) (tx : GenTransaction)
    (txPending : PendingTransaction) (chainId : Bytes) (st : StateManager) :
    Except Error TxResult × Executor :=
  let hash := env.transactionHash tx
  let record := fun (e : Executor) (p : PendingTransaction) (err : Error) =>
    let r := e.recordTransactionError env p chainId hash err
    ((Except.error r.1 : Except Error TxResult), r.2)
  let split := NewTransaction txPending
  match env.marshalTransaction split.1 with
  | Except.error err => record ex split.2 err
  | Except.ok acceptedEntry =>
    let txPending2 := { split.2 with Status := statusAccepted }
    match env.marshalPending txPending2 with
    | Except.error err => record ex txPending2 err
    | Except.ok pendingEntry =>
      match ex.dbTx.AddTransaction env chainId hash { Entry := pendingEntry }
          (some { Entry := acceptedEntry }) with
      | Except.error err => (Except.error err, ex)
      | Except.ok db1 =>
        match st.commit env db1 with
        | (some err, _, db2) =>
          if err.isPanic then (Except.error err, { ex with dbTx := db2 })
          else record { ex with dbTx := db2 } txPending2 err
        | (none, st2, db2) =>
          match Executor.submitSyntheticTx env { ex with dbTx := db2 } hash st2 with
          | (Except.error err, ex3) => (Except.error err, ex3)
          | (Except.ok refs, ex3) => (Except.ok { SyntheticTxs := refs }, ex3)

/-- Go `Executor.DeliverTx`.  The wait groups and the mutex order concurrent
deliveries and do not change what one delivery computes. -/
def Executor.DeliverTx (env : Env) (ex : Executor) (tx : GenTransaction) :
    Except Error TxResult × Executor :=
  if tx.Transaction = none ∨ tx.SigInfo = none ∨ tx.ChainID.length ≠ 32 then
    (Except.error (errorf "malformed transaction"), ex)
  else
    let txt := env.transactionType tx.Transaction
    let txPending := NewPendingTransaction env tx
    let chainId := toBytes32 tx.ChainID
    let hash := env.transactionHash tx
    let record := fun (err : Error) =>
      let r := ex.recordTransactionError env txPending chainId hash err
      ((Except.error r.1 : Except Error TxResult), r.2)
    match lookupExecutor ex.executors txt with
    | none => record (errorf ("unsupported TX type: " ++ env.txTypeName txt))
    | some executor =>
      match ex.check env tx with
      | Except.error err =>
        if err.isPanic then (Except.error err, ex)
        else record (errorf ("failed check: " ++ err.msg))
      | Except.ok st =>
        match executor.Validate st ex.dbTx tx with
        | Except.error err =>
          if err.isPanic then (Except.error err, ex)
          else record (errorf ("rejected by chain: " ++ err.msg))
        | Except.ok st1 =>
          let ex1 :=
            if executor.type = TxType.SyntheticGenesis then
              { ex with executors := deleteExecutor ex.executors TxType.SyntheticGenesis }
            else ex
          ex1.deliverAccepted env tx txPending chainId st1

/-- The request `abci.BeginBlockRequest` (the time is not used). -/
structure BeginBlockRequest where
  IsLeader : Bool
  Height : Int

/-- Go `Executor.BeginBlock`; `fresh` is the DBTx that `m.db.Begin()` returns. -/
def Executor.BeginBlock (ex : Executor) (req : BeginBlockRequest) (fresh : DBTransaction) : Executor :=
  { ex with leader := req.IsLeader, height := req.Height, dbTx := fresh }

/-- Go `Executor.EndBlock`: a no-op. -/
def Executor.EndBlock (ex : Executor) : Executor := ex

/-- Go `Executor.Commit`: commit the DBTx at the block height, which lands its
writes in the state database; a failure is a panic. -/
def Executor.Commit (env : Env) (ex : Executor) : Except Error Bytes × Executor :=
  match env.dbCommit ex.dbTx ex.height with
  | Except.error err =>
    (Except.error (goPanic ("fatal error, block not set, " ++ err.msg)), ex)
  | Except.ok (mdRoot, db) =>
    (Except.ok mdRoot, { ex with dbTx := db, db := ex.db.commit env ex.dbTx })

/-- A call of the consensus engine on the executor. -/
inductive Call where
  | BeginBlock (req : BeginBlockRequest) (fresh : DBTransaction)
  | CheckTx (tx : GenTransaction)
  | DeliverTx (tx : GenTransaction)
  | EndBlock
  | Commit

/-- The executor after one call. -/
def Executor.step (env : Env) (ex : Executor) : Call → Executor
  | Call.BeginBlock req fresh => ex.BeginBlock req fresh
  | Call.CheckTx _ => ex
  | Call.DeliverTx tx => (ex.DeliverTx env tx).2
  | Call.EndBlock => ex.EndBlock
  | Call.Commit => (ex.Commit env).2

/-- The executor after a sequence of calls. -/
def Executor.run (env : Env) (ex : Executor) (calls : List Call) : Executor :=
  calls.foldl (Executor.step env) ex

/-! ### Sequences of `Update` and `Create` calls -/

/-- One call `Create(r)` (when the flag is set) or `Update(r)` on the state
manager. -/
def StateManager.stage (env : Env) (m : StateManager) (c : Bool × Record) :
    Except Error StateManager :=
  if c.1 then m.Create env [c.2] else m.Update env [c.2]

/-- A sequence of `Update` and `Create` calls, in order; it stops at the first
panic. -/
def StateManager.stageAll (env : Env) (m : StateManager) :
    List (Bool × Record) → Except Error StateManager
  | [] => Except.ok m
  | c :: rest =>
    match m.stage env c with
    | Except.error e => Except.error e
    | Except.ok m1 => StateManager.stageAll env m1 rest

/-- The chain ID under which `store` stages a record: the resource chain of its
chain URL (empty when the URL does not parse, in which case `store` panics). -/
def chainIdOf (env : Env) (r : Record) : Bytes :=
  match r.Header.ParseUrl env with
  | Except.ok u => toBytes32 (u.ResourceChain env)
  | Except.error _ => []

/-- The staged records that a sequence of calls describes, in the order of the
calls: the first call gets the sequence number `count`, the next one
`count + 1`, and so on. -/
def stagedStores (env : Env) (count : Nat) : List (Bool × Record) → List storeState
  | [] => []
  | c :: rest =>
    { isCreate := c.1, order := count, chainId := chainIdOf env c.2, record := c.2 } ::
      stagedStores env (count + 1) rest


/-- The lookup `m.stores[chainId]`. -/
def lookupStore (stores : List storeState) (chainId : Bytes) : Option storeState :=
  stores.find? (fun t => t.chainId == chainId)

/-- Of a list of staged records, those that are the most recent for their chain
ID: a record is dropped when a later one has its chain ID. -/
def lastStaged : List storeState → List storeState
  | [] => []
  | s :: rest =>
    if rest.any (fun t => t.chainId == s.chainId) then lastStaged rest else s :: lastStaged rest

/-! ### The synthetic transaction engine, with its calls on the hooks -/

/-- The counter that `nextSynthCount` reads: the value stored under the key
`ComputeKey("SyntheticTransactionCount")` in the DBTx, an absent or empty value
counting as 0; `none` when the read fails otherwise. -/
def counterValue (env : Env) (db : DBTransaction) : Option Nat :=
  match db.Read (env.computeKey [KeyPart.str "SyntheticTransactionCount"]) with
  | Except.ok b => some (if b.length > 0 then env.bytesUint64 b else 0)
  | Except.error err => if err.isNotFound then some 0 else none

/-- The values that `k` successive calls of `nextSynthCount` return, first call
first, and the DBTx after them; the first failing call ends the sequence. -/
def nextSynthCounts (env : Env) : Nat → DBTransaction → Except Error (List Nat) × DBTransaction
  | 0, db => (Except.ok [], db)
  | k + 1, db =>
    match nextSynthCount env db with
    | (Except.error e, db1) => (Except.error e, db1)
    | (Except.ok n, db1) =>
      match nextSynthCounts env k db1 with
      | (Except.error e, db2) => (Except.error e, db2)
      | (Except.ok ns, db2) => (Except.ok (n :: ns), db2)

/-- A call that `submitSyntheticTx` makes on a hook outside the executor:
`ed.Sign(nonce, key, hash)` or the relay's `BroadcastTx(tx)`. -/
inductive RelayCall where
  | sign (nonce : Nat) (key hash : Bytes)
  | broadcast (tx : GenTransaction)
deriving DecidableEq, Repr

/-- The unsigned envelope that `submitSyntheticTx` builds for a submission,
from the marshalled body and the nonce. -/
def synthEnvelope (env : Env) (height : Int) (sub : submittedTx) (body : Bytes) (n : Nat) :
    GenTransaction :=
  { Signature := [], Routing := 0, ChainID := []
    SigInfo := some { URL := sub.url.toText env, MSHeight := uint64OfInt height
                      PriorityIdx := 0, Nonce := n }
    Transaction := some body }

/-- The envelope after the leader has appended its signature. -/
def signedEnvelope (tx : GenTransaction) (n : Nat) (key signature : Bytes) : GenTransaction :=
  { tx with Signature := tx.Signature ++
      [{ Nonce := n, PublicKey := key.drop 32, Signature := signature }] }

/-- The loop of `submitSyntheticTx` as `submitLoop`, recording in addition
every call on the signing and broadcast hooks, in call order. -/
def submitLoopLog (env : Env) (leader : Bool) (height : Int) (key parentTxId : Bytes) :
    List submittedTx → DBTransaction → List TxSynthRef → List RelayCall →
      (Except Error (List TxSynthRef) × DBTransaction) × List RelayCall
  | [], db, refs, log => ((Except.ok refs, db), log)
  | sub :: rest, db, refs, log =>
    match env.marshalBody sub.body with
    | Except.error e =>
      ((Except.error (errorf ("failed to marshal synthetic transaction payload: " ++ e.msg)), db),
        log)
    | Except.ok body =>
      match nextSynthCount env db with
      | (Except.error e, db1) => ((Except.error e, db1), log)
      | (Except.ok n, db1) =>
        let tx := synthEnvelope env height sub body n
        let hash := env.transactionHash tx
        match env.marshalPending (NewPendingTransaction env tx) with
        | Except.error e => ((Except.error e, db1), log)
        | Except.ok synthTxData =>
          let db2 := db1.AddSynthTx parentTxId hash { Entry := synthTxData }
          if leader then
            if key.length < 32 then
              ((Except.error (goPanic "slice bounds out of range"), db2), log)
            else
            let log1 := log ++ [RelayCall.sign n key hash]
            match env.sign n key hash with
            | Except.error e =>
              ((Except.error (errorf ("error signing sythetic transaction, " ++ e.msg)), db2), log1)
            | Except.ok signature =>
              let tx1 := signedEnvelope tx n key signature
              let log2 := log1 ++ [RelayCall.broadcast tx1]
              match env.broadcastTx tx1 with
              | Except.error e => ((Except.error e, db2), log2)
              | Except.ok referenceId =>
                submitLoopLog env leader height key parentTxId rest db2
                  (refs ++ [{ type := env.transactionType tx1.Transaction
                              Url := sub.url.toText env
                              Hash := toBytes32 hash
                              TxRef := toBytes32 referenceId }]) log2
          else submitLoopLog env leader height key parentTxId rest db2 refs log

/-- One completed iteration of the loop of `submitSyntheticTx`: the submission,
its marshalled body, the nonce it drew, the marshalled pending transaction
stored for it and, on the leader, the signature and the reference ID that the
relay returned. -/
structure SynthSent where
  sub : submittedTx
  body : Bytes
  nonce : Nat
  object : Bytes
  signature : Bytes
  referenceId : Bytes
deriving DecidableEq, Repr

/-- The unsigned envelope of the iteration. -/
def SynthSent.tx (env : Env) (height : Int) (s : SynthSent) : GenTransaction :=
  synthEnvelope env height s.sub s.body s.nonce

/-- The hash of the synthetic transaction of the iteration. -/
def SynthSent.hash (env : Env) (height : Int) (s : SynthSent) : Bytes :=
  env.transactionHash (s.tx env height)

/-- The envelope of the iteration with the signature of the leader. -/
def SynthSent.signed (env : Env) (height : Int) (key : Bytes) (s : SynthSent) : GenTransaction :=
  signedEnvelope (s.tx env height) s.nonce key s.signature

/-- The call `AddSynthTx(parentTxId, hash, object)` of the iteration. -/
def SynthSent.record (env : Env) (height : Int) (parentTxId : Bytes) (s : SynthSent) : SynthRecord :=
  { parentTxId := parentTxId, synthTxId := s.hash env height, object := { Entry := s.object } }

/-- The write of the counter in the iteration. -/
def SynthSent.counterWrite (env : Env) (s : SynthSent) : Bytes × Bytes :=
  (env.computeKey [KeyPart.str "SyntheticTransactionCount"],
    env.uint64Bytes ((s.nonce + 1) % 18446744073709551616))

/-- The reference that the leader returns for the iteration. -/
def SynthSent.reference (env : Env) (height : Int) (key : Bytes) (s : SynthSent) : TxSynthRef :=
  { type := env.transactionType (s.signed env height key).Transaction
    Url := s.sub.url.toText env
    Hash := toBytes32 (s.hash env height)
    TxRef := toBytes32 s.referenceId }

/-- The calls of the leader on the hooks in the iteration: it signs the hash
with the node key, then broadcasts the signed envelope. -/
def SynthSent.calls (env : Env) (height : Int) (key : Bytes) (s : SynthSent) : List RelayCall :=
  [RelayCall.sign s.nonce key (s.hash env height), RelayCall.broadcast (s.signed env height key)]

/-- The body and the object of the iteration are what the codecs produce. -/
def SynthSent.Stored (env : Env) (height : Int) (s : SynthSent) : Prop :=
  env.marshalBody s.sub.body = Except.ok s.body ∧
  env.marshalPending (NewPendingTransaction env (s.tx env height)) = Except.ok s.object

/-- The signature and the reference ID of the iteration are what the hooks
returned. -/
def SynthSent.Relayed (env : Env) (height : Int) (key : Bytes) (s : SynthSent) : Prop :=
  env.sign s.nonce key (s.hash env height) = Except.ok s.signature ∧
  env.broadcastTx (s.signed env height key) = Except.ok s.referenceId

/-- Go `Executor.submitSyntheticTx` together with the calls it made on the
signing and broadcast hooks, in call order. -/
def Executor.submitSyntheticTxLog (env : Env) (ex : Executor) (parentTxId : Bytes)
    (st : StateManager) : (Except Error (List TxSynthRef) × Executor) × List RelayCall :=
  let r := submitLoopLog env ex.leader ex.height ex.key parentTxId st.submissions ex.dbTx [] []
  ((r.1.1, { ex with dbTx := r.1.2 }), r.2)

/-- The nonce of a call of the signing hook. -/
def signNonce : RelayCall → Option Nat
  | RelayCall.sign n _ _ => some n
  | RelayCall.broadcast _ => none

/-- The envelope of a call of the broadcast hook. -/
def broadcastOf : RelayCall → Option GenTransaction
  | RelayCall.sign _ _ _ => none
  | RelayCall.broadcast tx => some tx

/-! ### The index buffer and the directory index (`internal/chain/state.go`) -/

/-- The lookup `s.writes[k]`. -/
def lookupWrite (writes : List (Bytes × Bytes)) (k : Bytes) : Option Bytes :=
  (writes.find? (fun w => w.1 == k)).map (fun w => w.2)

/-- The assignment `s.writes[k] = value`: the value of the key is replaced
where it stands, a new key is added. -/
def setWrite (writes : List (Bytes × Bytes)) (k v : Bytes) : List (Bytes × Bytes) :=
  if writes.any (fun w => w.1 == k) then writes.map (fun w => if w.1 == k then (k, v) else w)
  else writes ++ [(k, v)]

/-- Go `StateManager.WriteIndex`. -/
def StateManager.WriteIndex (env : Env) (s : StateManager) (index : String) (chainId : Bytes)
    (key : KeyPart) (value : Bytes) : StateManager :=
  let k := env.computeKey [KeyPart.str index, KeyPart.bytes chainId, key]
  { s with writes := setWrite s.writes k value }

/-- Go `StateManager.GetIndex`: the buffered write of the key, or else the
entry of the DBTx. -/
def StateManager.GetIndex (env : Env) (s : StateManager) (db : DBTransaction) (index : String)
    (chainId : Bytes) (key : KeyPart) : Except Error Bytes :=
  match lookupWrite s.writes (env.computeKey [KeyPart.str index, KeyPart.bytes chainId, key]) with
  | some w => Except.ok w
  | none => db.GetIndex env index chainId key

/-- The first lines of `AddDirectoryEntry`: the count of the directory metadata
of the identity, 0 when there is none (the error is `ErrNotFound`), with the
error of `GetIndex` or of `UnmarshalBinary` otherwise.  An `UnmarshalBinary`
that fails is taken to leave the count at 0. -/
def StateManager.directoryCount (env : Env) (m : StateManager) (db : DBTransaction)
    (idc : Bytes) : Except Error Nat :=
  let loaded : Except Error Nat :=
    match m.GetIndex env db env.directoryIndex idc (KeyPart.str "Metadata") with
    | Except.ok b => env.unmarshalMetadata b
    | Except.error e => Except.error e
  match loaded with
  | Except.ok c => Except.ok c
  | Except.error e => if !e.isNotFound then Except.error e else Except.ok 0

/-- Go `AddDirectoryEntry` on a state manager: read the count `c` of the
identity of the URL, store the count `c + 1` (a 64-bit increment) and store the
text of the URL under the integer key `c`. -/
def StateManager.AddDirectoryEntry (env : Env) (m : StateManager) (db : DBTransaction) (u : URL) :
    Except Error StateManager :=
  let idc := u.IdentityChain env
  match m.directoryCount env db idc with
  | Except.error e => Except.error (errorf ("failed to load metadata: " ++ e.msg))
  | Except.ok c =>
    match env.marshalMetadata ((c + 1) % 18446744073709551616) with
    | Except.error e => Except.error (errorf ("failed to marshal metadata: " ++ e.msg))
    | Except.ok b =>
      Except.ok
        ((m.WriteIndex env env.directoryIndex idc (KeyPart.str "Metadata") b).WriteIndex env
          env.directoryIndex idc (KeyPart.uint c) (env.stringBytes (u.toText env)))

/-- Successive calls of `AddDirectoryEntry` on one state manager, stopping at
the first that fails. -/
def StateManager.addDirectoryEntries (env : Env) (db : DBTransaction) :
    StateManager → List URL → Except Error StateManager
  | m, [] => Except.ok m
  | m, u :: rest =>
    match m.AddDirectoryEntry env db u with
    | Except.error e => Except.error e
    | Except.ok m1 => StateManager.addDirectoryEntries env db m1 rest

/-! ### The query service (`types/api/query`, `internal/chain/executor.go`) -/

/-- Modelled from the spec: `StateDB.GetPersistentEntry(id, false)`, the
last-committed object of the chain. -/
def StateDB.GetPersistentEntry (db : StateDB) (id : Bytes) : Except Error Object := db.entries id

/-- Modelled from the spec: `StateDB.GetTransaction(id)`, the committed
transaction object of the ID. -/
def StateDB.GetTransaction (db : StateDB) (id : Bytes) : Except Error Object := db.txEntries id

/-- Modelled from the spec: `StateDB.GetTx(txid)`, the committed accepted body. -/
def StateDB.GetTx (db : StateDB) (txid : Bytes) : Except Error Bytes := db.txs txid

/-- Modelled from the spec: `StateDB.GetPendingTx(txid)`, the committed pending
envelope. -/
def StateDB.GetPendingTx (db : StateDB) (txid : Bytes) : Except Error Bytes := db.pendingTxs txid

/-- Modelled from the spec: `StateDB.GetSyntheticTxIds(txid)`, the committed
hashes of the synthetic transactions of the parent. -/
def StateDB.GetSyntheticTxIds (db : StateDB) (txid : Bytes) : Except Error Bytes :=
  db.synthTxIds txid

/-- Modelled from the spec: `StateDB.GetTxRange(chainId, start, end)`, the
transaction IDs of the range and the total count. -/
def StateDB.GetTxRange (db : StateDB) (chainId : Bytes) (start stop : Int) :
    Except Error (List Bytes × Int) :=
  db.txRange chainId start stop

/-- The request `query.Query`: the discriminant and the encoded request. -/
structure Query where
  type : QueryType
  Content : Bytes
deriving DecidableEq, Repr

/-- Go `query.ResponseByTxId`. -/
structure ResponseByTxId where
  TxId : Bytes
  TxState : Bytes
  TxPendingState : Bytes
  TxSynthTxIds : Bytes
deriving DecidableEq, Repr

/-- Go `query.ResponseTxHistory`. -/
structure ResponseTxHistory where
  Transactions : List ResponseByTxId
  Total : Int
deriving DecidableEq, Repr

/-- Go `query.RequestTxHistory`. -/
structure RequestTxHistory where
  ChainId : Bytes
  Start : Int
  Limit : Int
deriving DecidableEq, Repr

/-- Go `binary.LittleEndian.PutUint64` into a buffer of 8 bytes. -/
def putUint64LE (n : Nat) : Bytes := (List.range 8).map (fun i => n / 256 ^ i % 256)

/-- Go `binary.LittleEndian.Uint64` on a slice of at least 8 bytes. -/
def uint64LE (b : Bytes) : Nat := (b.take 8).foldr (fun x acc => x + 256 * acc) 0

/-- The conversion `int64(v)` of a 64-bit unsigned value. -/
def int64OfUint64 (v : Nat) : Int :=
  if v < 9223372036854775808 then (v : Int) else (v : Int) - 18446744073709551616

/-- Go `ResponseByTxId.MarshalBinary`. -/
def ResponseByTxId.MarshalBinary (env : Env) (t : ResponseByTxId) : Except Error Bytes :=
  Except.ok (t.TxId ++ env.sliceBytes t.TxState ++ env.sliceBytes t.TxPendingState ++
    env.sliceBytes t.TxSynthTxIds)

/-- Go `RequestByTxId.UnmarshalBinary`: the transaction ID, which `FromBytes`
leaves in the fresh request. -/
def RequestByTxId.UnmarshalBinary (env : Env) (data : Bytes) : Except Error Bytes :=
  if data.length < 32 then Except.error (errorf "insufficient data for txid in RequestByTxId")
  else Except.ok (env.bytes32FromBytes data)

/-- The loop of `ResponseTxHistory.MarshalBinary` over the transactions. -/
def marshalTransactions (env : Env) : List ResponseByTxId → Except Error Bytes
  | [] => Except.ok []
  | t :: rest =>
    match t.MarshalBinary env with
    | Except.error e => Except.error e
    | Except.ok d =>
      match marshalTransactions env rest with
      | Except.error e => Except.error e
      | Except.ok ds => Except.ok (d ++ ds)

/-- Go `ResponseTxHistory.MarshalBinary`. -/
def ResponseTxHistory.MarshalBinary (env : Env) (t : ResponseTxHistory) : Except Error Bytes :=
  match marshalTransactions env t.Transactions with
  | Except.error e => Except.error e
  | Except.ok ds =>
    Except.ok (putUint64LE (uint64OfInt t.Total) ++ putUint64LE (t.Transactions.length % 18446744073709551616) ++ ds)

/-- Go `RequestTxHistory.UnmarshalBinary`: a slice that is too short makes
`binary.LittleEndian.Uint64` panic, which is recovered into an error; the chain
ID is what `FromBytes` leaves in the fresh request on the bytes from the 16th
on. -/
def RequestTxHistory.UnmarshalBinary (env : Env) (data : Bytes) : Except Error RequestTxHistory :=
  if data.length < 8 then
    Except.error (errorf ("error unmarshaling RequestTxHistory " ++ env.indexPanicText 7 data.length))
  else if data.length < 16 then
    Except.error (errorf ("error unmarshaling RequestTxHistory " ++
      env.indexPanicText 7 (data.length - 8)))
  else
    Except.ok { ChainId := env.bytes32FromBytes (data.drop 16)
                Start := int64OfUint64 (uint64LE data)
                Limit := int64OfUint64 (uint64LE (data.drop 8)) }

/-- Go `Executor.queryByChainId`: the committed state object of the chain, or
else the committed transaction of that ID; its header must decode. -/
def Executor.queryByChainId (env : Env) (m : Executor) (chainId : Bytes) : Except Error Object :=
  let found : Except Error Object :=
    match m.db.GetPersistentEntry chainId with
    | Except.ok obj => Except.ok obj
    | Except.error err => if err.isNotFound then m.db.GetTransaction chainId else Except.error err
  match found with
  | Except.error err =>
    if err.isNotFound then
      Except.error { msg := ErrNotFound.msg ++ ": no chain or transaction found for " ++
                       env.hexUpper chainId
                     kind := ErrKind.notFound }
    else
      Except.error (errorf ("failed to locate chain entry for chain id " ++ env.hexLower chainId ++
        ": " ++ err.msg))
  | Except.ok obj =>
    match env.unmarshalHeader obj.Entry with
    | Except.error err =>
      Except.error (errorf ("unable to extract chain header for chain id " ++
        env.hexLower chainId ++ ": " ++ err.msg))
    | Except.ok _ => Except.ok obj

/-- The loop of `queryDirectoryByChainId` over the integer keys. -/
def directoryEntries (env : Env) (db : StateDB) (chainId : Bytes) :
    List Nat → Except Error (List String)
  | [] => Except.ok []
  | i :: rest =>
    match db.GetIndex env env.directoryIndex chainId (KeyPart.uint i) with
    | Except.error _ => Except.error (errorf ("failed to get entry " ++ toString i))
    | Except.ok b =>
      match directoryEntries env db chainId rest with
      | Except.error e => Except.error e
      | Except.ok es => Except.ok (env.bytesString b :: es)

/-- Go `Executor.queryDirectoryByChainId`: the entries of the committed
directory index of the chain. -/
def Executor.queryDirectoryByChainId (env : Env) (m : Executor) (chainId : Bytes) :
    Except Error (List String) :=
  match m.db.GetIndex env env.directoryIndex chainId (KeyPart.str "Metadata") with
  | Except.error err => Except.error err
  | Except.ok b =>
    match env.unmarshalMetadata b with
    | Except.error err => Except.error err
    | Except.ok count => directoryEntries env m.db chainId (List.range count)

/-- Go `Executor.queryByTxId`: the committed accepted body, pending envelope and
synthetic transaction IDs of the transaction; only the body must be there.  The
ID of the response is what `FromBytes` leaves in the fresh response. -/
def Executor.queryByTxId (env : Env) (m : Executor) (txid : Bytes) : Except Error ResponseByTxId :=
  match m.db.GetTx txid with
  | Except.error err =>
    if err.isNotFound then
      Except.error { msg := "tx " ++ env.hexUpper txid ++ " " ++ ErrNotFound.msg
                     kind := ErrKind.notFound }
    else Except.error (errorf ("invalid query from GetTx in state database, " ++ err.msg))
  | Except.ok txState =>
    let pending : Except Error Bytes :=
      match m.db.GetPendingTx txid with
      | Except.ok b => Except.ok b
      | Except.error err =>
        if !err.isNotFound then
          Except.error { msg := ErrNotFound.msg ++ ": error in query for pending chain on txid " ++
                           env.hexUpper txid
                         kind := ErrKind.notFound }
        else Except.ok []
    match pending with
    | Except.error e => Except.error e
    | Except.ok txPendingState =>
      let synth : Except Error Bytes :=
        match m.db.GetSyntheticTxIds txid with
        | Except.ok b => Except.ok b
        | Except.error err =>
          if !err.isNotFound then
            Except.error { msg := ErrNotFound.msg ++
                             ": error in query for synthetic txid txid " ++ env.hexUpper txid
                           kind := ErrKind.notFound }
          else Except.ok []
      match synth with
      | Except.error e => Except.error e
      | Except.ok txSynthTxIds =>
        Except.ok { TxId := env.bytes32FromBytes txid, TxState := txState
                    TxPendingState := txPendingState, TxSynthTxIds := txSynthTxIds }

/-- The value `encoding.BinaryMarshaler` that `queryByUrl` returns: a
`ResponseByTxId` or a `ResponseByChainId` with its object. -/
inductive QueryResponse where
  | tx (r : ResponseByTxId)
  | chain (obj : Object)
deriving DecidableEq, Repr

/-- The method `MarshalBinary` of the value that `queryByUrl` returned. -/
def QueryResponse.MarshalBinary (env : Env) : QueryResponse → Except Error Bytes
  | QueryResponse.tx r => r.MarshalBinary env
  | QueryResponse.chain obj => env.marshalResponseByChainId obj

/-- Go `Executor.queryByUrl`: by transaction ID when the query string has a
`txid`, by the resource chain of the URL otherwise; the key and the value or
the error. -/
def Executor.queryByUrl (env : Env) (m : Executor) (u : URL) : Bytes × Except Error QueryResponse :=
  if env.queryGet u.Query "txid" ≠ "" then
    match env.hexDecode (env.queryGet u.Query "txid") with
    | Except.error err =>
      ([], Except.error (errorf ("invalid txid \"" ++ env.queryGet u.Query "txid" ++ "\": " ++
        err.msg)))
    | Except.ok txid =>
      (env.stringBytes "tx", (m.queryByTxId env txid).map QueryResponse.tx)
  else
    (env.stringBytes "chain", (m.queryByChainId env (u.ResourceChain env)).map QueryResponse.chain)

/-- The loop of `Query` over the transaction IDs of a history range. -/
def historyLoop (env : Env) (m : Executor) : List Bytes → Except Error (List ResponseByTxId)
  | [] => Except.ok []
  | txid :: rest =>
    match m.queryByTxId env txid with
    | Except.error e => Except.error e
    | Except.ok qr =>
      match historyLoop env m rest with
      | Except.error e => Except.error e
      | Except.ok qrs => Except.ok (qr :: qrs)

/-- Go `Executor.Query`: the key and the value of the answer.  The case
`QueryTypeChainId` decodes the request from the zero-valued `chr.ChainId`, not
from `q.Content`. -/
def Executor.Query (env : Env) (m : Executor) (q : Query) : Except Error (Bytes × Bytes) :=
  match q.type with
  | QueryType.TxId =>
    match RequestByTxId.UnmarshalBinary env q.Content with
    | Except.error err => Except.error err
    | Except.ok txid =>
      match m.queryByTxId env txid with
      | Except.error err => Except.error err
      | Except.ok qr =>
        match qr.MarshalBinary env with
        | Except.error err => Except.error (errorf (err.msg ++ ", on Chain " ++ env.hexLower txid))
        | Except.ok v => Except.ok (env.stringBytes "tx", v)
  | QueryType.TxHistory =>
    match RequestTxHistory.UnmarshalBinary env q.Content with
    | Except.error err => Except.error err
    | Except.ok txh =>
      match m.db.GetTxRange txh.ChainId txh.Start
          (int64OfUint64 (uint64OfInt (txh.Start + txh.Limit))) with
      | Except.error err => Except.error (errorf ("error obtaining txid range " ++ err.msg))
      | Except.ok (txids, maxAmt) =>
        match historyLoop env m txids with
        | Except.error err => Except.error err
        | Except.ok txs =>
          match ResponseTxHistory.MarshalBinary env { Transactions := txs, Total := maxAmt } with
          | Except.error _ =>
            Except.error (errorf "error marshalling payload for transaction history")
          | Except.ok v => Except.ok (env.stringBytes "tx-history", v)
  | QueryType.Url =>
    match env.unmarshalRequestByUrl q.Content with
    | Except.error err => Except.error err
    | Except.ok s =>
      match URL.Parse env s with
      | Except.error _ => Except.error (errorf ("invalid URL in query " ++ s))
      | Except.ok u =>
        match m.queryByUrl env u with
        | (_, Except.error err) => Except.error err
        | (k, Except.ok obj) =>
          match obj.MarshalBinary env with
          | Except.error err => Except.error (errorf (err.msg ++ ", on Url " ++ s))
          | Except.ok v => Except.ok (k, v)
  | QueryType.DirectoryUrl =>
    match env.unmarshalRequestByUrl q.Content with
    | Except.error err => Except.error err
    | Except.ok s =>
      match URL.Parse env s with
      | Except.error _ => Except.error (errorf ("invalid URL in query " ++ s))
      | Except.ok u =>
        match m.queryDirectoryByChainId env (u.ResourceChain env) with
        | Except.error err => Except.error err
        | Except.ok dir =>
          match env.marshalDirectoryResult dir with
          | Except.error err => Except.error (errorf (err.msg ++ ", on Url " ++ s))
          | Except.ok v => Except.ok (env.stringBytes "directory", v)
  | QueryType.ChainId =>
    match env.unmarshalRequestByChainId zeroBytes32 with
    | Except.error err => Except.error err
    | Except.ok chainId =>
      match m.queryByChainId env chainId with
      | Except.error err => Except.error err
      | Except.ok obj =>
        match env.marshalResponseByChainId obj with
        | Except.error err => Except.error (errorf (err.msg ++ ", on Chain " ++ env.hexLower chainId))
        | Except.ok v => Except.ok (env.stringBytes "chain", v)
  | QueryType.other _ =>
    Except.error (errorf ("unable to query for type, " ++ env.queryTypeName q.type ++ " (" ++
      toString (env.queryTypeNumber q.type) ++ ")"))

/-! ### The codecs of the query responses (`types/api/query`) -/

/-- Go `binary.PutUvarint`, the number of bytes it writes for a value: seven
bits a byte; `fuel` bounds the number of bytes after the first. -/
def putUvarintSize : Nat → Nat → Nat
  | 0, _ => 1
  | fuel + 1, x => if x < 128 then 1 else 1 + putUvarintSize fuel (x / 128)

/-- Go `binary.PutUvarint(d[:], x)` into the buffer `d` of 8 bytes of `Size`, for
a 64-bit value: the number of bytes written; a value that needs a ninth byte
makes the write panic. -/
def putUvarint8 (env : Env) (x : Nat) : Except Error Nat :=
  if putUvarintSize 9 x > 8 then Except.error (goPanic (env.indexPanicText 8 8))
  else Except.ok (putUvarintSize 9 x)

/-- Go `ResponseByTxId.Size`. -/
def ResponseByTxId.Size (env : Env) (t : ResponseByTxId) : Except Error Nat :=
  let l1 := t.TxState.length
  let l2 := t.TxPendingState.length
  let l3 := t.TxSynthTxIds.length
  match putUvarint8 env l1 with
  | Except.error e => Except.error e
  | Except.ok n1 =>
    match putUvarint8 env l2 with
    | Except.error e => Except.error e
    | Except.ok n2 =>
      match putUvarint8 env l3 with
      | Except.error e => Except.error e
      | Except.ok n3 => Except.ok (32 + l1 + l2 + l3 + n1 + n2 + n3)

/-- Go `ResponseByTxId.UnmarshalBinary`: the transaction ID is the first 32
bytes, three byte slices follow.  A panic of a slice expression or of
`BytesSlice` is recovered into an error.  The capacity of the input is taken to
be its length. -/
def ResponseByTxId.UnmarshalBinary (env : Env) (data : Bytes) : Except Error ResponseByTxId :=
  let recovered := fun (r : String) =>
    (Except.error (errorf ("error unmarshaling ResponseByTxId data " ++ r)) :
      Except Error ResponseByTxId)
  if data.length < 32 then recovered (env.slicePanicText 32 data.length)
  else
    match env.bytesSlicePanic (data.drop 32) with
    | some r => recovered r
    | none =>
      let s1 := env.bytesSlice (data.drop 32)
      match env.bytesSlicePanic s1.2 with
      | some r => recovered r
      | none =>
        let s2 := env.bytesSlice s1.2
        match env.bytesSlicePanic s2.2 with
        | some r => recovered r
        | none =>
          Except.ok { TxId := data.take 32, TxState := s1.1, TxPendingState := s2.1
                      TxSynthTxIds := (env.bytesSlice s2.2).1 }

/-- The loop of `ResponseTxHistory.UnmarshalBinary` over the `l` transactions:
each is decoded from `data[j:]`, and `j` advances by its `Size()`.  A panic of
the slice expression or of `Size` is recovered into an error. -/
def unmarshalTransactions (env : Env) : Nat → Bytes → Nat → Except Error (List ResponseByTxId)
  | 0, _, _ => Except.ok []
  | l + 1, data, j =>
    if data.length < j then
      Except.error (errorf ("error unmarshaling ResponseTxHistory data " ++
        env.slicePanicText j data.length))
    else
      match ResponseByTxId.UnmarshalBinary env (data.drop j) with
      | Except.error e => Except.error e
      | Except.ok t =>
        match t.Size env with
        | Except.error p => Except.error (errorf ("error unmarshaling ResponseTxHistory data " ++ p.msg))
        | Except.ok n =>
          match unmarshalTransactions env l data (j + n) with
          | Except.error e => Except.error e
          | Except.ok ts => Except.ok (t :: ts)

/-- Go `ResponseTxHistory.UnmarshalBinary`: the total, the number of
transactions, the transactions.  A panic is recovered into an error. -/
def ResponseTxHistory.UnmarshalBinary (env : Env) (data : Bytes) : Except Error ResponseTxHistory :=
  let recovered := fun (r : String) =>
    (Except.error (errorf ("error unmarshaling ResponseTxHistory data " ++ r)) :
      Except Error ResponseTxHistory)
  if data.length < 8 then recovered (env.indexPanicText 7 data.length)
  else if data.length < 16 then recovered (env.indexPanicText 7 (data.length - 8))
  else
    let l := int64OfUint64 (uint64LE (data.drop 8))
    if ((data.drop 16).length : Int) < l then
      Except.error (errorf "insufficient txid data for given range")
    else if l < 0 then recovered "runtime error: makeslice: len out of range"
    else
      match unmarshalTransactions env l.toNat (data.drop 16) 0 with
      | Except.error e => Except.error e
      | Except.ok ts => Except.ok { Transactions := ts, Total := int64OfUint64 (uint64LE data) }

/-! ### The envelope of `types/proto` -/

/-- Go `proto.GenTransaction`: the envelope with its signatures, the routing,
the chain ID and the transaction that follows. -/
structure proto.GenTransaction where
  Signature : List ED25519Sig
  Routing : Nat
  ChainID : Bytes
  Transaction : Bytes
deriving DecidableEq, Repr

/-- Go `GenTransaction.MarshalBinary` of `types/proto`: the part of the envelope
that is signed, the routing and the chain ID. -/
def proto.GenTransaction.MarshalBinary (env : Env) (t : proto.GenTransaction) : Bytes :=
  env.uint64Bytes t.Routing ++ env.sliceBytes t.ChainID

/-- The loop of `Marshal` over the signatures. -/
def proto.marshalSigs (env : Env) : List ED25519Sig → Bytes
  | [] => []
  | v :: rest => env.sigMarshal v ++ proto.marshalSigs env rest

/-- Go `GenTransaction.Marshal` of `types/proto`: the signature count, the
signatures, the signed part; it panics on an envelope without signature. -/
def proto.GenTransaction.Marshal (env : Env) (t : proto.GenTransaction) : Except Error Bytes :=
  let sLen := t.Signature.length % 18446744073709551616
  if sLen = 0 then Except.error (goPanic "must have signed transactions")
  else
    Except.ok (env.uint64Bytes sLen ++ proto.marshalSigs env t.Signature ++ t.MarshalBinary env)

/-- The loop of `UnMarshal` over the signatures: the signatures decoded and
the remaining bytes. -/
def proto.unmarshalSigs (env : Env) : Nat → Bytes → List ED25519Sig × Bytes
  | 0, data => ([], data)
  | n + 1, data =>
    let r := env.sigUnmarshal data
    let rest := proto.unmarshalSigs env n r.2
    (r.1 :: rest.1, rest.2)

/-- Go `GenTransaction.UnMarshal` of `types/proto` on the envelope `t`: it
panics when the signature count is not in 1..100, appends the signatures to
those of `t`, sets the routing and the chain ID and returns the remaining
bytes. -/
def proto.GenTransaction.UnMarshal (env : Env) (t : proto.GenTransaction) (data : Bytes) :
    Except Error (proto.GenTransaction × Bytes) :=
  let slen := env.bytesUint64 data
  let data1 := env.uint64Rest data
  if slen < 1 ∨ slen > 100 then Except.error (goPanic "signature length out of range")
  else
    let sigs := proto.unmarshalSigs env slen data1
    let routing := env.bytesUint64 sigs.2
    let data2 := env.uint64Rest sigs.2
    let chainId := env.bytesSlice data2
    Except.ok ({ t with Signature := t.Signature ++ sigs.1, Routing := routing
                        ChainID := chainId.1 }, chainId.2)

/-- The loop of `ValidateSig` over the signatures: false at the first signature
that does not verify against the digest. -/
def proto.verifySigs (env : Env) (h : Bytes) : List ED25519Sig → Bool
  | [] => true
  | v :: rest => if !env.sigVerify v h then false else proto.verifySigs env h rest

/-- Go `GenTransaction.ValidateSig` of `types/proto`: every signature is
verified against the SHA-256 of `MarshalBinary()`. -/
def proto.GenTransaction.ValidateSig (env : Env) (t : proto.GenTransaction) : Bool :=
  proto.verifySigs env (env.sha256 (t.MarshalBinary env)) t.Signature

/-- Go `GenTransaction.SetRoutingChainID` of `types/proto`: the destination is
parsed with `net/url`, the routing is the big-endian number in the first eight
bytes of the SHA-256 of the lower-cased host, the chain ID is that of the whole
text.  On a parse error the envelope stays as it is. -/
def proto.GenTransaction.SetRoutingChainID (env : Env) (t : proto.GenTransaction)
    (destURL : String) : Except Error proto.GenTransaction :=
  match env.netUrlParse destURL with
  | Except.error e => Except.error e
  | Except.ok u =>
    let host := env.toLower u.Host
    let h := env.sha256 (env.stringBytes host)
    Except.ok { t with Routing := bigEndianUint64 h, ChainID := env.chainIdFromChainPath destURL }

/-! ### Vocabulary for the statements about `internal/url` -/

/-- A path without its leading slash, when it has one. -/
def stripSlash (s : String) : String :=
  match s.data with
  | '/' :: rest => String.mk rest
  | _ => s

/-- The Accumulate URL that `Parse` builds from the result of `net/url.Parse`,
once the scheme and the host have passed its checks. -/
def URL.ofNet (u : NetURL) : URL :=
  { UserInfo :=
      match u.User with
      | none => ""
      | some (name, pw) => if pw ≠ "" then name ++ ":" ++ pw else name
    Authority := u.Host
    Path := u.Path
    Query := u.RawQuery
    Fragment := u.Fragment }

/-! ### JSON texts

What it means for a status to be a JSON object with string members, after
RFC 8259: the reading below is not code of the repository, it is the yardstick
against which the status texts are held. -/

/-- The value of a hexadecimal digit. -/
def hexDigit (c : Char) : Option Nat :=
  if '0' ≤ c ∧ c ≤ '9' then some (c.toNat - 48)
  else if 'a' ≤ c ∧ c ≤ 'f' then some (c.toNat - 87)
  else if 'A' ≤ c ∧ c ≤ 'F' then some (c.toNat - 55)
  else none

/-- The character that a one-letter escape of a JSON string stands for. -/
def jsonEscape (c : Char) : Option Char :=
  if c = '"' then some '"'
  else if c = '\\' then some '\\'
  else if c = '/' then some '/'
  else if c = 'b' then some (Char.ofNat 8)
  else if c = 'f' then some (Char.ofNat 12)
  else if c = 'n' then some '\n'
  else if c = 'r' then some '\r'
  else if c = 't' then some '\t'
  else none

/-- The reading of a JSON string from behind its opening quote: the characters
up to the closing quote, escapes resolved, and the text that follows; `none`
when the string is not closed, holds a control character, or has a malformed
escape.  `acc` holds the characters read so far, last first. -/
def readJsonString : List Char → List Char → Option (String × List Char)
  | [], _ => none
  | c :: rest, acc =>
    if c = '"' then some (String.mk acc.reverse, rest)
    else if c = '\\' then
      match rest with
      | [] => none
      | e :: rest1 =>
        if e = 'u' then
          match rest1 with
          | a :: b :: x :: y :: rest2 =>
            match hexDigit a, hexDigit b, hexDigit x, hexDigit y with
            | some a1, some b1, some x1, some y1 =>
              readJsonString rest2 (Char.ofNat (((a1 * 16 + b1) * 16 + x1) * 16 + y1) :: acc)
            | _, _, _, _ => none
          | _ => none
        else
          match jsonEscape e with
          | some d => readJsonString rest1 (d :: acc)
          | none => none
    else if c.toNat < 32 then none
    else readJsonString rest (c :: acc)

/-- The text behind the leading JSON white space. -/
def skipWs (cs : List Char) : List Char :=
  cs.dropWhile (fun c => c = ' ' ∨ c = '\n' ∨ c = '\r' ∨ c = '\t')

/-- The reading of one member `"name": "value"` of a JSON object. -/
def readJsonMember (cs : List Char) : Option ((String × String) × List Char) :=
  match skipWs cs with
  | '"' :: r1 =>
    match readJsonString r1 [] with
    | some (name, r2) =>
      match skipWs r2 with
      | ':' :: r3 =>
        match skipWs r3 with
        | '"' :: r4 =>
          match readJsonString r4 [] with
          | some (value, r5) => some ((name, value), r5)
          | none => none
        | _ => none
      | _ => none
    | none => none
  | _ => none

/-- The reading of the members of a JSON object from behind the opening brace
or a comma, up to the end of the text; at most `fuel` members are read. -/
def readJsonMembers : Nat → List Char → Option (List (String × String))
  | 0, _ => none
  | fuel + 1, cs =>
    match readJsonMember cs with
    | none => none
    | some (member, rest) =>
      match skipWs rest with
      | '}' :: tail => if skipWs tail = [] then some [member] else none
      | ',' :: tail => (readJsonMembers fuel tail).map (fun ms => member :: ms)
      | _ => none

/-- The reading of a text as a JSON object all of whose members are strings:
the members in the order of the text, or `none` when the text is not such an
object.  An object has fewer members than the text has characters, so the
fuel never runs out. -/
def readJsonObject (s : String) : Option (List (String × String)) :=
  match skipWs s.data with
  | '{' :: r =>
    match skipWs r with
    | '}' :: tail => if skipWs tail = [] then some [] else none
    | _ => readJsonMembers s.data.length r
  | _ => none

/-! ### `cmd/accumulated/cmd_init.go` -/

/-- The fields of `node.InitOptions` that carry the addresses. -/
structure InitOptions where
  Port : Int
  ListenIP : List String
deriving DecidableEq, Repr

/-- The text of a string under the verb `%q`; the escapes it adds inside the
quotes are not modelled. -/
def quoted (s : String) : String := "\"" ++ s ++ "\""

/-- The number that a run of decimal digits stands for, `acc` being the value of
the digits read so far; `none` when a character is not a digit. -/
def decimalDigits : List Char → Nat → Option Nat
  | [], acc => some acc
  | c :: rest, acc =>
    if '0' ≤ c ∧ c ≤ '9' then decimalDigits rest (acc * 10 + (c.toNat - 48)) else none

/-- Go `strconv.ParseInt(s, 10, bitSize)`, without the text of the error: an
optional sign, then decimal digits, at least one; `none` on a syntax error and
when the value does not fit a signed integer of `bitSize` bits. -/
def strconvParseInt (s : String) (bitSize : Nat) : Option Int :=
  let neg := s.data.head? = some '-'
  let digits := if s.data.head? = some '+' ∨ s.data.head? = some '-' then s.data.tail else s.data
  if digits = [] then none
  else
    match decimalDigits digits 0 with
    | none => none
    | some un =>
      let cutoff := 2 ^ (bitSize - 1)
      if ¬ neg ∧ un ≥ cutoff then none
      else if neg ∧ un > cutoff then none
      else some (if neg then -(un : Int) else (un : Int))

/-- Go `initFollower`, the handling of `--listen`: the port and the listen
address handed to `node.Init`.  A fatal exit is an error with the message
printed; the network, the genesis document and the peers are not modelled.
The host is cut by characters, which are bytes for the ASCII text of a host
with a port. -/
def initFollower (env : Env) (ListenIP : String) : Except Error InitOptions :=
  match env.netUrlParse ListenIP with
  | Except.error _ => Except.error (errorf ("invalid --listen " ++ quoted ListenIP))
  | Except.ok u =>
    let portText := env.hostPort u.Host
    if portText ≠ "" then
      match strconvParseInt portText 16 with
      | none => Except.error (errorf ("invalid port number " ++ quoted portText))
      | some p =>
        let host := String.mk (u.Host.data.take (u.Host.data.length - portText.data.length - 1))
        Except.ok { Port := p, ListenIP := [env.netUrlString { u with Host := host }] }
    else Except.ok { Port := 26656, ListenIP := [env.netUrlString u] }

/-- Go `nextIP`: a copy of the base address is returned, and the last byte of the
base address is incremented in place; the result is the copy and the base
address afterwards. -/
def nextIP (env : Env) (baseIP : Bytes) : Except Error (Bytes × Bytes) :=
  if baseIP.length ≤ 15 then Except.error (goPanic (env.indexPanicText 15 baseIP.length))
  else Except.ok (baseIP, baseIP.set 15 ((baseIP.getD 15 0 + 1) % 256))

/-- The loop of `initDevNet` that fills `IPs`: one call of `nextIP` for each
node. -/
def devNetIPs (env : Env) : Nat → Bytes → Except Error (List String)
  | 0, _ => Except.ok []
  | n + 1, baseIP =>
    match nextIP env baseIP with
    | Except.error e => Except.error e
    | Except.ok (ip, baseIP1) =>
      match devNetIPs env n baseIP1 with
      | Except.error e => Except.error e
      | Except.ok rest => Except.ok (("tcp://" ++ env.ipText ip) :: rest)

/-- The flags of `init devnet`. -/
structure DevnetFlags where
  NumDirNodes : Int
  NumValidators : Int
  NumFollowers : Int
  BasePort : Int
  BaseIP : String
deriving DecidableEq, Repr

/-- Go `initDevNet` up to the list `IPs` of the listen addresses of the nodes;
`networkChanged` tells whether `--network` was given.  A fatal exit is an error
with the message printed; the configurations and `node.Init` are not
modelled. -/
def initDevNet (env : Env) (networkChanged : Bool) (flags : DevnetFlags) :
    Except Error (List String) :=
  if networkChanged then Except.error (errorf "--network is not applicable to devnet")
  else if flags.NumDirNodes = 0 then Except.error (errorf "Must have at least one directory node")
  else if flags.NumValidators = 0 then
    Except.error (errorf "Must have at least one block validator node")
  else
    match env.parseIP flags.BaseIP with
    | none => Except.error (errorf ("Error: " ++ quoted flags.BaseIP ++ " is not a valid IP address"))
    | some baseIP =>
      if baseIP.length ≤ 15 then Except.error (goPanic (env.indexPanicText 15 baseIP.length))
      else if baseIP.getD 15 0 = 0 then
        Except.error (errorf "Error: base IP address must not end with .0")
      else
        let n := flags.NumDirNodes + flags.NumValidators + flags.NumFollowers
        if n < 0 then Except.error (goPanic "runtime error: makeslice: len out of range")
        else devNetIPs env n.toNat baseIP

/-! ### The KV manager (`smt/storage/database`)

The manager itself is not among the sources, its test is. -/

/-- Modelled from the spec: the KV manager, a backend `DB` that is read by key,
and the write cache `txCache` of the batch in progress. -/
structure Manager where
  DB : Bytes → Except Error Bytes
  txCache : List (Bytes × Bytes)

/-- Modelled from the spec: `Manager.Key(bucket, parts...)`, the storage key `K`
of the key reference: `ComputeKey` of the bucket and the parts. -/
def Manager.Key (env : Env) (bucket : String) (parts : List KeyPart) : Bytes :=
  env.computeKey (KeyPart.str bucket :: parts)

/-- Modelled from the spec: the bytes of one part of a key. -/
def keyPartBytes (env : Env) : KeyPart → Bytes
  | KeyPart.str s => env.stringBytes s
  | KeyPart.bytes b => b
  | KeyPart.uint n => env.uint64Bytes n

/-- Modelled from the spec: the length-prefixed encoding of the bucket and the
parts that `ComputeKey` hashes: every part as a counted byte slice, the bucket
first. -/
def keyEncoding (env : Env) : List KeyPart → Bytes
  | [] => []
  | p :: rest => env.sliceBytes (keyPartBytes env p) ++ keyEncoding env rest

/-- Modelled from the spec: `PutBatch`, which puts the value into the write
cache under the key. -/
def Manager.PutBatch (m : Manager) (k value : Bytes) : Manager :=
  { m with txCache := setWrite m.txCache k value }

/-- Modelled from the spec: `EndBatch`, which writes the cache to the backend
and empties it. -/
def Manager.EndBatch (m : Manager) : Manager :=
  { DB := fun k =>
      match lookupWrite m.txCache k with
      | some v => Except.ok v
      | none => m.DB k
    txCache := [] }

/-- Modelled from the spec: `Put`, which writes the value to the backend at
once. -/
def Manager.Put (m : Manager) (k value : Bytes) : Manager :=
  { m with DB := fun k2 => if k2 = k then Except.ok value else m.DB k2 }

/-- Modelled from the spec: `Get`, which reads the backend; batched writes are
invisible to it until `EndBatch`. -/
def Manager.Get (m : Manager) (k : Bytes) : Except Error Bytes := m.DB k

/-- A sequence of `PutBatch` calls, in order. -/
def Manager.putBatches (m : Manager) (calls : List (Bytes × Bytes)) : Manager :=
  calls.foldl (fun m1 w => m1.PutBatch w.1 w.2) m
/-! ### A concrete environment and database for the worked examples -/

/-- ASCII lower-casing, the example stand-in for `strings.ToLower`. -/
def asciiLower (s : String) : String := String.mk (s.data.map Char.toLower)

/-- A toy `net/url` parser for the examples: `acc://host/path` or
`http://host/path` with nothing else, or a bare path. -/
def exampleNetUrlParse (s : String) : Except Error NetURL :=
  if "acc://".data.isPrefixOf s.data then
    let rest := s.data.drop 6
    let host := rest.takeWhile (fun c => c != '/')
    let path := rest.dropWhile (fun c => c != '/')
    Except.ok { Scheme := "acc", User := none, Host := String.mk host, Path := String.mk path
                RawQuery := "", Fragment := "" }
  else if "http://".data.isPrefixOf s.data then
    let rest := s.data.drop 7
    let host := rest.takeWhile (fun c => c != '/')
    let path := rest.dropWhile (fun c => c != '/')
    Except.ok { Scheme := "http", User := none, Host := String.mk host, Path := String.mk path
                RawQuery := "", Fragment := "" }
  else if s.data.any (fun c => c == ' ') then Except.error (errorf "invalid character in URL")
  else Except.ok { Scheme := "", User := none, Host := "", Path := s, RawQuery := "", Fragment := "" }

/-- The records of the example database, by the entry that encodes them. -/
def exampleRecords : List (Bytes × RecordData) :=
  [ ([1], { header := { type := ChainType.KeyBook, ChainUrl := "acc://alice/book", SigSpecId := zeroBytes32 }
            Nonce := 0, Keys := [], SigSpecs := [toBytes32 [2]], payload := [1] }),
    ([2], { header := { type := ChainType.KeyPage, ChainUrl := "acc://alice/page", SigSpecId := toBytes32 [1] }
            Nonce := 0, Keys := [{ PublicKey := [7, 7], Nonce := 5 }], SigSpecs := [], payload := [2] }),
    ([3], { header := { type := ChainType.TokenAccount, ChainUrl := "acc://alice/tokens", SigSpecId := toBytes32 [1] }
            Nonce := 0, Keys := [], SigSpecs := [], payload := [3] }),
    ([4], { header := { type := ChainType.LiteTokenAccount, ChainUrl := "acc://lite/ACME", SigSpecId := zeroBytes32 }
            Nonce := 5, Keys := [], SigSpecs := [], payload := [4] }),
    ([5], { header := { type := ChainType.TokenAccount, ChainUrl := "acc://bob/tokens", SigSpecId := toBytes32 [1] }
            Nonce := 0, Keys := [], SigSpecs := [], payload := [5] }),
    ([6], { header := { type := ChainType.Transaction, ChainUrl := "acc://alice/tx", SigSpecId := zeroBytes32 }
            Nonce := 0, Keys := [], SigSpecs := [], payload := [6] }),
    ([8], { header := { type := ChainType.TokenAccount, ChainUrl := "acc://Bob/savings", SigSpecId := toBytes32 [1] }
            Nonce := 0, Keys := [], SigSpecs := [], payload := [8] }),
    ([9], { header := { type := ChainType.TokenAccount, ChainUrl := "acc://carol/tokens", SigSpecId := toBytes32 [1] }
            Nonce := 0, Keys := [], SigSpecs := [], payload := [9] }) ]

/-- The example decoder: look the entry up among the example records. -/
def exampleDecode (entry : Bytes) : Except Error RecordData :=
  match exampleRecords.find? (fun p => p.1 == entry) with
  | some p => Except.ok p.2
  | none => Except.error (errorf "cannot decode")

/-- The example chain IDs: the key book, the key page, and the accounts. -/
def exampleChainId (s : String) : Bytes :=
  if s = "alice/book" then [1]
  else if s = "alice/page" then [2]
  else if s = "alice/tokens" then [3]
  else if s = "lite/acme" then [4]
  else if s = "bob/tokens" then [5]
  else if s = "bob/savings" then [8]
  else if s = "carol/tokens" then [9]
  else [0, s.length]

/-- The example stand-in for the port of a host: the digits after the last
colon, when there are some and nothing else follows the colon. -/
def examplePort (host : String) : String :=
  let tail := (host.data.reverse.takeWhile (fun c => c != ':')).reverse
  if host.data.contains ':' ∧ tail ≠ [] ∧ tail.all Char.isDigit then String.mk tail else ""

/-- The IPv4 address `a.b.c.d` in the sixteen-byte form of `net.IP`. -/
def ipv4 (a b c d : Nat) : Bytes := [0, 0, 0, 0, 0, 0, 0, 0, 0, 0, 255, 255, a, b, c, d]

/-- The example stand-in for `net.ParseIP`: three addresses are known. -/
def exampleParseIP (s : String) : Option Bytes :=
  if s = "127.0.1.1" then some (ipv4 127 0 1 1)
  else if s = "10.0.0.255" then some (ipv4 10 0 0 255)
  else if s = "10.0.0.0" then some (ipv4 10 0 0 0)
  else none

/-- The example text of an IP address: the last four bytes in dotted decimal. -/
def dottedQuad (ip : Bytes) : String :=
  String.intercalate "." ((ip.drop 12).map (fun x => toString x))

/-- The example encoding of a pending transaction: its hash, then its status. -/
def examplePendingEntry (hash : Bytes) (status : String) : Bytes :=
  hash ++ status.data.map Char.toNat

/-- The example environment: stand-ins for the standard library, the codecs,
the signature scheme and the relay, under which everything evaluates. -/
def exampleEnv : Env where
  sha256 := fun b => b
  stringBytes := exampleChainId
  toLower := asciiLower
  netUrlParse := exampleNetUrlParse
  netUrlString := fun u => "acc://" ++ u.Host ++ u.Path
  transactionType := fun body =>
    match body with
    | some (0 :: _) => TxType.SyntheticGenesis
    | some (1 :: _) => TxType.SyntheticCreateChain
    | some (2 :: _) => TxType.SyntheticDepositTokens
    | some (n :: _) => TxType.user n
    | _ => TxType.user 0
  transactionHash := fun tx => tx.Transaction.getD [] ++ tx.Signature.map (fun sig => sig.Nonce)
  validateSig := fun tx => tx.Signature.all (fun sig => sig.Signature == [1])
  txTypeName := fun t =>
    match t with
    | TxType.SyntheticGenesis => "syntheticGenesis"
    | _ => "other"
  txTypeText := fun t =>
    match t with
    | TxType.SyntheticGenesis => "syntheticGenesis"
    | _ => "other"
  acmeUrl := { UserInfo := "", Authority := "ACME", Path := "", Query := "", Fragment := "" }
  genesisACME :=
    { kind := RecordKind.TokenAccount
      data := { header := { type := ChainType.TokenAccount, ChainUrl := "acc://ACME", SigSpecId := zeroBytes32 }
                Nonce := 0, Keys := [], SigSpecs := [], payload := [] } }
  chainTypeName := fun _ => "chain"
  kindName := fun _ => "record"
  marshalRecord := fun r => Except.ok r.data.payload
  unmarshalHeader := fun entry => (exampleDecode entry).map (fun d => d.header)
  unmarshalAs := fun _ entry => exampleDecode entry
  marshalPending := fun p => Except.ok (examplePendingEntry p.TransactionHash p.Status)
  marshalTransaction := fun t => Except.ok (t.Transaction.getD [])
  marshalBody := fun b =>
    match b with
    | Body.createChain scc => Except.ok (scc.Chains.map (fun c => c.Data.length))
    | Body.other payload => Except.ok payload
  findKey := fun page pk => page.data.Keys.find? (fun ks => ks.PublicKey == pk)
  parseAnonymousAddress := fun u => Except.ok ([7, 7], u.Path)
  addTransactionError := fun _ _ _ _ => none
  computeKey := fun parts => [parts.length]
  uint64Bytes := fun n => [n]
  bytesUint64 := fun b => b.headD 0
  sign := fun _ _ hash => Except.ok hash
  broadcastTx := fun _ => Except.ok [9]
  dbCommit := fun db _ => Except.ok ([], db)
  txRangeCommit := fun old tx chainId start stop =>
    match old chainId start stop with
    | Except.ok (ids, total) =>
      Except.ok (ids ++ (tx.transactions.filter (fun r => r.chainId = chainId)).map (fun r => r.txId),
        total + ((tx.transactions.filter (fun r => r.chainId = chainId)).length : Int))
    | Except.error e => Except.error e
  sliceBytes := fun b => b.length :: b
  bytesString := fun b => String.mk (b.map Char.ofNat)
  queryGet := fun query key => if key = "txid" ∧ "txid=".data.isPrefixOf query.data
    then String.mk (query.data.drop 5) else ""
  hexDecode := fun s => Except.ok (s.data.map Char.toNat)
  hexUpper := fun b => String.mk (b.map Char.ofNat)
  hexLower := fun b => String.mk (b.map Char.ofNat)
  indexPanicText := fun _ _ => "index out of range"
  directoryIndex := "Directory"
  marshalMetadata := fun n => Except.ok [n]
  unmarshalMetadata := fun b =>
    match b with
    | [n] => Except.ok n
    | _ => Except.error (errorf "bad metadata")
  unmarshalRequestByUrl := fun b => Except.ok (String.mk (b.map Char.ofNat))
  unmarshalRequestByChainId := fun b =>
    if b.length < 32 then Except.error (errorf "insufficient data for chain id")
    else Except.ok (b.take 32)
  marshalResponseByChainId := fun obj => Except.ok obj.Entry
  marshalDirectoryResult := fun entries => Except.ok (entries.map String.length)
  queryTypeName := fun _ => "query"
  queryTypeNumber := fun _ => 0
  uint64Rest := fun b => b.tail
  bytesSlice := fun b =>
    match b with
    | [] => ([], [])
    | n :: rest => (rest.take n, rest.drop n)
  sigMarshal := fun sig =>
    sig.Nonce :: ((sig.PublicKey.length :: sig.PublicKey) ++ (sig.Signature.length :: sig.Signature))
  sigUnmarshal := fun b =>
    match b with
    | nonce :: n :: rest =>
      match rest.drop n with
      | k :: rest2 =>
        ({ Nonce := nonce, PublicKey := rest.take n, Signature := rest2.take k }, rest2.drop k)
      | [] => ({ Nonce := nonce, PublicKey := rest.take n, Signature := [] }, [])
    | _ => ({ Nonce := 0, PublicKey := [], Signature := [] }, [])
  sigVerify := fun sig digest => sig.Signature == sig.PublicKey ++ digest
  chainIdFromChainPath := fun s => toBytes32 (exampleChainId s)
  hostPort := examplePort
  parseIP := exampleParseIP
  ipText := dottedQuad
  bytesSlicePanic := fun b =>
    match b with
    | [] => none
    | n :: rest => if rest.length < n then some "slice bounds out of range" else none
  slicePanicText := fun _ _ => "slice bounds out of range"
  bytes32FromBytes := fun b => if b.length = 32 then b else zeroBytes32

/-- The example committed state: the key book, its page, Alice's token account
and a lite account exist; nothing else does. -/
def exampleDB : DBTransaction where
  committed := fun id =>
    if id = toBytes32 [1] then Except.ok { Entry := [1] }
    else if id = toBytes32 [2] then Except.ok { Entry := [2] }
    else if id = toBytes32 [3] then Except.ok { Entry := [3] }
    else if id = toBytes32 [4] then Except.ok { Entry := [4] }
    else Except.error ErrNotFound
  committedKV := fun _ => Except.error ErrNotFound
  stateEntries := []
  transactions := []
  synthTxs := []
  writes := []

/-- The example state database, the committed state of `exampleDB`: the same
four chain objects, no transaction, an empty index. -/
def exampleStateDB : StateDB where
  entries := exampleDB.committed
  txEntries := fun _ => Except.error ErrNotFound
  txs := fun _ => Except.error ErrNotFound
  pendingTxs := fun _ => Except.error ErrNotFound
  synthTxIds := fun _ => Except.error ErrNotFound
  txRange := fun _ _ _ => Except.ok ([], 0)
  kv := exampleDB.committedKV

/-- A user executor that accepts every transaction and stages nothing. -/
def acceptAll (n : Nat) : TxExecutor where
  type := TxType.user n
  Validate := fun st _ _ => Except.ok st

/-- A user executor whose `Validate` stages an update of Bob's token account,
a record that is not in the database. -/
def updateBob : TxExecutor where
  type := TxType.user 4
  Validate := fun st _ _ =>
    st.Update exampleEnv
      [{ kind := RecordKind.TokenAccount
         data := { header := { type := ChainType.TokenAccount, ChainUrl := "acc://bob/tokens"
                               SigSpecId := toBytes32 [1] }
                   Nonce := 0, Keys := [], SigSpecs := [], payload := [5] } }]

/-- The genesis executor of the examples: it accepts and stages nothing. -/
def exampleGenesis : TxExecutor where
  type := TxType.SyntheticGenesis
  Validate := fun st _ _ => Except.ok st

/-- The example executor at the start of a block. -/
def exampleExecutor : Executor where
  db := exampleStateDB
  executors := [exampleGenesis, acceptAll 3, updateBob]
  key := List.replicate 64 1
  leader := false
  height := 1
  dbTx := exampleDB

/-- An envelope for Alice's token account, signed with key `[7, 7]` at the
given nonce, with the given body. -/
def aliceTx (nonce : Nat) (body : Bytes) : GenTransaction where
  Signature := [{ Nonce := nonce, PublicKey := [7, 7], Signature := [1] }]
  Routing := 0
  ChainID := toBytes32 [3]
  SigInfo := some { URL := "acc://alice/tokens", MSHeight := 1, PriorityIdx := 0, Nonce := nonce }
  Transaction := some body

/-- A state manager with nothing loaded or staged, for a transaction of the
given type with hash `[1]`. -/
def emptyManager (txType : TxType) : StateManager where
  stores := []
  chains := []
  writes := []
  submissions := []
  storeCount := 0
  txHash := toBytes32 [1]
  txType := txType
  Sponsor := none
  SponsorUrl := none
  SponsorChainId := zeroBytes32

/-- The example token account with the given URL and payload. -/
def exampleAccount (url : String) (payload : Bytes) : Record where
  kind := RecordKind.TokenAccount
  data := { header := { type := ChainType.TokenAccount, ChainUrl := url, SigSpecId := toBytes32 [1] }
            Nonce := 0, Keys := [], SigSpecs := [], payload := payload }

/-- The staged update of Alice's token account, which is in the database. -/
def aliceStore : storeState where
  isCreate := false
  order := 0
  chainId := toBytes32 [3]
  record := exampleAccount "acc://alice/tokens" [3]

/-- The staged update of Bob's token account, which is not in the database. -/
def bobStore : storeState where
  isCreate := false
  order := 1
  chainId := toBytes32 [5]
  record := exampleAccount "acc://bob/tokens" [5]

/-- A state manager of a user transaction after `Update` of Alice's and of
Bob's token account. -/
def stagedManager : StateManager :=
  { emptyManager (TxType.user 4) with
    stores := [bobStore, aliceStore]
    chains := [(toBytes32 [5], bobStore.record), (toBytes32 [3], aliceStore.record)]
    storeCount := 2 }

/-- The example record decoded from the given entry, as a record of the given
Go type. -/
def exampleRecord (kind : RecordKind) (entry : Bytes) : Record where
  kind := kind
  data := ((exampleRecords.find? (fun p => p.1 == entry)).map (fun p => p.2)).getD
    { header := { type := ChainType.unknown 0, ChainUrl := "", SigSpecId := zeroBytes32 }
      Nonce := 0, Keys := [], SigSpecs := [], payload := [] }

/-- The state manager `NewStateManager` builds for Alice's transaction: her
token account is loaded as the sponsor. -/
def aliceManager : StateManager where
  stores := []
  chains := [(toBytes32 [3], exampleRecord RecordKind.TokenAccount [3])]
  writes := []
  submissions := []
  storeCount := 0
  txHash := toBytes32 [3, 1, 6]
  txType := TxType.user 3
  Sponsor := some (exampleRecord RecordKind.TokenAccount [3])
  SponsorUrl := some { UserInfo := "", Authority := "alice", Path := "/tokens", Query := "", Fragment := "" }
  SponsorChainId := toBytes32 [3]

/-- An envelope for the example lite account, signed with key `[7, 7]` at the
given nonce. -/
def liteTx (nonce : Nat) : GenTransaction where
  Signature := [{ Nonce := nonce, PublicKey := [7, 7], Signature := [1] }]
  Routing := 0
  ChainID := toBytes32 [4]
  SigInfo := some { URL := "acc://lite/ACME", MSHeight := 1, PriorityIdx := 0, Nonce := nonce }
  Transaction := some [3, 1]

/-- An envelope sponsored by Bob's token account, which is not in the database,
with the given body. -/
def bobTx (body : Bytes) : GenTransaction where
  Signature := [{ Nonce := 1, PublicKey := [7, 7], Signature := [1] }]
  Routing := 0
  ChainID := toBytes32 [5]
  SigInfo := some { URL := "acc://bob/tokens", MSHeight := 1, PriorityIdx := 0, Nonce := 1 }
  Transaction := some body

/-- A well-formed genesis envelope: the body starts with the genesis
discriminant of the example environment. -/
def genesisTx : GenTransaction where
  Signature := []
  Routing := 0
  ChainID := toBytes32 [0]
  SigInfo := some { URL := "acc://ACME", MSHeight := 1, PriorityIdx := 0, Nonce := 1 }
  Transaction := some [0]

/-- A genesis envelope whose chain ID is empty instead of 32 bytes long. -/
def shortGenesisTx : GenTransaction :=
  { genesisTx with ChainID := [] }

/-- A genesis envelope whose sponsor URL has a scheme other than `acc`. -/
def httpGenesisTx : GenTransaction :=
  { genesisTx with SigInfo := some { URL := "http://ACME", MSHeight := 1, PriorityIdx := 0, Nonce := 1 } }

/-- A staged record of the examples: the token account with the given URL,
payload and chain ID, at the given position. -/
def exampleStore (isCreate : Bool) (order : Nat) (chainId : Nat) (url : String) : storeState where
  isCreate := isCreate
  order := order
  chainId := toBytes32 [chainId]
  record := exampleAccount url [chainId]

/-- A state manager of a user transaction after `Create` of Bob's token account,
`Update` of Alice's, `Create` of Carol's and `Create` of Bob's savings account,
whose URL spells the identity `Bob`; the map `stores` is in no particular
order. -/
def creatingManager : StateManager :=
  { emptyManager (TxType.user 4) with
    stores := [exampleStore true 3 8 "acc://Bob/savings", exampleStore false 1 3 "acc://alice/tokens",
               exampleStore true 0 5 "acc://bob/tokens", exampleStore true 2 9 "acc://carol/tokens"]
    storeCount := 4 }
/-- A sequence of calls of the examples: `Create` of Bob's token account,
`Update` of Alice's, `Create` of Carol's. -/
def exampleCalls : List (Bool × Record) :=
  [(true, exampleAccount "acc://bob/tokens" [5]), (false, exampleAccount "acc://alice/tokens" [3]),
   (true, exampleAccount "acc://carol/tokens" [9])]

/-- The state manager of a user transaction after the example calls. -/
def calledManager : StateManager :=
  { emptyManager (TxType.user 4) with
    stores := [exampleStore true 0 5 "acc://bob/tokens", exampleStore false 1 3 "acc://alice/tokens",
               exampleStore true 2 9 "acc://carol/tokens"]
    chains := [(toBytes32 [9], exampleAccount "acc://carol/tokens" [9]),
               (toBytes32 [3], exampleAccount "acc://alice/tokens" [3]),
               (toBytes32 [5], exampleAccount "acc://bob/tokens" [5])]
    storeCount := 3 }


/-- A sequence of calls of the examples that stages two chain IDs twice:
`Create` of Alice's token account, `Update` of Bob's, then `Update` of
Alice's and `Create` of Bob's, with other payloads. -/
def restagedCalls : List (Bool × Record) :=
  [(true, exampleAccount "acc://alice/tokens" [3]), (false, exampleAccount "acc://bob/tokens" [5]),
   (false, exampleAccount "acc://alice/tokens" [33]), (true, exampleAccount "acc://bob/tokens" [55])]

/-- The state manager of a user transaction after the calls that stage two chain
IDs twice. -/
def restagedManager : StateManager :=
  match (emptyManager (TxType.user 4)).stageAll exampleEnv restagedCalls with
  | Except.ok m => m
  | Except.error _ => emptyManager (TxType.user 4)

/-- The example database with the synthetic transaction counter at its largest
value, 2^64 - 1. -/
def wrapDB : DBTransaction :=
  { exampleDB with
    committedKV := fun k =>
      if k = [1] then Except.ok [18446744073709551615] else Except.error ErrNotFound }

/-- Two submissions of the examples, to Bob's and to Carol's identity. -/
def exampleSubmissions : List submittedTx :=
  [{ url := { UserInfo := "", Authority := "bob", Path := "", Query := "", Fragment := "" }
     body := Body.other [1, 5] },
   { url := { UserInfo := "", Authority := "carol", Path := "", Query := "", Fragment := "" }
     body := Body.other [1, 9] }]

/-- A state manager of a user transaction with the two example submissions
queued. -/
def submittingManager : StateManager :=
  { emptyManager (TxType.user 3) with submissions := exampleSubmissions }

/-- The example executor as the leader of the block. -/
def leaderExecutor : Executor := { exampleExecutor with leader := true }

/-- The example environment with storage keys that tell the keys of an index
apart: the integer key `n` is stored under `[1, n]`, a text key under `[0]`. -/
def indexEnv : Env :=
  { exampleEnv with
    computeKey := fun parts =>
      match parts with
      | [_, _, KeyPart.uint n] => [1, n]
      | [_, _, KeyPart.str _] => [0]
      | _ => [2, parts.length] }

/-- Two URLs of Bob's identity. -/
def bobUrls : List URL :=
  [{ UserInfo := "", Authority := "bob", Path := "/tokens", Query := "", Fragment := "" },
   { UserInfo := "", Authority := "bob", Path := "/savings", Query := "", Fragment := "" }]

/-- The state manager of a user transaction after `AddDirectoryEntry` of the
two URLs of Bob's identity. -/
def directoryManager : StateManager :=
  match StateManager.addDirectoryEntries indexEnv exampleDB (emptyManager (TxType.user 3)) bobUrls with
  | Except.ok m => m
  | Except.error _ => emptyManager (TxType.user 3)

/-- A user executor whose `Validate` stages an update of Alice's token account,
a record that is in the database, with a new payload. -/
def updateAlice : TxExecutor where
  type := TxType.user 5
  Validate := fun st _ _ => st.Update exampleEnv [exampleAccount "acc://alice/tokens" [5]]

/-- The example executor with the executor that updates Alice's account. -/
def queryExecutor : Executor := { exampleExecutor with executors := [updateAlice] }

/-- An envelope sponsored by Alice's token account, correctly signed at the
given nonce, that carries the chain ID of Bob's token account. -/
def misfiledTx (nonce : Nat) : GenTransaction :=
  { aliceTx nonce [3, 1] with ChainID := toBytes32 [5] }

/-- A URL with a port in its authority. -/
def portUrl : URL :=
  { UserInfo := "", Authority := "example.com:80", Path := "", Query := "", Fragment := "" }

/-- A URL of Alice's identity whose path has an upper-case letter. -/
def mixedCaseUrl : URL :=
  { UserInfo := "", Authority := "alice", Path := "/Tokens", Query := "", Fragment := "" }

/-- The URL of Bob's token account. -/
def bobTokensUrl : URL :=
  { UserInfo := "", Authority := "bob", Path := "/tokens", Query := "", Fragment := "" }

/-- What Go's `net/url.Parse` returns on six inputs, and elsewhere the toy
parser of the other fixtures.  `a b` is a relative path, but a host may not
hold a space;
in `example.com:80/path` the text before the colon is read as the scheme and
the rest is opaque; the user name `user%3A` decodes to `user:`. -/
def tableUrlParse (s : String) : Except Error NetURL :=
  if s = "a b" then
    Except.ok { Scheme := "", User := none, Host := "", Path := "a b", RawQuery := "", Fragment := "" }
  else if s = "acc://a b" then
    Except.error (errorf "parse \"acc://a b\": invalid character \" \" in host name")
  else if s = "example.com:80/path" then
    Except.ok { Scheme := "example.com", User := none, Host := "", Path := "", RawQuery := ""
                Fragment := "" }
  else if s = "acc://example.com:80/path" then
    Except.ok { Scheme := "acc", User := none, Host := "example.com:80", Path := "/path"
                RawQuery := "", Fragment := "" }
  else if s = "acc://user%3A@host" then
    Except.ok { Scheme := "acc", User := some ("user:", ""), Host := "host", Path := ""
                RawQuery := "", Fragment := "" }
  else if s = "acc://user@host" then
    Except.ok { Scheme := "acc", User := some ("user", ""), Host := "host", Path := ""
                RawQuery := "", Fragment := "" }
  else exampleNetUrlParse s

/-- The text of a `net/url.URL` none of whose parts needs escaping: scheme, user
name and password, host, path. -/
def tableUrlString (u : NetURL) : String :=
  u.Scheme ++ "://" ++
    (match u.User with
     | none => ""
     | some (name, pw) => name ++ (if pw ≠ "" then ":" ++ pw else "") ++ "@") ++
    u.Host ++ u.Path

/-- The example environment with the table of `net/url` results. -/
def tableEnv : Env :=
  { exampleEnv with netUrlParse := tableUrlParse, netUrlString := tableUrlString }

/-- A signature of the examples. -/
def exampleSig : ED25519Sig := { Nonce := 1, PublicKey := [7, 7], Signature := [1] }

/-- An envelope of `types/proto` with the given number of signatures. -/
def protoTx (n : Nat) : proto.GenTransaction :=
  { Signature := List.replicate n exampleSig, Routing := 42, ChainID := toBytes32 [3]
    Transaction := [3, 1] }

/-- A fresh envelope of `types/proto`. -/
def freshProtoTx : proto.GenTransaction :=
  { Signature := [], Routing := 0, ChainID := [], Transaction := [] }

/-- A signature by the key `[7, 7]` that the example scheme accepts for the
signed part of the envelopes below. -/
def signedPartSig : ED25519Sig :=
  { Nonce := 1, PublicKey := [7, 7], Signature := [7, 7, 42, 32] ++ toBytes32 [3] }

/-- An envelope of `types/proto` with one signature over its routing and chain
ID, and the given transaction. -/
def signedProtoTx (body : Bytes) : proto.GenTransaction :=
  { Signature := [signedPartSig], Routing := 42, ChainID := toBytes32 [3], Transaction := body }

/-- The example environment with a database layer whose `AddTransaction` fails. -/
def fullDiskEnv : Env :=
  { exampleEnv with addTransactionError := fun _ _ _ _ => some (errorf "no space left on device") }

/-- A toy `net/url` parser for listen addresses: `tcp://host` with or without a
port, and nothing else. -/
def listenUrlParse (s : String) : Except Error NetURL :=
  if "tcp://".data.isPrefixOf s.data then
    Except.ok { Scheme := "tcp", User := none, Host := String.mk (s.data.drop 6), Path := ""
                RawQuery := "", Fragment := "" }
  else Except.error (errorf "unsupported listen address")

/-- The example environment with the parser of listen addresses. -/
def listenEnv : Env :=
  { exampleEnv with netUrlParse := listenUrlParse, netUrlString := tableUrlString }

/-- The example environment with the bytes of a text being the numbers of its
characters. -/
def textEnv : Env :=
  { exampleEnv with stringBytes := fun s => s.data.map Char.toNat }

/-- The example environment in which `ComputeKey` is the hash of the
length-prefixed encoding of the bucket and the parts. -/
def bucketEnv : Env :=
  { textEnv with computeKey := fun parts => textEnv.sha256 (keyEncoding textEnv parts) }

/-- An empty KV manager: nothing is stored, no batch is in progress. -/
def emptyKV : Manager := { DB := fun _ => Except.error ErrNotFound, txCache := [] }

/-- The example environment with a byte-slice codec whose length prefix is as
long as the unsigned varint of the length: zeros, then the length plus one. -/
def varintEnv : Env :=
  { exampleEnv with
    sliceBytes := fun b => List.replicate (putUvarintSize 9 b.length - 1) 0 ++ (b.length + 1) :: b
    bytesSlice := fun data =>
      match data.dropWhile (fun x => x == 0) with
      | [] => ([], [])
      | n :: rest => (rest.take (n - 1), rest.drop (n - 1))
    bytesSlicePanic := fun data =>
      match data.dropWhile (fun x => x == 0) with
      | [] => none
      | n :: rest => if rest.length < n - 1 then some "slice bounds out of range" else none }

/-- A response of the examples, with an empty list of synthetic transaction
IDs. -/
def exampleResponse : ResponseByTxId :=
  { TxId := toBytes32 [6], TxState := [7], TxPendingState := [8, 8], TxSynthTxIds := [] }

/-- A history of the examples, of two transactions. -/
def exampleHistory : ResponseTxHistory :=
  { Transactions := [exampleResponse, { exampleResponse with TxId := toBytes32 [9], TxState := [] }]
    Total := 12 }
/-! ## Theorems -/

/-! ### The loop of `commit` -/

/-- The loop over a concatenation runs the first part, and the second part only
when the first ended without error. -/
theorem commitLoop_append (env : Env) (pre post : List storeState) (s : CommitState) :
    commitLoop env (pre ++ post) s =
      match commitLoop env pre s with
      | (none, s1) => commitLoop env post s1
      | (some e, s1) => (some e, s1) := by
  induction pre generalizing s with
  | nil => simp [commitLoop]
  | cons store rest ih =>
    simp only [List.cons_append, commitLoop]
    cases h : commitStore env s store with
    | error e => simp
    | ok s1 => simpa using ih s1

/-- One successful iteration of the loop of `commit` keeps the hash and the type
of the transaction and the committed state the DBTx was opened on. -/
theorem commitStore_frame (env : Env) (s s1 : CommitState) (store : storeState)
    (h : commitStore env s store = Except.ok s1) :
    s1.m.txHash = s.m.txHash ∧ s1.m.txType = s.m.txType ∧ s1.db.committed = s.db.committed ∧
      s1.db.transactions = s.db.transactions := by
  unfold commitStore at h
  cases hm : env.marshalRecord store.record with
  | error e => simp [hm] at h
  | ok data =>
    simp only [hm] at h
    by_cases hc : store.isCreate = true
    · simp only [hc, if_true] at h
      unfold commitCreate at h
      cases hu : store.record.Header.ParseUrl env with
      | error e => simp [hu] at h
      | ok u =>
        simp only [hu] at h
        cases hl : lookupCreate s.create (env.toLower (u.Identity.toText env)) with
        | some i =>
          simp only [hl, Except.ok.injEq] at h
          subst h
          simp
        | none =>
          simp only [hl] at h
          unfold StateManager.Submit at h
          by_cases hs : s.m.txType.IsSynthetic = true
          · simp [hs] at h
          · simp only [hs, Bool.false_eq_true, if_false, Except.ok.injEq] at h
            subst h
            simp
    · simp only [hc, Bool.false_eq_true, if_false] at h
      unfold commitUpdate at h
      have hw : ∀ t : CommitState,
          (Except.ok { s with db := s.db.AddStateEntry store.chainId s.m.txHash { Entry := data } } :
            Except Error CommitState) = Except.ok t →
          t.m.txHash = s.m.txHash ∧ t.m.txType = s.m.txType ∧ t.db.committed = s.db.committed ∧
            t.db.transactions = s.db.transactions := by
        intro t ht
        simp only [Except.ok.injEq] at ht
        subst ht
        simp [DBTransaction.AddStateEntry]
      cases hp : s.db.GetPersistentEntry store.chainId with
      | ok obj => simp only [hp] at h; exact hw _ h
      | error err =>
        simp only [hp] at h
        split at h
        · simp at h
        · split at h
          · exact hw _ h
          · split at h
            · exact hw _ h
            · simp at h

/-- The loop of `commit` keeps the hash and the type of the transaction and the
committed state the DBTx was opened on, whether it ends with an error or not. -/
theorem commitLoop_frame (env : Env) (l : List storeState) (s : CommitState) :
    (commitLoop env l s).2.m.txHash = s.m.txHash ∧ (commitLoop env l s).2.m.txType = s.m.txType ∧
      (commitLoop env l s).2.db.committed = s.db.committed ∧
      (commitLoop env l s).2.db.transactions = s.db.transactions := by
  induction l generalizing s with
  | nil => simp [commitLoop]
  | cons store rest ih =>
    simp only [commitLoop]
    cases h : commitStore env s store with
    | error e => simp
    | ok s1 =>
      have h1 := commitStore_frame env s s1 store h
      have h2 := ih s1
      simp only
      exact ⟨h2.1.trans h1.1, h2.2.1.trans h1.2.1, h2.2.2.1.trans h1.2.2.1, h2.2.2.2.trans h1.2.2.2⟩

/-- Flushing the index writes does not touch the committed chain state. -/
theorem flushWrites_committed (writes : List (Bytes × Bytes)) (db : DBTransaction) :
    (flushWrites db writes).committed = db.committed := by
  unfold flushWrites
  induction writes generalizing db with
  | nil => rfl
  | cons w rest ih => simpa [List.foldl, DBTransaction.Write] using ih (db.Write w.1 w.2)

/-- Flushing the index writes does not touch the transaction records. -/
theorem flushWrites_transactions (writes : List (Bytes × Bytes)) (db : DBTransaction) :
    (flushWrites db writes).transactions = db.transactions := by
  unfold flushWrites
  induction writes generalizing db with
  | nil => rfl
  | cons w rest ih => simpa [List.foldl, DBTransaction.Write] using ih (db.Write w.1 w.2)

/-- The state-manager `commit` adds no transaction record to the DBTx. -/
theorem commit_transactions (env : Env) (st : StateManager) (db : DBTransaction) :
    (st.commit env db).2.2.transactions = db.transactions := by
  have h := (commitLoop_frame env (sortedStores st) (commitStart st db)).2.2.2
  simpa [StateManager.commit, commitResult, commitStart, flushWrites_transactions] using h

/-- C1. `StateManager.commit`, for every staged update: when the loop of `commit`
reaches an update-staged record `store` (the records `pre` before it, in
insertion order, having been flushed without error, leaving the loop in state
`s1`), then (1) if the chain ID has a persisted entry (`GetPersistentEntry`
succeeds), or the entry is absent (not found) and the record is a
transaction-type record or the current transaction type is synthetic, the
update is written with `AddStateEntry` and the loop goes on with the records
`post`; (2) if the entry is absent and neither holds, `commit` fails with
"cannot create a data record in a non-synthetic transaction" and the DBTx is
left as it was when the record was reached: the record is not written. -/
theorem commit_update_existence_rule (env : Env) (st : StateManager) (db : DBTransaction)
    (pre post : List storeState) (store : storeState) (data : Bytes) (s1 : CommitState)
    (hsplit : sortedStores st = pre ++ store :: post)
    (hpre : commitLoop env pre (commitStart st db) = (none, s1))
    (hupd : store.isCreate = false)
    (hdata : env.marshalRecord store.record = Except.ok data) :
    ((∃ obj, db.GetPersistentEntry store.chainId = Except.ok obj) ∨
      ((∃ err, db.GetPersistentEntry store.chainId = Except.error err ∧ err.isNotFound = true) ∧
        (store.record.Header.type.IsTransaction = true ∨ st.txType.IsSynthetic = true)) →
      st.commit env db = commitResult (commitLoop env post
        { s1 with db := s1.db.AddStateEntry store.chainId st.txHash { Entry := data } })) ∧
    ((∃ err, db.GetPersistentEntry store.chainId = Except.error err ∧ err.isNotFound = true) →
      store.record.Header.type.IsTransaction = false → st.txType.IsSynthetic = false →
      st.commit env db =
        (some (errorf "cannot create a data record in a non-synthetic transaction"), s1.m, s1.db)) := by
  have hfr := commitLoop_frame env pre (commitStart st db)
  rw [hpre] at hfr
  obtain ⟨hh, ht, hc, -⟩ := hfr
  simp only [commitStart] at hh ht hc
  have hcomm : s1.db.GetPersistentEntry store.chainId = db.GetPersistentEntry store.chainId := by
    simp only [DBTransaction.GetPersistentEntry, hc, flushWrites_committed]
  have hcommit : st.commit env db = commitResult (commitLoop env (store :: post) s1) := by
    simp only [StateManager.commit, hsplit, commitLoop_append, hpre]
  have hstore : commitStore env s1 store = commitUpdate s1 store data := by
    simp [commitStore, hdata, hupd]
  constructor
  · intro h
    have hw : commitStore env s1 store =
        Except.ok { s1 with db := s1.db.AddStateEntry store.chainId st.txHash { Entry := data } } := by
      rw [hstore]
      unfold commitUpdate
      rw [hcomm, hh]
      rcases h with ⟨obj, hobj⟩ | ⟨⟨err, herr, hnf⟩, hor⟩
      · simp [hobj]
      · simp only [herr, hnf, ht]
        rcases hor with h1 | h1 <;> simp [h1]
    rw [hcommit]
    simp only [commitLoop, hw]
  · rintro ⟨err, herr, hnf⟩ h1 h2
    have hw : commitStore env s1 store =
        Except.error (errorf "cannot create a data record in a non-synthetic transaction") := by
      rw [hstore]
      unfold commitUpdate
      rw [hcomm]
      simp [herr, hnf, ht, h1, h2]
    rw [hcommit]
    simp only [commitLoop, hw, commitResult]

/-- C1, at a concrete input: a user transaction that staged an update of Alice's
token account (persisted) and then of Bob's (absent): the first is written,
the second makes `commit` fail and is not written. -/
theorem commit_update_existence_rule_witness :
    (stagedManager.commit exampleEnv exampleDB).1 =
      some (errorf "cannot create a data record in a non-synthetic transaction") ∧
    (stagedManager.commit exampleEnv exampleDB).2.2.stateEntries =
      [{ chainId := toBytes32 [3], txHash := toBytes32 [1], object := { Entry := [3] } }] :=
  have h := (commit_update_existence_rule exampleEnv stagedManager exampleDB [aliceStore] [] bobStore [5]
    (commitLoop exampleEnv [aliceStore] (commitStart stagedManager exampleDB)).2
    (by decide) (by rfl) (by rfl) (by rfl)).2 ⟨ErrNotFound, by rfl, by rfl⟩ (by rfl) (by rfl)
  ⟨by rw [h], by rw [h]; rfl⟩
/-! ### `DeliverTx` -/

/-- Taking the next synthetic-transaction number adds no transaction record. -/
theorem nextSynthCount_transactions (env : Env) (db : DBTransaction) :
    (nextSynthCount env db).2.transactions = db.transactions := by
  simp only [nextSynthCount]
  split
  · simp [DBTransaction.Write]
  · split <;> simp [DBTransaction.Write]

/-- Producing the synthetic transactions adds no transaction record. -/
theorem submitLoop_transactions (env : Env) (leader : Bool) (height : Int) (key parentTxId : Bytes)
    (subs : List submittedTx) (db : DBTransaction) (refs : List TxSynthRef) :
    (submitLoop env leader height key parentTxId subs db refs).2.transactions = db.transactions := by
  induction subs generalizing db refs with
  | nil => simp [submitLoop]
  | cons sub rest ih =>
    unfold submitLoop
    cases hb : env.marshalBody sub.body with
    | error e => simp
    | ok body =>
      simp only
      have hn := nextSynthCount_transactions env db
      cases hc : nextSynthCount env db with
      | mk r db1 =>
        rw [hc] at hn
        simp only at hn
        cases r with
        | error e => simpa using hn
        | ok n =>
          simp only
          split
          · simpa using hn
          · split
            · split
              · simp [DBTransaction.AddSynthTx, hn]
              · split
                · simp [DBTransaction.AddSynthTx, hn]
                · split
                  · simp [DBTransaction.AddSynthTx, hn]
                  · rw [ih]; simp [DBTransaction.AddSynthTx, hn]
            · rw [ih]; simp [DBTransaction.AddSynthTx, hn]

/-- The accepted body read back for a hash is the one of the last record, when
that record is for the hash and has a body. -/
theorem getTx_append (db : DBTransaction) (l : List TxRecord) (r : TxRecord) (a : Object)
    (hl : db.transactions = l ++ [r]) (ha : r.accepted = some a) :
    db.GetTx r.txId = some a := by
  simp [DBTransaction.GetTx, hl, ha]

/-- The pending envelope read back for a hash is the one of the last record,
when that record is for the hash. -/
theorem getPendingTx_append (db : DBTransaction) (l : List TxRecord) (r : TxRecord)
    (hl : db.transactions = l ++ [r]) :
    db.GetPendingTx r.txId = some r.pending := by
  simp [DBTransaction.GetPendingTx, hl]

/-- When the tail of `DeliverTx` succeeds it has added exactly one transaction
record, with the accepted body and the pending envelope of status code "0". -/
theorem deliverAccepted_ok (env : Env) (ex ex1 : Executor) (tx : GenTransaction)
    (txPending : PendingTransaction) (chainId : Bytes) (st : StateManager) (r : TxResult)
    (h : ex.deliverAccepted env tx txPending chainId st = (Except.ok r, ex1)) :
    ∃ acceptedEntry pendingEntry : Bytes,
      env.marshalTransaction (NewTransaction txPending).1 = Except.ok acceptedEntry ∧
      env.marshalPending { (NewTransaction txPending).2 with Status := statusAccepted } =
        Except.ok pendingEntry ∧
      ex1.executors = ex.executors ∧
      ex1.dbTx.transactions = ex.dbTx.transactions ++
        [{ chainId := chainId, txId := env.transactionHash tx
           pending := { Entry := pendingEntry }, accepted := some { Entry := acceptedEntry } }] := by
  simp only [Executor.deliverAccepted] at h
  split at h
  · simp at h
  · rename_i acceptedEntry ha
    split at h
    · simp at h
    · rename_i pendingEntry hp
      split at h
      · simp at h
      · rename_i db1 hdb
        have hct := commit_transactions env st db1
        split at h
        · rename_i err st2 db2 hc
          split at h <;> simp at h
        · rename_i st2 db2 hc
          rw [hc] at hct
          simp only at hct
          split at h
          · simp at h
          · rename_i refs ex3 hs
            simp only [Prod.mk.injEq, Except.ok.injEq] at h
            obtain ⟨-, rfl⟩ := h
            simp only [Executor.submitSyntheticTx, Prod.mk.injEq] at hs
            obtain ⟨-, rfl⟩ := hs
            refine ⟨acceptedEntry, pendingEntry, ha, hp, rfl, ?_⟩
            simp only [submitLoop_transactions, hct]
            simp only [DBTransaction.AddTransaction] at hdb
            split at hdb
            · simp at hdb
            · simp only [Except.ok.injEq] at hdb
              subst hdb
              rfl

/-- C3. For every transaction T with hash H that `DeliverTx` accepts (returns
without error), the transaction records of the DBTx afterwards are those before
plus exactly one `AddTransaction` record for H, on the chain ID of the envelope,
whose accepted object is the marshalled accepted transaction, which holds T's
body, and whose pending object is the marshalled pending transaction with
status `{"code":"0"}`; so `GetTx(H)` returns that accepted object and
`GetPendingTx(H)` that pending object. -/
theorem deliverTx_accepted_records (env : Env) (ex ex1 : Executor) (tx : GenTransaction)
    (r : TxResult) (h : ex.DeliverTx env tx = (Except.ok r, ex1)) :
    ∃ acceptedEntry pendingEntry : Bytes,
      env.marshalTransaction (NewTransaction (NewPendingTransaction env tx)).1 = Except.ok acceptedEntry ∧
      (NewTransaction (NewPendingTransaction env tx)).1.Transaction = tx.Transaction ∧
      env.marshalPending { (NewTransaction (NewPendingTransaction env tx)).2 with Status := statusAccepted } =
        Except.ok pendingEntry ∧
      ex1.dbTx.transactions = ex.dbTx.transactions ++
        [{ chainId := toBytes32 tx.ChainID, txId := env.transactionHash tx
           pending := { Entry := pendingEntry }, accepted := some { Entry := acceptedEntry } }] ∧
      ex1.dbTx.GetTx (env.transactionHash tx) = some { Entry := acceptedEntry } ∧
      ex1.dbTx.GetPendingTx (env.transactionHash tx) = some { Entry := pendingEntry } := by
  simp only [Executor.DeliverTx] at h
  split at h
  · simp at h
  · split at h
    · simp at h
    · rename_i executor hx
      split at h
      · split at h <;> simp at h
      · rename_i st hchk
        split at h
        · split at h <;> simp at h
        · rename_i st1 hv
          obtain ⟨acceptedEntry, pendingEntry, ha, hp, -, ht⟩ := deliverAccepted_ok env _ ex1 tx _ _ st1 r h
          have ht2 : ex1.dbTx.transactions = ex.dbTx.transactions ++
              [{ chainId := toBytes32 tx.ChainID, txId := env.transactionHash tx
                 pending := { Entry := pendingEntry }, accepted := some { Entry := acceptedEntry } }] := by
            rw [ht]
            split <;> rfl
          exact ⟨acceptedEntry, pendingEntry, ha, rfl, hp, ht2,
            getTx_append ex1.dbTx _ _ _ ht2 rfl, getPendingTx_append ex1.dbTx _ _ ht2⟩

/-- C3, at a concrete input: Alice's transaction signed at nonce 6 is accepted,
and the DBTx then holds its body and its pending envelope with code "0". -/
theorem deliverTx_accepted_records_witness :
    (exampleExecutor.DeliverTx exampleEnv (aliceTx 6 [3, 1])).1 = Except.ok { SyntheticTxs := [] } ∧
    (exampleExecutor.DeliverTx exampleEnv (aliceTx 6 [3, 1])).2.dbTx.GetTx [3, 1, 6] =
      some { Entry := [3, 1] } ∧
    (exampleExecutor.DeliverTx exampleEnv (aliceTx 6 [3, 1])).2.dbTx.GetPendingTx [3, 1, 6] =
      some { Entry := examplePendingEntry [3, 1, 6] statusAccepted } := by
  obtain ⟨a, p, ha, -, hp, -, hg, hq⟩ := deliverTx_accepted_records exampleEnv exampleExecutor
    (exampleExecutor.DeliverTx exampleEnv (aliceTx 6 [3, 1])).2 (aliceTx 6 [3, 1])
    { SyntheticTxs := [] } (by rfl)
  have ha1 : a = [3, 1] := by
    have : (Except.ok [3, 1] : Except Error Bytes) = Except.ok a := ha
    injection this with h1
    exact h1.symm
  have hp1 : p = examplePendingEntry [3, 1, 6] statusAccepted := by
    have : (Except.ok (examplePendingEntry [3, 1, 6] statusAccepted) : Except Error Bytes) =
        Except.ok p := hp
    injection this with h1
    exact h1.symm
  subst ha1 hp1
  exact ⟨by rfl, hg, hq⟩
/-- C2 (the code at the failing input). Alice's transaction of type 4 passes
`check` and `Validate`, which stages an update of Bob's token account, a record
that does not exist; `commit` then fails and `DeliverTx` rejects the
transaction, but the accepted body was recorded before `commit` ran: the DBTx
holds, for the hash, the record with the accepted body and status code "0",
followed by the pending-only record with code "1", and `GetTx` returns the
body. -/
theorem deliverTx_commit_failure_keeps_accepted_body :
    (exampleExecutor.DeliverTx exampleEnv (aliceTx 6 [4, 1])).1 =
      Except.error (errorf "cannot create a data record in a non-synthetic transaction") ∧
    (exampleExecutor.DeliverTx exampleEnv (aliceTx 6 [4, 1])).2.dbTx.transactions =
      [{ chainId := toBytes32 [3], txId := [4, 1, 6]
         pending := { Entry := examplePendingEntry [4, 1, 6] statusAccepted }
         accepted := some { Entry := [4, 1] } },
       { chainId := toBytes32 [3], txId := [4, 1, 6]
         pending := { Entry := examplePendingEntry [4, 1, 6] (statusRejected
           "cannot create a data record in a non-synthetic transaction") }
         accepted := none }] ∧
    (exampleExecutor.DeliverTx exampleEnv (aliceTx 6 [4, 1])).2.dbTx.GetTx [4, 1, 6] =
      some { Entry := [4, 1] } := by
  refine ⟨by rfl, by rfl, by rfl⟩

/-- C4 (the code at the failing input). The key `[7, 7]` stands at nonce 5 on
the key page of Alice's key book: a transaction signed at nonce 5 fails `check`
with "invalid nonce", one signed at nonce 6 is accepted, and so is a second
one signed at nonce 6 delivered right after it, as is a replay of the first. -/
theorem deliverTx_same_nonce_accepted_twice :
    (exampleExecutor.DeliverTx exampleEnv (aliceTx 5 [3, 1])).1 =
      Except.error (errorf "failed check: invalid nonce") ∧
    (exampleExecutor.DeliverTx exampleEnv (aliceTx 6 [3, 1])).1 = Except.ok { SyntheticTxs := [] } ∧
    ((exampleExecutor.DeliverTx exampleEnv (aliceTx 6 [3, 1])).2.DeliverTx exampleEnv
      (aliceTx 6 [3, 2])).1 = Except.ok { SyntheticTxs := [] } ∧
    ((exampleExecutor.DeliverTx exampleEnv (aliceTx 6 [3, 1])).2.DeliverTx exampleEnv
      (aliceTx 6 [3, 1])).1 = Except.ok { SyntheticTxs := [] } := by
  refine ⟨by rfl, by rfl, by rfl, by rfl⟩
/-- A delivery that fails `check` (without a panic) records, when the pending
transaction marshals and the DBTx takes it, exactly one transaction record:
the pending envelope with status code "1" and the error of the check, and no
accepted body.  This is the path the failed `commit` does not follow. -/
theorem deliverTx_failed_check_records (env : Env) (ex : Executor) (tx : GenTransaction)
    (executor : TxExecutor) (err : Error) (entry : Bytes)
    (hwf : ¬ (tx.Transaction = none ∨ tx.SigInfo = none ∨ tx.ChainID.length ≠ 32))
    (hx : lookupExecutor ex.executors (env.transactionType tx.Transaction) = some executor)
    (hc : ex.check env tx = Except.error err) (hp : err.isPanic = false)
    (hm : env.marshalPending
      { NewPendingTransaction env tx with Status := statusRejected ("failed check: " ++ err.msg) } =
        Except.ok entry)
    (ha : env.addTransactionError (toBytes32 tx.ChainID) (env.transactionHash tx) { Entry := entry }
      none = none) :
    (ex.DeliverTx env tx).1 = Except.error (errorf ("failed check: " ++ err.msg)) ∧
    (ex.DeliverTx env tx).2.dbTx.transactions = ex.dbTx.transactions ++
      [{ chainId := toBytes32 tx.ChainID, txId := env.transactionHash tx
         pending := { Entry := entry }, accepted := none }] ∧
    "failed check: " ++ err.msg ≠ "" := by
  refine ⟨?_, ?_, ?_⟩
  · simp [Executor.DeliverTx, hwf, hx, hc, hp, Executor.recordTransactionError, errorf, hm,
      DBTransaction.AddTransaction, ha]
  · simp [Executor.DeliverTx, hwf, hx, hc, hp, Executor.recordTransactionError, errorf, hm,
      DBTransaction.AddTransaction, ha]
  · intro h
    have := congrArg String.length h
    simp only [String.length_append] at this
    have h14 : "failed check: ".length = 14 := by decide
    have h0 : "".length = 0 := by decide
    omega
/-! ### `check` -/

/-- For a signed transaction that is neither the genesis one nor synthetic and
whose sponsor was loaded, `check` is the type switch on the sponsor. -/
theorem check_eq_checkSponsor (env : Env) (ex : Executor) (tx : GenTransaction) (st : StateManager)
    (hg : env.transactionType tx.Transaction ≠ TxType.SyntheticGenesis)
    (hs : tx.Signature ≠ []) (hv : env.validateSig tx = true)
    (hn : (env.transactionType tx.Transaction).IsSynthetic = false)
    (hst : NewStateManager env ex.dbTx tx = (some st, none)) :
    ex.check env tx = checkSponsor env st ex.dbTx tx := by
  have hl : tx.Signature.length ≠ 0 := by
    intro h0
    exact hs (List.length_eq_zero.mp h0)
  simp [Executor.check, hg, hl, hv, hst, hn]

/-- C7. `Executor.check` determines the controlling key book from the record
type of the sponsor.  For a signed transaction that is neither the genesis one
nor synthetic and whose sponsor was loaded: (1) for an ADI, TokenAccount or
KeyPage sponsor whose header has an all-zero `SigSpecId`, `check` rejects with
"sponsor has not been assigned to an SSG"; (2) for such a sponsor with a
non-zero `SigSpecId`, `check` loads the key book from that ID and goes on with
it (`checkKeyBook`), and rejects with "invalid SigSpecId" when it does not
load as a key book; (3) for a KeyBook sponsor `check` goes on with the sponsor
itself; (4) for a Transaction, PendingTransaction or TransactionReference
sponsor `check` rejects with "invalid sponsor". -/
theorem check_key_book_by_sponsor_type (env : Env) (ex : Executor) (tx : GenTransaction)
    (st : StateManager) (sponsor : Record)
    (hg : env.transactionType tx.Transaction ≠ TxType.SyntheticGenesis)
    (hs : tx.Signature ≠ []) (hv : env.validateSig tx = true)
    (hn : (env.transactionType tx.Transaction).IsSynthetic = false)
    (hst : NewStateManager env ex.dbTx tx = (some st, none))
    (hsp : st.Sponsor = some sponsor) :
    ((sponsor.kind = RecordKind.AdiState ∨ sponsor.kind = RecordKind.TokenAccount ∨
        sponsor.kind = RecordKind.SigSpec) →
      (sponsor.Header.SigSpecId = zeroBytes32 →
        ex.check env tx = Except.error (errorf "sponsor has not been assigned to an SSG")) ∧
      (sponsor.Header.SigSpecId ≠ zeroBytes32 →
        (∀ sigGroup st1,
          st.LoadAs env ex.dbTx sponsor.Header.SigSpecId RecordKind.SigSpecGroup =
            (Except.ok sigGroup, st1) →
          ex.check env tx = checkKeyBook env st1 ex.dbTx tx sigGroup) ∧
        (∀ e st1,
          st.LoadAs env ex.dbTx sponsor.Header.SigSpecId RecordKind.SigSpecGroup =
            (Except.error e, st1) →
          ex.check env tx = Except.error (errorf ("invalid SigSpecId: " ++ e.msg))))) ∧
    (sponsor.kind = RecordKind.SigSpecGroup →
      ex.check env tx = checkKeyBook env st ex.dbTx tx sponsor) ∧
    ((sponsor.kind = RecordKind.Transaction ∨ sponsor.kind = RecordKind.PendingTransaction ∨
        sponsor.kind = RecordKind.TxReference) →
      ex.check env tx = Except.error (errorf ("invalid sponsor: chain type " ++
        env.chainTypeName sponsor.Header.type ++ " cannot sponsor transactions"))) := by
  rw [check_eq_checkSponsor env ex tx st hg hs hv hn hst]
  refine ⟨?_, ?_, ?_⟩
  · intro hk
    refine ⟨?_, ?_⟩
    · intro hz
      rcases hk with hk | hk | hk <;> simp [checkSponsor, hsp, hk, hz]
    · intro hz
      refine ⟨?_, ?_⟩
      · intro sigGroup st1 hl
        rcases hk with hk | hk | hk <;> simp [checkSponsor, hsp, hk, hz, hl]
      · intro e st1 hl
        rcases hk with hk | hk | hk <;> simp [checkSponsor, hsp, hk, hz, hl]
  · intro hk
    simp [checkSponsor, hsp, hk]
  · intro hk
    rcases hk with hk | hk | hk <;> simp [checkSponsor, hsp, hk]
/-- C8. For every signed non-genesis transaction whose sponsor record is not
found (the sponsor URL parses and the DBTx has no current entry for its
resource chain), `Executor.check` tolerates the missing sponsor when the type
is SyntheticCreateChain or SyntheticDepositTokens, returning without error a
state manager that has the sponsor URL and no sponsor, and for every other
type fails with a "sponsor not found" error. -/
theorem check_sponsor_not_found (env : Env) (ex : Executor) (tx : GenTransaction)
    (sigInfo : SignatureInfo) (u : URL) (err : Error)
    (hg : env.transactionType tx.Transaction ≠ TxType.SyntheticGenesis)
    (hs : tx.Signature ≠ []) (hv : env.validateSig tx = true)
    (hsi : tx.SigInfo = some sigInfo) (hu : URL.Parse env sigInfo.URL = Except.ok u)
    (hdb : ex.dbTx.GetCurrentEntry (toBytes32 (u.ResourceChain env)) = Except.error err)
    (hnf : err.isNotFound = true) :
    ((env.transactionType tx.Transaction = TxType.SyntheticCreateChain ∨
        env.transactionType tx.Transaction = TxType.SyntheticDepositTokens) →
      ∃ st, ex.check env tx = Except.ok st ∧ st.Sponsor = none ∧ st.SponsorUrl = some u) ∧
    (env.transactionType tx.Transaction ≠ TxType.SyntheticCreateChain →
      env.transactionType tx.Transaction ≠ TxType.SyntheticDepositTokens →
      ex.check env tx = Except.error
        (errorf ("sponsor not found: " ++ ("sponsor \"" ++ u.toText env ++ "\" " ++ err.msg)))) := by
  have hl : tx.Signature.length ≠ 0 := by
    intro h0
    exact hs (List.length_eq_zero.mp h0)
  have hnew : NewStateManager env ex.dbTx tx =
      (some { stores := [], chains := [], writes := [], submissions := [], storeCount := 0
              txHash := toBytes32 (env.transactionHash tx)
              txType := env.transactionType tx.Transaction
              Sponsor := none, SponsorUrl := some u
              SponsorChainId := toBytes32 (u.ResourceChain env) },
       some { msg := "sponsor \"" ++ u.toText env ++ "\" " ++ err.msg, kind := ErrKind.notFound }) := by
    simp [NewStateManager, hg, hsi, hu, StateManager.Load, lookupChain, hdb, hnf]
  constructor
  · intro ht
    refine ⟨{ stores := [], chains := [], writes := [], submissions := [], storeCount := 0
              txHash := toBytes32 (env.transactionHash tx)
              txType := env.transactionType tx.Transaction
              Sponsor := none, SponsorUrl := some u
              SponsorChainId := toBytes32 (u.ResourceChain env) }, ?_, rfl, rfl⟩
    rcases ht with ht | ht <;>
      simp [Executor.check, hl, hv, hnew, ht, Error.isNotFound, TxType.IsSynthetic, checkSynthetic]
  · intro h1 h2
    simp only [Executor.check, hg, hl, hv, hnew, if_false, Bool.not_true, Bool.false_eq_true]
    cases htt : env.transactionType tx.Transaction <;>
      simp_all [Error.isNotFound]
/-- The loop over the signatures accepts exactly when every signature has its
key on the page with a stored nonce below its own. -/
theorem checkSignatures_none_iff (env : Env) (page : Record) (sigs : List ED25519Sig) (i : Nat) :
    checkSignatures env page sigs i = none ↔
      ∀ sig ∈ sigs, ∃ ks, env.findKey page sig.PublicKey = some ks ∧ ks.Nonce < sig.Nonce := by
  induction sigs generalizing i with
  | nil => simp [checkSignatures]
  | cons sig rest ih =>
    simp only [checkSignatures, List.mem_cons, forall_eq_or_imp]
    cases hk : env.findKey page sig.PublicKey with
    | none => simp
    | some ks =>
      by_cases hlt : ks.Nonce < sig.Nonce
      · have : ¬ (ks.Nonce ≥ sig.Nonce) := by omega
        simp [this, hlt, ih]
      · have : ks.Nonce ≥ sig.Nonce := by omega
        simp [this, hlt]

/-- The loop over the signatures stops at the first signature that fails, with
the error of that signature. -/
theorem checkSignatures_first_failure (env : Env) (page : Record) (pre post : List ED25519Sig)
    (sig : ED25519Sig) (i : Nat)
    (hpre : ∀ s ∈ pre, ∃ ks, env.findKey page s.PublicKey = some ks ∧ ks.Nonce < s.Nonce) :
    (env.findKey page sig.PublicKey = none →
      checkSignatures env page (pre ++ sig :: post) i =
        some (errorf ("no key spec matches signature " ++ toString (i + pre.length)))) ∧
    (∀ ks, env.findKey page sig.PublicKey = some ks → sig.Nonce ≤ ks.Nonce →
      checkSignatures env page (pre ++ sig :: post) i = some (errorf "invalid nonce")) := by
  induction pre generalizing i with
  | nil =>
    constructor
    · intro hk
      simp [checkSignatures, hk]
    · intro ks hk hle
      simp [checkSignatures, hk, hle]
  | cons s rest ih =>
    obtain ⟨ks0, hk0, hlt0⟩ := hpre s (List.mem_cons_self _ _)
    have hnot : ¬ (ks0.Nonce ≥ s.Nonce) := by omega
    have ih1 := ih (i + 1) (fun t ht => hpre t (List.mem_cons_of_mem _ ht))
    have hidx : i + 1 + rest.length = i + (s :: rest).length := by
      simp only [List.length_cons]; omega
    rw [hidx] at ih1
    constructor
    · intro hk
      simp only [List.cons_append, checkSignatures, hk0, hnot, if_false]
      exact ih1.1 hk
    · intro ks hk hle
      simp only [List.cons_append, checkSignatures, hk0, hnot, if_false]
      exact ih1.2 ks hk hle

/-- When the sponsor resolves to a key book, `check` is the last part of the
routine run on that key book. -/
theorem check_eq_checkKeyBook (env : Env) (ex : Executor) (tx : GenTransaction)
    (st st1 : StateManager) (sponsor sigGroup : Record)
    (hg : env.transactionType tx.Transaction ≠ TxType.SyntheticGenesis)
    (hs : tx.Signature ≠ []) (hv : env.validateSig tx = true)
    (hn : (env.transactionType tx.Transaction).IsSynthetic = false)
    (hst : NewStateManager env ex.dbTx tx = (some st, none))
    (hsp : st.Sponsor = some sponsor)
    (hres : (sponsor.kind = RecordKind.SigSpecGroup ∧ sigGroup = sponsor ∧ st1 = st) ∨
      ((sponsor.kind = RecordKind.AdiState ∨ sponsor.kind = RecordKind.TokenAccount ∨
          sponsor.kind = RecordKind.SigSpec) ∧
        sponsor.Header.SigSpecId ≠ zeroBytes32 ∧
        st.LoadAs env ex.dbTx sponsor.Header.SigSpecId RecordKind.SigSpecGroup =
          (Except.ok sigGroup, st1))) :
    ex.check env tx = checkKeyBook env st1 ex.dbTx tx sigGroup := by
  rw [check_eq_checkSponsor env ex tx st hg hs hv hn hst]
  rcases hres with ⟨hk, rfl, rfl⟩ | ⟨hk, hz, hl⟩
  · simp [checkSponsor, hsp, hk]
  · rcases hk with hk | hk | hk <;> simp [checkSponsor, hsp, hk, hz, hl]

/-- C5. `Executor.check`, for a signed transaction that is neither the genesis
one nor synthetic and whose sponsor resolves to a key book `G` (the sponsor
itself, or the key book loaded from the non-zero `SigSpecId` of an ADI,
TokenAccount or KeyPage sponsor): (1) it succeeds if and only if
`sigInfo.PriorityIdx` is below the number of pages of `G`, the page at that
index loads as a key page, and for every signature of the envelope the page
has an entry for the public key of the signature whose stored nonce is strictly
less than the nonce of the signature; (2) it fails with "invalid sig spec
index" when the index is out of range; (3) when the page loads, at the first
signature that fails (position `i`) it fails with "no key spec matches
signature i" when the key is not found and with "invalid nonce" when the
stored nonce is greater than or equal to the nonce of the signature. -/
theorem check_key_page_iff (env : Env) (ex : Executor) (tx : GenTransaction)
    (st st1 : StateManager) (sponsor sigGroup : Record) (sigInfo : SignatureInfo)
    (hg : env.transactionType tx.Transaction ≠ TxType.SyntheticGenesis)
    (hs : tx.Signature ≠ []) (hv : env.validateSig tx = true)
    (hn : (env.transactionType tx.Transaction).IsSynthetic = false)
    (hst : NewStateManager env ex.dbTx tx = (some st, none))
    (hsp : st.Sponsor = some sponsor) (hsi : tx.SigInfo = some sigInfo)
    (hres : (sponsor.kind = RecordKind.SigSpecGroup ∧ sigGroup = sponsor ∧ st1 = st) ∨
      ((sponsor.kind = RecordKind.AdiState ∨ sponsor.kind = RecordKind.TokenAccount ∨
          sponsor.kind = RecordKind.SigSpec) ∧
        sponsor.Header.SigSpecId ≠ zeroBytes32 ∧
        st.LoadAs env ex.dbTx sponsor.Header.SigSpecId RecordKind.SigSpecGroup =
          (Except.ok sigGroup, st1))) :
    ((∃ st2, ex.check env tx = Except.ok st2) ↔
      (sigInfo.PriorityIdx < sigGroup.data.SigSpecs.length ∧
        ∃ page st2,
          st1.LoadAs env ex.dbTx (sigGroup.data.SigSpecs.getD sigInfo.PriorityIdx [])
            RecordKind.SigSpec = (Except.ok page, st2) ∧
          ∀ sig ∈ tx.Signature,
            ∃ ks, env.findKey page sig.PublicKey = some ks ∧ ks.Nonce < sig.Nonce)) ∧
    (sigGroup.data.SigSpecs.length ≤ sigInfo.PriorityIdx →
      ex.check env tx = Except.error (errorf "invalid sig spec index")) ∧
    (sigInfo.PriorityIdx < sigGroup.data.SigSpecs.length →
      ∀ page st2,
        st1.LoadAs env ex.dbTx (sigGroup.data.SigSpecs.getD sigInfo.PriorityIdx [])
          RecordKind.SigSpec = (Except.ok page, st2) →
        ∀ pre sig post, tx.Signature = pre ++ sig :: post →
          (∀ s ∈ pre, ∃ ks, env.findKey page s.PublicKey = some ks ∧ ks.Nonce < s.Nonce) →
          (env.findKey page sig.PublicKey = none →
            ex.check env tx =
              Except.error (errorf ("no key spec matches signature " ++ toString pre.length))) ∧
          (∀ ks, env.findKey page sig.PublicKey = some ks → sig.Nonce ≤ ks.Nonce →
            ex.check env tx = Except.error (errorf "invalid nonce"))) := by
  rw [check_eq_checkKeyBook env ex tx st st1 sponsor sigGroup hg hs hv hn hst hsp hres]
  refine ⟨?_, ?_, ?_⟩
  · constructor
    · rintro ⟨st2, h⟩
      simp only [checkKeyBook, hsi] at h
      split at h
      · simp at h
      · rename_i hidx
        refine ⟨by omega, ?_⟩
        split at h
        · simp at h
        · rename_i page st3 hl
          refine ⟨page, st3, hl, ?_⟩
          split at h
          · simp at h
          · rename_i hsig
            exact (checkSignatures_none_iff env page tx.Signature 0).mp hsig
    · rintro ⟨hidx, page, st2, hl, hall⟩
      have hsig := (checkSignatures_none_iff env page tx.Signature 0).mpr hall
      have hnot : ¬ (sigInfo.PriorityIdx ≥ sigGroup.data.SigSpecs.length) := by omega
      exact ⟨st2, by simp only [checkKeyBook, hsi, hnot, if_false, hl, hsig]⟩
  · intro hidx
    have : sigInfo.PriorityIdx ≥ sigGroup.data.SigSpecs.length := hidx
    simp [checkKeyBook, hsi, this]
  · intro hidx page st2 hl pre sig post hsplit hpre
    have hnot : ¬ (sigInfo.PriorityIdx ≥ sigGroup.data.SigSpecs.length) := by omega
    have hff := checkSignatures_first_failure env page pre post sig 0 hpre
    rw [← hsplit, Nat.zero_add] at hff
    constructor
    · intro hk
      simp only [checkKeyBook, hsi, hnot, if_false, hl, hff.1 hk]
    · intro ks hk hle
      simp only [checkKeyBook, hsi, hnot, if_false, hl, hff.2 ks hk hle]
/-- The loop over the signatures of `checkAnonymous` accepts exactly when every
signature has the key digest of the URL and a nonce above the stored one. -/
theorem checkAnonymousSignatures_none_iff (env : Env) (urlKH : Bytes) (nonce : Nat)
    (sigs : List ED25519Sig) (i : Nat) :
    checkAnonymousSignatures env urlKH nonce sigs i = none ↔
      ∀ sig ∈ sigs, (env.sha256 sig.PublicKey).take 20 = urlKH ∧ nonce < sig.Nonce := by
  induction sigs generalizing i with
  | nil => simp [checkAnonymousSignatures]
  | cons sig rest ih =>
    simp only [checkAnonymousSignatures, List.mem_cons, forall_eq_or_imp]
    by_cases hkh : urlKH = (env.sha256 sig.PublicKey).take 20
    · by_cases hlt : nonce < sig.Nonce
      · have : ¬ (nonce ≥ sig.Nonce) := by omega
        simp [← hkh, this, hlt, ih]
      · have : nonce ≥ sig.Nonce := by omega
        simp [← hkh, this, hlt]
    · have hkh2 : ¬ ((env.sha256 sig.PublicKey).take 20 = urlKH) := fun h => hkh h.symm
      simp [hkh, hkh2]

/-- C6. Lite-account key binding.  For a lite token account whose URL parses as
a lite address with key digest `urlKH`: (1) `checkAnonymous` accepts the
transaction if and only if, for every signature of the envelope, the first 20
bytes of SHA-256(publicKey) equal `urlKH` and the stored nonce of the account is
strictly less than the nonce of the signature; (2) so does `check`, for every
signed transaction that is neither the genesis one nor synthetic and whose
sponsor is that account. -/
theorem checkAnonymous_accepts_iff (env : Env) (tx : GenTransaction) (account : Record) (u : URL)
    (urlKH : Bytes) (tokenUrl : String)
    (hu : account.Header.ParseUrl env = Except.ok u)
    (ha : env.parseAnonymousAddress u = Except.ok (urlKH, tokenUrl)) :
    (checkAnonymous env tx account = none ↔
      ∀ sig ∈ tx.Signature,
        (env.sha256 sig.PublicKey).take 20 = urlKH ∧ account.data.Nonce < sig.Nonce) ∧
    (∀ (ex : Executor) (st : StateManager),
      env.transactionType tx.Transaction ≠ TxType.SyntheticGenesis →
      tx.Signature ≠ [] → env.validateSig tx = true →
      (env.transactionType tx.Transaction).IsSynthetic = false →
      NewStateManager env ex.dbTx tx = (some st, none) →
      st.Sponsor = some account → account.kind = RecordKind.AnonTokenAccount →
      ((∃ st1, ex.check env tx = Except.ok st1) ↔
        ∀ sig ∈ tx.Signature,
          (env.sha256 sig.PublicKey).take 20 = urlKH ∧ account.data.Nonce < sig.Nonce)) := by
  have h1 : checkAnonymous env tx account = none ↔
      ∀ sig ∈ tx.Signature,
        (env.sha256 sig.PublicKey).take 20 = urlKH ∧ account.data.Nonce < sig.Nonce := by
    simp only [checkAnonymous, hu, ha]
    exact checkAnonymousSignatures_none_iff env urlKH account.data.Nonce tx.Signature 0
  refine ⟨h1, ?_⟩
  intro ex st hg hs hv hn hst hsp hk
  rw [check_eq_checkSponsor env ex tx st hg hs hv hn hst, ← h1]
  simp only [checkSponsor, hsp, hk]
  cases hc : checkAnonymous env tx account with
  | none => simp
  | some e => simp
/-- C7, at a concrete input: Alice's token account carries the ID of her key
book, and `check` goes on with the key book loaded from it. -/
theorem check_key_book_by_sponsor_type_witness :
    exampleExecutor.check exampleEnv (aliceTx 6 [3, 1]) =
      checkKeyBook exampleEnv
        (aliceManager.LoadAs exampleEnv exampleDB (toBytes32 [1]) RecordKind.SigSpecGroup).2
        exampleDB (aliceTx 6 [3, 1]) (exampleRecord RecordKind.SigSpecGroup [1]) :=
  (((check_key_book_by_sponsor_type exampleEnv exampleExecutor (aliceTx 6 [3, 1]) aliceManager
    (exampleRecord RecordKind.TokenAccount [3]) (by decide) (by decide) (by rfl) (by rfl) (by rfl)
    (by rfl)).1 (Or.inr (Or.inl (by rfl)))).2 (by decide)).1
    (exampleRecord RecordKind.SigSpecGroup [1])
    (aliceManager.LoadAs exampleEnv exampleDB (toBytes32 [1]) RecordKind.SigSpecGroup).2 (by rfl)

/-- C5, at a concrete input: index 0 is in range of Alice's key book, its page
has the key `[7, 7]` at nonce 5, and the signature has nonce 6: `check`
succeeds. -/
theorem check_key_page_iff_witness :
    ∃ st2, exampleExecutor.check exampleEnv (aliceTx 6 [3, 1]) = Except.ok st2 :=
  (check_key_page_iff exampleEnv exampleExecutor (aliceTx 6 [3, 1]) aliceManager
    (aliceManager.LoadAs exampleEnv exampleDB (toBytes32 [1]) RecordKind.SigSpecGroup).2
    (exampleRecord RecordKind.TokenAccount [3]) (exampleRecord RecordKind.SigSpecGroup [1])
    { URL := "acc://alice/tokens", MSHeight := 1, PriorityIdx := 0, Nonce := 6 }
    (by decide) (by decide) (by rfl) (by rfl) (by rfl) (by rfl) (by rfl)
    (Or.inr ⟨Or.inr (Or.inl (by rfl)), by decide, by rfl⟩)).1.mpr
    ⟨by decide, exampleRecord RecordKind.SigSpec [2],
      ((aliceManager.LoadAs exampleEnv exampleDB (toBytes32 [1]) RecordKind.SigSpecGroup).2.LoadAs
        exampleEnv exampleDB (toBytes32 [2]) RecordKind.SigSpec).2,
      by rfl,
      by
        intro sig hsig
        have hs : sig = { Nonce := 6, PublicKey := [7, 7], Signature := [1] } := by
          simpa [aliceTx] using hsig
        subst hs
        exact ⟨{ PublicKey := [7, 7], Nonce := 5 }, by rfl, by decide⟩⟩

/-- C6, at a concrete input: the key `[7, 7]` has the digest of the lite account
URL and the signature nonce 6 is above the stored nonce 5: accepted. -/
theorem checkAnonymous_accepts_iff_witness :
    checkAnonymous exampleEnv (liteTx 6) (exampleRecord RecordKind.AnonTokenAccount [4]) = none :=
  (checkAnonymous_accepts_iff exampleEnv (liteTx 6) (exampleRecord RecordKind.AnonTokenAccount [4])
    { UserInfo := "", Authority := "lite", Path := "/ACME", Query := "", Fragment := "" }
    [7, 7] "/ACME" (by rfl) (by rfl)).1.mpr
    (by
      intro sig hsig
      have hs : sig = { Nonce := 6, PublicKey := [7, 7], Signature := [1] } := by
        simpa [liteTx] using hsig
      subst hs
      exact ⟨by rfl, by decide⟩)

/-- C8, at a concrete input: Bob's token account is not in the database; a
SyntheticCreateChain sponsored by it passes `check`, a user transaction fails
with "sponsor not found". -/
theorem check_sponsor_not_found_witness :
    (∃ st, exampleExecutor.check exampleEnv (bobTx [1, 0]) = Except.ok st ∧ st.Sponsor = none ∧
      st.SponsorUrl = some { UserInfo := "", Authority := "bob", Path := "/tokens", Query := "",
                             Fragment := "" }) ∧
    exampleExecutor.check exampleEnv (bobTx [3, 0]) =
      Except.error (errorf "sponsor not found: sponsor \"acc://bob/tokens\" not found") :=
  ⟨(check_sponsor_not_found exampleEnv exampleExecutor (bobTx [1, 0])
      { URL := "acc://bob/tokens", MSHeight := 1, PriorityIdx := 0, Nonce := 1 }
      { UserInfo := "", Authority := "bob", Path := "/tokens", Query := "", Fragment := "" }
      ErrNotFound (by decide) (by decide) (by rfl) (by rfl) (by rfl) (by rfl) (by rfl)).1
      (Or.inl (by rfl)),
   (check_sponsor_not_found exampleEnv exampleExecutor (bobTx [3, 0])
      { URL := "acc://bob/tokens", MSHeight := 1, PriorityIdx := 0, Nonce := 1 }
      { UserInfo := "", Authority := "bob", Path := "/tokens", Query := "", Fragment := "" }
      ErrNotFound (by decide) (by decide) (by rfl) (by rfl) (by rfl) (by rfl) (by rfl)).2
      (by decide) (by decide)⟩
/-! ### The genesis transaction -/

/-- Removing the executors of a type leaves none of that type to look up. -/
theorem lookupExecutor_deleteExecutor (executors : List TxExecutor) (txt : TxType) :
    lookupExecutor (deleteExecutor executors txt) txt = none := by
  induction executors with
  | nil => rfl
  | cons x rest ih =>
    by_cases hx : x.type = txt
    · simp [lookupExecutor, deleteExecutor, List.filter_cons, hx]
    · simp [lookupExecutor, deleteExecutor, List.filter_cons, hx, List.find?_cons]

/-- Recording a rejection does not touch the registry. -/
theorem recordTransactionError_executors (env : Env) (ex : Executor) (p : PendingTransaction)
    (chainId txid : Bytes) (err : Error) :
    (ex.recordTransactionError env p chainId txid err).2.executors = ex.executors := by
  simp only [Executor.recordTransactionError]
  split
  · rfl
  · split <;> rfl

/-- The tail of `DeliverTx` does not touch the registry. -/
theorem deliverAccepted_executors (env : Env) (ex : Executor) (tx : GenTransaction)
    (txPending : PendingTransaction) (chainId : Bytes) (st : StateManager) :
    (ex.deliverAccepted env tx txPending chainId st).2.executors = ex.executors := by
  simp only [Executor.deliverAccepted]
  split
  · exact recordTransactionError_executors env ex _ _ _ _
  · split
    · exact recordTransactionError_executors env ex _ _ _ _
    · split
      · rfl
      · split
        · split
          · rfl
          · exact recordTransactionError_executors env _ _ _ _ _
        · split
          · rename_i hs
            simp only [Executor.submitSyntheticTx, Prod.mk.injEq] at hs
            obtain ⟨-, rfl⟩ := hs
            rfl
          · rename_i hs
            simp only [Executor.submitSyntheticTx, Prod.mk.injEq] at hs
            obtain ⟨-, rfl⟩ := hs
            rfl

/-- A delivery leaves the registry as it is or removes the genesis executor. -/
theorem deliverTx_executors (env : Env) (ex : Executor) (tx : GenTransaction) :
    (ex.DeliverTx env tx).2.executors = ex.executors ∨
      (ex.DeliverTx env tx).2.executors = deleteExecutor ex.executors TxType.SyntheticGenesis := by
  simp only [Executor.DeliverTx]
  split
  · exact Or.inl rfl
  · split
    · exact Or.inl (recordTransactionError_executors env ex _ _ _ _)
    · split
      · split
        · exact Or.inl rfl
        · exact Or.inl (recordTransactionError_executors env ex _ _ _ _)
      · split
        · split
          · exact Or.inl rfl
          · exact Or.inl (recordTransactionError_executors env ex _ _ _ _)
        · rw [deliverAccepted_executors]
          split
          · exact Or.inr rfl
          · exact Or.inl rfl

/-- Once the registry has no genesis executor, no call brings one back. -/
theorem step_no_genesis (env : Env) (ex : Executor) (call : Call)
    (h : lookupExecutor ex.executors TxType.SyntheticGenesis = none) :
    lookupExecutor (ex.step env call).executors TxType.SyntheticGenesis = none := by
  cases call with
  | BeginBlock req fresh => exact h
  | CheckTx tx => exact h
  | DeliverTx tx =>
    simp only [Executor.step]
    rcases deliverTx_executors env ex tx with h1 | h1
    · rw [h1]; exact h
    · rw [h1]; exact lookupExecutor_deleteExecutor _ _
  | EndBlock => exact h
  | Commit =>
    simp only [Executor.step, Executor.Commit]
    split
    · exact h
    · exact h

/-- Once the registry has no genesis executor, no sequence of calls brings one
back. -/
theorem run_no_genesis (env : Env) (calls : List Call) (ex : Executor)
    (h : lookupExecutor ex.executors TxType.SyntheticGenesis = none) :
    lookupExecutor (ex.run env calls).executors TxType.SyntheticGenesis = none := by
  induction calls generalizing ex with
  | nil => exact h
  | cons call rest ih =>
    simp only [Executor.run, List.foldl_cons]
    exact ih (ex.step env call) (step_no_genesis env ex call h)

/-- A delivery that returns without error found an executor, passed `check`
and `Validate`, and is the tail of `DeliverTx` run after them. -/
theorem deliverTx_ok_inv (env : Env) (ex : Executor) (tx : GenTransaction) (r : TxResult)
    (h : (ex.DeliverTx env tx).1 = Except.ok r) :
    ∃ executor st st1,
      lookupExecutor ex.executors (env.transactionType tx.Transaction) = some executor ∧
      ex.check env tx = Except.ok st ∧ executor.Validate st ex.dbTx tx = Except.ok st1 ∧
      ex.DeliverTx env tx =
        Executor.deliverAccepted env
          (if executor.type = TxType.SyntheticGenesis then
            { ex with executors := deleteExecutor ex.executors TxType.SyntheticGenesis }
          else ex)
          tx (NewPendingTransaction env tx) (toBytes32 tx.ChainID) st1 := by
  by_cases hwf : tx.Transaction = none ∨ tx.SigInfo = none ∨ tx.ChainID.length ≠ 32
  · simp [Executor.DeliverTx, hwf] at h
  · cases hx : lookupExecutor ex.executors (env.transactionType tx.Transaction) with
    | none => simp [Executor.DeliverTx, hwf, hx] at h
    | some executor =>
      cases hc : ex.check env tx with
      | error err =>
        by_cases hp : err.isPanic = true <;> simp [Executor.DeliverTx, hwf, hx, hc, hp] at h
      | ok st =>
        cases hv : executor.Validate st ex.dbTx tx with
        | error err =>
          by_cases hp : err.isPanic = true <;> simp [Executor.DeliverTx, hwf, hx, hc, hv, hp] at h
        | ok st1 =>
          refine ⟨executor, st, st1, rfl, rfl, hv, ?_⟩
          simp only [Executor.DeliverTx, hwf, if_false, hx, hc, hv]

/-- A successful delivery of a genesis transaction leaves no genesis executor in
the registry. -/
theorem deliverTx_genesis_ok_no_genesis (env : Env) (ex : Executor) (tx : GenTransaction)
    (r : TxResult) (ht : env.transactionType tx.Transaction = TxType.SyntheticGenesis)
    (h : (ex.DeliverTx env tx).1 = Except.ok r) :
    lookupExecutor (ex.DeliverTx env tx).2.executors TxType.SyntheticGenesis = none := by
  obtain ⟨executor, st, st1, hx, -, -, heq⟩ := deliverTx_ok_inv env ex tx r h
  have htype : executor.type = TxType.SyntheticGenesis := by
    have := List.find?_some hx
    simpa [ht] using this
  rw [heq, deliverAccepted_executors]
  simp only [htype, if_true]
  exact lookupExecutor_deleteExecutor _ _
/-- A recorded rejection returns an error whose message ends with the message of
the error being recorded. -/
theorem recordTransactionError_msg (env : Env) (ex : Executor) (p : PendingTransaction)
    (chainId txid : Bytes) (err : Error) :
    ∃ pre, (ex.recordTransactionError env p chainId txid err).1.msg = pre ++ err.msg := by
  simp only [Executor.recordTransactionError]
  split
  · rename_i err1 _
    exact ⟨"failed marshaling pending tx (" ++ err1.msg ++ ") on error: ", rfl⟩
  · split
    · rename_i err1 _
      exact ⟨"error adding pending tx (" ++ err1.msg ++ ") on error ", rfl⟩
    · exact ⟨"", by simp⟩

/-- C9 (as stated, refuted). After a successful delivery of the genesis
transaction, a second genesis envelope whose chain ID is not 32 bytes long is
rejected by `DeliverTx` with "malformed transaction", and one whose sponsor
URL has the wrong scheme is rejected by `CheckTx` with "wrong scheme": neither
error is "unsupported TX type". -/
theorem genesis_replay_other_errors :
    exampleEnv.transactionType shortGenesisTx.Transaction = TxType.SyntheticGenesis ∧
    exampleEnv.transactionType httpGenesisTx.Transaction = TxType.SyntheticGenesis ∧
    (exampleExecutor.DeliverTx exampleEnv genesisTx).1 = Except.ok { SyntheticTxs := [] } ∧
    ((exampleExecutor.DeliverTx exampleEnv genesisTx).2.DeliverTx exampleEnv shortGenesisTx).1 =
      Except.error (errorf "malformed transaction") ∧
    (exampleExecutor.DeliverTx exampleEnv genesisTx).2.CheckTx exampleEnv httpGenesisTx =
      some (errorf "wrong scheme") := by
  refine ⟨by rfl, by rfl, by rfl, by rfl, by rfl⟩

/-- C9 (amended). Genesis is single-use: once one `DeliverTx` of a
SyntheticGenesis transaction has succeeded, then after every sequence of
executor calls (1) `DeliverTx` of every SyntheticGenesis envelope that is not
malformed (it has a body, signature info and a 32-byte chain ID) is rejected
with an error whose message is, or ends with, "unsupported TX type: " followed
by the name of the type, and (2) `CheckTx` of every SyntheticGenesis envelope
whose routing can be set is rejected with the error "unsupported TX type: "
followed by the type. -/
theorem genesis_single_use (env : Env) (ex : Executor) (tx0 tx : GenTransaction) (r : TxResult)
    (calls : List Call)
    (ht0 : env.transactionType tx0.Transaction = TxType.SyntheticGenesis)
    (hok : (ex.DeliverTx env tx0).1 = Except.ok r)
    (ht : env.transactionType tx.Transaction = TxType.SyntheticGenesis) :
    (tx.Transaction ≠ none → tx.SigInfo ≠ none → tx.ChainID.length = 32 →
      ∃ e pre,
        (((ex.DeliverTx env tx0).2.run env calls).DeliverTx env tx).1 = Except.error e ∧
        e.msg = pre ++ ("unsupported TX type: " ++ env.txTypeName TxType.SyntheticGenesis)) ∧
    (∀ tx1, tx.SetRoutingChainID env = Except.ok tx1 →
      ((ex.DeliverTx env tx0).2.run env calls).CheckTx env tx =
        some (errorf ("unsupported TX type: " ++ env.txTypeText TxType.SyntheticGenesis))) := by
  have hno := run_no_genesis env calls _ (deliverTx_genesis_ok_no_genesis env ex tx0 r ht0 hok)
  generalize (ex.DeliverTx env tx0).2.run env calls = ex2 at hno
  constructor
  · intro h1 h2 h3
    have hwf : ¬ (tx.Transaction = none ∨ tx.SigInfo = none ∨ tx.ChainID.length ≠ 32) := by
      rintro (h | h | h)
      · exact h1 h
      · exact h2 h
      · exact h h3
    obtain ⟨pre, hpre⟩ := recordTransactionError_msg env ex2 (NewPendingTransaction env tx)
      (toBytes32 tx.ChainID) (env.transactionHash tx)
      (errorf ("unsupported TX type: " ++ env.txTypeName TxType.SyntheticGenesis))
    refine ⟨_, pre, ?_, hpre⟩
    simp only [Executor.DeliverTx, hwf, if_false, ht, hno]
  · intro tx1 hset
    have hbody : tx1.Transaction = tx.Transaction := by
      simp only [GenTransaction.SetRoutingChainID] at hset
      split at hset
      · simp at hset
      · split at hset
        · simp at hset
        · simp only [Except.ok.injEq] at hset
          subst hset
          rfl
    have ht1 : env.transactionType tx1.Transaction = TxType.SyntheticGenesis := by
      rw [hbody]; exact ht
    simp [Executor.CheckTx, hset, Executor.check, NewStateManager, ht1, hno]

/-- C9 (amended), at a concrete input: after the genesis transaction was
delivered and a block went on with another delivery, delivering or checking the
genesis envelope again is rejected with "unsupported TX type". -/
theorem genesis_single_use_witness :
    (∃ e pre,
      (((exampleExecutor.DeliverTx exampleEnv genesisTx).2.run exampleEnv
          [Call.EndBlock, Call.DeliverTx (aliceTx 6 [3, 1])]).DeliverTx exampleEnv genesisTx).1 =
        Except.error e ∧
      e.msg = pre ++ ("unsupported TX type: " ++ exampleEnv.txTypeName TxType.SyntheticGenesis)) ∧
    ((exampleExecutor.DeliverTx exampleEnv genesisTx).2.run exampleEnv
        [Call.EndBlock, Call.DeliverTx (aliceTx 6 [3, 1])]).CheckTx exampleEnv genesisTx =
      some (errorf ("unsupported TX type: " ++ exampleEnv.txTypeText TxType.SyntheticGenesis)) :=
  have h := genesis_single_use exampleEnv exampleExecutor genesisTx genesisTx { SyntheticTxs := [] }
    [Call.EndBlock, Call.DeliverTx (aliceTx 6 [3, 1])] (by rfl) (by rfl) (by rfl)
  ⟨h.1 (by decide) (by decide) (by decide),
   h.2 { genesisTx with Routing := 4, ChainID := [0, 4] } (by rfl)⟩
/-! ### The create stage of `commit` -/

/-- Adding a chain to a submission does not change the URL it is addressed to. -/
theorem addChain_url (data : Bytes) (s : submittedTx) : (addChain data s).url = s.url := by
  unfold addChain
  split <;> rfl

/-- Adding a chain to a submission does not change its key. -/
theorem addChain_key (env : Env) (data : Bytes) (s : submittedTx) :
    submissionKey env (addChain data s) = submissionKey env s := by
  simp [submissionKey, addChain_url]

/-- The position `a.length + j` of a queue `a ++ b` is the position `j` of `b`. -/
theorem appendChain_append (a b : List submittedTx) (j : Nat) (data : Bytes) :
    appendChain (a ++ b) (a.length + j) data = a ++ appendChain b j data := by
  induction a with
  | nil => simp
  | cons x rest ih =>
    have : (x :: rest).length + j = (rest.length + j) + 1 := by simp only [List.length_cons]; omega
    rw [this]
    change x :: appendChain (rest ++ b) (rest.length + j) data = x :: (rest ++ appendChain b j data)
    rw [ih]

/-- What `appendChain` leaves at each position of the queue. -/
theorem appendChain_get? (b : List submittedTx) (j k : Nat) (data : Bytes) :
    (appendChain b j data)[k]? = if k = j then (b[j]?).map (addChain data) else b[k]? := by
  induction b generalizing j k with
  | nil => simp [appendChain]
  | cons x rest ih =>
    cases j with
    | zero =>
      cases k with
      | zero => simp [appendChain]
      | succ k => simp [appendChain]
    | succ j =>
      cases k with
      | zero => simp [appendChain]
      | succ k => simp [appendChain, ih]

/-- At no position does `appendChain` change the key of the submission there. -/
theorem appendChain_key (env : Env) (b : List submittedTx) (j k : Nat) (data : Bytes) :
    ((appendChain b j data)[k]?).map (submissionKey env) = (b[k]?).map (submissionKey env) := by
  rw [appendChain_get?]
  by_cases hk : k = j
  · subst hk
    cases h : b[k]? with
    | none => simp
    | some s => simp [addChain_key]
  · simp [hk]

/-- The chain list of a key after one more record: the record is added when it
has the key. -/
theorem chainsOf_append (items : List (String × URL × Bytes)) (item : String × URL × Bytes)
    (k : String) :
    chainsOf (items ++ [item]) k =
      chainsOf items k ++ (if item.1 = k then [{ Data := item.2.2 }] else []) := by
  unfold chainsOf
  by_cases h : item.1 = k
  · simp [List.filter_append, h]
  · simp [List.filter_append, h]

/-- No record of a key, no chain under it. -/
theorem chainsOf_eq_nil (items : List (String × URL × Bytes)) (k : String)
    (h : ∀ item ∈ items, item.1 ≠ k) : chainsOf items k = [] := by
  unfold chainsOf
  simp only [List.map_eq_nil_iff, List.filter_eq_nil_iff]
  intro item hi
  simpa using h item hi
/-- The lookup in the map `create` after one more key was entered. -/
theorem lookupCreate_cons (create : List (String × Nat)) (k k1 : String) (n : Nat) :
    lookupCreate ((k, n) :: create) k1 = if k = k1 then some n else lookupCreate create k1 := by
  unfold lookupCreate
  by_cases h : k = k1 <;> simp [List.find?_cons, h]

/-- The positions of a queue with one more submission at its end. -/
theorem getElem?_snoc (l : List submittedTx) (x : submittedTx) (j : Nat) :
    (l ++ [x])[j]? = if j < l.length then l[j]? else if j = l.length then some x else none := by
  by_cases h1 : j < l.length
  · simp [h1, List.getElem?_append_left]
  · by_cases h2 : j = l.length
    · subst h2
      simp
    · have : l.length + 1 ≤ j := by omega
      simp [h1, h2, List.getElem?_eq_none, this]

/-- The create case of the loop of `commit` keeps the invariant of the
submission queue, with the record it flushed added, and leaves the DBTx alone. -/
theorem commitCreate_inv (env : Env) (txHash : Bytes) (subs0 : List submittedTx)
    (items : List (String × URL × Bytes)) (s s1 : CommitState) (store : storeState)
    (data : Bytes) (u : URL)
    (hinv : CreateInv env txHash subs0 items s) (hh : s.m.txHash = txHash)
    (hu : store.record.Header.ParseUrl env = Except.ok u)
    (h : commitCreate env s store data = Except.ok s1) :
    CreateInv env txHash subs0
      (items ++ [(env.toLower (u.Identity.toText env), u.Identity, data)]) s1 ∧ s1.db = s.db := by
  obtain ⟨fresh, hsub, hA, hC, hD⟩ := hinv
  simp only [commitCreate, hu] at h
  cases hl : lookupCreate s.create (env.toLower (u.Identity.toText env)) with
  | some i =>
    simp only [hl, Except.ok.injEq] at h
    subst h
    obtain ⟨j, hi, hkey⟩ := (hA _ i).mp hl
    refine ⟨⟨appendChain fresh j data, ?_, ?_, ?_, ?_⟩, rfl⟩
    · show appendChain s.m.submissions i data = subs0 ++ appendChain fresh j data
      rw [hsub, hi, appendChain_append]
    · intro k1 i1
      show lookupCreate s.create k1 = some i1 ↔ _
      rw [hA k1 i1]
      constructor
      · rintro ⟨j1, h1, h2⟩
        exact ⟨j1, h1, by rw [appendChain_key]; exact h2⟩
      · rintro ⟨j1, h1, h2⟩
        exact ⟨j1, h1, by rw [appendChain_key] at h2; exact h2⟩
    · intro j1 sub1 hget
      rw [appendChain_get?] at hget
      by_cases hj : j1 = j
      · subst hj
        simp only [if_true] at hget
        cases hf : fresh[j1]? with
        | none => simp [hf] at hget
        | some sub0 =>
          simp only [hf, Option.map_some', Option.some.injEq] at hget hkey
          obtain ⟨hbody, item0, hmem, hk0, hurl⟩ := hC j1 sub0 hf
          subst hget
          rw [addChain_key, hkey]
          constructor
          · rw [chainsOf_append]
            simp only [if_true]
            unfold addChain
            rw [hbody, hkey]
          · refine ⟨item0, List.mem_append_left _ hmem, ?_, ?_⟩
            · rw [hk0, hkey]
            · rw [addChain_url, hurl]
      · simp only [hj, if_false] at hget
        obtain ⟨hbody, item0, hmem, hk0, hurl⟩ := hC j1 sub1 hget
        have hne : ¬ (env.toLower (u.Identity.toText env) = submissionKey env sub1) := by
          intro heq
          have h2 : lookupCreate s.create (env.toLower (u.Identity.toText env)) =
              some (subs0.length + j1) :=
            (hA _ _).mpr ⟨j1, rfl, by rw [hget]; simp [heq]⟩
          rw [hl] at h2
          simp only [Option.some.injEq] at h2
          omega
        constructor
        · rw [chainsOf_append]
          simp only [hne, if_false, List.append_nil]
          exact hbody
        · exact ⟨item0, List.mem_append_left _ hmem, hk0, hurl⟩
    · intro item1 hmem
      rw [List.mem_append] at hmem
      rcases hmem with hmem | hmem
      · obtain ⟨j1, h1⟩ := hD item1 hmem
        exact ⟨j1, by rw [appendChain_key]; exact h1⟩
      · simp only [List.mem_singleton] at hmem
        subst hmem
        exact ⟨j, by rw [appendChain_key]; exact hkey⟩
  | none =>
    simp only [hl, StateManager.Submit] at h
    by_cases hs : s.m.txType.IsSynthetic = true
    · simp [hs] at h
    · simp only [hs, Bool.false_eq_true, if_false, Except.ok.injEq] at h
      subst h
      have hnokey : ∀ j1 : Nat,
          (fresh[j1]?).map (submissionKey env) ≠ some (env.toLower (u.Identity.toText env)) := by
        intro j1 hk1
        have h2 := (hA _ (subs0.length + j1)).mpr ⟨j1, rfl, hk1⟩
        rw [hl] at h2
        simp at h2
      refine ⟨⟨fresh ++ [⟨u.Identity, Body.createChain ⟨txHash, [⟨data⟩]⟩⟩], ?_, ?_, ?_, ?_⟩, rfl⟩
      · show appendChain (s.m.submissions ++ [_]) s.m.submissions.length data = _
        have h0 := appendChain_append s.m.submissions
          [⟨u.Identity, Body.createChain ⟨s.m.txHash, []⟩⟩] 0 data
        rw [Nat.add_zero] at h0
        rw [h0, hsub, hh]
        simp [appendChain, addChain]
      · intro k1 i1
        show lookupCreate ((env.toLower (u.Identity.toText env), s.m.submissions.length) :: s.create) k1 =
          some i1 ↔ _
        rw [lookupCreate_cons, hsub, List.length_append]
        by_cases hk : env.toLower (u.Identity.toText env) = k1
        · simp only [hk, if_true, Option.some.injEq]
          constructor
          · intro hi1
            refine ⟨fresh.length, hi1.symm, ?_⟩
            rw [getElem?_snoc]
            simp [submissionKey, hk]
          · rintro ⟨j1, h1, h2⟩
            rw [getElem?_snoc] at h2
            by_cases hlt : j1 < fresh.length
            · simp only [hlt, if_true] at h2
              exact absurd (hk ▸ h2) (hnokey j1)
            · by_cases he : j1 = fresh.length
              · omega
              · simp [hlt, he] at h2
        · simp only [hk, if_false]
          rw [hA k1 i1]
          constructor
          · rintro ⟨j1, h1, h2⟩
            have hlt : j1 < fresh.length := by
              by_contra hge
              have : fresh[j1]? = none := List.getElem?_eq_none (by omega)
              simp [this] at h2
            exact ⟨j1, h1, by rw [getElem?_snoc]; simp only [hlt, if_true]; exact h2⟩
          · rintro ⟨j1, h1, h2⟩
            rw [getElem?_snoc] at h2
            by_cases hlt : j1 < fresh.length
            · simp only [hlt, if_true] at h2
              exact ⟨j1, h1, h2⟩
            · by_cases he : j1 = fresh.length
              · simp [hlt, he, submissionKey] at h2
                exact absurd h2 hk
              · simp [hlt, he] at h2
      · intro j1 sub1 hget
        rw [getElem?_snoc] at hget
        by_cases hlt : j1 < fresh.length
        · simp only [hlt, if_true] at hget
          obtain ⟨hbody, item0, hmem, hk0, hurl⟩ := hC j1 sub1 hget
          have hne : ¬ (env.toLower (u.Identity.toText env) = submissionKey env sub1) := by
            intro heq
            exact hnokey j1 (by rw [hget]; simp [heq])
          constructor
          · rw [chainsOf_append]
            simp only [hne, if_false, List.append_nil]
            exact hbody
          · exact ⟨item0, List.mem_append_left _ hmem, hk0, hurl⟩
        · by_cases he : j1 = fresh.length
          · subst he
            simp only [Nat.lt_irrefl, if_false, if_true, Option.some.injEq] at hget
            subst hget
            have hnil : chainsOf items (env.toLower (u.Identity.toText env)) = [] := by
              apply chainsOf_eq_nil
              intro item0 hmem heq
              obtain ⟨j0, hj0⟩ := hD item0 hmem
              exact hnokey j0 (by rw [hj0, heq])
            constructor
            · simp only [submissionKey]
              rw [chainsOf_append, hnil]
              simp
            · exact ⟨_, List.mem_append_right _ (List.mem_singleton_self _), rfl, rfl⟩
          · simp [hlt, he] at hget
      · intro item1 hmem
        rw [List.mem_append] at hmem
        rcases hmem with hmem | hmem
        · obtain ⟨j1, h1⟩ := hD item1 hmem
          have hlt : j1 < fresh.length := by
            by_contra hge
            have : fresh[j1]? = none := List.getElem?_eq_none (by omega)
            simp [this] at h1
          exact ⟨j1, by rw [getElem?_snoc]; simp only [hlt, if_true]; exact h1⟩
        · simp only [List.mem_singleton] at hmem
          subst hmem
          exact ⟨fresh.length, by rw [getElem?_snoc]; simp [submissionKey]⟩
/-- The invariant of the submission queue depends on the loop state only through
the queue and the map `create`. -/
theorem CreateInv_congr (env : Env) (txHash : Bytes) (subs0 : List submittedTx)
    (items : List (String × URL × Bytes)) (s s1 : CommitState)
    (hm : s1.m.submissions = s.m.submissions) (hc : s1.create = s.create)
    (h : CreateInv env txHash subs0 items s) : CreateInv env txHash subs0 items s1 := by
  unfold CreateInv at h ⊢
  rw [hm, hc]
  exact h

/-- The update case of the loop of `commit`, when it succeeds, writes the state
entry of the record and leaves the state manager and the map `create` alone. -/
theorem commitUpdate_ok (s s1 : CommitState) (store : storeState) (data : Bytes)
    (h : commitUpdate s store data = Except.ok s1) :
    s1.m = s.m ∧ s1.create = s.create ∧
      s1.db.stateEntries = s.db.stateEntries ++
        [{ chainId := store.chainId, txHash := s.m.txHash, object := { Entry := data } }] := by
  have hw : ∀ t : CommitState,
      (Except.ok { s with db := s.db.AddStateEntry store.chainId s.m.txHash { Entry := data } } :
        Except Error CommitState) = Except.ok t →
      t.m = s.m ∧ t.create = s.create ∧
        t.db.stateEntries = s.db.stateEntries ++
          [{ chainId := store.chainId, txHash := s.m.txHash, object := { Entry := data } }] := by
    intro t ht
    simp only [Except.ok.injEq] at ht
    subst ht
    simp [DBTransaction.AddStateEntry]
  unfold commitUpdate at h
  cases hp : s.db.GetPersistentEntry store.chainId with
  | ok obj => simp only [hp] at h; exact hw _ h
  | error err =>
    simp only [hp] at h
    split at h
    · simp at h
    · split at h
      · exact hw _ h
      · split at h
        · exact hw _ h
        · simp at h

/-- The create-staged records of a list of stores, one store at a time. -/
theorem createItems_cons (env : Env) (store : storeState) (rest : List storeState) :
    createItems env (store :: rest) =
      (if store.isCreate = true then (createItem env store).toList else []) ++ createItems env rest := by
  unfold createItems
  by_cases hc : store.isCreate = true
  · cases hi : createItem env store <;> simp [List.filter_cons, hc, List.filterMap_cons, hi]
  · simp [List.filter_cons, hc]

/-- The state entries of the update-staged records of a list of stores, one
store at a time. -/
theorem updateEntries_cons (env : Env) (txHash : Bytes) (store : storeState)
    (rest : List storeState) :
    updateEntries env txHash (store :: rest) =
      (if store.isCreate = true then [] else (updateEntry env txHash store).toList) ++
        updateEntries env txHash rest := by
  unfold updateEntries
  by_cases hc : store.isCreate = true
  · simp [List.filter_cons, hc]
  · cases hi : updateEntry env txHash store <;> simp [List.filter_cons, hc, List.filterMap_cons, hi]

/-- The loop of `commit`, when it ends without error, keeps the invariant of the
submission queue with the create-staged records of its list added, has
written the state entries of the update-staged records of its list and no
other, and found every create-staged record readable. -/
theorem commitLoop_inv (env : Env) (txHash : Bytes) (subs0 : List submittedTx)
    (l : List storeState) :
    ∀ (s s1 : CommitState) (items : List (String × URL × Bytes)) (entries : List StateEntry),
      CreateInv env txHash subs0 items s → s.m.txHash = txHash → s.db.stateEntries = entries →
      commitLoop env l s = (none, s1) →
      CreateInv env txHash subs0 (items ++ createItems env l) s1 ∧
        s1.db.stateEntries = entries ++ updateEntries env txHash l ∧
        ∀ store ∈ l, store.isCreate = true → ∃ item, createItem env store = some item := by
  induction l with
  | nil =>
    intro s s1 items entries hinv _ he h
    simp only [commitLoop, Prod.mk.injEq, true_and] at h
    subst h
    simp [createItems, updateEntries, hinv, he]
  | cons store rest ih =>
    intro s s1 items entries hinv hh he h
    simp only [commitLoop] at h
    cases hstep : commitStore env s store with
    | error e => simp [hstep] at h
    | ok s2 =>
      simp only [hstep] at h
      have hfr := commitStore_frame env s s2 store hstep
      have hh2 : s2.m.txHash = txHash := hfr.1.trans hh
      unfold commitStore at hstep
      cases hm : env.marshalRecord store.record with
      | error e => simp [hm] at hstep
      | ok data =>
        simp only [hm] at hstep
        by_cases hc : store.isCreate = true
        · simp only [hc, if_true] at hstep
          cases hu : store.record.Header.ParseUrl env with
          | error e => simp [commitCreate, hu] at hstep
          | ok u =>
            obtain ⟨hinv2, hdb⟩ := commitCreate_inv env txHash subs0 items s s2 store data u hinv hh
              hu hstep
            have hitem : createItem env store =
                some (env.toLower (u.Identity.toText env), u.Identity, data) := by
              simp [createItem, hm, hu]
            obtain ⟨r1, r2, r3⟩ := ih s2 s1 _ entries hinv2 hh2 (by rw [hdb]; exact he) h
            refine ⟨?_, ?_, ?_⟩
            · rw [createItems_cons]
              simp only [hc, if_true, hitem, Option.toList_some]
              rw [← List.append_assoc]
              exact r1
            · rw [updateEntries_cons]
              simp only [hc, if_true, List.nil_append]
              exact r2
            · intro st2 hmem hc2
              rw [List.mem_cons] at hmem
              rcases hmem with rfl | hmem
              · exact ⟨_, hitem⟩
              · exact r3 st2 hmem hc2
        · simp only [hc, Bool.false_eq_true, if_false] at hstep
          obtain ⟨hm2, hc2, hdb⟩ := commitUpdate_ok s s2 store data hstep
          have hinv2 : CreateInv env txHash subs0 items s2 :=
            CreateInv_congr env txHash subs0 items s s2 (by rw [hm2]) hc2 hinv
          have hentry : updateEntry env txHash store =
              some { chainId := store.chainId, txHash := txHash, object := { Entry := data } } := by
            simp [updateEntry, hm]
          obtain ⟨r1, r2, r3⟩ := ih s2 s1 items _ hinv2 hh2 hdb h
          refine ⟨?_, ?_, ?_⟩
          · rw [createItems_cons]
            simp only [hc, Bool.false_eq_true, if_false, List.nil_append]
            exact r1
          · rw [updateEntries_cons]
            simp only [hc, Bool.false_eq_true, if_false, hentry, Option.toList_some]
            rw [r2, he, hh, List.append_assoc]
          · intro st2 hmem hc3
            rw [List.mem_cons] at hmem
            rcases hmem with rfl | hmem
            · exact absurd hc3 hc
            · exact r3 st2 hmem hc3
/-- Flushing the index writes does not touch the state entries. -/
theorem flushWrites_stateEntries (writes : List (Bytes × Bytes)) (db : DBTransaction) :
    (flushWrites db writes).stateEntries = db.stateEntries := by
  unfold flushWrites
  induction writes generalizing db with
  | nil => rfl
  | cons w rest ih => simpa [List.foldl, DBTransaction.Write] using ih (db.Write w.1 w.2)

/-- The invariant of the submission queue holds when the loop of `commit`
starts. -/
theorem CreateInv_start (env : Env) (st : StateManager) (db : DBTransaction) :
    CreateInv env st.txHash st.submissions [] (commitStart st db) := by
  refine ⟨[], by simp [commitStart], ?_, ?_, ?_⟩
  · intro k i
    simp [commitStart, lookupCreate]
  · intro j sub h
    simp at h
  · intro item h
    simp at h

/-- C10. `StateManager.commit`, for the records staged with Create.  When
`commit` returns without error, the submission queue is the queue before it
followed by submissions `fresh` such that: (1) no two of them have the same
key (the lower-cased text of the URL they are addressed to); (2) every
create-staged record has a submission whose key is the lower-cased text of its
identity URL, so there is exactly one submission per distinct identity;
(3) every one of them is a SyntheticCreateChain with Cause equal to the current
transaction hash, whose chain list holds the marshalled create-staged records
of its identity, in staging order, and it is addressed to the identity URL of
a create-staged record of that identity; (4) the state entries written to the
DBTx are those of the update-staged records, in order: no create-staged record
is written as a state entry. -/
theorem commit_create_per_identity (env : Env) (st : StateManager) (db : DBTransaction)
    (h : (st.commit env db).1 = none) :
    ∃ fresh : List submittedTx,
      (st.commit env db).2.1.submissions = st.submissions ++ fresh ∧
      (fresh.map (submissionKey env)).Nodup ∧
      (∀ store ∈ sortedStores st, store.isCreate = true →
        ∃ item, createItem env store = some item ∧
          ∃ sub ∈ fresh, submissionKey env sub = item.1) ∧
      (∀ sub ∈ fresh,
        sub.body = Body.createChain
          { Cause := st.txHash
            Chains := chainsOf (createItems env (sortedStores st)) (submissionKey env sub) } ∧
        ∃ store ∈ sortedStores st, store.isCreate = true ∧
          ∃ item, createItem env store = some item ∧ item.1 = submissionKey env sub ∧
            sub.url = item.2.1) ∧
      (st.commit env db).2.2.stateEntries =
        db.stateEntries ++ updateEntries env st.txHash (sortedStores st) := by
  simp only [StateManager.commit, commitResult] at h ⊢
  generalize hr : commitLoop env (sortedStores st) (commitStart st db) = r at h ⊢
  obtain ⟨e, s1⟩ := r
  simp only at h
  subst h
  obtain ⟨⟨fresh, hsub, hA, hC, hD⟩, hentries, hread⟩ :=
    commitLoop_inv env st.txHash st.submissions (sortedStores st) (commitStart st db) s1 []
      db.stateEntries (CreateInv_start env st db) rfl
      (by simp [commitStart, flushWrites_stateEntries]) hr
  simp only [List.nil_append] at hC hD
  refine ⟨fresh, hsub, ?_, ?_, ?_, hentries⟩
  · rw [List.nodup_iff_getElem?_ne_getElem?]
    intro i j hij hj heq
    rw [List.length_map] at hj
    rw [List.getElem?_map, List.getElem?_map] at heq
    have hsome : ∃ sub, fresh[j]? = some sub := ⟨fresh[j], List.getElem?_eq_getElem hj⟩
    obtain ⟨sub, hs⟩ := hsome
    have hkj : (fresh[j]?).map (submissionKey env) = some (submissionKey env sub) := by
      rw [hs]; rfl
    have h1 := (hA _ (st.submissions.length + j)).mpr ⟨j, rfl, hkj⟩
    have h2 := (hA _ (st.submissions.length + i)).mpr ⟨i, rfl, heq.trans hkj⟩
    rw [h1] at h2
    simp only [Option.some.injEq] at h2
    omega
  · intro store hmem hc
    obtain ⟨item, hitem⟩ := hread store hmem hc
    refine ⟨item, hitem, ?_⟩
    have hin : item ∈ createItems env (sortedStores st) := by
      unfold createItems
      rw [List.mem_filterMap]
      exact ⟨store, List.mem_filter.mpr ⟨hmem, hc⟩, hitem⟩
    obtain ⟨j, hj⟩ := hD item hin
    cases hf : fresh[j]? with
    | none => simp [hf] at hj
    | some sub =>
      simp only [hf, Option.map_some', Option.some.injEq] at hj
      exact ⟨sub, List.mem_iff_getElem?.mpr ⟨j, hf⟩, hj⟩
  · intro sub hmem
    obtain ⟨j, hj⟩ := List.mem_iff_getElem?.mp hmem
    obtain ⟨hbody, item, hin, hk, hurl⟩ := hC j sub hj
    refine ⟨hbody, ?_⟩
    unfold createItems at hin
    rw [List.mem_filterMap] at hin
    obtain ⟨store, hst, hitem⟩ := hin
    rw [List.mem_filter] at hst
    exact ⟨store, hst.1, hst.2, item, hitem, hk, hurl⟩

/-- C10, at a concrete input: a user transaction created Bob's token account,
updated Alice's, created Carol's token account and Bob's savings account
(spelled `Bob`): `commit` queues one SyntheticCreateChain for `bob` with the
two records in staging order and one for `carol`, and writes only Alice's
record as a state entry. -/
theorem commit_create_per_identity_witness :
    (creatingManager.commit exampleEnv exampleDB).1 = none ∧
    (creatingManager.commit exampleEnv exampleDB).2.2.stateEntries =
      exampleDB.stateEntries ++ updateEntries exampleEnv creatingManager.txHash
        (sortedStores creatingManager) ∧
    (creatingManager.commit exampleEnv exampleDB).2.2.stateEntries =
      [{ chainId := toBytes32 [3], txHash := toBytes32 [1], object := { Entry := [3] } }] ∧
    (creatingManager.commit exampleEnv exampleDB).2.1.submissions =
      [{ url := { UserInfo := "", Authority := "bob", Path := "", Query := "", Fragment := "" }
         body := Body.createChain
           { Cause := toBytes32 [1], Chains := [{ Data := [5] }, { Data := [8] }] } },
       { url := { UserInfo := "", Authority := "carol", Path := "", Query := "", Fragment := "" }
         body := Body.createChain { Cause := toBytes32 [1], Chains := [{ Data := [9] }] } }] := by
  obtain ⟨fresh, -, -, -, -, h5⟩ :=
    commit_create_per_identity exampleEnv creatingManager exampleDB (by rfl)
  exact ⟨by rfl, h5, by rfl, by rfl⟩
/-! ### Staging order -/

/-- Storing a record under a chain ID that is not staged yet adds it at the end
of the stores, with the current sequence number. -/
theorem store_fresh (env : Env) (m m1 : StateManager) (r : Record) (c : Bool)
    (h : m.store env r c = Except.ok m1)
    (hnew : ∀ s ∈ m.stores, s.chainId ≠ chainIdOf env r) :
    m1.stores = m.stores ++ [{ isCreate := c, order := m.storeCount, chainId := chainIdOf env r,
                               record := r }] ∧
      m1.storeCount = m.storeCount + 1 ∧ m1.txHash = m.txHash := by
  unfold StateManager.store at h
  cases hu : r.Header.ParseUrl env with
  | error e => simp [hu] at h
  | ok u =>
    simp only [hu, Except.ok.injEq] at h
    have hid : chainIdOf env r = toBytes32 (u.ResourceChain env) := by simp [chainIdOf, hu]
    subst h
    have hany : (m.stores.any (fun t => t.chainId == toBytes32 (u.ResourceChain env))) = false := by
      rw [List.any_eq_false]
      intro s hs
      have := hnew s hs
      rw [hid] at this
      simpa using this
    simp [setStore, hany, hid]

/-- One `Update` or `Create` call of a record whose chain ID is not staged yet
adds it at the end of the stores, with the current sequence number. -/
theorem stage_fresh (env : Env) (m m1 : StateManager) (c : Bool × Record)
    (h : m.stage env c = Except.ok m1)
    (hnew : ∀ s ∈ m.stores, s.chainId ≠ chainIdOf env c.2) :
    m1.stores = m.stores ++ [{ isCreate := c.1, order := m.storeCount,
                               chainId := chainIdOf env c.2, record := c.2 }] ∧
      m1.storeCount = m.storeCount + 1 ∧ m1.txHash = m.txHash := by
  unfold StateManager.stage at h
  by_cases hc : c.1 = true
  · simp only [hc, if_true, StateManager.Create] at h
    split at h
    · simp at h
    · simp only [createLoop] at h
      split at h
      · simp at h
      · cases hs : m.store env c.2 true with
        | error e => simp [hs] at h
        | ok m2 =>
          simp only [hs, Except.ok.injEq] at h
          subst h
          simpa [hc] using store_fresh env m m2 c.2 true hs hnew
  · have hc2 : c.1 = false := by simpa using hc
    simp only [hc2, Bool.false_eq_true, if_false, StateManager.Update] at h
    cases hs : m.store env c.2 false with
    | error e => simp [hs] at h
    | ok m2 =>
      simp only [hs, Except.ok.injEq] at h
      subst h
      simpa [hc2] using store_fresh env m m2 c.2 false hs hnew

/-- A sequence of `Update` and `Create` calls on chain IDs that are pairwise
distinct and not staged yet adds the records at the end of the stores, in the
order of the calls. -/
theorem stageAll_fresh (env : Env) (calls : List (Bool × Record)) :
    ∀ (m m1 : StateManager), m.stageAll env calls = Except.ok m1 →
      (calls.map (fun c => chainIdOf env c.2)).Nodup →
      (∀ s ∈ m.stores, ∀ c ∈ calls, s.chainId ≠ chainIdOf env c.2) →
      m1.stores = m.stores ++ stagedStores env m.storeCount calls ∧ m1.txHash = m.txHash := by
  induction calls with
  | nil =>
    intro m m1 h _ _
    simp only [StateManager.stageAll, Except.ok.injEq] at h
    subst h
    simp [stagedStores]
  | cons c rest ih =>
    intro m m1 h hnd hnew
    simp only [StateManager.stageAll] at h
    cases hs : m.stage env c with
    | error e => simp [hs] at h
    | ok m2 =>
      simp only [hs] at h
      obtain ⟨h1, h2, h3⟩ := stage_fresh env m m2 c hs
        (fun s hs1 => hnew s hs1 c (List.mem_cons_self _ _))
      rw [List.map_cons, List.nodup_cons] at hnd
      have hnew2 : ∀ s ∈ m2.stores, ∀ c1 ∈ rest, s.chainId ≠ chainIdOf env c1.2 := by
        intro s hs1 c1 hc1
        rw [h1, List.mem_append] at hs1
        rcases hs1 with hs1 | hs1
        · exact hnew s hs1 c1 (List.mem_cons_of_mem _ hc1)
        · simp only [List.mem_singleton] at hs1
          subst hs1
          intro heq
          exact hnd.1 (List.mem_map.mpr ⟨c1, hc1, heq.symm⟩)
      obtain ⟨r1, r2⟩ := ih m2 m1 h hnd.2 hnew2
      refine ⟨?_, r2.trans h3⟩
      rw [r1, h1, h2, List.append_assoc]
      rfl

/-- The sequence numbers of the staged records of a sequence of calls start at
`count`. -/
theorem stagedStores_order_ge (env : Env) (calls : List (Bool × Record)) (count : Nat) :
    ∀ s ∈ stagedStores env count calls, count ≤ s.order := by
  induction calls generalizing count with
  | nil => intro s hs; simp [stagedStores] at hs
  | cons c rest ih =>
    intro s hs
    simp only [stagedStores, List.mem_cons] at hs
    rcases hs with rfl | hs
    · exact Nat.le_refl _
    · exact Nat.le_of_succ_le (ih (count + 1) s hs)

/-- The staged records of a sequence of calls carry strictly increasing sequence
numbers. -/
theorem stagedStores_sorted (env : Env) (calls : List (Bool × Record)) (count : Nat) :
    (stagedStores env count calls).Pairwise (fun a b => a.order < b.order) := by
  induction calls generalizing count with
  | nil => simp [stagedStores]
  | cons c rest ih =>
    simp only [stagedStores, List.pairwise_cons]
    refine ⟨?_, ih (count + 1)⟩
    intro s hs
    exact stagedStores_order_ge env rest (count + 1) s hs

/-- Whatever the order in which the map hands out stores whose sequence
numbers are strictly increasing in some order, sorting by sequence number
yields that order. -/
theorem insertionSort_perm_sorted (l iteration : List storeState)
    (hl : l.Pairwise (fun a b => a.order < b.order)) (hp : iteration.Perm l) :
    iteration.insertionSort (fun a b => a.order ≤ b.order) = l := by
  haveI : IsTotal storeState (fun a b => a.order ≤ b.order) := ⟨fun a b => Nat.le_total _ _⟩
  haveI : IsTrans storeState (fun a b => a.order ≤ b.order) := ⟨fun a b c => Nat.le_trans⟩
  haveI : IsAntisymm storeState (fun a b => a.order < b.order) :=
    ⟨fun a b h1 h2 => absurd h1 (Nat.lt_asymm h2)⟩
  have hs := List.sorted_insertionSort (fun a b : storeState => a.order ≤ b.order) iteration
  have hperm : (iteration.insertionSort (fun a b => a.order ≤ b.order)).Perm l :=
    (List.perm_insertionSort _ _).trans hp
  have hne : l.Pairwise (fun a b => a.order ≠ b.order) :=
    hl.imp (fun h => Nat.ne_of_lt h)
  have hsymm : ∀ a b : storeState, a.order ≠ b.order → b.order ≠ a.order := fun a b h => h.symm
  have hne2 : (iteration.insertionSort (fun a b => a.order ≤ b.order)).Pairwise
      (fun a b => a.order ≠ b.order) :=
    (List.Perm.pairwise_iff (fun {a b} h => hsymm a b h) hperm).mpr hne
  have hlt : (iteration.insertionSort (fun a b => a.order ≤ b.order)).Pairwise
      (fun a b => a.order < b.order) :=
    (List.Pairwise.and hs hne2).imp (fun h => Nat.lt_of_le_of_ne h.1 h.2)
  exact List.eq_of_perm_of_sorted hperm hlt hl
/-- C11. `StateManager.commit` flushes staged records in insertion order.  For
every sequence of `Update`/`Create` calls on pairwise distinct chain IDs made on
a state manager with nothing staged, and for every order `iteration` in which
the map `stores` may hand out the staged records: (1) the ordered list that
`commit` builds is the list of the records in the order of the calls; (2)
`commit` is its loop run over that list, record by record; (3) when `commit`
returns without error, the state entries it added with `AddStateEntry` are
those of the update calls, in the order of the calls. -/
theorem commit_insertion_order (env : Env) (m0 m : StateManager) (calls : List (Bool × Record))
    (iteration : List storeState) (db : DBTransaction)
    (h0 : m0.stores = []) (hs : m0.stageAll env calls = Except.ok m)
    (hd : (calls.map (fun c => chainIdOf env c.2)).Nodup)
    (hp : iteration.Perm m.stores) :
    sortedStores { m with stores := iteration } = stagedStores env m0.storeCount calls ∧
    StateManager.commit env { m with stores := iteration } db =
      commitResult (commitLoop env (stagedStores env m0.storeCount calls)
        (commitStart { m with stores := iteration } db)) ∧
    ((StateManager.commit env { m with stores := iteration } db).1 = none →
      (StateManager.commit env { m with stores := iteration } db).2.2.stateEntries =
        db.stateEntries ++ updateEntries env m.txHash (stagedStores env m0.storeCount calls)) := by
  obtain ⟨hstores, -⟩ := stageAll_fresh env calls m0 m hs hd (by simp [h0])
  rw [h0, List.nil_append] at hstores
  have hsort : sortedStores { m with stores := iteration } = stagedStores env m0.storeCount calls := by
    unfold sortedStores
    exact insertionSort_perm_sorted _ iteration (stagedStores_sorted env calls m0.storeCount)
      (by rw [← hstores]; exact hp)
  refine ⟨hsort, ?_, ?_⟩
  · simp only [StateManager.commit, hsort]
  · intro hok
    simp only [StateManager.commit, commitResult, hsort] at hok ⊢
    generalize hr : commitLoop env (stagedStores env m0.storeCount calls)
      (commitStart { m with stores := iteration } db) = r at hok ⊢
    obtain ⟨e, s1⟩ := r
    simp only at hok
    subst hok
    obtain ⟨-, hentries, -⟩ :=
      commitLoop_inv env m.txHash m.submissions (stagedStores env m0.storeCount calls)
        (commitStart { m with stores := iteration } db) s1 [] db.stateEntries
        (CreateInv_start env { m with stores := iteration } db) rfl
        (by simp [commitStart, flushWrites_stateEntries]) hr
    exact hentries

/-- C11, at a concrete input: Bob's account was created, Alice's updated, Carol's
created; the map hands the stores out as Carol, Bob, Alice; `commit` flushes
Bob, Alice, Carol. -/
theorem commit_insertion_order_witness :
    sortedStores { calledManager with
        stores := [exampleStore true 2 9 "acc://carol/tokens", exampleStore true 0 5 "acc://bob/tokens",
                   exampleStore false 1 3 "acc://alice/tokens"] } =
      [exampleStore true 0 5 "acc://bob/tokens", exampleStore false 1 3 "acc://alice/tokens",
       exampleStore true 2 9 "acc://carol/tokens"] :=
  (commit_insertion_order exampleEnv (emptyManager (TxType.user 4)) calledManager exampleCalls
    [exampleStore true 2 9 "acc://carol/tokens", exampleStore true 0 5 "acc://bob/tokens",
     exampleStore false 1 3 "acc://alice/tokens"] exampleDB (by rfl) (by rfl) (by decide)
    (by decide)).1

/-! ### `Create`, `Submit` and `Load` -/

/-- The loop of `Create` panics when one of the records is a transaction
record. -/
theorem createLoop_transaction_panics (env : Env) (rs : List Record) :
    ∀ m : StateManager, (∃ r ∈ rs, r.Header.type.IsTransaction = true) →
      ∃ e, createLoop env m rs = Except.error e ∧ e.isPanic = true := by
  induction rs with
  | nil => intro m h; simp at h
  | cons r rest ih =>
    intro m h
    simp only [createLoop]
    by_cases ht : r.Header.type.IsTransaction = true
    · exact ⟨goPanic "Called StateManager.Create with a transaction record!", by simp [ht], rfl⟩
    · simp only [ht, Bool.false_eq_true, if_false]
      have hrest : ∃ r1 ∈ rest, r1.Header.type.IsTransaction = true := by
        obtain ⟨r1, hmem, hr1⟩ := h
        rw [List.mem_cons] at hmem
        rcases hmem with rfl | hmem
        · exact absurd hr1 ht
        · exact ⟨r1, hmem, hr1⟩
      cases hs : m.store env r true with
      | error e =>
        refine ⟨e, rfl, ?_⟩
        unfold StateManager.store at hs
        split at hs
        · simp only [Except.error.injEq] at hs
          subst hs
          rfl
        · simp at hs
      | ok m1 => exact ih m1 hrest

/-- C12. In a state manager whose transaction type is synthetic, every call to
`Create` and every call to `Submit` panics, before anything is staged or
queued: the call yields the panic and no state manager.  In a non-synthetic
transaction, `Create` of a transaction record panics, as does every `Create`
call one of whose records is a transaction record, and `Submit` returns the
state manager with the pair of destination URL and body appended to the end of
the submission queue, the earlier entries and everything else unchanged. -/
theorem create_submit_guards (env : Env) (m : StateManager) :
    (m.txType.IsSynthetic = true →
      (∀ rs, m.Create env rs =
        Except.error (goPanic "Called StateManager.Create from a synthetic transaction!")) ∧
      (∀ url body, m.Submit url body =
        Except.error (goPanic "Called StateManager.Submit from a synthetic transaction!"))) ∧
    (m.txType.IsSynthetic = false →
      (∀ r, r.Header.type.IsTransaction = true →
        m.Create env [r] =
          Except.error (goPanic "Called StateManager.Create with a transaction record!")) ∧
      (∀ rs, (∃ r ∈ rs, r.Header.type.IsTransaction = true) →
        ∃ e, m.Create env rs = Except.error e ∧ e.isPanic = true) ∧
      (∀ url body, m.Submit url body =
        Except.ok { m with submissions := m.submissions ++ [{ url := url, body := body }] })) := by
  constructor
  · intro hs
    exact ⟨fun rs => by simp [StateManager.Create, hs], fun url body => by
      simp [StateManager.Submit, hs]⟩
  · intro hs
    refine ⟨?_, ?_, ?_⟩
    · intro r hr
      simp [StateManager.Create, hs, createLoop, hr]
    · intro rs hrs
      simp only [StateManager.Create, hs, Bool.false_eq_true, if_false]
      exact createLoop_transaction_panics env rs m hrs
    · intro url body
      simp [StateManager.Submit, hs]

/-- The cache after an assignment holds the assigned record under its chain
ID. -/
theorem lookupChain_setChain (chains : List (Bytes × Record)) (id : Bytes) (r : Record) :
    lookupChain (setChain chains id r) id = some r := by
  simp [lookupChain, setChain]

/-- An assignment to the cache leaves the records of the other chain IDs as
they are. -/
theorem lookupChain_setChain_ne (chains : List (Bytes × Record)) (id id2 : Bytes) (r : Record)
    (hne : id2 ≠ id) : lookupChain (setChain chains id2 r) id = lookupChain chains id := by
  have hfilter : ∀ l : List (Bytes × Record),
      (l.filter (fun p => p.1 != id2)).find? (fun p => p.1 == id) = l.find? (fun p => p.1 == id) := by
    intro l
    induction l with
    | nil => rfl
    | cons p rest ih =>
      by_cases h1 : p.1 = id2
      · have h2 : ¬ (p.1 = id) := fun h => hne (h1.symm.trans h)
        simp [List.filter_cons, h1, List.find?_cons, hne, ih]
      · by_cases h2 : p.1 = id
        · have h3 : ¬ (id = id2) := fun h => hne h.symm
          simp [List.filter_cons, List.find?_cons, h2, h3]
        · simp [List.filter_cons, h1, List.find?_cons, h2, ih]
  simp only [lookupChain, setChain, List.find?_cons]
  have : ((id2 == id) = false) := by simpa using hne
  simp only [this, hfilter]

/-- A load of a cached chain ID returns the cached record and reads nothing. -/
theorem load_cached (env : Env) (m : StateManager) (db : DBTransaction) (id : Bytes) (r : Record)
    (h : lookupChain m.chains id = some r) : m.Load env db id = (Except.ok r, m) := by
  simp [StateManager.Load, h]

/-- After a load that succeeded the record is cached. -/
theorem load_caches (env : Env) (m m1 : StateManager) (db : DBTransaction) (id : Bytes) (r : Record)
    (h : m.Load env db id = (Except.ok r, m1)) : lookupChain m1.chains id = some r := by
  unfold StateManager.Load at h
  cases hl : lookupChain m.chains id with
  | some r0 =>
    simp only [hl, Prod.mk.injEq, Except.ok.injEq] at h
    obtain ⟨rfl, rfl⟩ := h
    exact hl
  | none =>
    simp only [hl] at h
    split at h
    · simp at h
    · split at h
      · simp at h
      · simp only [Prod.mk.injEq, Except.ok.injEq] at h
        obtain ⟨rfl, rfl⟩ := h
        exact lookupChain_setChain _ _ _

/-- A load of any chain ID keeps the records that are cached. -/
theorem load_keeps_cache (env : Env) (m : StateManager) (db : DBTransaction) (id id2 : Bytes)
    (r : Record) (h : lookupChain m.chains id = some r) :
    lookupChain (m.Load env db id2).2.chains id = some r := by
  unfold StateManager.Load
  cases hl : lookupChain m.chains id2 with
  | some r0 => simpa using h
  | none =>
    simp only
    split
    · exact h
    · split
      · exact h
      · have hne : id2 ≠ id := by
          intro heq
          rw [heq, h] at hl
          simp at hl
        simp only
        rw [lookupChain_setChain_ne _ _ _ _ hne]
        exact h

/-- After `store` the cache holds the stored record under its chain ID. -/
theorem store_caches (env : Env) (m m1 : StateManager) (r : Record) (c : Bool)
    (h : m.store env r c = Except.ok m1) : lookupChain m1.chains (chainIdOf env r) = some r := by
  unfold StateManager.store at h
  cases hu : r.Header.ParseUrl env with
  | error e => simp [hu] at h
  | ok u =>
    simp only [hu, Except.ok.injEq] at h
    subst h
    simp only [chainIdOf, hu]
    exact lookupChain_setChain _ _ _

/-- C17. `StateManager.Load` is memoized and shared with mutations.  (1) After a
`Load` of a chain ID that succeeded, a second `Load` of that chain ID returns
the same record and leaves the state manager as it is, whatever the DBTx holds
(it is not read), also when a `Load` of any chain ID came in between.  (2)
After `Update(r)` or `Create(r)`, a `Load` of the resource chain of `r`
returns `r` itself, whatever the DBTx holds. -/
theorem load_memoized_and_shared (env : Env) (m : StateManager) :
    (∀ db id r m1, m.Load env db id = (Except.ok r, m1) →
      (∀ db2, m1.Load env db2 id = (Except.ok r, m1)) ∧
      (∀ db2 id2 db3, (m1.Load env db2 id2).2.Load env db3 id =
        (Except.ok r, (m1.Load env db2 id2).2))) ∧
    (∀ r m1, (m.Update env [r] = Except.ok m1 ∨ m.Create env [r] = Except.ok m1) →
      ∀ db2, m1.Load env db2 (chainIdOf env r) = (Except.ok r, m1)) := by
  constructor
  · intro db id r m1 h
    have hc := load_caches env m m1 db id r h
    exact ⟨fun db2 => load_cached env m1 db2 id r hc,
      fun db2 id2 db3 => load_cached env _ db3 id r (load_keeps_cache env m1 db2 id id2 r hc)⟩
  · intro r m1 h db2
    have hstore : ∃ c, m.store env r c = Except.ok m1 := by
      rcases h with h | h
      · refine ⟨false, ?_⟩
        simp only [StateManager.Update] at h
        cases hs : m.store env r false with
        | error e => simp [hs] at h
        | ok m2 =>
          simp only [hs, Except.ok.injEq] at h
          rw [h]
      · refine ⟨true, ?_⟩
        simp only [StateManager.Create] at h
        split at h
        · simp at h
        · simp only [createLoop] at h
          split at h
          · simp at h
          · cases hs : m.store env r true with
            | error e => simp [hs] at h
            | ok m2 =>
              simp only [hs, Except.ok.injEq] at h
              rw [h]
    obtain ⟨c, hs⟩ := hstore
    exact load_cached env m1 db2 _ r (store_caches env m m1 r c hs)
/-! ### Rejected envelopes -/

/-- Recording a failed delivery adds at most one transaction record, without an
accepted body, and touches nothing else of the DBTx. -/
theorem recordTransactionError_records (env : Env) (ex : Executor) (p : PendingTransaction)
    (chainId txid : Bytes) (err : Error) :
    (∃ added : List TxRecord,
      (ex.recordTransactionError env p chainId txid err).2.dbTx.transactions =
        ex.dbTx.transactions ++ added ∧
      added.length ≤ 1 ∧ ∀ t ∈ added, t.accepted = none) ∧
    (∀ h, (ex.recordTransactionError env p chainId txid err).2.dbTx.GetTx h = ex.dbTx.GetTx h) ∧
    (ex.recordTransactionError env p chainId txid err).2.dbTx.stateEntries = ex.dbTx.stateEntries ∧
    (ex.recordTransactionError env p chainId txid err).2.dbTx.synthTxs = ex.dbTx.synthTxs ∧
    (ex.recordTransactionError env p chainId txid err).2.dbTx.writes = ex.dbTx.writes := by
  simp only [Executor.recordTransactionError]
  cases hm : env.marshalPending { p with Status := statusRejected err.msg } with
  | error e => exact ⟨⟨[], by simp, by simp, by simp⟩, fun _ => rfl, rfl, rfl, rfl⟩
  | ok entry =>
    simp only [DBTransaction.AddTransaction]
    cases ha : env.addTransactionError chainId txid { Entry := entry } none with
    | some e => exact ⟨⟨[], by simp, by simp, by simp⟩, fun _ => rfl, rfl, rfl, rfl⟩
    | none =>
      refine ⟨⟨[_], rfl, by simp, by simp⟩, fun h => ?_, rfl, rfl, rfl⟩
      simp [DBTransaction.GetTx]

/-- C16. `DeliverTx` rejects malformed envelopes.  (1) An envelope with no
transaction body, no signature info, or a chain ID whose length is not 32 gets
the error "malformed transaction" and the executor, its DBTx included, is left
as it was.  (2) An envelope that is not a genesis transaction and has zero
signatures, or whose signature validation fails, or whose type has no
registered executor, gets an error, and the delivery records no accepted
transaction: the transaction records it adds (at most one) have no accepted
body, `GetTx` answers as before for every hash, and no state entry, synthetic
transaction or raw write is added. -/
theorem deliverTx_rejects_malformed (env : Env) (ex : Executor) (tx : GenTransaction) :
    ((tx.Transaction = none ∨ tx.SigInfo = none ∨ tx.ChainID.length ≠ 32) →
      ex.DeliverTx env tx = (Except.error (errorf "malformed transaction"), ex)) ∧
    (env.transactionType tx.Transaction ≠ TxType.SyntheticGenesis →
      (tx.Signature.length = 0 ∨ env.validateSig tx = false ∨
        lookupExecutor ex.executors (env.transactionType tx.Transaction) = none) →
      (∃ e, (ex.DeliverTx env tx).1 = Except.error e) ∧
      (∃ added : List TxRecord,
        (ex.DeliverTx env tx).2.dbTx.transactions = ex.dbTx.transactions ++ added ∧
        added.length ≤ 1 ∧ ∀ t ∈ added, t.accepted = none) ∧
      (∀ h, (ex.DeliverTx env tx).2.dbTx.GetTx h = ex.dbTx.GetTx h) ∧
      (ex.DeliverTx env tx).2.dbTx.stateEntries = ex.dbTx.stateEntries ∧
      (ex.DeliverTx env tx).2.dbTx.synthTxs = ex.dbTx.synthTxs ∧
      (ex.DeliverTx env tx).2.dbTx.writes = ex.dbTx.writes) := by
  constructor
  · intro h
    simp [Executor.DeliverTx, h]
  · intro hg hbad
    by_cases hwf : tx.Transaction = none ∨ tx.SigInfo = none ∨ tx.ChainID.length ≠ 32
    · have hd : ex.DeliverTx env tx = (Except.error (errorf "malformed transaction"), ex) := by
        simp [Executor.DeliverTx, hwf]
      rw [hd]
      exact ⟨⟨_, rfl⟩, ⟨[], by simp, by simp, by simp⟩, fun _ => rfl, rfl, rfl, rfl⟩
    · cases hx : lookupExecutor ex.executors (env.transactionType tx.Transaction) with
      | none =>
        have hd : ex.DeliverTx env tx =
            (Except.error (ex.recordTransactionError env (NewPendingTransaction env tx)
              (toBytes32 tx.ChainID) (env.transactionHash tx)
              (errorf ("unsupported TX type: " ++
                env.txTypeName (env.transactionType tx.Transaction)))).1,
             (ex.recordTransactionError env (NewPendingTransaction env tx)
              (toBytes32 tx.ChainID) (env.transactionHash tx)
              (errorf ("unsupported TX type: " ++
                env.txTypeName (env.transactionType tx.Transaction)))).2) := by
          simp only [Executor.DeliverTx, if_neg hwf, hx]
        rw [hd]
        exact ⟨⟨_, rfl⟩, recordTransactionError_records env ex _ _ _ _⟩
      | some executor =>
        have hsig : tx.Signature.length = 0 ∨ env.validateSig tx = false := by
          rcases hbad with h | h | h
          · exact Or.inl h
          · exact Or.inr h
          · rw [hx] at h; cases h
        have hc : ∃ msg, ex.check env tx = Except.error (errorf msg) := by
          rcases hsig with h | h
          · exact ⟨"transaction is not signed", by simp [Executor.check, hg, h]⟩
          · by_cases h0 : tx.Signature.length = 0
            · exact ⟨"transaction is not signed", by simp [Executor.check, hg, h0]⟩
            · exact ⟨"invalid signature", by simp [Executor.check, hg, h0, h]⟩
        obtain ⟨msg, hc⟩ := hc
        have hd : ex.DeliverTx env tx =
            (Except.error (ex.recordTransactionError env (NewPendingTransaction env tx)
              (toBytes32 tx.ChainID) (env.transactionHash tx)
              (errorf ("failed check: " ++ msg))).1,
             (ex.recordTransactionError env (NewPendingTransaction env tx)
              (toBytes32 tx.ChainID) (env.transactionHash tx)
              (errorf ("failed check: " ++ msg))).2) := by
          simp [Executor.DeliverTx, hwf, hx, hc, errorf, Error.isPanic]
        rw [hd]
        exact ⟨⟨_, rfl⟩, recordTransactionError_records env ex _ _ _ _⟩
/-! ### The synthetic transaction engine -/

/-- The loop with its log computes what the loop computes. -/
theorem submitLoopLog_fst (env : Env) (leader : Bool) (height : Int) (key parentTxId : Bytes)
    (subs : List submittedTx) :
    ∀ (db : DBTransaction) (refs : List TxSynthRef) (log : List RelayCall),
      (submitLoopLog env leader height key parentTxId subs db refs log).1 =
        submitLoop env leader height key parentTxId subs db refs := by
  induction subs with
  | nil => intro db refs log; rfl
  | cons sub rest ih =>
    intro db refs log
    simp only [submitLoopLog, submitLoop, synthEnvelope, signedEnvelope]
    cases hb : env.marshalBody sub.body with
    | error e => rfl
    | ok body =>
      simp only []
      rcases hn : nextSynthCount env db with ⟨r, db1⟩
      cases r with
      | error e => rfl
      | ok n =>
        simp only []
        split
        · rfl
        · cases leader with
          | false => simp only [Bool.false_eq_true, if_false]; exact ih _ _ _
          | true =>
            simp only [if_true]
            split
            · rfl
            · split
              · rfl
              · split
                · rfl
                · exact ih _ _ _

/-- A call of `nextSynthCount` on a DBTx whose counter is `n` returns `n` and
writes the successor modulo 2^64. -/
theorem nextSynthCount_eq (env : Env) (db : DBTransaction) (n : Nat)
    (hn : counterValue env db = some n) :
    nextSynthCount env db = (Except.ok n,
      db.Write (env.computeKey [KeyPart.str "SyntheticTransactionCount"])
        (env.uint64Bytes ((n + 1) % 18446744073709551616))) := by
  simp only [counterValue] at hn
  simp only [nextSynthCount]
  cases hr : db.Read (env.computeKey [KeyPart.str "SyntheticTransactionCount"]) with
  | ok b =>
    simp only [hr, Option.some.injEq] at hn
    simp only [hn]
  | error err =>
    simp only [hr] at hn
    by_cases hnf : err.isNotFound = true
    · simp only [hnf, if_true, Option.some.injEq] at hn
      simp [hnf, ← hn]
    · simp [hnf] at hn

/-- The counter after a write of the key is the value written. -/
theorem counterValue_write (env : Env) (db : DBTransaction) (b : Bytes) :
    counterValue env (db.Write (env.computeKey [KeyPart.str "SyntheticTransactionCount"]) b) =
      some (if b.length > 0 then env.bytesUint64 b else 0) := by
  simp [counterValue, DBTransaction.Read, DBTransaction.Write]

/-- The counter after a call of `nextSynthCount`, when the codec of the counter
round-trips. -/
theorem counterValue_next (env : Env) (db : DBTransaction) (n : Nat)
    (hrt : ∀ x, x < 18446744073709551616 → env.bytesUint64 (env.uint64Bytes x) = x)
    (hne : ∀ x, x < 18446744073709551616 → (env.uint64Bytes x).length > 0)
    (hn : counterValue env db = some n) :
    counterValue env (nextSynthCount env db).2 = some ((n + 1) % 18446744073709551616) := by
  rw [nextSynthCount_eq env db n hn]
  simp only [counterValue_write]
  have hlt : (n + 1) % 18446744073709551616 < 18446744073709551616 := Nat.mod_lt _ (by decide)
  simp [hne _ hlt, hrt _ hlt]

/-- The values of `k` successive calls of `nextSynthCount`, and the counter
after them. -/
theorem nextSynthCounts_eq (env : Env)
    (hrt : ∀ x, x < 18446744073709551616 → env.bytesUint64 (env.uint64Bytes x) = x)
    (hne : ∀ x, x < 18446744073709551616 → (env.uint64Bytes x).length > 0) (k : Nat) :
    ∀ (db : DBTransaction) (n : Nat), counterValue env db = some n → n < 18446744073709551616 →
      (nextSynthCounts env k db).1 =
        Except.ok ((List.range k).map (fun i => (n + i) % 18446744073709551616)) ∧
      counterValue env (nextSynthCounts env k db).2 = some ((n + k) % 18446744073709551616) := by
  induction k with
  | zero =>
    intro db n hn hlt
    simp [nextSynthCounts, hn, Nat.mod_eq_of_lt hlt]
  | succ k ih =>
    intro db n hn hlt
    have hnext := counterValue_next env db n hrt hne hn
    have heq := nextSynthCount_eq env db n hn
    rw [heq] at hnext
    have hm : (n + 1) % 18446744073709551616 < 18446744073709551616 := Nat.mod_lt _ (by decide)
    obtain ⟨h1, h2⟩ := ih _ _ hnext hm
    simp only [nextSynthCounts, heq]
    rcases hrest : nextSynthCounts env k
      (db.Write (env.computeKey [KeyPart.str "SyntheticTransactionCount"])
        (env.uint64Bytes ((n + 1) % 18446744073709551616))) with ⟨r, db2⟩
    rw [hrest] at h1 h2
    simp only at h1 h2
    subst h1
    simp only [h2]
    constructor
    · rw [List.range_succ_eq_map]
      simp only [List.map_cons, List.map_map, Nat.add_zero, Nat.mod_eq_of_lt hlt]
      congr 2
      apply List.map_congr_left
      intro i _
      simp only [Function.comp]
      omega
    · congr 1
      omega

/-- Recording a synthetic transaction does not change the counter. -/
theorem counterValue_addSynthTx (env : Env) (db : DBTransaction) (p h : Bytes) (obj : Object) :
    counterValue env (db.AddSynthTx p h obj) = counterValue env db := rfl

/-- What a successful run of the loop of `submitSyntheticTx` has done: one
completed iteration per submission, in queue order; each recorded one synthetic
transaction and wrote the counter once; the leader signed and broadcast each
and collected its reference, a follower called no hook and collected
nothing. -/
theorem submitLoopLog_ok (env : Env) (leader : Bool) (height : Int) (key parentTxId : Bytes)
    (subs : List submittedTx) :
    ∀ (db : DBTransaction) (refs : List TxSynthRef) (log : List RelayCall)
      (r : List TxSynthRef) (db1 : DBTransaction) (log1 : List RelayCall),
      submitLoopLog env leader height key parentTxId subs db refs log = ((Except.ok r, db1), log1) →
      ∃ sent : List SynthSent,
        sent.map (fun s => s.sub) = subs ∧
        (∀ s ∈ sent, s.Stored env height) ∧
        db1.synthTxs = db.synthTxs ++ sent.map (fun s => s.record env height parentTxId) ∧
        db1.writes = db.writes ++ sent.map (fun s => s.counterWrite env) ∧
        db1.stateEntries = db.stateEntries ∧ db1.transactions = db.transactions ∧
        (leader = true →
          (∀ s ∈ sent, s.Relayed env height key) ∧
          r = refs ++ sent.map (fun s => s.reference env height key) ∧
          log1 = log ++ sent.flatMap (fun s => s.calls env height key)) ∧
        (leader = false → r = refs ∧ log1 = log) ∧
        (∀ n, (∀ x, x < 18446744073709551616 → env.bytesUint64 (env.uint64Bytes x) = x) →
          (∀ x, x < 18446744073709551616 → (env.uint64Bytes x).length > 0) →
          counterValue env db = some n → n < 18446744073709551616 →
          sent.map (fun s => s.nonce) =
            (List.range subs.length).map (fun i => (n + i) % 18446744073709551616) ∧
          counterValue env db1 = some ((n + subs.length) % 18446744073709551616)) := by
  induction subs with
  | nil =>
    intro db refs log r db1 log1 h
    simp only [submitLoopLog, Prod.mk.injEq, Except.ok.injEq] at h
    obtain ⟨⟨hr, hdb⟩, hlog⟩ := h
    subst hr hdb hlog
    refine ⟨[], rfl, by simp, by simp, by simp, rfl, rfl, ?_, ?_, ?_⟩
    · intro _; simp
    · intro _; simp
    · intro n _ _ hn hlt
      simp [hn, Nat.mod_eq_of_lt hlt]
  | cons sub rest ih =>
    intro db refs log r db1 log1 h
    simp only [submitLoopLog] at h
    cases hb : env.marshalBody sub.body with
    | error e => simp [hb] at h
    | ok body =>
      simp only [hb] at h
      cases hread : counterValue env db with
      | none =>
        exfalso
        simp only [counterValue] at hread
        simp only [nextSynthCount] at h
        cases hr : db.Read (env.computeKey [KeyPart.str "SyntheticTransactionCount"]) with
        | ok b => simp [hr] at hread
        | error err =>
          simp only [hr] at hread h
          by_cases hnf : err.isNotFound = true
          · simp [hnf] at hread
          · simp [hnf] at h
      | some n0 =>
        rw [nextSynthCount_eq env db n0 hread] at h
        simp only [] at h
        cases hp : env.marshalPending
            (NewPendingTransaction env (synthEnvelope env height sub body n0)) with
        | error e => simp [hp] at h
        | ok data =>
          simp only [hp] at h
          cases leader with
          | false =>
            simp only [Bool.false_eq_true, if_false] at h
            obtain ⟨sent, hsub, hst, hsy, hwr, hse, htr, _, hfol, hno⟩ := ih _ _ _ _ _ _ h
            refine ⟨{ sub := sub, body := body, nonce := n0, object := data, signature := [],
                      referenceId := [] } :: sent, ?_, ?_, ?_, ?_, ?_, ?_, ?_, ?_, ?_⟩
            · simp [hsub]
            · intro s hs
              rcases List.mem_cons.mp hs with h1 | h1
              · subst h1; exact ⟨hb, hp⟩
              · exact hst s h1
            · rw [hsy]; simp [DBTransaction.AddSynthTx, DBTransaction.Write, SynthSent.record,
                SynthSent.hash, SynthSent.tx]
            · rw [hwr]; simp [DBTransaction.AddSynthTx, DBTransaction.Write, SynthSent.counterWrite]
            · rw [hse]; rfl
            · rw [htr]; rfl
            · intro hl; cases hl
            · intro _; exact hfol rfl
            · intro n hrt hne hn hlt
              have hnn : n0 = n := Option.some.inj hn
              subst hnn
              have hc := counterValue_next env db n0 hrt hne hread
              rw [nextSynthCount_eq env db n0 hread] at hc
              have hm : (n0 + 1) % 18446744073709551616 < 18446744073709551616 :=
                Nat.mod_lt _ (by decide)
              obtain ⟨h1, h2⟩ := hno _ hrt hne hc hm
              constructor
              · rw [List.length_cons, List.range_succ_eq_map]
                simp only [List.map_cons, List.map_map, Nat.add_zero, Nat.mod_eq_of_lt hlt, h1]
                congr 1
                apply List.map_congr_left
                intro i _
                simp only [Function.comp]
                omega
              · rw [h2, List.length_cons]
                congr 1
                omega
          | true =>
            simp only [if_true] at h
            by_cases hk : key.length < 32
            · simp [hk] at h
            simp only [hk, if_false] at h
            cases hs : env.sign n0 key (env.transactionHash (synthEnvelope env height sub body n0)) with
            | error e => simp [hs] at h
            | ok signature =>
              simp only [hs] at h
              cases hbc : env.broadcastTx
                  (signedEnvelope (synthEnvelope env height sub body n0) n0 key signature) with
              | error e => simp [hbc] at h
              | ok referenceId =>
                simp only [hbc] at h
                obtain ⟨sent, hsub, hst, hsy, hwr, hse, htr, hlead, _, hno⟩ := ih _ _ _ _ _ _ h
                obtain ⟨hrel, hrefs, hlog⟩ := hlead rfl
                refine ⟨{ sub := sub, body := body, nonce := n0, object := data,
                          signature := signature, referenceId := referenceId } :: sent,
                  ?_, ?_, ?_, ?_, ?_, ?_, ?_, ?_, ?_⟩
                · simp [hsub]
                · intro s hs
                  rcases List.mem_cons.mp hs with h1 | h1
                  · subst h1; exact ⟨hb, hp⟩
                  · exact hst s h1
                · rw [hsy]; simp [DBTransaction.AddSynthTx, DBTransaction.Write, SynthSent.record,
                    SynthSent.hash, SynthSent.tx]
                · rw [hwr]; simp [DBTransaction.AddSynthTx, DBTransaction.Write,
                    SynthSent.counterWrite]
                · rw [hse]; rfl
                · rw [htr]; rfl
                · intro _
                  refine ⟨?_, ?_, ?_⟩
                  · intro s hs1
                    rcases List.mem_cons.mp hs1 with h1 | h1
                    · subst h1; exact ⟨hs, hbc⟩
                    · exact hrel s h1
                  · rw [hrefs]
                    simp [SynthSent.reference, SynthSent.signed, SynthSent.hash, SynthSent.tx]
                  · rw [hlog]
                    simp [SynthSent.calls, SynthSent.signed, SynthSent.hash, SynthSent.tx]
                · intro hl; cases hl
                · intro n hrt hne hn hlt
                  have hnn : n0 = n := Option.some.inj hn
                  subst hnn
                  have hc := counterValue_next env db n0 hrt hne hread
                  rw [nextSynthCount_eq env db n0 hread] at hc
                  have hm : (n0 + 1) % 18446744073709551616 < 18446744073709551616 :=
                    Nat.mod_lt _ (by decide)
                  obtain ⟨h1, h2⟩ := hno _ hrt hne hc hm
                  constructor
                  · rw [List.length_cons, List.range_succ_eq_map]
                    simp only [List.map_cons, List.map_map, Nat.add_zero, Nat.mod_eq_of_lt hlt, h1]
                    congr 1
                    apply List.map_congr_left
                    intro i _
                    simp only [Function.comp]
                    omega
                  · rw [h2, List.length_cons]
                    congr 1
                    omega

/-- C13 (as stated, refuted). With the counter at 2^64 - 1, two successive
calls of `nextSynthCount` return 2^64 - 1 and then 0, and the leader signs the
two synthetic transactions of one delivery with these nonces: they are not
strictly increasing. -/
theorem synth_nonce_wraps :
    counterValue exampleEnv wrapDB = some 18446744073709551615 ∧
    (nextSynthCounts exampleEnv 2 wrapDB).1 = Except.ok [18446744073709551615, 0] ∧
    (submitLoopLog exampleEnv true 1 (List.replicate 64 1) [7] exampleSubmissions wrapDB [] []
      ).2.filterMap signNonce = [18446744073709551615, 0] ∧
    ¬ List.Pairwise (fun a b : Nat => a < b) [18446744073709551615, 0] := by
  refine ⟨by rfl, by rfl, by rfl, by decide⟩

/-- C13 (amended). When the codec of the counter round-trips on 64-bit values
and the value stored under the SyntheticTransactionCount key in the DBTx is
`n` (an absent or empty value counting as 0), `k` successive calls of
`nextSynthCount` return `(n + i) mod 2^64` for `i = 0, ..., k - 1` and leave
`(n + k) mod 2^64` stored; these values are pairwise distinct when `k ≤ 2^64`,
and strictly increasing when `n + k ≤ 2^64`, that is when the counter does not
wrap around.  The synthetic transactions of a successful run of the loop of
`submitSyntheticTx` are recorded with exactly these nonces, in queue order. -/
theorem nextSynthCount_sequence (env : Env) (db : DBTransaction) (n k : Nat)
    (hrt : ∀ x, x < 18446744073709551616 → env.bytesUint64 (env.uint64Bytes x) = x)
    (hne : ∀ x, x < 18446744073709551616 → (env.uint64Bytes x).length > 0)
    (hn : counterValue env db = some n) (hlt : n < 18446744073709551616) :
    (nextSynthCounts env k db).1 =
      Except.ok ((List.range k).map (fun i => (n + i) % 18446744073709551616)) ∧
    counterValue env (nextSynthCounts env k db).2 = some ((n + k) % 18446744073709551616) ∧
    (k ≤ 18446744073709551616 →
      ((List.range k).map (fun i => (n + i) % 18446744073709551616)).Nodup) ∧
    (n + k ≤ 18446744073709551616 →
      (List.range k).map (fun i => (n + i) % 18446744073709551616) =
        (List.range k).map (fun i => n + i) ∧
      List.Pairwise (fun a b : Nat => a < b)
        ((List.range k).map (fun i => (n + i) % 18446744073709551616))) ∧
    (∀ (leader : Bool) (height : Int) (key parentTxId : Bytes) (subs : List submittedTx)
        (refs r : List TxSynthRef) (log log1 : List RelayCall) (db1 : DBTransaction),
      subs.length = k →
      submitLoopLog env leader height key parentTxId subs db refs log = ((Except.ok r, db1), log1) →
      ∃ sent : List SynthSent,
        sent.map (fun s => s.sub) = subs ∧
        db1.synthTxs = db.synthTxs ++ sent.map (fun s => s.record env height parentTxId) ∧
        sent.map (fun s => s.nonce) =
          (List.range k).map (fun i => (n + i) % 18446744073709551616) ∧
        counterValue env db1 = some ((n + k) % 18446744073709551616)) := by
  have hseq := nextSynthCounts_eq env hrt hne k db n hn hlt
  refine ⟨hseq.1, hseq.2, ?_, ?_, ?_⟩
  · intro hk
    apply List.Nodup.map_on _ (List.nodup_range k)
    intro i hi j hj hij
    rw [List.mem_range] at hi hj
    omega
  · intro hk
    have heq : (List.range k).map (fun i => (n + i) % 18446744073709551616) =
        (List.range k).map (fun i => n + i) := by
      apply List.map_congr_left
      intro i hi
      rw [List.mem_range] at hi
      exact Nat.mod_eq_of_lt (by omega)
    refine ⟨heq, ?_⟩
    rw [heq, List.pairwise_map]
    exact (List.pairwise_lt_range k).imp (fun h => by omega)
  · intro leader height key parentTxId subs refs r log log1 db1 hlen h
    obtain ⟨sent, hsub, _, hsy, _, _, _, _, _, hno⟩ :=
      submitLoopLog_ok env leader height key parentTxId subs db refs log r db1 log1 h
    obtain ⟨h1, h2⟩ := hno n hrt hne hn hlt
    rw [hlen] at h1 h2
    exact ⟨sent, hsub, hsy, h1, h2⟩

/-- C13 (amended), at a concrete input: on the example database, where the
counter is absent, three calls return 0, 1, 2 and leave 3 stored. -/
theorem nextSynthCount_sequence_witness :
    (nextSynthCounts exampleEnv 3 exampleDB).1 =
      Except.ok ((List.range 3).map (fun i => (0 + i) % 18446744073709551616)) ∧
    counterValue exampleEnv (nextSynthCounts exampleEnv 3 exampleDB).2 =
      some ((0 + 3) % 18446744073709551616) :=
  ⟨(nextSynthCount_sequence exampleEnv exampleDB 0 3 (fun _ _ => rfl) (fun _ _ => Nat.zero_lt_one)
      (by rfl) (by decide)).1,
   (nextSynthCount_sequence exampleEnv exampleDB 0 3 (fun _ _ => rfl) (fun _ _ => Nat.zero_lt_one)
      (by rfl) (by decide)).2.1⟩

/-- A follower calls no hook and collects no reference, whether its run
succeeds or not. -/
theorem submitLoopLog_follower (env : Env) (height : Int) (key parentTxId : Bytes)
    (subs : List submittedTx) :
    ∀ (db : DBTransaction) (refs : List TxSynthRef) (log : List RelayCall),
      (submitLoopLog env false height key parentTxId subs db refs log).2 = log ∧
      ∀ r, (submitLoopLog env false height key parentTxId subs db refs log).1.1 = Except.ok r →
        r = refs := by
  induction subs with
  | nil =>
    intro db refs log
    refine ⟨rfl, fun r h => ?_⟩
    simp only [submitLoopLog, Except.ok.injEq] at h
    exact h.symm
  | cons sub rest ih =>
    intro db refs log
    simp only [submitLoopLog]
    cases hb : env.marshalBody sub.body with
    | error e => exact ⟨rfl, fun r h => by simp at h⟩
    | ok body =>
      simp only []
      rcases hn : nextSynthCount env db with ⟨c, db1⟩
      cases c with
      | error e => exact ⟨rfl, fun r h => by simp at h⟩
      | ok n =>
        simp only []
        cases hp : env.marshalPending
            (NewPendingTransaction env (synthEnvelope env height sub body n)) with
        | error e => exact ⟨rfl, fun r h => by simp at h⟩
        | ok data =>
          simp only [Bool.false_eq_true, if_false]
          exact ih _ _ _

/-- When the run of the leader succeeds, the run of a follower on the same
input succeeds and leaves the same DBTx. -/
theorem submitLoopLog_follower_of_leader (env : Env) (height : Int) (key parentTxId : Bytes)
    (subs : List submittedTx) :
    ∀ (db : DBTransaction) (refs refs0 : List TxSynthRef) (log log0 : List RelayCall)
      (r : List TxSynthRef) (db1 : DBTransaction) (log1 : List RelayCall),
      submitLoopLog env true height key parentTxId subs db refs log = ((Except.ok r, db1), log1) →
      submitLoopLog env false height key parentTxId subs db refs0 log0 =
        ((Except.ok refs0, db1), log0) := by
  induction subs with
  | nil =>
    intro db refs refs0 log log0 r db1 log1 h
    simp only [submitLoopLog, Prod.mk.injEq, Except.ok.injEq] at h
    simp [submitLoopLog, h.1.2]
  | cons sub rest ih =>
    intro db refs refs0 log log0 r db1 log1 h
    simp only [submitLoopLog] at h ⊢
    cases hb : env.marshalBody sub.body with
    | error e => simp [hb] at h
    | ok body =>
      simp only [hb] at h ⊢
      rcases hn : nextSynthCount env db with ⟨c, db2⟩
      rw [hn] at h
      cases c with
      | error e => simp at h
      | ok n =>
        simp only [] at h ⊢
        cases hp : env.marshalPending
            (NewPendingTransaction env (synthEnvelope env height sub body n)) with
        | error e => simp [hp] at h
        | ok data =>
          simp only [hp, if_true, Bool.false_eq_true, if_false] at h ⊢
          by_cases hk : key.length < 32
          · simp [hk] at h
          simp only [hk, if_false] at h
          cases hs : env.sign n key (env.transactionHash (synthEnvelope env height sub body n)) with
          | error e => simp [hs] at h
          | ok signature =>
            simp only [hs] at h
            cases hbc : env.broadcastTx
                (signedEnvelope (synthEnvelope env height sub body n) n key signature) with
            | error e => simp [hbc] at h
            | ok referenceId =>
              simp only [hbc] at h
              exact ih _ _ _ _ _ _ _ _ h

/-- When the node key has its 32 bytes of public key and the signing and
broadcast hooks succeed on every input, the runs of the leader and of a
follower on the same input leave the same DBTx, and fail with the same error
or both succeed. -/
theorem submitLoopLog_hooks (env : Env) (height : Int) (key parentTxId : Bytes)
    (hk : 32 ≤ key.length)
    (hs : ∀ n hash, ∃ s, env.sign n key hash = Except.ok s)
    (hb : ∀ tx, ∃ r, env.broadcastTx tx = Except.ok r)
    (subs : List submittedTx) :
    ∀ (db : DBTransaction) (refs refs0 : List TxSynthRef) (log log0 : List RelayCall),
      (submitLoopLog env false height key parentTxId subs db refs0 log0).1.2 =
        (submitLoopLog env true height key parentTxId subs db refs log).1.2 ∧
      (submitLoopLog env false height key parentTxId subs db refs0 log0).1.1 =
        (submitLoopLog env true height key parentTxId subs db refs log).1.1.map (fun _ => refs0) := by
  induction subs with
  | nil => intro db refs refs0 log log0; exact ⟨rfl, rfl⟩
  | cons sub rest ih =>
    intro db refs refs0 log log0
    simp only [submitLoopLog]
    cases hbody : env.marshalBody sub.body with
    | error e => exact ⟨rfl, rfl⟩
    | ok body =>
      simp only []
      rcases hn : nextSynthCount env db with ⟨c, db2⟩
      cases c with
      | error e => exact ⟨rfl, rfl⟩
      | ok n =>
        simp only []
        cases hp : env.marshalPending
            (NewPendingTransaction env (synthEnvelope env height sub body n)) with
        | error e => exact ⟨rfl, rfl⟩
        | ok data =>
          have hk1 : ¬ key.length < 32 := by omega
          simp only [if_true, Bool.false_eq_true, if_false, hk1]
          obtain ⟨signature, hsig⟩ :=
            hs n (env.transactionHash (synthEnvelope env height sub body n))
          obtain ⟨referenceId, hbc⟩ :=
            hb (signedEnvelope (synthEnvelope env height sub body n) n key signature)
          simp only [hsig, hbc]
          exact ih _ _ _ _ _

/-- The synthetic hashes linked to a parent after its records were appended. -/
theorem getSyntheticTxIds_append (env : Env) (height : Int) (p : Bytes) (db db1 : DBTransaction)
    (sent : List SynthSent)
    (h : db1.synthTxs = db.synthTxs ++ sent.map (fun s => s.record env height p)) :
    db1.GetSyntheticTxIds p = db.GetSyntheticTxIds p ++ sent.map (fun s => s.hash env height) := by
  simp only [DBTransaction.GetSyntheticTxIds, h, List.filter_append, List.map_append]
  congr 1
  clear h
  induction sent with
  | nil => rfl
  | cons s rest ih => simp [SynthSent.record] at ih ⊢; exact ih

/-- C14. State mutation is independent of leadership.  (1) When the run of
`submitSyntheticTx` with leader = true succeeds (the node key signs and the
relay accepts every broadcast), the run with leader = false on the same parent
hash, block height, DBTx and submission queue succeeds and leaves the same
DBTx: one `AddSynthTx(parentHash, synthHash, object)` and one write of the
counter per queued submission, in queue order, with the same hashes, nonces and
objects, no state entry and no transaction record; `GetSyntheticTxIds` of the
parent hash then lists the hash of every generated synthetic transaction, on
the leader and on the follower.  (2) When the signing and broadcast hooks
succeed on every input, the two runs leave the same DBTx also when they fail,
and they fail with the same error. -/
theorem submit_independent_of_leadership (env : Env) (ex : Executor) (p : Bytes)
    (st : StateManager) :
    (∀ refs, (Executor.submitSyntheticTx env { ex with leader := true } p st).1 = Except.ok refs →
      (Executor.submitSyntheticTx env { ex with leader := false } p st).1 = Except.ok [] ∧
      (Executor.submitSyntheticTx env { ex with leader := false } p st).2.dbTx =
        (Executor.submitSyntheticTx env { ex with leader := true } p st).2.dbTx ∧
      ∃ sent : List SynthSent,
        sent.map (fun s => s.sub) = st.submissions ∧
        (∀ s ∈ sent, s.Stored env ex.height) ∧
        (Executor.submitSyntheticTx env { ex with leader := true } p st).2.dbTx.synthTxs =
          ex.dbTx.synthTxs ++ sent.map (fun s => s.record env ex.height p) ∧
        (Executor.submitSyntheticTx env { ex with leader := true } p st).2.dbTx.writes =
          ex.dbTx.writes ++ sent.map (fun s => s.counterWrite env) ∧
        (Executor.submitSyntheticTx env { ex with leader := true } p st).2.dbTx.stateEntries =
          ex.dbTx.stateEntries ∧
        (Executor.submitSyntheticTx env { ex with leader := true } p st).2.dbTx.transactions =
          ex.dbTx.transactions ∧
        (Executor.submitSyntheticTx env { ex with leader := true } p st).2.dbTx.GetSyntheticTxIds p =
          ex.dbTx.GetSyntheticTxIds p ++ sent.map (fun s => s.hash env ex.height) ∧
        (Executor.submitSyntheticTx env { ex with leader := false } p st).2.dbTx.GetSyntheticTxIds p =
          ex.dbTx.GetSyntheticTxIds p ++ sent.map (fun s => s.hash env ex.height)) ∧
    (32 ≤ ex.key.length → (∀ n hash, ∃ s, env.sign n ex.key hash = Except.ok s) →
      (∀ tx, ∃ r, env.broadcastTx tx = Except.ok r) →
      (Executor.submitSyntheticTx env { ex with leader := false } p st).2.dbTx =
        (Executor.submitSyntheticTx env { ex with leader := true } p st).2.dbTx ∧
      (Executor.submitSyntheticTx env { ex with leader := false } p st).1 =
        (Executor.submitSyntheticTx env { ex with leader := true } p st).1.map (fun _ => [])) := by
  constructor
  · intro refs h
    simp only [Executor.submitSyntheticTx] at h ⊢
    rw [← submitLoopLog_fst env true ex.height ex.key p st.submissions ex.dbTx [] []] at h ⊢
    rw [← submitLoopLog_fst env false ex.height ex.key p st.submissions ex.dbTx [] []]
    rcases hL : submitLoopLog env true ex.height ex.key p st.submissions ex.dbTx [] [] with
      ⟨⟨r, db1⟩, log1⟩
    rw [hL] at h
    simp only at h
    subst h
    have hF := submitLoopLog_follower_of_leader env ex.height ex.key p st.submissions ex.dbTx
      [] [] [] [] refs db1 log1 hL
    obtain ⟨sent, hsub, hst, hsy, hwr, hse, htr, _, _, _⟩ :=
      submitLoopLog_ok env true ex.height ex.key p st.submissions ex.dbTx [] [] refs db1 log1 hL
    rw [hF]
    refine ⟨rfl, rfl, sent, hsub, hst, hsy, hwr, hse, htr, ?_, ?_⟩
    · exact getSyntheticTxIds_append env ex.height p ex.dbTx db1 sent hsy
    · exact getSyntheticTxIds_append env ex.height p ex.dbTx db1 sent hsy
  · intro hk hs hb
    simp only [Executor.submitSyntheticTx]
    rw [← submitLoopLog_fst env true ex.height ex.key p st.submissions ex.dbTx [] [],
      ← submitLoopLog_fst env false ex.height ex.key p st.submissions ex.dbTx [] []]
    exact submitLoopLog_hooks env ex.height ex.key p hk hs hb st.submissions ex.dbTx [] [] [] []

/-- C14, at a concrete input: the example executor as leader and as follower,
with the two example submissions queued by the transaction of hash `[7]`,
links the same two synthetic hashes to the parent. -/
theorem submit_independent_of_leadership_witness :
    (Executor.submitSyntheticTx exampleEnv { exampleExecutor with leader := false } [7]
        submittingManager).1 = Except.ok [] ∧
    (Executor.submitSyntheticTx exampleEnv { exampleExecutor with leader := false } [7]
        submittingManager).2.dbTx =
      (Executor.submitSyntheticTx exampleEnv { exampleExecutor with leader := true } [7]
        submittingManager).2.dbTx ∧
    (Executor.submitSyntheticTx exampleEnv { exampleExecutor with leader := false } [7]
        submittingManager).2.dbTx.GetSyntheticTxIds [7] = [[1, 5], [1, 9]] :=
  ⟨((submit_independent_of_leadership exampleEnv exampleExecutor [7] submittingManager).1
      _ (by rfl)).1,
   ((submit_independent_of_leadership exampleEnv exampleExecutor [7] submittingManager).1
      _ (by rfl)).2.1, by rfl⟩

/-- The broadcasts among the calls of completed iterations: one per iteration,
the signed envelope. -/
theorem broadcastOf_calls (env : Env) (height : Int) (key : Bytes) (sent : List SynthSent) :
    (sent.flatMap (fun s => s.calls env height key)).filterMap broadcastOf =
      sent.map (fun s => s.signed env height key) := by
  induction sent with
  | nil => rfl
  | cons s rest ih =>
    simp only [List.flatMap_cons, List.filterMap_append, ih, List.map_cons]
    simp [SynthSent.calls, broadcastOf]

/-- The signatures among the calls of completed iterations: one per iteration,
with its nonce. -/
theorem signNonce_calls (env : Env) (height : Int) (key : Bytes) (sent : List SynthSent) :
    (sent.flatMap (fun s => s.calls env height key)).filterMap signNonce =
      sent.map (fun s => s.nonce) := by
  induction sent with
  | nil => rfl
  | cons s rest ih =>
    simp only [List.flatMap_cons, List.filterMap_append, ih, List.map_cons]
    simp [SynthSent.calls, signNonce]

/-- C15. Only the leader broadcasts.  `submitSyntheticTxLog` is
`submitSyntheticTx` with the list of its calls on the signing and broadcast
hooks.  (1) With leader = false that list is empty, whether the run succeeds or
not, and a run that succeeds returns no references.  (2) With leader = true a
run that succeeds has, for each queued submission in queue order, signed the
hash of its synthetic transaction with the node key and then broadcast the
signed envelope: exactly one broadcast per queued submission; and it returns
one reference per submission, in queue order, whose URL is the destination URL
and whose hash is the hash of the synthetic transaction. -/
theorem only_leader_broadcasts (env : Env) (ex : Executor) (p : Bytes) (st : StateManager) :
    (ex.submitSyntheticTxLog env p st).1 = ex.submitSyntheticTx env p st ∧
    (Executor.submitSyntheticTxLog env { ex with leader := false } p st).2 = [] ∧
    (∀ refs, (Executor.submitSyntheticTx env { ex with leader := false } p st).1 = Except.ok refs →
      refs = []) ∧
    (∀ refs, (Executor.submitSyntheticTx env { ex with leader := true } p st).1 = Except.ok refs →
      ∃ sent : List SynthSent,
        sent.map (fun s => s.sub) = st.submissions ∧
        (∀ s ∈ sent, s.Stored env ex.height ∧ s.Relayed env ex.height ex.key) ∧
        (Executor.submitSyntheticTxLog env { ex with leader := true } p st).2 =
          sent.flatMap (fun s => s.calls env ex.height ex.key) ∧
        (Executor.submitSyntheticTxLog env { ex with leader := true } p st).2.filterMap broadcastOf =
          sent.map (fun s => s.signed env ex.height ex.key) ∧
        ((Executor.submitSyntheticTxLog env { ex with leader := true } p st).2.filterMap
          broadcastOf).length = st.submissions.length ∧
        refs = sent.map (fun s => s.reference env ex.height ex.key) ∧
        refs.length = st.submissions.length ∧
        refs.map (fun r => r.Url) = st.submissions.map (fun sub => sub.url.toText env) ∧
        refs.map (fun r => r.Hash) = sent.map (fun s => toBytes32 (s.hash env ex.height)) ∧
        (Executor.submitSyntheticTx env { ex with leader := true } p st).2.dbTx.synthTxs =
          ex.dbTx.synthTxs ++ sent.map (fun s => s.record env ex.height p)) := by
  refine ⟨?_, ?_, ?_, ?_⟩
  · simp only [Executor.submitSyntheticTxLog, Executor.submitSyntheticTx]
    rw [← submitLoopLog_fst env ex.leader ex.height ex.key p st.submissions ex.dbTx [] []]
  · simp only [Executor.submitSyntheticTxLog]
    exact (submitLoopLog_follower env ex.height ex.key p st.submissions ex.dbTx [] []).1
  · intro refs h
    simp only [Executor.submitSyntheticTx] at h
    rw [← submitLoopLog_fst env false ex.height ex.key p st.submissions ex.dbTx [] []] at h
    exact (submitLoopLog_follower env ex.height ex.key p st.submissions ex.dbTx [] []).2 refs h
  · intro refs h
    simp only [Executor.submitSyntheticTx, Executor.submitSyntheticTxLog] at h ⊢
    rw [← submitLoopLog_fst env true ex.height ex.key p st.submissions ex.dbTx [] []] at h ⊢
    rcases hL : submitLoopLog env true ex.height ex.key p st.submissions ex.dbTx [] [] with
      ⟨⟨r, db1⟩, log1⟩
    rw [hL] at h
    simp only at h
    subst h
    obtain ⟨sent, hsub, hst, hsy, _, _, _, hlead, _, _⟩ :=
      submitLoopLog_ok env true ex.height ex.key p st.submissions ex.dbTx [] [] refs db1 log1 hL
    obtain ⟨hrel, hrefs, hlog⟩ := hlead rfl
    simp only [List.nil_append] at hrefs hlog
    have hlen : sent.length = st.submissions.length := by rw [← hsub, List.length_map]
    refine ⟨sent, hsub, fun s hs => ⟨hst s hs, hrel s hs⟩, hlog, ?_, ?_, hrefs, ?_, ?_, ?_, hsy⟩
    · simp only [hlog]; exact broadcastOf_calls env ex.height ex.key sent
    · simp only [hlog]; rw [broadcastOf_calls, List.length_map, hlen]
    · rw [hrefs, List.length_map, hlen]
    · rw [hrefs, ← hsub]; simp [SynthSent.reference]
    · rw [hrefs]; simp [SynthSent.reference]

/-- C15, at a concrete input: the example executor as follower calls no hook;
as leader it signs with nonces 0 and 1 and returns the references to Bob's and
to Carol's identity. -/
theorem only_leader_broadcasts_witness :
    (Executor.submitSyntheticTxLog exampleEnv { exampleExecutor with leader := false } [7]
      submittingManager).2 = [] ∧
    (Executor.submitSyntheticTxLog exampleEnv leaderExecutor [7] submittingManager).2.filterMap
      signNonce = [0, 1] ∧
    ((Executor.submitSyntheticTxLog exampleEnv leaderExecutor [7] submittingManager).2.filterMap
      broadcastOf).length = 2 ∧
    ((Executor.submitSyntheticTx exampleEnv leaderExecutor [7] submittingManager).1.map
      (fun refs => refs.map (fun r => r.Url))) = Except.ok ["acc://bob", "acc://carol"] :=
  ⟨(only_leader_broadcasts exampleEnv exampleExecutor [7] submittingManager).2.1,
   by rfl, by rfl, by rfl⟩

/-! ### The directory index -/

/-- The assignment of a key, looked up under any key. -/
theorem find_setWrite (writes : List (Bytes × Bytes)) (k k2 v : Bytes) :
    lookupWrite (setWrite writes k v) k2 = if k2 = k then some v else lookupWrite writes k2 := by
  simp only [lookupWrite, setWrite]
  by_cases hany : writes.any (fun w => w.1 == k) = true
  · simp only [hany, if_true, List.find?_map]
    have hcomp : ((fun w : Bytes × Bytes => w.1 == k2) ∘
        fun w : Bytes × Bytes => if (w.1 == k) = true then (k, v) else w) =
        fun w : Bytes × Bytes => w.1 == k2 := by
      funext w
      simp only [Function.comp]
      by_cases hw : w.1 = k
      · simp [hw]
      · simp [hw]
    rw [hcomp]
    by_cases hk : k2 = k
    · subst hk
      simp only [if_true]
      rw [List.any_eq_true] at hany
      obtain ⟨w, hw, hwk⟩ := hany
      cases hf : writes.find? (fun w => w.1 == k2) with
      | none =>
        rw [List.find?_eq_none] at hf
        exact absurd hwk (hf w hw)
      | some w1 =>
        have h0 := List.find?_some hf
        have h1 : w1.1 = k2 := by simpa using h0
        simp [h1]
    · simp only [hk, if_false]
      cases hf : writes.find? (fun w => w.1 == k2) with
      | none => rfl
      | some w1 =>
        have h0 := List.find?_some hf
        have h1 : w1.1 = k2 := by simpa using h0
        have h2 : ¬ w1.1 = k := fun e => hk (h1.symm.trans e)
        simp [h2]
  · simp only [hany, Bool.false_eq_true, if_false, List.find?_append]
    simp only [Bool.not_eq_true] at hany
    by_cases hk : k2 = k
    · subst hk
      have hnone : writes.find? (fun w => w.1 == k2) = none := by
        rw [List.find?_eq_none]
        intro w hw
        rw [List.any_eq_false] at hany
        exact hany w hw
      simp [hnone]
    · have hk1 : ¬ k = k2 := fun e => hk e.symm
      simp [hk, hk1]

/-- The index entry of a key after `WriteIndex` of that key. -/
theorem getIndex_writeIndex (env : Env) (m : StateManager) (db : DBTransaction) (index : String)
    (chainId : Bytes) (key : KeyPart) (value : Bytes) :
    (m.WriteIndex env index chainId key value).GetIndex env db index chainId key =
      Except.ok value := by
  simp [StateManager.GetIndex, StateManager.WriteIndex, find_setWrite]

/-- The index entry of a key after `WriteIndex` of a key that is stored
elsewhere. -/
theorem getIndex_writeIndex_ne (env : Env) (m : StateManager) (db : DBTransaction)
    (index : String) (chainId : Bytes) (key key2 : KeyPart) (value : Bytes)
    (h : env.computeKey [KeyPart.str index, KeyPart.bytes chainId, key2] ≠
      env.computeKey [KeyPart.str index, KeyPart.bytes chainId, key]) :
    (m.WriteIndex env index chainId key value).GetIndex env db index chainId key2 =
      m.GetIndex env db index chainId key2 := by
  simp [StateManager.GetIndex, StateManager.WriteIndex, find_setWrite, h]

/-- The keys of the buffer after an assignment are pairwise distinct when they
were before. -/
theorem setWrite_nodup (writes : List (Bytes × Bytes)) (k v : Bytes)
    (h : (writes.map Prod.fst).Nodup) : ((setWrite writes k v).map Prod.fst).Nodup := by
  simp only [setWrite]
  by_cases hany : writes.any (fun w => w.1 == k) = true
  · simp only [hany, if_true, List.map_map]
    have hcomp : (Prod.fst ∘ fun w : Bytes × Bytes => if (w.1 == k) = true then (k, v) else w) =
        Prod.fst := by
      funext w
      simp only [Function.comp]
      by_cases hw : w.1 = k
      · simp [hw]
      · simp [hw]
    rw [hcomp]
    exact h
  · simp only [hany, Bool.false_eq_true, if_false, List.map_append, List.map_cons, List.map_nil]
    simp only [Bool.not_eq_true] at hany
    rw [List.nodup_append]
    refine ⟨h, by simp, ?_⟩
    intro a ha hb
    simp only [List.mem_singleton] at hb
    subst hb
    rw [List.mem_map] at ha
    obtain ⟨w, hw, hwa⟩ := ha
    rw [List.any_eq_false] at hany
    exact hany w hw (by simp [hwa])

/-- One successful call of `AddDirectoryEntry` on an identity whose count is
`c`: the count becomes `c + 1`, the text of the URL is stored under the integer
key `c`, and the entries under the other integer keys are unchanged. -/
theorem addDirectoryEntry_step (env : Env) (idc : Bytes)
    (hk1 : ∀ i, env.computeKey [KeyPart.str env.directoryIndex, KeyPart.bytes idc, KeyPart.uint i] ≠
      env.computeKey [KeyPart.str env.directoryIndex, KeyPart.bytes idc, KeyPart.str "Metadata"])
    (hk2 : ∀ i j,
      env.computeKey [KeyPart.str env.directoryIndex, KeyPart.bytes idc, KeyPart.uint i] =
      env.computeKey [KeyPart.str env.directoryIndex, KeyPart.bytes idc, KeyPart.uint j] → i = j)
    (hrt : ∀ c b, env.marshalMetadata c = Except.ok b → env.unmarshalMetadata b = Except.ok c)
    (m m1 : StateManager) (db : DBTransaction) (u : URL) (c : Nat)
    (hu : u.IdentityChain env = idc)
    (hc : m.directoryCount env db idc = Except.ok c) (hlt : c + 1 < 18446744073709551616)
    (h : m.AddDirectoryEntry env db u = Except.ok m1) :
    m1.directoryCount env db idc = Except.ok (c + 1) ∧
    m1.GetIndex env db env.directoryIndex idc (KeyPart.uint c) =
      Except.ok (env.stringBytes (u.toText env)) ∧
    (∀ i, i ≠ c → m1.GetIndex env db env.directoryIndex idc (KeyPart.uint i) =
      m.GetIndex env db env.directoryIndex idc (KeyPart.uint i)) ∧
    ((m.writes.map Prod.fst).Nodup → (m1.writes.map Prod.fst).Nodup) := by
  simp only [StateManager.AddDirectoryEntry, hu, hc] at h
  cases hmar : env.marshalMetadata ((c + 1) % 18446744073709551616) with
  | error e => simp [hmar] at h
  | ok b =>
    simp only [hmar, Except.ok.injEq] at h
    subst h
    have hmod : (c + 1) % 18446744073709551616 = c + 1 := Nat.mod_eq_of_lt hlt
    refine ⟨?_, ?_, ?_, ?_⟩
    · simp only [StateManager.directoryCount]
      rw [getIndex_writeIndex_ne env _ db _ _ _ _ _ (Ne.symm (hk1 c)), getIndex_writeIndex]
      simp only [hrt _ _ hmar, hmod]
    · exact getIndex_writeIndex env _ db _ _ _ _
    · intro i hi
      rw [getIndex_writeIndex_ne env _ db _ _ _ _ _ (fun e => hi (hk2 _ _ e)),
        getIndex_writeIndex_ne env _ db _ _ _ _ _ (hk1 i)]
    · intro hnd
      exact setWrite_nodup _ _ _ (setWrite_nodup _ _ _ hnd)

/-- Successive successful calls of `AddDirectoryEntry` for URLs of one identity
whose count is `c`: the count grows by the number of calls, the text of the
`i`-th URL is stored under the integer key `c + i`, and the entries under the
integer keys below `c` are unchanged. -/
theorem addDirectoryEntries_spec (env : Env) (idc : Bytes)
    (hk1 : ∀ i, env.computeKey [KeyPart.str env.directoryIndex, KeyPart.bytes idc, KeyPart.uint i] ≠
      env.computeKey [KeyPart.str env.directoryIndex, KeyPart.bytes idc, KeyPart.str "Metadata"])
    (hk2 : ∀ i j,
      env.computeKey [KeyPart.str env.directoryIndex, KeyPart.bytes idc, KeyPart.uint i] =
      env.computeKey [KeyPart.str env.directoryIndex, KeyPart.bytes idc, KeyPart.uint j] → i = j)
    (hrt : ∀ c b, env.marshalMetadata c = Except.ok b → env.unmarshalMetadata b = Except.ok c)
    (db : DBTransaction) (us : List URL) :
    ∀ (m m1 : StateManager) (c : Nat), (∀ u ∈ us, u.IdentityChain env = idc) →
      m.directoryCount env db idc = Except.ok c → c + us.length < 18446744073709551616 →
      StateManager.addDirectoryEntries env db m us = Except.ok m1 →
      m1.directoryCount env db idc = Except.ok (c + us.length) ∧
      (∀ (i : Nat) (u : URL), us[i]? = some u →
        m1.GetIndex env db env.directoryIndex idc (KeyPart.uint (c + i)) =
          Except.ok (env.stringBytes (u.toText env))) ∧
      (∀ i, i < c → m1.GetIndex env db env.directoryIndex idc (KeyPart.uint i) =
        m.GetIndex env db env.directoryIndex idc (KeyPart.uint i)) ∧
      ((m.writes.map Prod.fst).Nodup → (m1.writes.map Prod.fst).Nodup) := by
  induction us with
  | nil =>
    intro m m1 c _ hc _ h
    simp only [StateManager.addDirectoryEntries, Except.ok.injEq] at h
    subst h
    exact ⟨by simpa using hc, by simp, fun _ _ => rfl, fun h => h⟩
  | cons u rest ih =>
    intro m m1 c hus hc hlt h
    simp only [StateManager.addDirectoryEntries] at h
    cases hadd : m.AddDirectoryEntry env db u with
    | error e => simp [hadd] at h
    | ok m2 =>
      simp only [hadd] at h
      simp only [List.length_cons] at hlt
      obtain ⟨s1, s2, s3, s4⟩ := addDirectoryEntry_step env idc hk1 hk2 hrt m m2 db u c
        (hus u (List.mem_cons_self _ _)) hc (by omega) hadd
      obtain ⟨r1, r2, r3, r4⟩ := ih m2 m1 (c + 1)
        (fun v hv => hus v (List.mem_cons_of_mem _ hv)) s1 (by omega) h
      refine ⟨?_, ?_, ?_, fun hnd => r4 (s4 hnd)⟩
      · rw [r1, List.length_cons]
        congr 1
        omega
      · intro i v hv
        cases i with
        | zero =>
          simp only [List.getElem?_cons_zero, Option.some.injEq] at hv
          subst hv
          rw [Nat.add_zero, r3 c (by omega)]
          exact s2
        | succ j =>
          simp only [List.getElem?_cons_succ] at hv
          have := r2 j v hv
          rw [show c + (j + 1) = c + 1 + j by omega]
          exact this
      · intro i hi
        rw [r3 i (by omega)]
        exact s3 i (by omega)

/-- One successful iteration of the loop of `commit` makes no raw write. -/
theorem commitStore_writes (env : Env) (s s1 : CommitState) (store : storeState)
    (h : commitStore env s store = Except.ok s1) :
    s1.db.writes = s.db.writes ∧ s1.db.committedKV = s.db.committedKV := by
  unfold commitStore at h
  cases hm : env.marshalRecord store.record with
  | error e => simp [hm] at h
  | ok data =>
    simp only [hm] at h
    by_cases hc : store.isCreate = true
    · simp only [hc, if_true] at h
      unfold commitCreate at h
      cases hu : store.record.Header.ParseUrl env with
      | error e => simp [hu] at h
      | ok u =>
        simp only [hu] at h
        cases hl : lookupCreate s.create (env.toLower (u.Identity.toText env)) with
        | some i =>
          simp only [hl, Except.ok.injEq] at h
          subst h
          simp
        | none =>
          simp only [hl] at h
          unfold StateManager.Submit at h
          by_cases hs : s.m.txType.IsSynthetic = true
          · simp [hs] at h
          · simp only [hs, Bool.false_eq_true, if_false, Except.ok.injEq] at h
            subst h
            simp
    · simp only [hc, Bool.false_eq_true, if_false] at h
      unfold commitUpdate at h
      have hw : ∀ t : CommitState,
          (Except.ok { s with db := s.db.AddStateEntry store.chainId s.m.txHash { Entry := data } } :
            Except Error CommitState) = Except.ok t →
          t.db.writes = s.db.writes ∧ t.db.committedKV = s.db.committedKV := by
        intro t ht
        simp only [Except.ok.injEq] at ht
        subst ht
        simp [DBTransaction.AddStateEntry]
      cases hp : s.db.GetPersistentEntry store.chainId with
      | ok obj => simp only [hp] at h; exact hw _ h
      | error err =>
        simp only [hp] at h
        split at h
        · simp at h
        · split at h
          · exact hw _ h
          · split at h
            · exact hw _ h
            · simp at h

/-- The loop of `commit` makes no raw write, whether it ends with an error or
not. -/
theorem commitLoop_writes (env : Env) (l : List storeState) (s : CommitState) :
    (commitLoop env l s).2.db.writes = s.db.writes ∧
      (commitLoop env l s).2.db.committedKV = s.db.committedKV := by
  induction l generalizing s with
  | nil => simp [commitLoop]
  | cons store rest ih =>
    simp only [commitLoop]
    cases h : commitStore env s store with
    | error e => simp
    | ok s1 =>
      have h1 := commitStore_writes env s s1 store h
      have h2 := ih s1
      simp only
      exact ⟨h2.1.trans h1.1, h2.2.trans h1.2⟩

/-- The raw writes after the flush of the index buffer. -/
theorem flushWrites_writes (writes : List (Bytes × Bytes)) (db : DBTransaction) :
    (flushWrites db writes).writes = db.writes ++ writes ∧
      (flushWrites db writes).committedKV = db.committedKV := by
  unfold flushWrites
  induction writes generalizing db with
  | nil => simp
  | cons w rest ih =>
    have := ih (db.Write w.1 w.2)
    simp only [List.foldl_cons]
    rw [this.1, this.2]
    simp [DBTransaction.Write]

/-- In a buffer with pairwise distinct keys the last write of a key is the
first. -/
theorem find_reverse_of_nodup (writes : List (Bytes × Bytes)) (k : Bytes)
    (h : (writes.map Prod.fst).Nodup) :
    writes.reverse.find? (fun w => w.1 == k) = writes.find? (fun w => w.1 == k) := by
  induction writes with
  | nil => rfl
  | cons w rest ih =>
    simp only [List.map_cons, List.nodup_cons] at h
    simp only [List.reverse_cons, List.find?_append, ih h.2, List.find?_cons]
    by_cases hw : w.1 = k
    · have hnone : rest.find? (fun w => w.1 == k) = none := by
        rw [List.find?_eq_none]
        intro w1 hw1 hk
        apply h.1
        rw [List.mem_map]
        have hk1 : w1.1 = k := by simpa using hk
        exact ⟨w1, hw1, hk1.trans hw.symm⟩
      have hb : (w.1 == k) = true := by simp [hw]
      simp [hnone, hb]
    · have hb : (w.1 == k) = false := by simp [hw]
      simp [hb]

/-- After `commit` a state manager with an empty index buffer reads from the
DBTx the index entries that the committed state manager read. -/
theorem getIndex_commit (env : Env) (m m2 : StateManager) (db : DBTransaction)
    (hnd : (m.writes.map Prod.fst).Nodup) (h2 : m2.writes = []) (index : String)
    (chainId : Bytes) (key : KeyPart) :
    m2.GetIndex env (m.commit env db).2.2 index chainId key =
      m.GetIndex env db index chainId key := by
  have hl := commitLoop_writes env (sortedStores m) (commitStart m db)
  have hf := flushWrites_writes m.writes db
  simp only [StateManager.GetIndex, h2, lookupWrite, List.find?_nil, Option.map_none,
    DBTransaction.GetIndex, DBTransaction.Read, StateManager.commit, commitResult]
  rw [hl.1, hl.2]
  simp only [commitStart]
  rw [hf.1, hf.2, List.reverse_append, List.find?_append, find_reverse_of_nodup _ _ hnd]
  cases hfind : m.writes.find? (fun w => w.1 ==
      env.computeKey [KeyPart.str index, KeyPart.bytes chainId, key]) with
  | none => simp
  | some w => simp

/-- C18. The directory index has append semantics.  Let the storage keys of
the integer keys and of "Metadata" in the directory index of the identity be
pairwise distinct and let the metadata codec round-trip.  When the metadata
count of the identity is `c` (0 when there is no metadata) and the calls of
`AddDirectoryEntry` for the URLs `us` of that identity on one state manager
succeed, with `c + |us| < 2^64`, then the count is `c + |us|`, the entry under
the integer key `c + i` is the text of the `i`-th URL, and the entries under
the keys below `c` are unchanged.  After `commit` of that state manager, the
calls for further URLs `vs` on a state manager with an empty index buffer
continue the same index on the DBTx: the count is `c + |us| + |vs|`, the
entries of `us` are unchanged and the entries of `vs` follow them. -/
theorem directory_index_appends (env : Env) (idc : Bytes)
    (hk1 : ∀ i, env.computeKey [KeyPart.str env.directoryIndex, KeyPart.bytes idc, KeyPart.uint i] ≠
      env.computeKey [KeyPart.str env.directoryIndex, KeyPart.bytes idc, KeyPart.str "Metadata"])
    (hk2 : ∀ i j,
      env.computeKey [KeyPart.str env.directoryIndex, KeyPart.bytes idc, KeyPart.uint i] =
      env.computeKey [KeyPart.str env.directoryIndex, KeyPart.bytes idc, KeyPart.uint j] → i = j)
    (hrt : ∀ c b, env.marshalMetadata c = Except.ok b → env.unmarshalMetadata b = Except.ok c)
    (m m1 : StateManager) (db : DBTransaction) (us : List URL) (c : Nat)
    (hus : ∀ u ∈ us, u.IdentityChain env = idc)
    (hc : m.directoryCount env db idc = Except.ok c)
    (hlt : c + us.length < 18446744073709551616)
    (hadd : StateManager.addDirectoryEntries env db m us = Except.ok m1) :
    (∀ e, m.GetIndex env db env.directoryIndex idc (KeyPart.str "Metadata") = Except.error e →
      e.isNotFound = true → c = 0) ∧
    m1.directoryCount env db idc = Except.ok (c + us.length) ∧
    (∀ (i : Nat) (u : URL), us[i]? = some u →
      m1.GetIndex env db env.directoryIndex idc (KeyPart.uint (c + i)) =
        Except.ok (env.stringBytes (u.toText env))) ∧
    (∀ i, i < c → m1.GetIndex env db env.directoryIndex idc (KeyPart.uint i) =
      m.GetIndex env db env.directoryIndex idc (KeyPart.uint i)) ∧
    ((m.writes.map Prod.fst).Nodup →
      ∀ (m2 m3 : StateManager) (vs : List URL), m2.writes = [] →
        (∀ v ∈ vs, v.IdentityChain env = idc) →
        c + us.length + vs.length < 18446744073709551616 →
        StateManager.addDirectoryEntries env (m1.commit env db).2.2 m2 vs = Except.ok m3 →
        m3.directoryCount env (m1.commit env db).2.2 idc =
          Except.ok (c + us.length + vs.length) ∧
        (∀ (i : Nat) (u : URL), us[i]? = some u →
          m3.GetIndex env (m1.commit env db).2.2 env.directoryIndex idc (KeyPart.uint (c + i)) =
            Except.ok (env.stringBytes (u.toText env))) ∧
        (∀ (i : Nat) (v : URL), vs[i]? = some v →
          m3.GetIndex env (m1.commit env db).2.2 env.directoryIndex idc
              (KeyPart.uint (c + us.length + i)) =
            Except.ok (env.stringBytes (v.toText env)))) := by
  obtain ⟨r1, r2, r3, r4⟩ := addDirectoryEntries_spec env idc hk1 hk2 hrt db us m m1 c hus hc hlt hadd
  refine ⟨?_, r1, r2, r3, ?_⟩
  · intro e he hnf
    simp only [StateManager.directoryCount, he, hnf, Bool.not_true, Bool.false_eq_true, if_false,
      Except.ok.injEq] at hc
    exact hc.symm
  · intro hnd m2 m3 vs h2 hvs hlt2 hadd2
    have hget : ∀ key, m2.GetIndex env (m1.commit env db).2.2 env.directoryIndex idc key =
        m1.GetIndex env db env.directoryIndex idc key :=
      fun key => getIndex_commit env m1 m2 db (r4 hnd) h2 _ _ key
    have hc2 : m2.directoryCount env (m1.commit env db).2.2 idc = Except.ok (c + us.length) := by
      simp only [StateManager.directoryCount, hget]
      simpa only [StateManager.directoryCount] using r1
    obtain ⟨t1, t2, t3, _⟩ := addDirectoryEntries_spec env idc hk1 hk2 hrt (m1.commit env db).2.2 vs
      m2 m3 (c + us.length) hvs hc2 hlt2 hadd2
    refine ⟨t1, ?_, t2⟩
    intro i u hu
    have hi : i < us.length := by
      rcases Nat.lt_or_ge i us.length with h | h
      · exact h
      · rw [List.getElem?_eq_none h] at hu; cases hu
    rw [t3 (c + i) (by omega), hget]
    exact r2 i u hu

/-- C18, at a concrete input: after `AddDirectoryEntry` of the two URLs of
Bob's identity, which had no metadata, the count is 2. -/
theorem directory_index_appends_witness :
    directoryManager.directoryCount indexEnv exampleDB [0, 3] = Except.ok (0 + bobUrls.length) :=
  (directory_index_appends indexEnv [0, 3] (fun i h => by simp [indexEnv] at h)
    (fun i j h => by simpa [indexEnv] using h)
    (fun c b h => by
      have hb : b = [c] := by
        have h1 : (Except.ok [c] : Except Error Bytes) = Except.ok b := h
        exact (Except.ok.inj h1).symm
      subst hb; rfl)
    (emptyManager (TxType.user 3)) directoryManager exampleDB bobUrls 0
    (fun u hu => by
      simp only [bobUrls, List.mem_cons, List.mem_singleton, List.not_mem_nil, or_false] at hu
      rcases hu with h | h <;> subst h <;> rfl)
    (by rfl) (by decide) (by rfl)).2.1

/-! ### The query service -/

/-- The response to a query by chain ID is computed from the state database. -/
theorem queryByChainId_congr (env : Env) (ex1 ex2 : Executor) (h : ex1.db = ex2.db)
    (chainId : Bytes) : ex1.queryByChainId env chainId = ex2.queryByChainId env chainId := by
  simp only [Executor.queryByChainId, h]

/-- The response to a query by transaction ID is computed from the state
database. -/
theorem queryByTxId_congr (env : Env) (ex1 ex2 : Executor) (h : ex1.db = ex2.db)
    (txid : Bytes) : ex1.queryByTxId env txid = ex2.queryByTxId env txid := by
  simp only [Executor.queryByTxId, h]

/-- The response to a directory query is computed from the state database. -/
theorem queryDirectoryByChainId_congr (env : Env) (ex1 ex2 : Executor) (h : ex1.db = ex2.db)
    (chainId : Bytes) :
    ex1.queryDirectoryByChainId env chainId = ex2.queryDirectoryByChainId env chainId := by
  simp only [Executor.queryDirectoryByChainId, h]

/-- The response to a query by URL is computed from the state database. -/
theorem queryByUrl_congr (env : Env) (ex1 ex2 : Executor) (h : ex1.db = ex2.db) (u : URL) :
    ex1.queryByUrl env u = ex2.queryByUrl env u := by
  simp only [Executor.queryByUrl, queryByTxId_congr env ex1 ex2 h,
    queryByChainId_congr env ex1 ex2 h]

/-- The responses for a history range are computed from the state database. -/
theorem historyLoop_congr (env : Env) (ex1 ex2 : Executor) (h : ex1.db = ex2.db)
    (txids : List Bytes) : historyLoop env ex1 txids = historyLoop env ex2 txids := by
  induction txids with
  | nil => rfl
  | cons txid rest ih => simp only [historyLoop, queryByTxId_congr env ex1 ex2 h, ih]

/-- The answer of `Query` is computed from the state database. -/
theorem query_congr (env : Env) (ex1 ex2 : Executor) (h : ex1.db = ex2.db) (q : Query) :
    ex1.Query env q = ex2.Query env q := by
  simp only [Executor.Query, queryByTxId_congr env ex1 ex2 h, queryByChainId_congr env ex1 ex2 h,
    queryByUrl_congr env ex1 ex2 h, queryDirectoryByChainId_congr env ex1 ex2 h,
    historyLoop_congr env ex1 ex2 h, h]

/-- Recording a failed delivery leaves the state database as it is. -/
theorem recordTransactionError_db (env : Env) (ex : Executor) (p : PendingTransaction)
    (chainId txid : Bytes) (err : Error) :
    (ex.recordTransactionError env p chainId txid err).2.db = ex.db := by
  simp only [Executor.recordTransactionError]
  split
  · rfl
  · split <;> rfl

/-- The tail of `DeliverTx` leaves the state database as it is. -/
theorem deliverAccepted_db (env : Env) (ex : Executor) (tx : GenTransaction)
    (txPending : PendingTransaction) (chainId : Bytes) (st : StateManager) :
    (ex.deliverAccepted env tx txPending chainId st).2.db = ex.db := by
  simp only [Executor.deliverAccepted]
  split
  · exact recordTransactionError_db env ex _ _ _ _
  · split
    · exact recordTransactionError_db env ex _ _ _ _
    · split
      · rfl
      · split
        · split
          · rfl
          · exact recordTransactionError_db env _ _ _ _ _
        · split
          · rename_i hs
            simp only [Executor.submitSyntheticTx, Prod.mk.injEq] at hs
            rw [← hs.2]
          · rename_i hs
            simp only [Executor.submitSyntheticTx, Prod.mk.injEq] at hs
            rw [← hs.2]

/-- A delivery leaves the state database as it is. -/
theorem deliverTx_db (env : Env) (ex : Executor) (tx : GenTransaction) :
    (ex.DeliverTx env tx).2.db = ex.db := by
  simp only [Executor.DeliverTx]
  split
  · rfl
  · split
    · exact recordTransactionError_db env ex _ _ _ _
    · split
      · split
        · rfl
        · exact recordTransactionError_db env ex _ _ _ _
      · split
        · split
          · rfl
          · exact recordTransactionError_db env ex _ _ _ _
        · rw [deliverAccepted_db]
          split <;> rfl

/-- A call other than `Commit` leaves the state database as it is. -/
theorem step_db (env : Env) (ex : Executor) (call : Call) (h : call ≠ Call.Commit) :
    (ex.step env call).db = ex.db := by
  cases call with
  | BeginBlock req fresh => rfl
  | CheckTx tx => rfl
  | DeliverTx tx => exact deliverTx_db env ex tx
  | EndBlock => rfl
  | Commit => exact absurd rfl h

/-- A sequence of calls without `Commit` leaves the state database as it is. -/
theorem run_db (env : Env) (calls : List Call) :
    ∀ ex : Executor, (∀ call ∈ calls, call ≠ Call.Commit) → (ex.run env calls).db = ex.db := by
  induction calls with
  | nil => intro ex _; rfl
  | cons call rest ih =>
    intro ex h
    simp only [Executor.run, List.foldl_cons]
    have h1 := ih (ex.step env call) (fun c hc => h c (List.mem_cons_of_mem _ hc))
    simp only [Executor.run] at h1
    rw [h1]
    exact step_db env ex call (h call (List.mem_cons_self _ _))

/-- C19 (code bug). `Executor.Query` with type ChainId never reads the content
of the query: it decodes the request from the zero-valued chain ID of the
fresh request, so the answer is the same for every content.  On the example
database a record is committed under the chain ID `c = [3, 0, ..., 0]`,
`queryByChainId` finds it and the request decoder returns `c` on the content
`c`, but `Query` with type ChainId and content `c` looks the zero chain ID up
and fails with a not-found error. -/
theorem query_chainId_ignores_content :
    (∀ (env : Env) (ex : Executor) (c1 c2 : Bytes),
      ex.Query env { type := QueryType.ChainId, Content := c1 } =
        ex.Query env { type := QueryType.ChainId, Content := c2 }) ∧
    exampleExecutor.queryByChainId exampleEnv (toBytes32 [3]) = Except.ok { Entry := [3] } ∧
    exampleEnv.unmarshalRequestByChainId (toBytes32 [3]) = Except.ok (toBytes32 [3]) ∧
    exampleExecutor.Query exampleEnv { type := QueryType.ChainId, Content := toBytes32 [3] } =
      Except.error { msg := ErrNotFound.msg ++ ": no chain or transaction found for " ++
                       exampleEnv.hexUpper zeroBytes32
                     kind := ErrKind.notFound } ∧
    exampleExecutor.Query exampleEnv { type := QueryType.ChainId, Content := toBytes32 [3] } ≠
      Except.ok (exampleEnv.stringBytes "chain", [3]) := by
  refine ⟨fun env ex c1 c2 => rfl, by rfl, by rfl, by rfl, ?_⟩
  intro h
  have h1 : exampleExecutor.Query exampleEnv { type := QueryType.ChainId, Content := toBytes32 [3] } =
      Except.error { msg := ErrNotFound.msg ++ ": no chain or transaction found for " ++
                       exampleEnv.hexUpper zeroBytes32
                     kind := ErrKind.notFound } := by rfl
  rw [h1] at h
  cases h

/-- The outcome of a `Commit` that succeeds: the DBTx that the database layer
hands back, and the state database with the writes of the block landed. -/
theorem commit_ok (env : Env) (ex : Executor) (root : Bytes) (tx1 : DBTransaction)
    (h : env.dbCommit ex.dbTx ex.height = Except.ok (root, tx1)) :
    ex.Commit env = (Except.ok root, { ex with dbTx := tx1, db := ex.db.commit env ex.dbTx }) := by
  simp only [Executor.Commit, h]

/-- The query by transaction ID on a state database on which a DBTx has landed,
for a transaction whose accepted body and pending envelope the DBTx recorded:
the response holds that body and that envelope, and the synthetic transaction
IDs that the DBTx linked to it after those that were there. -/
theorem queryByTxId_landed (env : Env) (ex2 : Executor) (db : StateDB) (tx : DBTransaction)
    (hdb : ex2.db = db.commit env tx) (txid : Bytes) (accepted pending : Object)
    (ha : tx.GetTx txid = some accepted) (hp : tx.GetPendingTx txid = some pending) :
    (tx.GetSyntheticTxIds txid = [] →
      (∃ e, db.synthTxIds txid = Except.error e ∧ e.isNotFound = true) →
      ex2.queryByTxId env txid =
        Except.ok { TxId := env.bytes32FromBytes txid, TxState := accepted.Entry
                    TxPendingState := pending.Entry, TxSynthTxIds := [] }) ∧
    (∀ s rest, tx.GetSyntheticTxIds txid = s :: rest →
      (∃ e, db.synthTxIds txid = Except.error e) →
      ex2.queryByTxId env txid =
        Except.ok { TxId := env.bytes32FromBytes txid, TxState := accepted.Entry
                    TxPendingState := pending.Entry, TxSynthTxIds := (s :: rest).flatten }) ∧
    (∀ s rest old, tx.GetSyntheticTxIds txid = s :: rest →
      db.synthTxIds txid = Except.ok old →
      ex2.queryByTxId env txid =
        Except.ok { TxId := env.bytes32FromBytes txid, TxState := accepted.Entry
                    TxPendingState := pending.Entry
                    TxSynthTxIds := old ++ (s :: rest).flatten }) := by
  refine ⟨?_, ?_, ?_⟩
  · intro hs hold
    obtain ⟨e, he, hnf⟩ := hold
    simp [Executor.queryByTxId, hdb, StateDB.commit, StateDB.GetTx, StateDB.GetPendingTx,
      StateDB.GetSyntheticTxIds, ha, hp, hs, he, hnf]
  · intro s rest hs hold
    obtain ⟨e, he⟩ := hold
    simp [Executor.queryByTxId, hdb, StateDB.commit, StateDB.GetTx, StateDB.GetPendingTx,
      StateDB.GetSyntheticTxIds, ha, hp, hs, he]
  · intro s rest old hs hold
    simp [Executor.queryByTxId, hdb, StateDB.commit, StateDB.GetTx, StateDB.GetPendingTx,
      StateDB.GetSyntheticTxIds, ha, hp, hs, hold]

/-- The loop of the directory query over integer keys whose entries are there. -/
theorem directoryEntries_of_reads (env : Env) (db : StateDB) (chainId : Bytes) (f : Nat → Bytes)
    (keys : List Nat)
    (h : ∀ i ∈ keys, db.GetIndex env env.directoryIndex chainId (KeyPart.uint i) = Except.ok (f i)) :
    directoryEntries env db chainId keys = Except.ok (keys.map (fun i => env.bytesString (f i))) := by
  induction keys with
  | nil => rfl
  | cons i rest ih =>
    simp only [directoryEntries, h i (List.mem_cons_self _ _),
      ih (fun j hj => h j (List.mem_cons_of_mem _ hj)), List.map_cons]

/-- The loop of `Query` over the transaction IDs of a history range, when every
one of them has a response. -/
theorem historyLoop_of_responses (env : Env) (m : Executor) (r : Bytes → ResponseByTxId)
    (txids : List Bytes) (h : ∀ txid ∈ txids, m.queryByTxId env txid = Except.ok (r txid)) :
    historyLoop env m txids = Except.ok (txids.map r) := by
  induction txids with
  | nil => rfl
  | cons txid rest ih =>
    simp only [historyLoop, h txid (List.mem_cons_self _ _),
      ih (fun t ht => h t (List.mem_cons_of_mem _ ht)), List.map_cons]

/-- C20 (code bug, the defect of C19).  Queries never observe uncommitted
state, and after `Commit` every query shape but one returns the new value.
(1) The answer of `Query` is computed from the state database alone: two
executors with the same state database answer every query alike, whatever
their open DBTx holds.  (2) While a block is open, after every sequence of
calls without `Commit` (deliveries included, whatever they staged), `Query`
and each of the query shapes (by URL, by chain ID, by transaction ID,
directory; the transaction history is a shape of `Query`) answer as before
the calls.  (3) After a `Commit` that succeeds: the query by chain ID, the
query by a URL without `txid` and `Query` of type Url return the object that
the block staged last for the chain; the query by transaction ID, the query by
a URL with `txid` and `Query` of type TxId return the accepted body, the
pending envelope and the synthetic transaction IDs that the block recorded for
the transaction; `Query` of type TxHistory returns the responses of the
transaction IDs of the range after the commit; the directory query and `Query`
of type DirectoryUrl return the entries that the block wrote.  (4) `Query` of
type ChainId does not: it never reads the content of the query, so it answers
for the zero chain ID whatever chain ID it carries.  In the example, a
delivery stages an update of Alice's token account and the block is committed:
the query by chain ID returns the new object, and `Query` of type ChainId
with the chain ID of the account returns the same not-found error as before
the block. -/
theorem queries_read_committed_state (env : Env) (ex : Executor) :
    (∀ ex2 : Executor, ex2.db = ex.db → ∀ q, ex2.Query env q = ex.Query env q) ∧
    (∀ calls : List Call, (∀ call ∈ calls, call ≠ Call.Commit) →
      (∀ q, (ex.run env calls).Query env q = ex.Query env q) ∧
      (∀ u, (ex.run env calls).queryByUrl env u = ex.queryByUrl env u) ∧
      (∀ id, (ex.run env calls).queryByChainId env id = ex.queryByChainId env id) ∧
      (∀ id, (ex.run env calls).queryByTxId env id = ex.queryByTxId env id) ∧
      (∀ id, (ex.run env calls).queryDirectoryByChainId env id =
        ex.queryDirectoryByChainId env id)) ∧
    (∀ (root : Bytes) (tx1 : DBTransaction),
      env.dbCommit ex.dbTx ex.height = Except.ok (root, tx1) →
      (ex.Commit env).1 = Except.ok root ∧
      ∀ (id : Bytes) (e : StateEntry) (hdr : ChainHeader),
        ex.dbTx.stateEntries.reverse.find? (fun e => e.chainId == id) = some e →
        env.unmarshalHeader e.object.Entry = Except.ok hdr →
        (ex.Commit env).2.queryByChainId env id = Except.ok e.object ∧
        ∀ u : URL, env.queryGet u.Query "txid" = "" → u.ResourceChain env = id →
          (ex.Commit env).2.queryByUrl env u =
            (env.stringBytes "chain", Except.ok (QueryResponse.chain e.object))) ∧
    (∀ (root : Bytes) (tx1 : DBTransaction),
      env.dbCommit ex.dbTx ex.height = Except.ok (root, tx1) →
      (∀ (e : StateEntry) (hdr : ChainHeader) (content : Bytes) (s : String) (u : URL) (v : Bytes),
        ex.dbTx.stateEntries.reverse.find? (fun e => e.chainId == u.ResourceChain env) = some e →
        env.unmarshalHeader e.object.Entry = Except.ok hdr →
        env.unmarshalRequestByUrl content = Except.ok s → URL.Parse env s = Except.ok u →
        env.queryGet u.Query "txid" = "" → env.marshalResponseByChainId e.object = Except.ok v →
        (ex.Commit env).2.Query env { type := QueryType.Url, Content := content } =
          Except.ok (env.stringBytes "chain", v)) ∧
      (∀ (txid : Bytes) (accepted pending : Object),
        ex.dbTx.GetTx txid = some accepted → ex.dbTx.GetPendingTx txid = some pending →
        (ex.dbTx.GetSyntheticTxIds txid = [] →
          (∃ e, ex.db.synthTxIds txid = Except.error e ∧ e.isNotFound = true) →
          (ex.Commit env).2.queryByTxId env txid =
            Except.ok { TxId := env.bytes32FromBytes txid, TxState := accepted.Entry
                        TxPendingState := pending.Entry, TxSynthTxIds := [] }) ∧
        (∀ s rest, ex.dbTx.GetSyntheticTxIds txid = s :: rest →
          (∃ e, ex.db.synthTxIds txid = Except.error e) →
          (ex.Commit env).2.queryByTxId env txid =
            Except.ok { TxId := env.bytes32FromBytes txid, TxState := accepted.Entry
                        TxPendingState := pending.Entry
                        TxSynthTxIds := (s :: rest).flatten }) ∧
        (∀ s rest old, ex.dbTx.GetSyntheticTxIds txid = s :: rest →
          ex.db.synthTxIds txid = Except.ok old →
          (ex.Commit env).2.queryByTxId env txid =
            Except.ok { TxId := env.bytes32FromBytes txid, TxState := accepted.Entry
                        TxPendingState := pending.Entry
                        TxSynthTxIds := old ++ (s :: rest).flatten })) ∧
      (∀ (u : URL) (txid : Bytes), env.queryGet u.Query "txid" ≠ "" →
        env.hexDecode (env.queryGet u.Query "txid") = Except.ok txid →
        (ex.Commit env).2.queryByUrl env u =
          (env.stringBytes "tx", ((ex.Commit env).2.queryByTxId env txid).map QueryResponse.tx)) ∧
      (∀ (content txid : Bytes) (r : ResponseByTxId),
        RequestByTxId.UnmarshalBinary env content = Except.ok txid →
        (ex.Commit env).2.queryByTxId env txid = Except.ok r →
        (ex.Commit env).2.Query env { type := QueryType.TxId, Content := content } =
          Except.ok (env.stringBytes "tx",
            r.TxId ++ env.sliceBytes r.TxState ++ env.sliceBytes r.TxPendingState ++
              env.sliceBytes r.TxSynthTxIds)) ∧
      (∀ (content : Bytes) (txh : RequestTxHistory) (txids : List Bytes) (total : Int)
          (r : Bytes → ResponseByTxId) (v : Bytes),
        RequestTxHistory.UnmarshalBinary env content = Except.ok txh →
        env.txRangeCommit ex.db.txRange ex.dbTx txh.ChainId txh.Start
          (int64OfUint64 (uint64OfInt (txh.Start + txh.Limit))) = Except.ok (txids, total) →
        (∀ txid ∈ txids, (ex.Commit env).2.queryByTxId env txid = Except.ok (r txid)) →
        ResponseTxHistory.MarshalBinary env { Transactions := txids.map r, Total := total } =
          Except.ok v →
        (ex.Commit env).2.Query env { type := QueryType.TxHistory, Content := content } =
          Except.ok (env.stringBytes "tx-history", v)) ∧
      (∀ (chainId : Bytes) (wm : Bytes × Bytes) (count : Nat) (f : Nat → Bytes),
        ex.dbTx.writes.reverse.find? (fun w => w.1 ==
          env.computeKey [KeyPart.str env.directoryIndex, KeyPart.bytes chainId,
            KeyPart.str "Metadata"]) = some wm →
        env.unmarshalMetadata wm.2 = Except.ok count →
        (∀ i, i < count → ∃ w, ex.dbTx.writes.reverse.find? (fun w => w.1 ==
          env.computeKey [KeyPart.str env.directoryIndex, KeyPart.bytes chainId,
            KeyPart.uint i]) = some w ∧ w.2 = f i) →
        (ex.Commit env).2.queryDirectoryByChainId env chainId =
          Except.ok ((List.range count).map (fun i => env.bytesString (f i)))) ∧
      (∀ (content : Bytes) (s : String) (u : URL) (dir : List String) (v : Bytes),
        env.unmarshalRequestByUrl content = Except.ok s → URL.Parse env s = Except.ok u →
        (ex.Commit env).2.queryDirectoryByChainId env (u.ResourceChain env) = Except.ok dir →
        env.marshalDirectoryResult dir = Except.ok v →
        (ex.Commit env).2.Query env { type := QueryType.DirectoryUrl, Content := content } =
          Except.ok (env.stringBytes "directory", v))) ∧
    (∀ c1 c2 : Bytes,
      ex.Query env { type := QueryType.ChainId, Content := c1 } =
        ex.Query env { type := QueryType.ChainId, Content := c2 }) ∧
    ((queryExecutor.run exampleEnv [Call.DeliverTx (aliceTx 6 [5, 1]), Call.Commit]).queryByChainId
        exampleEnv (toBytes32 [3]) = Except.ok { Entry := [5] } ∧
      exampleEnv.unmarshalRequestByChainId (toBytes32 [3]) = Except.ok (toBytes32 [3]) ∧
      (queryExecutor.run exampleEnv [Call.DeliverTx (aliceTx 6 [5, 1]), Call.Commit]).Query
          exampleEnv { type := QueryType.ChainId, Content := toBytes32 [3] } =
        queryExecutor.Query exampleEnv { type := QueryType.ChainId, Content := toBytes32 [3] } ∧
      (queryExecutor.run exampleEnv [Call.DeliverTx (aliceTx 6 [5, 1]), Call.Commit]).Query
          exampleEnv { type := QueryType.ChainId, Content := toBytes32 [3] } =
        Except.error { msg := ErrNotFound.msg ++ ": no chain or transaction found for " ++
                         exampleEnv.hexUpper zeroBytes32
                       kind := ErrKind.notFound }) := by
  refine ⟨fun ex2 h q => query_congr env ex2 ex h q, ?_, ?_, ?_, fun c1 c2 => rfl,
    ⟨by rfl, by rfl, by rfl, by rfl⟩⟩
  · intro calls h
    have hdb := run_db env calls ex h
    exact ⟨fun q => query_congr env _ _ hdb q, fun u => queryByUrl_congr env _ _ hdb u,
      fun id => queryByChainId_congr env _ _ hdb id, fun id => queryByTxId_congr env _ _ hdb id,
      fun id => queryDirectoryByChainId_congr env _ _ hdb id⟩
  · intro root tx1 hcommit
    rw [commit_ok env ex root tx1 hcommit]
    refine ⟨rfl, ?_⟩
    intro id e hdr hfind hhdr
    have hq : Executor.queryByChainId env
        { ex with dbTx := tx1, db := ex.db.commit env ex.dbTx } id = Except.ok e.object := by
      simp only [Executor.queryByChainId, StateDB.GetPersistentEntry, StateDB.commit, hfind, hhdr]
    refine ⟨hq, ?_⟩
    intro u hu hid
    simp only [Executor.queryByUrl, hu, ne_eq, not_true_eq_false, if_false, hid, hq]
    rfl
  · intro root tx1 hcommit
    rw [commit_ok env ex root tx1 hcommit]
    refine ⟨?_, ?_, ?_, ?_, ?_, ?_, ?_⟩
    · intro e hdr content s u v hfind hhdr hreq hparse htxid hmarshal
      have hq : Executor.queryByChainId env
          { ex with dbTx := tx1, db := ex.db.commit env ex.dbTx } (u.ResourceChain env) =
          Except.ok e.object := by
        simp only [Executor.queryByChainId, StateDB.GetPersistentEntry, StateDB.commit, hfind, hhdr]
      simp only [Executor.Query, hreq, hparse, Executor.queryByUrl, htxid, ne_eq,
        not_true_eq_false, if_false, hq, Except.map, QueryResponse.MarshalBinary, hmarshal]
    · intro txid accepted pending ha hp
      exact queryByTxId_landed env _ ex.db ex.dbTx rfl txid accepted pending ha hp
    · intro u txid hne hdec
      simp only [Executor.queryByUrl, hne, ne_eq, not_false_eq_true, if_true, hdec]
    · intro content txid r hreq hq
      simp only [Executor.Query, hreq, hq, ResponseByTxId.MarshalBinary]
    · intro content txh txids total r v hreq hrange hall hmarshal
      have hloop := historyLoop_of_responses env
        { ex with dbTx := tx1, db := ex.db.commit env ex.dbTx } r txids hall
      have hr : StateDB.GetTxRange (ex.db.commit env ex.dbTx) txh.ChainId txh.Start
          (int64OfUint64 (uint64OfInt (txh.Start + txh.Limit))) = Except.ok (txids, total) := hrange
      simp only [Executor.Query, hreq]
      rw [hr]
      simp only [hloop, hmarshal]
    · intro chainId wm count f hmeta hcount hentries
      have hreads : ∀ i ∈ List.range count,
          (ex.db.commit env ex.dbTx).GetIndex env env.directoryIndex chainId (KeyPart.uint i) =
            Except.ok (f i) := by
        intro i hi
        obtain ⟨w, hw, hwf⟩ := hentries i (List.mem_range.mp hi)
        simp only [StateDB.GetIndex, StateDB.commit, hw, hwf]
      simp only [Executor.queryDirectoryByChainId, StateDB.GetIndex, StateDB.commit, hmeta, hcount]
      exact directoryEntries_of_reads env (ex.db.commit env ex.dbTx) chainId f _ hreads
    · intro content s u dir v hreq hparse hdir hmarshal
      simp only [Executor.Query, hreq, hparse, hdir, hmarshal]

/-- C20, at a concrete input: a delivery stages an update of Alice's token
account; while the block is open the query by chain ID returns the committed
object and the query by the ID of the transaction finds nothing, after `Commit`
the first returns the staged object and the second the accepted body. -/
theorem queries_read_committed_state_witness :
    (queryExecutor.run exampleEnv [Call.DeliverTx (aliceTx 6 [5, 1])]).queryByChainId exampleEnv
        (toBytes32 [3]) = queryExecutor.queryByChainId exampleEnv (toBytes32 [3]) ∧
    (queryExecutor.run exampleEnv [Call.DeliverTx (aliceTx 6 [5, 1])]).dbTx.stateEntries.map
        (fun e => (e.chainId, e.object)) = [(toBytes32 [3], { Entry := [5] })] ∧
    queryExecutor.queryByChainId exampleEnv (toBytes32 [3]) = Except.ok { Entry := [3] } ∧
    (queryExecutor.run exampleEnv [Call.DeliverTx (aliceTx 6 [5, 1]), Call.Commit]).queryByChainId
        exampleEnv (toBytes32 [3]) = Except.ok { Entry := [5] } ∧
    (queryExecutor.run exampleEnv [Call.DeliverTx (aliceTx 6 [5, 1])]).queryByTxId exampleEnv
        (exampleEnv.transactionHash (aliceTx 6 [5, 1])) =
      Except.error { msg := "tx " ++ exampleEnv.hexUpper [5, 1, 6] ++ " " ++ ErrNotFound.msg
                     kind := ErrKind.notFound } ∧
    ((queryExecutor.run exampleEnv [Call.DeliverTx (aliceTx 6 [5, 1]), Call.Commit]).queryByTxId
        exampleEnv (exampleEnv.transactionHash (aliceTx 6 [5, 1]))).map (fun r => r.TxState) =
      Except.ok [5, 1] :=
  ⟨((queries_read_committed_state exampleEnv queryExecutor).2.1 [Call.DeliverTx (aliceTx 6 [5, 1])]
      (fun call h => by
        simp only [List.mem_singleton] at h
        subst h
        intro hc
        cases hc)).2.2.1 (toBytes32 [3]),
   by rfl, by rfl, by rfl, by rfl, by rfl⟩

/-! ### The chain a transaction is recorded on -/

/-- The record of a failed delivery is on the chain ID handed in. -/
theorem recordTransactionError_chain (env : Env) (ex : Executor) (p : PendingTransaction)
    (chainId txid : Bytes) (err : Error) :
    ∃ added : List TxRecord,
      (ex.recordTransactionError env p chainId txid err).2.dbTx.transactions =
        ex.dbTx.transactions ++ added ∧
      ∀ r ∈ added, r.chainId = chainId := by
  simp only [Executor.recordTransactionError]
  cases hm : env.marshalPending { p with Status := statusRejected err.msg } with
  | error e => exact ⟨[], by simp, by simp⟩
  | ok entry =>
    simp only [DBTransaction.AddTransaction]
    cases ha : env.addTransactionError chainId txid { Entry := entry } none with
    | some e => exact ⟨[], by simp, by simp⟩
    | none => exact ⟨[_], rfl, by simp⟩

/-- The records of the tail of `DeliverTx` are on the chain ID handed in. -/
theorem deliverAccepted_chain (env : Env) (ex : Executor) (tx : GenTransaction)
    (txPending : PendingTransaction) (chainId : Bytes) (st : StateManager) :
    ∃ added : List TxRecord,
      (ex.deliverAccepted env tx txPending chainId st).2.dbTx.transactions =
        ex.dbTx.transactions ++ added ∧
      ∀ r ∈ added, r.chainId = chainId := by
  simp only [Executor.deliverAccepted]
  cases hma : env.marshalTransaction (NewTransaction txPending).1 with
  | error e => exact recordTransactionError_chain env ex _ _ _ _
  | ok acceptedEntry =>
    simp only []
    cases hmp : env.marshalPending { (NewTransaction txPending).2 with Status := statusAccepted } with
    | error e => exact recordTransactionError_chain env ex _ _ _ _
    | ok pendingEntry =>
      simp only [DBTransaction.AddTransaction]
      cases had : env.addTransactionError chainId (env.transactionHash tx) { Entry := pendingEntry }
          (some { Entry := acceptedEntry }) with
      | some e => exact ⟨[], by simp, by simp⟩
      | none =>
        simp only []
        rcases hc : st.commit env
            { ex.dbTx with transactions := ex.dbTx.transactions ++
                [{ chainId := chainId, txId := env.transactionHash tx
                   pending := { Entry := pendingEntry }
                   accepted := some { Entry := acceptedEntry } }] } with ⟨oerr, st2, db2⟩
        have hct := commit_transactions env st
            { ex.dbTx with transactions := ex.dbTx.transactions ++
                [{ chainId := chainId, txId := env.transactionHash tx
                   pending := { Entry := pendingEntry }
                   accepted := some { Entry := acceptedEntry } }] }
        rw [hc] at hct
        simp only at hct
        cases oerr with
        | some err =>
          simp only []
          by_cases hp : err.isPanic = true
          · simp only [hp, if_true]
            exact ⟨[_], hct, by simp⟩
          · simp only [hp, Bool.false_eq_true, if_false]
            obtain ⟨added, h1, h2⟩ := recordTransactionError_chain env { ex with dbTx := db2 }
              { (NewTransaction txPending).2 with Status := statusAccepted } chainId
              (env.transactionHash tx) err
            refine ⟨{ chainId := chainId, txId := env.transactionHash tx
                      pending := { Entry := pendingEntry }
                      accepted := some { Entry := acceptedEntry } } :: added, ?_, ?_⟩
            · rw [h1]; simp only [hct]; simp
            · intro r hr
              rcases List.mem_cons.mp hr with h | h
              · subst h; rfl
              · exact h2 r h
        | none =>
          simp only []
          have hs : (Executor.submitSyntheticTx env { ex with dbTx := db2 }
              (env.transactionHash tx) st2).2.dbTx.transactions = db2.transactions := by
            simp only [Executor.submitSyntheticTx, submitLoop_transactions]
          rcases hsub : Executor.submitSyntheticTx env { ex with dbTx := db2 }
              (env.transactionHash tx) st2 with ⟨res, ex3⟩
          rw [hsub] at hs
          simp only at hs
          cases res with
          | error e => exact ⟨[_], hs.trans hct, by simp⟩
          | ok refs => exact ⟨[_], hs.trans hct, by simp⟩

/-- Every transaction record that a delivery adds is on the chain ID that the
envelope carries. -/
theorem deliverTx_chain (env : Env) (ex : Executor) (tx : GenTransaction) :
    ∃ added : List TxRecord,
      (ex.DeliverTx env tx).2.dbTx.transactions = ex.dbTx.transactions ++ added ∧
      ∀ r ∈ added, r.chainId = toBytes32 tx.ChainID := by
  simp only [Executor.DeliverTx]
  split
  · exact ⟨[], by simp, by simp⟩
  · split
    · exact recordTransactionError_chain env ex _ _ _ _
    · split
      · split
        · exact ⟨[], by simp, by simp⟩
        · exact recordTransactionError_chain env ex _ _ _ _
      · split
        · split
          · exact ⟨[], by simp, by simp⟩
          · exact recordTransactionError_chain env ex _ _ _ _
        · split
          · exact deliverAccepted_chain env _ tx _ _ _
          · exact deliverAccepted_chain env _ tx _ _ _

/-- C21 (code bug). `DeliverTx` records every transaction under the chain ID
that the envelope carries, not under the resource chain of its sponsor URL:
every record a delivery adds has the chain ID `tx.ChainID`.  On the example
database the sponsor URL `acc://alice/tokens` has the resource chain
`[3, 0, ..., 0]`; an envelope sponsored by it that carries the chain ID
`[5, 0, ..., 0]` is accepted at nonce 6 and rejected at nonce 5, and both
deliveries record it under `[5, 0, ..., 0]`; `SetRoutingChainID`, which
`CheckTx` calls and `DeliverTx` does not, sets the chain ID to the resource
chain of the sponsor URL. -/
theorem deliverTx_records_on_envelope_chain :
    (∀ (env : Env) (ex : Executor) (tx : GenTransaction),
      ∃ added : List TxRecord,
        (ex.DeliverTx env tx).2.dbTx.transactions = ex.dbTx.transactions ++ added ∧
        ∀ r ∈ added, r.chainId = toBytes32 tx.ChainID) ∧
    (misfiledTx 6).SigInfo.map (fun i => i.URL) = some "acc://alice/tokens" ∧
    (URL.Parse exampleEnv "acc://alice/tokens").map
      (fun u => toBytes32 (u.ResourceChain exampleEnv)) = Except.ok (toBytes32 [3]) ∧
    (exampleExecutor.DeliverTx exampleEnv (misfiledTx 6)).1 = Except.ok { SyntheticTxs := [] } ∧
    (exampleExecutor.DeliverTx exampleEnv (misfiledTx 6)).2.dbTx.transactions.map
      (fun r => r.chainId) = [toBytes32 [5]] ∧
    (exampleExecutor.DeliverTx exampleEnv (misfiledTx 5)).1 =
      Except.error (errorf "failed check: invalid nonce") ∧
    (exampleExecutor.DeliverTx exampleEnv (misfiledTx 5)).2.dbTx.transactions.map
      (fun r => r.chainId) = [toBytes32 [5]] ∧
    ((misfiledTx 6).SetRoutingChainID exampleEnv).map (fun t => toBytes32 t.ChainID) =
      Except.ok (toBytes32 [3]) ∧
    toBytes32 [5] ≠ toBytes32 [3] := by
  refine ⟨deliverTx_chain, by rfl, by rfl, by rfl, by rfl, by rfl, by rfl, by rfl, by decide⟩

/-! ### Chain identifiers and routing of a URL -/

/-- The first part of `splitColon` is the text before the first colon. -/
theorem splitColon_fst (s : String) :
    (splitColon s).1.data = s.data.takeWhile (fun c => c != ':') := by
  simp only [splitColon, List.span_eq_take_drop]
  cases hd : s.data.dropWhile (fun c => c != ':') with
  | nil =>
    have h := List.takeWhile_append_dropWhile (fun c => c != ':') s.data
    rw [hd, List.append_nil] at h
    exact h.symm
  | cons c rest => rfl

/-- `splitColon` of a text without a colon. -/
theorem splitColon_of_no_colon (s : String) (h : ':' ∉ s.data) : splitColon s = (s, "") := by
  have hd : s.data.dropWhile (fun c => c != ':') = [] := by
    rw [List.dropWhile_eq_nil_iff]
    intro c hc
    simp only [bne_iff_ne, ne_eq, decide_eq_true_eq]
    intro e
    exact h (e ▸ hc)
  simp only [splitColon, List.span_eq_take_drop, hd]

/-- C24 (as stated, refuted). For the URL with authority `example.com:80`,
`IdentityChain` is the digest of `example.com`, which in the example
environment is not the digest of the whole authority `example.com:80`. -/
theorem identityChain_drops_port :
    portUrl.Authority = "example.com:80" ∧
    portUrl.IdentityChain exampleEnv =
      exampleEnv.sha256 (exampleEnv.stringBytes (exampleEnv.toLower "example.com")) ∧
    portUrl.IdentityChain exampleEnv ≠
      exampleEnv.sha256 (exampleEnv.stringBytes (exampleEnv.toLower portUrl.Authority)) := by
  refine ⟨rfl, by rfl, by decide⟩

/-- C24 (amended). For every URL `u`, `IdentityChain(u)` is the SHA-256 digest
of the lower-cased host name of `u`, where the host name is the authority up to
its first colon: a port is not hashed.  It is the digest of the whole
lower-cased authority when the authority has no colon, and it has 32 bytes when
SHA-256 digests have. -/
theorem identityChain_eq (env : Env) (u : URL) :
    u.IdentityChain env = env.sha256 (env.stringBytes (env.toLower u.Hostname)) ∧
    u.Hostname.data = u.Authority.data.takeWhile (fun c => c != ':') ∧
    (':' ∉ u.Authority.data →
      u.IdentityChain env = env.sha256 (env.stringBytes (env.toLower u.Authority))) ∧
    ((∀ b, (env.sha256 b).length = 32) → (u.IdentityChain env).length = 32) := by
  refine ⟨rfl, splitColon_fst u.Authority, ?_, fun h => h _⟩
  intro h
  simp only [URL.IdentityChain, chain, URL.Hostname, splitColon_of_no_colon _ h]

/-- `ensurePath` of a non-empty path is a slash and the path without its
leading slash. -/
theorem ensurePath_eq (s : String) (h : s ≠ "") : ensurePath s = "/" ++ stripSlash s := by
  apply String.ext
  rcases s with ⟨l⟩
  cases l with
  | nil => exact absurd rfl h
  | cons c rest =>
    by_cases hc : c = '/'
    · subst hc
      simp [ensurePath, stripSlash]
    · have h1 : ¬ (String.mk (c :: rest) = "") := h
      simp only [ensurePath, stripSlash, List.head?_cons, Option.some.injEq, hc, h1, or_self,
        if_false]
      split
      · rename_i rest2 heq
        simp only [List.cons.injEq] at heq
        exact absurd heq.1 hc
      · rfl

/-- C25 (as stated, refuted). For the URL `acc://alice/Tokens`, `ResourceChain`
is the digest of `alice/tokens`: the path is lower-cased with the host name.
In the example environment this is not the digest of `alice/Tokens`, the
lower-cased authority followed by the path as it is. -/
theorem resourceChain_lowers_path :
    mixedCaseUrl.ResourceChain exampleEnv =
      exampleEnv.sha256 (exampleEnv.stringBytes "alice/tokens") ∧
    mixedCaseUrl.ResourceChain exampleEnv ≠
      exampleEnv.sha256 (exampleEnv.stringBytes
        (exampleEnv.toLower mixedCaseUrl.Authority ++ "/" ++ stripSlash mixedCaseUrl.Path)) := by
  refine ⟨by rfl, by decide⟩

/-- C25 (amended). For every URL `u` with a non-empty path, `ResourceChain(u)`
is the SHA-256 digest of the lower-cased text `hostname + "/" + path`, where
the host name is the authority up to its first colon, the path is taken without
its leading slash, and the whole text, the path included, is lower-cased; a
path given with or without a leading slash yields the same chain ID. -/
theorem resourceChain_eq (env : Env) (u : URL) (h : u.Path ≠ "") :
    u.ResourceChain env =
      env.sha256 (env.stringBytes (env.toLower (u.Hostname ++ "/" ++ stripSlash u.Path))) ∧
    u.Hostname.data = u.Authority.data.takeWhile (fun c => c != ':') ∧
    (∀ p : String, p ≠ "" → p.data.head? ≠ some '/' →
      { u with Path := "/" ++ p }.ResourceChain env = { u with Path := p }.ResourceChain env) := by
  refine ⟨?_, splitColon_fst u.Authority, ?_⟩
  · simp only [URL.ResourceChain, chain, ensurePath_eq _ h, String.append_assoc]
  · intro p hp hslash
    have h1 : ensurePath p = "/" ++ p := by
      simp [ensurePath, hp, hslash]
    have h2 : ensurePath ("/" ++ p) = "/" ++ p := by
      simp [ensurePath]
    simp only [URL.ResourceChain, URL.Hostname, h1, h2]

/-- C25 (amended), at a concrete input: the URL of Bob's token account. -/
theorem resourceChain_eq_witness :
    bobTokensUrl.ResourceChain exampleEnv =
      exampleEnv.sha256 (exampleEnv.stringBytes (exampleEnv.toLower
        (bobTokensUrl.Hostname ++ "/" ++ stripSlash bobTokensUrl.Path))) :=
  (resourceChain_eq exampleEnv bobTokensUrl (by decide)).1

/-- C26. For every URL `u` with an empty path, `ResourceChain(u)` equals
`IdentityChain(u)`: no slash is hashed.  Hence for every URL `u`,
`ResourceChain(u.Identity())` equals `IdentityChain(u)`; a directory query by
the resource chain of the identity URL is the directory query by the identity
chain, reading the index entries under the same storage keys; and
`AddDirectoryEntry` of `u` writes the index bucket of that chain. -/
theorem resourceChain_of_identity (env : Env) (u : URL) :
    (u.Path = "" → u.ResourceChain env = u.IdentityChain env) ∧
    u.Identity.ResourceChain env = u.IdentityChain env ∧
    u.Identity.IdentityChain env = u.IdentityChain env ∧
    (∀ ex : Executor, ex.queryDirectoryByChainId env (u.Identity.ResourceChain env) =
      ex.queryDirectoryByChainId env (u.IdentityChain env)) ∧
    (∀ (db : StateDB) (key : KeyPart),
      db.GetIndex env env.directoryIndex (u.Identity.ResourceChain env) key =
        db.kv (env.computeKey [KeyPart.str env.directoryIndex,
          KeyPart.bytes (u.IdentityChain env), key])) ∧
    (∀ (m m1 : StateManager) (db : DBTransaction), m.AddDirectoryEntry env db u = Except.ok m1 →
      ∃ (c : Nat) (b : Bytes),
        m.directoryCount env db (u.Identity.ResourceChain env) = Except.ok c ∧
        m1 = (m.WriteIndex env env.directoryIndex (u.Identity.ResourceChain env)
            (KeyPart.str "Metadata") b).WriteIndex env env.directoryIndex
          (u.Identity.ResourceChain env) (KeyPart.uint c) (env.stringBytes (u.toText env))) := by
  have hpath : ∀ v : URL, v.Path = "" → v.ResourceChain env = v.IdentityChain env := by
    intro v hv
    simp [URL.ResourceChain, URL.IdentityChain, ensurePath, hv]
  have hid : u.Identity.ResourceChain env = u.IdentityChain env := by
    rw [hpath u.Identity rfl]
    rfl
  refine ⟨hpath u, hid, rfl, fun ex => by rw [hid], fun db key => by rw [hid]; rfl, ?_⟩
  intro m m1 db h
  rw [hid]
  simp only [StateManager.AddDirectoryEntry] at h
  cases hc : m.directoryCount env db (u.IdentityChain env) with
  | error e => simp [hc] at h
  | ok c =>
    simp only [hc] at h
    cases hm : env.marshalMetadata ((c + 1) % 18446744073709551616) with
    | error e => simp [hm] at h
    | ok b =>
      simp only [hm, Except.ok.injEq] at h
      exact ⟨c, b, rfl, h.symm⟩

/-- Lower-casing a character yields a colon only from a colon. -/
theorem toLower_eq_colon (c : Char) : c.toLower = ':' ↔ c = ':' := by
  constructor
  · intro h
    simp only [Char.toLower] at h
    by_cases hr : c.toNat ≥ 65 ∧ c.toNat ≤ 90
    · exfalso
      rw [if_pos hr] at h
      have h1 := congrArg Char.toNat h
      have hv : (c.toNat + 32).isValidChar := Or.inl (by omega)
      have h2 : (Char.ofNat (c.toNat + 32)).toNat = c.toNat + 32 := by
        rw [Char.ofNat, dif_pos hv]
        simp [Char.ofNatAux, Char.toNat, UInt32.toNat]
      rw [h2] at h1
      have h3 : (':' : Char).toNat = 58 := by decide
      omega
    · rw [if_neg hr] at h
      exact h
  · intro h
    subst h
    decide

/-- A big-endian value of `n` bytes is below `256 ^ n`. -/
theorem foldl_bytes_lt (l : List Nat) (hl : ∀ x ∈ l, x < 256) :
    ∀ (acc k : Nat), acc < 256 ^ k →
      l.foldl (fun a x => a * 256 + x) acc < 256 ^ (k + l.length) := by
  induction l with
  | nil => intro acc k h; simpa using h
  | cons x rest ih =>
    intro acc k h
    have hx : x < 256 := hl x (List.mem_cons_self _ _)
    have h1 : acc * 256 + x < 256 ^ (k + 1) := by
      rw [pow_succ]
      have : acc + 1 ≤ 256 ^ k := h
      nlinarith
    have h2 := ih (fun y hy => hl y (List.mem_cons_of_mem _ hy)) (acc * 256 + x) (k + 1) h1
    simp only [List.foldl_cons, List.length_cons]
    rw [show k + (rest.length + 1) = k + 1 + rest.length by omega]
    exact h2

/-- The lower-cased host name is the lower-cased authority up to its first
colon, when lower-casing maps character by character and keeps the colon
apart. -/
theorem toLower_hostname (env : Env) (f : Char → Char)
    (hf : ∀ s, env.toLower s = String.mk (s.data.map f))
    (hcolon : ∀ c, f c = ':' ↔ c = ':') (u : URL) :
    env.toLower u.Hostname =
      String.mk ((env.toLower u.Authority).data.takeWhile (fun c => c != ':')) := by
  rw [hf u.Hostname, hf u.Authority]
  simp only [URL.Hostname, splitColon_fst, List.takeWhile_map]
  have hp : ((fun c : Char => c != ':') ∘ f) = fun c : Char => c != ':' := by
    funext c
    simp only [Function.comp]
    by_cases hc : c = ':'
    · have h1 : f c = ':' := (hcolon c).mpr hc
      rw [h1, hc]
    · have h1 : ¬ f c = ':' := fun e => hc ((hcolon c).mp e)
      have h2 : (f c != ':') = true := bne_iff_ne.mpr h1
      have h3 : (c != ':') = true := bne_iff_ne.mpr hc
      rw [h2, h3]
  rw [hp]

/-- C27. For every URL `u`, `Routing(u)` is the first 8 bytes of
`IdentityChain(u)` read as a big-endian unsigned integer: with bytes
`b0, ..., b7` it is `b0 * 2^56 + b1 * 2^48 + ... + b7`, a value below 2^64.
Consequently, when lower-casing maps character by character and keeps the colon
apart (as `strings.ToLower` does), any two URLs whose authorities are equal up
to letter case have the same routing, whatever their other components. -/
theorem routing_big_endian (env : Env) (f : Char → Char)
    (hf : ∀ s, env.toLower s = String.mk (s.data.map f))
    (hcolon : ∀ c, f c = ':' ↔ c = ':') (u : URL) :
    u.Routing env = ((u.IdentityChain env).take 8).foldl (fun a x => a * 256 + x) 0 ∧
    (∀ (b0 b1 b2 b3 b4 b5 b6 b7 : Nat) (rest : Bytes),
      u.IdentityChain env = b0 :: b1 :: b2 :: b3 :: b4 :: b5 :: b6 :: b7 :: rest →
      u.Routing env = b0 * 2 ^ 56 + b1 * 2 ^ 48 + b2 * 2 ^ 40 + b3 * 2 ^ 32 + b4 * 2 ^ 24 +
        b5 * 2 ^ 16 + b6 * 2 ^ 8 + b7) ∧
    ((∀ x ∈ u.IdentityChain env, x < 256) → u.Routing env < 2 ^ 64) ∧
    (∀ v : URL, env.toLower v.Authority = env.toLower u.Authority →
      v.Routing env = u.Routing env ∧ v.IdentityChain env = u.IdentityChain env) := by
  refine ⟨rfl, ?_, ?_, ?_⟩
  · intro b0 b1 b2 b3 b4 b5 b6 b7 rest h
    simp only [URL.Routing, bigEndianUint64, h, List.take, List.foldl]
    ring
  · intro h
    have h1 := foldl_bytes_lt ((u.IdentityChain env).take 8)
      (fun x hx => h x (List.mem_of_mem_take hx)) 0 0 (by norm_num)
    have h2 : ((u.IdentityChain env).take 8).length ≤ 8 := by
      simp only [List.length_take]
      omega
    have h3 : 256 ^ (0 + ((u.IdentityChain env).take 8).length) ≤ 2 ^ 64 := by
      calc 256 ^ (0 + ((u.IdentityChain env).take 8).length)
          ≤ 256 ^ 8 := Nat.pow_le_pow_right (by norm_num) (by omega)
        _ = 2 ^ 64 := by norm_num
    exact lt_of_lt_of_le h1 h3
  · intro v h
    have hic : v.IdentityChain env = u.IdentityChain env := by
      simp only [URL.IdentityChain, chain, toLower_hostname env f hf hcolon, h]
    exact ⟨by simp only [URL.Routing, hic], hic⟩

/-- C27, at a concrete input: in the example environment the URLs
`acc://Bob/savings` and `acc://bob/tokens` have the same routing. -/
theorem routing_big_endian_witness :
    URL.Routing exampleEnv
        { UserInfo := "", Authority := "Bob", Path := "/savings", Query := "", Fragment := "" } =
      bobTokensUrl.Routing exampleEnv :=
  ((routing_big_endian exampleEnv Char.toLower (fun _ => rfl) toLower_eq_colon bobTokensUrl).2.2.2
    { UserInfo := "", Authority := "Bob", Path := "/savings", Query := "", Fragment := "" }
    (by decide)).1

/-! ### `Parse` -/

/-- C22 (as stated, refuted). `net/url.Parse` accepts the input `a b`, as a
relative path without scheme, and rejects `acc://a b`, whose host would hold a
space: `Parse("a b")` fails with the error of the second call of the parser,
which is neither `ErrWrongScheme` nor `ErrMissingHost`, and it does not
succeed. -/
theorem parse_second_call_fails :
    (∃ u, tableEnv.netUrlParse "a b" = Except.ok u ∧ u.Scheme = "") ∧
    URL.Parse tableEnv "a b" =
      Except.error (errorf "parse \"acc://a b\": invalid character \" \" in host name") ∧
    URL.Parse tableEnv "a b" ≠ Except.error ErrWrongScheme ∧
    URL.Parse tableEnv "a b" ≠ Except.error ErrMissingHost ∧
    ∀ v, URL.Parse tableEnv "a b" ≠ Except.ok v := by
  have h : URL.Parse tableEnv "a b" =
      Except.error (errorf "parse \"acc://a b\": invalid character \" \" in host name") := by rfl
  refine ⟨⟨_, by rfl, rfl⟩, h, ?_, ?_, ?_⟩
  · rw [h]; intro e; injection e with e; exact absurd e (by decide)
  · rw [h]; intro e; injection e with e; exact absurd e (by decide)
  · intro v; rw [h]; intro e; cases e

/-- The tail of `Parse` on the result `u` of the parser. -/
theorem parse_of_net (env : Env) (s : String) (u : NetURL)
    (h : (match env.netUrlParse s with
          | Except.ok u0 =>
            if u0.Scheme = "" then env.netUrlParse ("acc://" ++ s) else Except.ok u0
          | Except.error e => Except.error e) = Except.ok u) :
    URL.Parse env s =
      if u.Scheme ≠ "acc" then Except.error ErrWrongScheme
      else if u.Host = "" ∨ u.Host.data.head? = some ':' then Except.error ErrMissingHost
      else Except.ok (URL.ofNet u) := by
  simp only [URL.Parse, h, URL.ofNet]

/-- C22 (amended). `Parse` hands the input `s` to `net/url.Parse` and, when the
result has no scheme, hands `acc://` followed by `s` to it again.  When a call
of the parser fails, `Parse` fails with the error of that call.  Otherwise,
with `u` the result of the last call: `Parse` fails with `ErrWrongScheme` when
the scheme of `u` is not `acc` (a scheme that is given and is not `acc`);
fails with `ErrMissingHost` when the scheme is `acc`, given or defaulted, and
the host is empty or begins with a colon; and otherwise succeeds with the URL
built from `u`.  Every URL that `Parse` returns has a non-empty authority that
does not begin with a colon. -/
theorem parse_classification (env : Env) (s : String) :
    (∀ e, env.netUrlParse s = Except.error e → URL.Parse env s = Except.error e) ∧
    (∀ u0 e, env.netUrlParse s = Except.ok u0 → u0.Scheme = "" →
      env.netUrlParse ("acc://" ++ s) = Except.error e → URL.Parse env s = Except.error e) ∧
    (∀ u0 u, env.netUrlParse s = Except.ok u0 →
      (u0.Scheme ≠ "" ∧ u = u0 ∨ u0.Scheme = "" ∧ env.netUrlParse ("acc://" ++ s) = Except.ok u) →
      (u.Scheme ≠ "acc" → URL.Parse env s = Except.error ErrWrongScheme) ∧
      (u.Scheme = "acc" → (u.Host = "" ∨ u.Host.data.head? = some ':') →
        URL.Parse env s = Except.error ErrMissingHost) ∧
      (u.Scheme = "acc" → ¬ (u.Host = "" ∨ u.Host.data.head? = some ':') →
        URL.Parse env s = Except.ok (URL.ofNet u))) ∧
    (∀ v, URL.Parse env s = Except.ok v →
      v.Authority ≠ "" ∧ v.Authority.data.head? ≠ some ':') := by
  refine ⟨?_, ?_, ?_, ?_⟩
  · intro e h
    simp only [URL.Parse, h]
  · intro u0 e h h0 h1
    simp only [URL.Parse, h, h0, if_true, h1]
  · intro u0 u h hu
    have heff : (match env.netUrlParse s with
          | Except.ok u0 =>
            if u0.Scheme = "" then env.netUrlParse ("acc://" ++ s) else Except.ok u0
          | Except.error e => Except.error e) = Except.ok u := by
      rcases hu with ⟨h0, rfl⟩ | ⟨h0, h1⟩
      · simp only [h, h0, if_false]
      · simp only [h, h0, if_true, h1]
    have hp := parse_of_net env s u heff
    refine ⟨fun hs => ?_, fun hs hh => ?_, fun hs hh => ?_⟩
    · rw [hp, if_pos hs]
    · rw [hp, if_neg (not_not.mpr hs), if_pos hh]
    · rw [hp, if_neg (not_not.mpr hs), if_neg hh]
  · intro v h
    cases heff : (match env.netUrlParse s with
          | Except.ok u0 =>
            if u0.Scheme = "" then env.netUrlParse ("acc://" ++ s) else Except.ok u0
          | Except.error e => Except.error e) with
    | error e =>
      simp only [URL.Parse, heff] at h
      cases h
    | ok u =>
      rw [parse_of_net env s u heff] at h
      by_cases hs : u.Scheme ≠ "acc"
      · rw [if_pos hs] at h; cases h
      · rw [if_neg hs] at h
        by_cases hh : u.Host = "" ∨ u.Host.data.head? = some ':'
        · rw [if_pos hh] at h; cases h
        · rw [if_neg hh] at h
          simp only [Except.ok.injEq] at h
          subst h
          simp only [URL.ofNet]
          exact ⟨fun e => hh (Or.inl e), fun e => hh (Or.inr e)⟩

/-- C22 (amended), at concrete inputs: in the example environment a URL with
the scheme `http` fails with `ErrWrongScheme`, and the text `alice/tokens`,
whose scheme is defaulted, parses. -/
theorem parse_classification_witness :
    URL.Parse exampleEnv "http://ACME" = Except.error ErrWrongScheme ∧
    URL.Parse exampleEnv "alice/tokens" =
      Except.ok { UserInfo := "", Authority := "alice", Path := "/tokens", Query := ""
                  Fragment := "" } :=
  ⟨((parse_classification exampleEnv "http://ACME").2.2.1
      { Scheme := "http", User := none, Host := "ACME", Path := "", RawQuery := "", Fragment := "" }
      { Scheme := "http", User := none, Host := "ACME", Path := "", RawQuery := "", Fragment := "" }
      (by rfl) (Or.inl ⟨by decide, rfl⟩)).1 (by decide),
   ((parse_classification exampleEnv "alice/tokens").2.2.1
      { Scheme := "", User := none, Host := "", Path := "alice/tokens", RawQuery := ""
        Fragment := "" }
      { Scheme := "acc", User := none, Host := "alice", Path := "/tokens", RawQuery := ""
        Fragment := "" }
      (by rfl) (Or.inr ⟨rfl, by rfl⟩)).2.2 rfl (by decide)⟩

/-- C23 (as stated, refuted). The text `example.com:80/path` does not start
with `acc://` and `Parse` of `acc://example.com:80/path` succeeds, with the
authority `example.com:80`; but `net/url.Parse` reads `example.com` as the
scheme of `example.com:80/path`, so `Parse` of it fails with
`ErrWrongScheme`. -/
theorem parse_port_without_scheme :
    URL.Parse tableEnv "acc://example.com:80/path" =
      Except.ok { UserInfo := "", Authority := "example.com:80", Path := "/path", Query := ""
                  Fragment := "" } ∧
    ¬ "acc://".data.isPrefixOf "example.com:80/path".data = true ∧
    URL.Parse tableEnv "example.com:80/path" = Except.error ErrWrongScheme := by
  refine ⟨by rfl, by decide, by rfl⟩

/-- C23 (amended). The scheme may be omitted where `net/url.Parse` finds none:
for every string `s` that the parser accepts with an empty scheme, `Parse(s)`
is `Parse("acc://" + s)`: when the latter succeeds the former succeeds with a
URL equal in every field, and when it fails the former fails with the same
error.  (The parser finds a scheme in every text that starts with `acc://`.) -/
theorem parse_scheme_omitted (env : Env) (s : String) (u0 : NetURL)
    (h : env.netUrlParse s = Except.ok u0) (h0 : u0.Scheme = "")
    (hacc : ∀ u1, env.netUrlParse ("acc://" ++ s) = Except.ok u1 → u1.Scheme ≠ "") :
    URL.Parse env s = URL.Parse env ("acc://" ++ s) ∧
    ∀ v, URL.Parse env ("acc://" ++ s) = Except.ok v → URL.Parse env s = Except.ok v := by
  have heq : URL.Parse env s = URL.Parse env ("acc://" ++ s) := by
    simp only [URL.Parse, h, h0, if_true]
    cases h1 : env.netUrlParse ("acc://" ++ s) with
    | error e => rfl
    | ok u1 =>
      have := hacc u1 h1
      simp only [this, if_false]
  exact ⟨heq, fun v hv => heq.trans hv⟩

/-- C23 (amended), at a concrete input: in the example environment
`alice/tokens` parses to the URL of `acc://alice/tokens`. -/
theorem parse_scheme_omitted_witness :
    URL.Parse exampleEnv "alice/tokens" = URL.Parse exampleEnv ("acc://" ++ "alice/tokens") :=
  (parse_scheme_omitted exampleEnv "alice/tokens"
    { Scheme := "", User := none, Host := "", Path := "alice/tokens", RawQuery := ""
      Fragment := "" } (by rfl) rfl
    (fun u1 h1 => by
      have h2 : exampleEnv.netUrlParse ("acc://" ++ "alice/tokens") =
          Except.ok { Scheme := "acc", User := none, Host := "alice", Path := "/tokens"
                      RawQuery := "", Fragment := "" } := by rfl
      rw [h2] at h1
      injection h1 with h1
      subst h1
      decide)).1

/-- The character at which `dropWhile` stops fails the test. -/
theorem dropWhile_head_false (p : Char → Bool) (l : List Char) :
    ∀ c rest, l.dropWhile p = c :: rest → p c = false := by
  induction l with
  | nil => intro c rest h; simp at h
  | cons x xs ih =>
    intro c rest h
    by_cases hx : p x = true
    · simp only [List.dropWhile_cons, hx, if_true] at h
      exact ih c rest h
    · simp only [List.dropWhile_cons, hx, Bool.false_eq_true, if_false, List.cons.injEq] at h
      rw [← h.1]
      simpa using hx

/-- `splitColon` either finds no colon and returns the text and nothing, or
cuts the text at a colon. -/
theorem splitColon_cases (s : String) :
    (':' ∉ s.data ∧ splitColon s = (s, "")) ∨
    ∃ a b : List Char, splitColon s = (String.mk a, String.mk b) ∧ s.data = a ++ ':' :: b := by
  cases hd : s.data.dropWhile (fun c => c != ':') with
  | nil =>
    left
    have hno : ':' ∉ s.data := by
      intro hmem
      rw [List.dropWhile_eq_nil_iff] at hd
      have := hd ':' hmem
      simp at this
    exact ⟨hno, splitColon_of_no_colon s hno⟩
  | cons c rest =>
    right
    have hc := dropWhile_head_false _ _ c rest hd
    have hc1 : c = ':' := by simpa using hc
    subst hc1
    refine ⟨s.data.takeWhile (fun c => c != ':'), rest, ?_, ?_⟩
    · simp only [splitColon, List.span_eq_take_drop, hd]
    · have h := List.takeWhile_append_dropWhile (fun c => c != ':') s.data
      rw [hd] at h
      exact h.symm

/-- The user info that `Parse` rebuilds from the `net/url.URL` of a URL is the
user info of the URL, unless its only colon is its last character. -/
theorem ofNet_toNetURL (u : URL)
    (huser : (splitColon u.UserInfo).2 = "" → ':' ∉ u.UserInfo.data) :
    URL.ofNet u.toNetURL = u := by
  have hui : (URL.ofNet u.toNetURL).UserInfo = u.UserInfo := by
    simp only [URL.ofNet, URL.toNetURL]
    by_cases he : u.UserInfo = ""
    · simp [he]
    · simp only [ne_eq, he, not_false_eq_true, if_true]
      rcases splitColon_cases u.UserInfo with ⟨_, hs⟩ | ⟨a, b, hs, hdata⟩
      · rw [hs]; simp
      · rw [hs]
        simp only
        by_cases hb : String.mk b = ""
        · exfalso
          have hno := huser (by rw [hs]; exact hb)
          apply hno
          rw [hdata]
          simp
        · simp only [ne_eq, hb, not_false_eq_true, if_true]
          apply String.ext
          simp [hdata]
  cases u with
  | mk ui au pa qu fr =>
    simp only [URL.ofNet, URL.toNetURL] at hui ⊢
    simp only [URL.mk.injEq, and_true]
    exact hui

/-- C28 (as stated, refuted). `Parse` of `acc://user%3A@host` succeeds with the
user info `user:`, the user name as `net/url` decodes it; `String()` of the
result splits the user info at the colon, finds no password and writes
`acc://user@host`; `Parse` of that has the user info `user`. -/
theorem parse_text_loses_colon :
    URL.Parse tableEnv "acc://user%3A@host" =
      Except.ok { UserInfo := "user:", Authority := "host", Path := "", Query := ""
                  Fragment := "" } ∧
    URL.toText tableEnv { UserInfo := "user:", Authority := "host", Path := "", Query := ""
                          Fragment := "" } = "acc://user@host" ∧
    URL.Parse tableEnv "acc://user@host" =
      Except.ok { UserInfo := "user", Authority := "host", Path := "", Query := ""
                  Fragment := "" } ∧
    ("user" : String) ≠ "user:" := by
  refine ⟨by rfl, by rfl, by rfl, by decide⟩

/-- C28 (amended). For every input `s` for which `Parse(s)` succeeds with
result `u`, when `net/url` parses the text of the `net/url.URL` of `u` back to
it, `Parse(u.String())` succeeds with the authority, path, query and fragment
of `u`, and with the user info of `u` unless the only colon of the user info
is its last character (a user name that ends in a colon, without password): in
that case the colon is lost. -/
theorem parse_text_parse (env : Env) (s : String) (u : URL)
    (h : URL.Parse env s = Except.ok u)
    (hrt : env.netUrlParse (env.netUrlString u.toNetURL) = Except.ok u.toNetURL) :
    URL.Parse env (u.toText env) = Except.ok (URL.ofNet u.toNetURL) ∧
    (URL.ofNet u.toNetURL).Authority = u.Authority ∧
    (URL.ofNet u.toNetURL).Path = u.Path ∧
    (URL.ofNet u.toNetURL).Query = u.Query ∧
    (URL.ofNet u.toNetURL).Fragment = u.Fragment ∧
    (((splitColon u.UserInfo).2 = "" → ':' ∉ u.UserInfo.data) →
      URL.Parse env (u.toText env) = Except.ok u) := by
  have hauth : u.Authority ≠ "" ∧ u.Authority.data.head? ≠ some ':' := by
    cases heff : (match env.netUrlParse s with
          | Except.ok u0 =>
            if u0.Scheme = "" then env.netUrlParse ("acc://" ++ s) else Except.ok u0
          | Except.error e => Except.error e) with
    | error e =>
      simp only [URL.Parse, heff] at h
      cases h
    | ok n =>
      rw [parse_of_net env s n heff] at h
      by_cases hs : n.Scheme ≠ "acc"
      · rw [if_pos hs] at h; cases h
      · rw [if_neg hs] at h
        by_cases hh : n.Host = "" ∨ n.Host.data.head? = some ':'
        · rw [if_pos hh] at h; cases h
        · rw [if_neg hh] at h
          simp only [Except.ok.injEq] at h
          subst h
          simp only [URL.ofNet]
          exact ⟨fun e => hh (Or.inl e), fun e => hh (Or.inr e)⟩
  have hparse : URL.Parse env (u.toText env) = Except.ok (URL.ofNet u.toNetURL) := by
    have heff : (match env.netUrlParse (u.toText env) with
          | Except.ok u0 =>
            if u0.Scheme = "" then env.netUrlParse ("acc://" ++ u.toText env) else Except.ok u0
          | Except.error e => Except.error e) = Except.ok u.toNetURL := by
      simp only [URL.toText, hrt]
      have : ¬ (u.toNetURL.Scheme = "") := by simp [URL.toNetURL]
      simp only [this, if_false]
    rw [parse_of_net env _ _ heff]
    have hs : ¬ (u.toNetURL.Scheme ≠ "acc") := by simp [URL.toNetURL]
    have hh : ¬ (u.toNetURL.Host = "" ∨ u.toNetURL.Host.data.head? = some ':') := by
      simp only [URL.toNetURL]
      exact fun e => e.elim hauth.1 hauth.2
    rw [if_neg hs, if_neg hh]
  refine ⟨hparse, rfl, rfl, rfl, rfl, fun huser => ?_⟩
  rw [hparse, ofNet_toNetURL u huser]

/-- C28 (amended), at a concrete input: in the example environment the URL that
`acc://alice/tokens` parses to parses back from its text. -/
theorem parse_text_parse_witness :
    URL.Parse exampleEnv
      (URL.toText exampleEnv { UserInfo := "", Authority := "alice", Path := "/tokens"
                               Query := "", Fragment := "" }) =
      Except.ok { UserInfo := "", Authority := "alice", Path := "/tokens", Query := ""
                  Fragment := "" } :=
  (parse_text_parse exampleEnv "acc://alice/tokens"
    { UserInfo := "", Authority := "alice", Path := "/tokens", Query := "", Fragment := "" }
    (by rfl) (by rfl)).2.2.2.2.2 (fun _ => by decide)

/-! ### The envelope of `types/proto` -/

/-- `Marshal` accepts every envelope with at least one signature. -/
theorem marshal_ok (env : Env) (t : proto.GenTransaction) (h1 : 1 ≤ t.Signature.length)
    (h2 : t.Signature.length < 18446744073709551616) :
    t.Marshal env = Except.ok (env.uint64Bytes t.Signature.length ++
      proto.marshalSigs env t.Signature ++ t.MarshalBinary env) := by
  have hmod : t.Signature.length % 18446744073709551616 = t.Signature.length :=
    Nat.mod_eq_of_lt h2
  have hne : ¬ (t.Signature.length = 0) := by omega
  simp only [proto.GenTransaction.Marshal, hmod, hne, if_false]

/-- `UnMarshal` panics exactly when the signature count it decodes is not in
1..100. -/
theorem unMarshal_panics_iff (env : Env) (t : proto.GenTransaction) (data : Bytes) :
    t.UnMarshal env data = Except.error (goPanic "signature length out of range") ↔
      (env.bytesUint64 data < 1 ∨ env.bytesUint64 data > 100) := by
  simp only [proto.GenTransaction.UnMarshal]
  by_cases h : env.bytesUint64 data < 1 ∨ env.bytesUint64 data > 100
  · simp only [h, if_true]
  · simp only [h, if_false, iff_false]
    intro e
    cases e

/-- The bytes of the example envelope with 101 signatures. -/
theorem marshal_101 :
    (protoTx 101).Marshal exampleEnv = Except.ok (exampleEnv.uint64Bytes 101 ++
      proto.marshalSigs exampleEnv (protoTx 101).Signature ++
      (protoTx 101).MarshalBinary exampleEnv) := by
  simp [proto.GenTransaction.Marshal, protoTx]

/-- `UnMarshal` panics on the bytes of the example envelope with 101
signatures. -/
theorem unMarshal_101 (t : proto.GenTransaction) :
    t.UnMarshal exampleEnv (exampleEnv.uint64Bytes 101 ++
      proto.marshalSigs exampleEnv (protoTx 101).Signature ++
      (protoTx 101).MarshalBinary exampleEnv) =
      Except.error (goPanic "signature length out of range") := by
  rw [unMarshal_panics_iff]
  right
  have : exampleEnv.bytesUint64 (exampleEnv.uint64Bytes 101 ++
      proto.marshalSigs exampleEnv (protoTx 101).Signature ++
      (protoTx 101).MarshalBinary exampleEnv) = 101 := by rfl
  rw [this]
  decide

/-- C29 (code bug). `Marshal` has no upper bound on the signature count: it
panics on an envelope without signature and accepts every envelope with one or
more signatures, 101 included; `UnMarshal` panics exactly when the count it
decodes is outside 1..100.  In the example environment `Marshal` and
`UnMarshal` accept the envelopes with 1 and with 100 signatures, `Marshal`
panics on the envelope with none and `UnMarshal` on a count of 0, and `Marshal`
accepts the envelope with 101 signatures, whose bytes `UnMarshal` panics
on. -/
theorem signature_count_bounds :
    (∀ (env : Env) (t : proto.GenTransaction), t.Signature = [] →
      t.Marshal env = Except.error (goPanic "must have signed transactions")) ∧
    (∀ (env : Env) (t : proto.GenTransaction), 1 ≤ t.Signature.length →
      t.Signature.length < 18446744073709551616 → ∃ b, t.Marshal env = Except.ok b) ∧
    (∀ (env : Env) (t : proto.GenTransaction) (data : Bytes),
      t.UnMarshal env data = Except.error (goPanic "signature length out of range") ↔
        (env.bytesUint64 data < 1 ∨ env.bytesUint64 data > 100)) ∧
    (∀ (env : Env) (t : proto.GenTransaction) (data : Bytes),
      1 ≤ env.bytesUint64 data → env.bytesUint64 data ≤ 100 → ∃ r, t.UnMarshal env data = Except.ok r) ∧
    (∃ b, (protoTx 1).Marshal exampleEnv = Except.ok b ∧
      ∃ r, freshProtoTx.UnMarshal exampleEnv b = Except.ok r) ∧
    (∃ b, (protoTx 100).Marshal exampleEnv = Except.ok b ∧ exampleEnv.bytesUint64 b = 100 ∧
      ∃ r, freshProtoTx.UnMarshal exampleEnv b = Except.ok r) ∧
    (protoTx 0).Marshal exampleEnv = Except.error (goPanic "must have signed transactions") ∧
    freshProtoTx.UnMarshal exampleEnv (exampleEnv.uint64Bytes 0) =
      Except.error (goPanic "signature length out of range") ∧
    (∃ b, (protoTx 101).Marshal exampleEnv = Except.ok b ∧ exampleEnv.bytesUint64 b = 101 ∧
      freshProtoTx.UnMarshal exampleEnv b =
        Except.error (goPanic "signature length out of range")) := by
  have hok : ∀ (env : Env) (t : proto.GenTransaction) (data : Bytes),
      1 ≤ env.bytesUint64 data → env.bytesUint64 data ≤ 100 →
      ∃ r, t.UnMarshal env data = Except.ok r := by
    intro env t data h1 h2
    have h : ¬ (env.bytesUint64 data < 1 ∨ env.bytesUint64 data > 100) := by omega
    simp only [proto.GenTransaction.UnMarshal, h, if_false]
    exact ⟨_, rfl⟩
  refine ⟨?_, ?_, unMarshal_panics_iff, hok, ?_, ?_, by rfl, by rfl, ?_⟩
  · intro env t h
    simp [proto.GenTransaction.Marshal, h]
  · intro env t h1 h2
    exact ⟨_, marshal_ok env t h1 h2⟩
  · refine ⟨_, marshal_ok exampleEnv (protoTx 1) (by decide) (by decide), ?_⟩
    exact hok exampleEnv _ _ (by decide) (by decide)
  · have hlen : (protoTx 100).Signature.length = 100 := by simp [protoTx]
    have hcount : exampleEnv.bytesUint64 (exampleEnv.uint64Bytes (protoTx 100).Signature.length ++
        proto.marshalSigs exampleEnv (protoTx 100).Signature ++
        (protoTx 100).MarshalBinary exampleEnv) = 100 := by
      rw [hlen]; rfl
    refine ⟨_, marshal_ok exampleEnv (protoTx 100) (by omega) (by omega), hcount, ?_⟩
    apply hok exampleEnv
    · rw [hcount]; decide
    · rw [hcount]
  · exact ⟨_, marshal_101, by rfl, unMarshal_101 freshProtoTx⟩

/-- The signatures decoded from their encoding, when the codec of a signature
round-trips. -/
theorem unmarshalSigs_marshalSigs (env : Env)
    (hS : ∀ sig rest, env.sigUnmarshal (env.sigMarshal sig ++ rest) = (sig, rest))
    (sigs : List ED25519Sig) (rest : Bytes) :
    proto.unmarshalSigs env sigs.length (proto.marshalSigs env sigs ++ rest) = (sigs, rest) := by
  induction sigs with
  | nil => rfl
  | cons v vs ih =>
    simp only [List.length_cons, proto.unmarshalSigs, proto.marshalSigs, List.append_assoc, hS, ih]

/-- The round trip of an envelope with 1 to 100 signatures, when the codecs of
the count, of a signature and of a byte slice round-trip: `UnMarshal` of the
bytes of `Marshal` into a fresh envelope consumes all bytes and recovers the
signatures, the routing and the chain ID, and `Marshal` of the result yields
the same bytes. -/
theorem marshal_unMarshal (env : Env)
    (hU : ∀ n rest, n < 18446744073709551616 →
      env.bytesUint64 (env.uint64Bytes n ++ rest) = n ∧
      env.uint64Rest (env.uint64Bytes n ++ rest) = rest)
    (hS : ∀ sig rest, env.sigUnmarshal (env.sigMarshal sig ++ rest) = (sig, rest))
    (hB : ∀ b rest, env.bytesSlice (env.sliceBytes b ++ rest) = (b, rest))
    (t : proto.GenTransaction) (b : Bytes) (hr : t.Routing < 18446744073709551616)
    (hm : t.Marshal env = Except.ok b) (hlen : t.Signature.length ≤ 100) :
    freshProtoTx.UnMarshal env b = Except.ok ({ t with Transaction := [] }, []) ∧
    proto.GenTransaction.Marshal env { t with Transaction := [] } = Except.ok b := by
  have h1 : 1 ≤ t.Signature.length := by
    rcases Nat.eq_zero_or_pos t.Signature.length with h0 | h0
    · simp [proto.GenTransaction.Marshal, h0] at hm
    · exact h0
  have h2 : t.Signature.length < 18446744073709551616 := by omega
  have hb := marshal_ok env t h1 h2
  rw [hb] at hm
  simp only [Except.ok.injEq] at hm
  subst hm
  constructor
  · have hc := hU t.Signature.length
      (proto.marshalSigs env t.Signature ++ t.MarshalBinary env) h2
    have hrange : ¬ (t.Signature.length < 1 ∨ t.Signature.length > 100) := by omega
    have hrt := hU t.Routing (env.sliceBytes t.ChainID ++ []) hr
    simp only [List.append_nil] at hrt
    have hbs := hB t.ChainID []
    simp only [List.append_nil] at hbs
    simp only [proto.GenTransaction.MarshalBinary] at hc ⊢
    simp only [proto.GenTransaction.UnMarshal, List.append_assoc, hc.1, hc.2, hrange, if_false,
      unmarshalSigs_marshalSigs env hS, hrt.1, hrt.2, hbs, freshProtoTx, List.nil_append]
  · exact marshal_ok env { t with Transaction := [] } h1 h2

/-- C30 (code bug, the defect of C29). The round trip holds for every envelope
with 1 to 100 signatures, when the codecs of the count, of a signature and of
a byte slice round-trip: `UnMarshal` of `Marshal(t)` into a fresh envelope
consumes all bytes, recovers the signatures, the routing and the chain ID of
`t`, and `Marshal` of the result yields the bytes of `Marshal(t)`.  It fails
for an envelope that `Marshal` accepts with more than 100 signatures: in
the example environment `Marshal` accepts the envelope with 101 signatures
and `UnMarshal` of its bytes panics. -/
theorem marshal_roundtrip_up_to_100 :
    (∀ (env : Env) (t : proto.GenTransaction) (b : Bytes),
      (∀ n rest, n < 18446744073709551616 →
        env.bytesUint64 (env.uint64Bytes n ++ rest) = n ∧
        env.uint64Rest (env.uint64Bytes n ++ rest) = rest) →
      (∀ sig rest, env.sigUnmarshal (env.sigMarshal sig ++ rest) = (sig, rest)) →
      (∀ c rest, env.bytesSlice (env.sliceBytes c ++ rest) = (c, rest)) →
      t.Routing < 18446744073709551616 → t.Marshal env = Except.ok b →
      t.Signature.length ≤ 100 →
      freshProtoTx.UnMarshal env b = Except.ok ({ t with Transaction := [] }, []) ∧
      proto.GenTransaction.Marshal env { t with Transaction := [] } = Except.ok b) ∧
    (freshProtoTx.UnMarshal exampleEnv
        (exampleEnv.uint64Bytes 2 ++ proto.marshalSigs exampleEnv (protoTx 2).Signature ++
          (protoTx 2).MarshalBinary exampleEnv) =
      Except.ok ({ protoTx 2 with Transaction := [] }, [])) ∧
    (protoTx 101).Signature.length = 101 ∧
    (∃ b, (protoTx 101).Marshal exampleEnv = Except.ok b ∧
      freshProtoTx.UnMarshal exampleEnv b =
        Except.error (goPanic "signature length out of range") ∧
      ∀ r, freshProtoTx.UnMarshal exampleEnv b ≠ Except.ok r) := by
  refine ⟨fun env t b hU hS hB hr hm hlen => marshal_unMarshal env hU hS hB t b hr hm hlen,
    by rfl, by simp [protoTx], ⟨_, marshal_101, unMarshal_101 freshProtoTx, ?_⟩⟩
  intro r h
  rw [unMarshal_101 freshProtoTx] at h
  cases h
/-! ### The signatures and the routing of the envelope of `types/proto` -/

/-- The loop of `ValidateSig` answers true exactly when every signature verifies
against the digest. -/
theorem verifySigs_iff (env : Env) (h : Bytes) (sigs : List ED25519Sig) :
    proto.verifySigs env h sigs = true ↔ ∀ v ∈ sigs, env.sigVerify v h = true := by
  induction sigs with
  | nil => simp [proto.verifySigs]
  | cons v rest ih =>
    cases hv : env.sigVerify v h <;> simp [proto.verifySigs, hv, ih]

/-- C31 (code bug).  `ValidateSig` does not cover the transaction: the digest it
verifies the signatures against is the SHA-256 of the routing and the chain ID.
Two envelopes with the same signature, routing and chain ID and the
transactions `[3, 1]` and `[3, 2]`: `ValidateSig` gives the same answer on both
in every environment, and in the example environment it accepts both, although
the signature does not verify against the SHA-256 of either transaction. -/
theorem validateSig_ignores_body :
    (signedProtoTx [3, 1]).Transaction ≠ (signedProtoTx [3, 2]).Transaction ∧
    (∀ env : Env, (signedProtoTx [3, 1]).ValidateSig env = (signedProtoTx [3, 2]).ValidateSig env) ∧
    (signedProtoTx [3, 1]).ValidateSig exampleEnv = true ∧
    (signedProtoTx [3, 2]).ValidateSig exampleEnv = true ∧
    exampleEnv.sigVerify signedPartSig (exampleEnv.sha256 (signedProtoTx [3, 1]).Transaction) = false ∧
    exampleEnv.sigVerify signedPartSig (exampleEnv.sha256 (signedProtoTx [3, 2]).Transaction) = false :=
  ⟨by decide, fun _ => rfl, by rfl, by rfl, by rfl, by rfl⟩

/-- What `ValidateSig` computes: it returns true exactly when every signature of
the envelope verifies against the SHA-256 of the routing followed by the
length-prefixed chain ID; the transaction is not read, so two envelopes with
the same signatures, routing and chain ID get the same answer whatever their
transactions. -/
theorem validateSig_signed_part (env : Env) (t : proto.GenTransaction) :
    (t.ValidateSig env = true ↔
      ∀ v ∈ t.Signature,
        env.sigVerify v (env.sha256 (env.uint64Bytes t.Routing ++ env.sliceBytes t.ChainID)) = true) ∧
    (∀ t2 : proto.GenTransaction, t2.Signature = t.Signature → t2.Routing = t.Routing →
      t2.ChainID = t.ChainID → t2.ValidateSig env = t.ValidateSig env) := by
  refine ⟨?_, ?_⟩
  · simp only [proto.GenTransaction.ValidateSig, proto.GenTransaction.MarshalBinary]
    exact verifySigs_iff env _ _
  · intro t2 hs hr hc
    simp only [proto.GenTransaction.ValidateSig, proto.GenTransaction.MarshalBinary, hs, hr, hc]

/-- C32.  The routing that `SetRoutingChainID` of `types/proto` sets is not the
routing of the parsed URL.  For `acc://example.com:80/path` it hashes the host
with its port, `example.com:80`, where `Parse(s).Routing()` hashes the host
name `example.com`; for `alice/tokens`, which has no scheme, `net/url` finds no
host and the empty string is hashed, where `Parse` reads the host `alice`.  In
both cases `Parse` accepts the text and the two routings differ. -/
theorem setRoutingChainID_differs :
    (∃ u t, URL.Parse tableEnv "acc://example.com:80/path" = Except.ok u ∧
      freshProtoTx.SetRoutingChainID tableEnv "acc://example.com:80/path" = Except.ok t ∧
      t.Routing = bigEndianUint64 (tableEnv.sha256 (tableEnv.stringBytes "example.com:80")) ∧
      u.Routing tableEnv = bigEndianUint64 (tableEnv.sha256 (tableEnv.stringBytes "example.com")) ∧
      t.Routing ≠ u.Routing tableEnv) ∧
    (∃ u t, URL.Parse tableEnv "alice/tokens" = Except.ok u ∧
      freshProtoTx.SetRoutingChainID tableEnv "alice/tokens" = Except.ok t ∧
      t.Routing = bigEndianUint64 (tableEnv.sha256 (tableEnv.stringBytes "")) ∧
      u.Routing tableEnv = bigEndianUint64 (tableEnv.sha256 (tableEnv.stringBytes "alice")) ∧
      t.Routing ≠ u.Routing tableEnv) :=
  ⟨⟨_, _, rfl, rfl, rfl, rfl, by decide⟩, ⟨_, _, rfl, rfl, rfl, rfl, by decide⟩⟩
/-! ### The removal of the genesis executor -/

/-- Removing the executors of one type leaves the lookup of every other type as
it is. -/
theorem lookupExecutor_deleteExecutor_ne (executors : List TxExecutor) (txt txt2 : TxType)
    (h : txt2 ≠ txt) :
    lookupExecutor (deleteExecutor executors txt) txt2 = lookupExecutor executors txt2 := by
  induction executors with
  | nil => rfl
  | cons x rest ih =>
    simp only [lookupExecutor, deleteExecutor] at ih ⊢
    by_cases hx : x.type = txt
    · have h2 : ¬ x.type = txt2 := fun h3 => h (h3.symm.trans hx)
      simp [List.filter_cons, List.find?_cons, hx, h2, ih, show ¬ txt = txt2 from fun h3 => h h3.symm]
    · by_cases h2 : x.type = txt2
      · simp [List.filter_cons, List.find?_cons, h2, h]
      · simp [List.filter_cons, List.find?_cons, hx, h2, ih]

/-- No call of the consensus engine changes the executor registered for a type
other than genesis. -/
theorem step_keeps_others (env : Env) (ex : Executor) (call : Call) (txt : TxType)
    (h : txt ≠ TxType.SyntheticGenesis) :
    lookupExecutor (ex.step env call).executors txt = lookupExecutor ex.executors txt := by
  cases call with
  | BeginBlock req fresh => rfl
  | CheckTx tx => rfl
  | DeliverTx tx =>
    simp only [Executor.step]
    rcases deliverTx_executors env ex tx with h1 | h1
    · rw [h1]
    · rw [h1]; exact lookupExecutor_deleteExecutor_ne _ _ _ h
  | EndBlock => rfl
  | Commit =>
    simp only [Executor.step, Executor.Commit]
    split <;> rfl

/-- The delivery once the executor was found and `check` and `Validate`
succeeded: the tail of `DeliverTx`, run on the registry without the genesis
executor when the executor found is the genesis one. -/
theorem deliverTx_validated (env : Env) (ex : Executor) (tx : GenTransaction)
    (executor : TxExecutor) (st st1 : StateManager)
    (hwf : ¬ (tx.Transaction = none ∨ tx.SigInfo = none ∨ tx.ChainID.length ≠ 32))
    (hx : lookupExecutor ex.executors (env.transactionType tx.Transaction) = some executor)
    (hc : ex.check env tx = Except.ok st) (hv : executor.Validate st ex.dbTx tx = Except.ok st1) :
    ex.DeliverTx env tx =
      Executor.deliverAccepted env
        (if executor.type = TxType.SyntheticGenesis then
          { ex with executors := deleteExecutor ex.executors TxType.SyntheticGenesis }
        else ex)
        tx (NewPendingTransaction env tx) (toBytes32 tx.ChainID) st1 := by
  simp only [Executor.DeliverTx, hwf, if_false, hx, hc, hv]

/-- C35, counterexample.  The registry of the example executor holds the genesis
executor; `AddTransaction` fails in the delivery of the genesis transaction,
after `Validate` succeeded; `DeliverTx` returns that error, and the registry
no longer holds the genesis executor. -/
theorem genesis_removed_on_failed_delivery :
    fullDiskEnv.transactionType genesisTx.Transaction = TxType.SyntheticGenesis ∧
    (lookupExecutor exampleExecutor.executors TxType.SyntheticGenesis).isSome = true ∧
    (exampleExecutor.DeliverTx fullDiskEnv genesisTx).1 =
      Except.error (errorf "no space left on device") ∧
    lookupExecutor (exampleExecutor.DeliverTx fullDiskEnv genesisTx).2.executors
      TxType.SyntheticGenesis = none :=
  ⟨by rfl, by rfl, by rfl, by rfl⟩

/-- C35, amended.  The genesis type is removed from the executor registry as
soon as `Validate` has succeeded, whether or not `DeliverTx` then succeeds.
For every genesis transaction: (1) if `DeliverTx` succeeds the registry no
longer contains the genesis executor; (2) if the envelope is well formed and
the genesis executor is registered and `check` and `Validate` succeed, the
registry no longer contains it afterwards, whatever `DeliverTx` returns (so
also when marshalling, `AddTransaction`, the state-manager commit or the
synthetic submission fails); (3) if the envelope is malformed, or no genesis
executor is registered, or `check` or `Validate` fails, the registry is
unchanged.  (4) No call removes the executor of any other type. -/
theorem genesis_removed_once_validated (env : Env) (ex : Executor) (tx : GenTransaction)
    (ht : env.transactionType tx.Transaction = TxType.SyntheticGenesis) :
    (∀ r, (ex.DeliverTx env tx).1 = Except.ok r →
      lookupExecutor (ex.DeliverTx env tx).2.executors TxType.SyntheticGenesis = none) ∧
    (∀ executor st st1,
      ¬ (tx.Transaction = none ∨ tx.SigInfo = none ∨ tx.ChainID.length ≠ 32) →
      lookupExecutor ex.executors TxType.SyntheticGenesis = some executor →
      ex.check env tx = Except.ok st → executor.Validate st ex.dbTx tx = Except.ok st1 →
      lookupExecutor (ex.DeliverTx env tx).2.executors TxType.SyntheticGenesis = none) ∧
    (((tx.Transaction = none ∨ tx.SigInfo = none ∨ tx.ChainID.length ≠ 32) ∨
        lookupExecutor ex.executors TxType.SyntheticGenesis = none ∨
        (∃ e, ex.check env tx = Except.error e) ∨
        (∃ executor st e, lookupExecutor ex.executors TxType.SyntheticGenesis = some executor ∧
          ex.check env tx = Except.ok st ∧ executor.Validate st ex.dbTx tx = Except.error e)) →
      (ex.DeliverTx env tx).2.executors = ex.executors) ∧
    (∀ call txt, txt ≠ TxType.SyntheticGenesis →
      lookupExecutor (ex.step env call).executors txt = lookupExecutor ex.executors txt) := by
  have hvalidated : ∀ executor st st1,
      ¬ (tx.Transaction = none ∨ tx.SigInfo = none ∨ tx.ChainID.length ≠ 32) →
      lookupExecutor ex.executors TxType.SyntheticGenesis = some executor →
      ex.check env tx = Except.ok st → executor.Validate st ex.dbTx tx = Except.ok st1 →
      lookupExecutor (ex.DeliverTx env tx).2.executors TxType.SyntheticGenesis = none := by
    intro executor st st1 hwf hx hc hv
    have htype : executor.type = TxType.SyntheticGenesis := by
      have := List.find?_some hx
      simpa using this
    rw [deliverTx_validated env ex tx executor st st1 hwf (by rw [ht]; exact hx) hc hv,
      deliverAccepted_executors]
    simp only [htype, if_true]
    exact lookupExecutor_deleteExecutor _ _
  refine ⟨?_, hvalidated, ?_, fun call txt h => step_keeps_others env ex call txt h⟩
  · intro r h
    obtain ⟨executor, st, st1, hx, hc, hv, -⟩ := deliverTx_ok_inv env ex tx r h
    have hwf : ¬ (tx.Transaction = none ∨ tx.SigInfo = none ∨ tx.ChainID.length ≠ 32) := by
      intro hm
      simp [Executor.DeliverTx, hm] at h
    exact hvalidated executor st st1 hwf (by rw [← ht]; exact hx) hc hv
  · intro h
    by_cases hwf : tx.Transaction = none ∨ tx.SigInfo = none ∨ tx.ChainID.length ≠ 32
    · simp [Executor.DeliverTx, hwf]
    · cases hx : lookupExecutor ex.executors TxType.SyntheticGenesis with
      | none =>
        simp only [Executor.DeliverTx, hwf, if_false, ht, hx]
        exact recordTransactionError_executors env ex _ _ _ _
      | some executor =>
        cases hc : ex.check env tx with
        | error err =>
          simp only [Executor.DeliverTx, hwf, if_false, ht, hx, hc]
          split
          · rfl
          · exact recordTransactionError_executors env ex _ _ _ _
        | ok st =>
          cases hv : executor.Validate st ex.dbTx tx with
          | error err =>
            simp only [Executor.DeliverTx, hwf, if_false, ht, hx, hc, hv]
            split
            · rfl
            · exact recordTransactionError_executors env ex _ _ _ _
          | ok st1 =>
            exfalso
            rcases h with h | h | h | h
            · exact hwf h
            · rw [hx] at h; cases h
            · obtain ⟨e, he⟩ := h
              rw [hc] at he; cases he
            · obtain ⟨executor2, st2, e, hx2, hc2, hv2⟩ := h
              rw [hx] at hx2
              cases hx2
              rw [hc] at hc2
              cases hc2
              rw [hv] at hv2
              cases hv2

/-- C35 (amended), at a concrete input: the genesis transaction delivered to
the example executor on a database layer whose `AddTransaction` fails; `check`
and `Validate` succeed, and the genesis executor is gone afterwards. -/
theorem genesis_removed_once_validated_witness :
    lookupExecutor (exampleExecutor.DeliverTx fullDiskEnv genesisTx).2.executors
      TxType.SyntheticGenesis = none :=
  (genesis_removed_once_validated fullDiskEnv exampleExecutor genesisTx (by rfl)).2.1
    exampleGenesis
    { emptyManager TxType.SyntheticGenesis with
      txHash := toBytes32 (fullDiskEnv.transactionHash genesisTx)
      SponsorUrl := some fullDiskEnv.acmeUrl, Sponsor := some fullDiskEnv.genesisACME }
    { emptyManager TxType.SyntheticGenesis with
      txHash := toBytes32 (fullDiskEnv.transactionHash genesisTx)
      SponsorUrl := some fullDiskEnv.acmeUrl, Sponsor := some fullDiskEnv.genesisACME }
    (by decide) (by rfl) (by rfl) (by rfl)
/-! ### The status of a rejected transaction -/

/-- C37.  The status that `recordTransactionError` stores is the error message
pasted between quotes, unescaped.  The delivery of a transaction whose sponsor
does not exist fails in `check` with the sponsor-not-found message, which
quotes the sponsor URL; the pending transaction is recorded with a status that
is not a JSON text.  A message with a backslash yields a JSON object whose
`error` member is another text than the message.  A message without quote,
backslash or control character is stored as the claim describes. -/
theorem rejected_status_not_json :
    (exampleExecutor.DeliverTx exampleEnv (bobTx [3, 1])).1 =
      Except.error (errorf "failed check: sponsor not found: sponsor \"acc://bob/tokens\" not found") ∧
    (exampleExecutor.DeliverTx exampleEnv (bobTx [3, 1])).2.dbTx.transactions =
      [⟨toBytes32 [5], exampleEnv.transactionHash (bobTx [3, 1]),
        ⟨examplePendingEntry (exampleEnv.transactionHash (bobTx [3, 1]))
          (statusRejected
            "failed check: sponsor not found: sponsor \"acc://bob/tokens\" not found")⟩,
        none⟩] ∧
    statusRejected "failed check: sponsor not found: sponsor \"acc://bob/tokens\" not found" =
      "\x7b\"code\":\"1\", \"error\":\"failed check: sponsor not found: sponsor \"acc://bob/tokens\" not found\"\x7d" ∧
    readJsonObject
      (statusRejected "failed check: sponsor not found: sponsor \"acc://bob/tokens\" not found") = none ∧
    readJsonObject (statusRejected "no file C:\\new") = some [("code", "1"), ("error", "no file C:\new")] ∧
    readJsonObject (statusRejected "invalid nonce") = some [("code", "1"), ("error", "invalid nonce")] := by
  refine ⟨by rfl, by rfl, by rfl, by rfl, by rfl, by rfl⟩
/-! ### The codecs of the query responses -/

/-- The little-endian bytes of a 64-bit value are eight. -/
theorem putUint64LE_length (n : Nat) : (putUint64LE n).length = 8 := by
  simp [putUint64LE]

/-- The little-endian decoding of the little-endian bytes of a 64-bit value. -/
theorem uint64LE_putUint64LE (n : Nat) (rest : Bytes) (h : n < 18446744073709551616) :
    uint64LE (putUint64LE n ++ rest) = n := by
  have hr : List.range 8 = [0, 1, 2, 3, 4, 5, 6, 7] := by decide
  simp only [uint64LE, putUint64LE, hr, List.map_cons, List.map_nil, List.cons_append,
    List.take_succ_cons, List.take_zero, List.foldr_cons, List.foldr_nil]
  norm_num
  omega

/-- The conversions between `int64` and `uint64` undo each other. -/
theorem int64OfUint64_uint64OfInt (t : Int) (h1 : -9223372036854775808 ≤ t)
    (h2 : t < 9223372036854775808) :
    uint64OfInt t < 18446744073709551616 ∧ int64OfUint64 (uint64OfInt t) = t := by
  unfold int64OfUint64 uint64OfInt
  constructor
  · omega
  · split <;> omega

/-- A value below `128 ^ k` takes at most `k` bytes as an unsigned varint. -/
theorem putUvarintSize_le (fuel : Nat) :
    ∀ x k : Nat, 1 ≤ k → x < 128 ^ k → putUvarintSize fuel x ≤ k := by
  induction fuel with
  | zero => intro x k hk _; simpa [putUvarintSize] using hk
  | succ fuel ih =>
    intro x k hk hx
    simp only [putUvarintSize]
    split
    · exact hk
    · rename_i hge
      cases k with
      | zero => omega
      | succ k =>
        cases k with
        | zero => simp at hx; omega
        | succ k =>
          have hdiv : x / 128 < 128 ^ (k + 1) := by
            rw [Nat.div_lt_iff_lt_mul (by decide)]
            rw [pow_succ] at hx
            exact hx
          have := ih (x / 128) (k + 1) (by omega) hdiv
          omega

/-- The unsigned varint of a length has at least one byte. -/
theorem putUvarintSize_pos (fuel x : Nat) : 1 ≤ putUvarintSize fuel x := by
  cases fuel with
  | zero => simp [putUvarintSize]
  | succ fuel =>
    simp only [putUvarintSize]
    split <;> omega

/-- The write of `Size` into its buffer of 8 bytes succeeds for a value below
`2 ^ 56`. -/
theorem putUvarint8_ok (env : Env) (x : Nat) (h : x < 72057594037927936) :
    putUvarint8 env x = Except.ok (putUvarintSize 9 x) := by
  have hle := putUvarintSize_le 9 x 8 (by decide) (by norm_num; exact h)
  have hnot : ¬ putUvarintSize 9 x > 8 := by omega
  simp only [putUvarint8, hnot, if_false]

/-- The encoding of a response, in full. -/
theorem responseByTxId_marshal (env : Env) (r : ResponseByTxId) :
    r.MarshalBinary env = Except.ok (r.TxId ++ (env.sliceBytes r.TxState ++
      (env.sliceBytes r.TxPendingState ++ env.sliceBytes r.TxSynthTxIds))) := by
  simp [ResponseByTxId.MarshalBinary]

/-- `Size` of a response whose byte strings are shorter than `2 ^ 56`. -/
theorem responseByTxId_size (env : Env) (r : ResponseByTxId)
    (h1 : r.TxState.length < 72057594037927936) (h2 : r.TxPendingState.length < 72057594037927936)
    (h3 : r.TxSynthTxIds.length < 72057594037927936) :
    r.Size env = Except.ok (32 + r.TxState.length + r.TxPendingState.length +
      r.TxSynthTxIds.length + putUvarintSize 9 r.TxState.length +
      putUvarintSize 9 r.TxPendingState.length + putUvarintSize 9 r.TxSynthTxIds.length) := by
  simp only [ResponseByTxId.Size, putUvarint8_ok env _ h1, putUvarint8_ok env _ h2,
    putUvarint8_ok env _ h3]

/-- The decoding of the encoding of a response, whatever follows it, when the
codec of a byte slice round-trips. -/
theorem responseByTxId_roundtrip (env : Env)
    (hB : ∀ b rest, env.bytesSlice (env.sliceBytes b ++ rest) = (b, rest))
    (hP : ∀ b rest, env.bytesSlicePanic (env.sliceBytes b ++ rest) = none)
    (r : ResponseByTxId) (hid : r.TxId.length = 32) (rest : Bytes) :
    ResponseByTxId.UnmarshalBinary env
      (r.TxId ++ (env.sliceBytes r.TxState ++ (env.sliceBytes r.TxPendingState ++
        env.sliceBytes r.TxSynthTxIds)) ++ rest) = Except.ok r := by
  have hlen : ¬ (r.TxId ++ (env.sliceBytes r.TxState ++ (env.sliceBytes r.TxPendingState ++
      env.sliceBytes r.TxSynthTxIds)) ++ rest).length < 32 := by
    simp only [List.length_append, hid]
    omega
  have hdrop : (r.TxId ++ (env.sliceBytes r.TxState ++ (env.sliceBytes r.TxPendingState ++
      env.sliceBytes r.TxSynthTxIds)) ++ rest).drop 32 =
      env.sliceBytes r.TxState ++ (env.sliceBytes r.TxPendingState ++
        (env.sliceBytes r.TxSynthTxIds ++ rest)) := by
    rw [List.append_assoc, ← hid, List.drop_left]
    simp only [List.append_assoc]
  have htake : (r.TxId ++ (env.sliceBytes r.TxState ++ (env.sliceBytes r.TxPendingState ++
      env.sliceBytes r.TxSynthTxIds)) ++ rest).take 32 = r.TxId := by
    rw [List.append_assoc, ← hid, List.take_left]
  simp only [ResponseByTxId.UnmarshalBinary, hlen, if_false, hdrop, htake, hB, hP]

/-- The loop of the history decoder on the encodings of a list of responses that
start at the offset `pre.length`. -/
theorem unmarshalTransactions_roundtrip (env : Env)
    (hB : ∀ b rest, env.bytesSlice (env.sliceBytes b ++ rest) = (b, rest))
    (hP : ∀ b rest, env.bytesSlicePanic (env.sliceBytes b ++ rest) = none)
    (hL : ∀ b, (env.sliceBytes b).length = putUvarintSize 9 b.length + b.length)
    (ts : List ResponseByTxId) :
    ∀ (pre ds : Bytes), marshalTransactions env ts = Except.ok ds →
      (∀ t ∈ ts, t.TxId.length = 32 ∧ t.TxState.length < 72057594037927936 ∧
        t.TxPendingState.length < 72057594037927936 ∧ t.TxSynthTxIds.length < 72057594037927936) →
      unmarshalTransactions env ts.length (pre ++ ds) pre.length = Except.ok ts ∧
      ts.length ≤ ds.length := by
  induction ts with
  | nil => intro pre ds _ _; exact ⟨rfl, Nat.zero_le _⟩
  | cons t rest ih =>
    intro pre ds hm hwf
    simp only [marshalTransactions, responseByTxId_marshal] at hm
    cases hrest : marshalTransactions env rest with
    | error e => simp [hrest] at hm
    | ok ds1 =>
      simp only [hrest, Except.ok.injEq] at hm
      subst hm
      obtain ⟨hid, h1, h2, h3⟩ := hwf t (List.mem_cons_self _ _)
      have hrec := ih (pre ++ (t.TxId ++ (env.sliceBytes t.TxState ++
        (env.sliceBytes t.TxPendingState ++ env.sliceBytes t.TxSynthTxIds)))) ds1 hrest
        (fun t1 ht1 => hwf t1 (List.mem_cons_of_mem _ ht1))
      have hj : ¬ (pre ++ (t.TxId ++ (env.sliceBytes t.TxState ++ (env.sliceBytes t.TxPendingState ++
          env.sliceBytes t.TxSynthTxIds)) ++ ds1)).length < pre.length := by
        simp only [List.length_append]
        omega
      have hnext : pre.length + (32 + t.TxState.length + t.TxPendingState.length +
          t.TxSynthTxIds.length + putUvarintSize 9 t.TxState.length +
          putUvarintSize 9 t.TxPendingState.length + putUvarintSize 9 t.TxSynthTxIds.length) =
          (pre ++ (t.TxId ++ (env.sliceBytes t.TxState ++ (env.sliceBytes t.TxPendingState ++
            env.sliceBytes t.TxSynthTxIds)))).length := by
        simp only [List.length_append, hid, hL]
        omega
      constructor
      · simp only [List.length_cons, unmarshalTransactions, hj, if_false, List.drop_left,
          responseByTxId_roundtrip env hB hP t hid ds1, responseByTxId_size env t h1 h2 h3, hnext]
        rw [← List.append_assoc pre, hrec.1]
      · have := hrec.2
        simp only [List.length_cons, List.length_append, hid]
        omega

/-- The loop of the history encoder succeeds on every list of responses. -/
theorem marshalTransactions_ok (env : Env) (ts : List ResponseByTxId) :
    ∃ ds, marshalTransactions env ts = Except.ok ds := by
  induction ts with
  | nil => exact ⟨[], rfl⟩
  | cons t rest ih =>
    obtain ⟨ds, hds⟩ := ih
    refine ⟨t.TxId ++ (env.sliceBytes t.TxState ++ (env.sliceBytes t.TxPendingState ++
      env.sliceBytes t.TxSynthTxIds)) ++ ds, ?_⟩
    simp only [marshalTransactions, responseByTxId_marshal, hds]

/-- The decoding of the encoding of a history, when the codec of a byte slice
round-trips and its length prefix is an unsigned varint. -/
theorem responseTxHistory_roundtrip (env : Env)
    (hB : ∀ b rest, env.bytesSlice (env.sliceBytes b ++ rest) = (b, rest))
    (hP : ∀ b rest, env.bytesSlicePanic (env.sliceBytes b ++ rest) = none)
    (hL : ∀ b, (env.sliceBytes b).length = putUvarintSize 9 b.length + b.length)
    (h : ResponseTxHistory) (ht1 : -9223372036854775808 ≤ h.Total)
    (ht2 : h.Total < 9223372036854775808) (hn : h.Transactions.length < 9223372036854775808)
    (hwf : ∀ t ∈ h.Transactions, t.TxId.length = 32 ∧ t.TxState.length < 72057594037927936 ∧
      t.TxPendingState.length < 72057594037927936 ∧ t.TxSynthTxIds.length < 72057594037927936) :
    ∃ b, h.MarshalBinary env = Except.ok b ∧
      ResponseTxHistory.UnmarshalBinary env b = Except.ok h := by
  obtain ⟨ds, hds⟩ := marshalTransactions_ok env h.Transactions
  have hloop := unmarshalTransactions_roundtrip env hB hP hL h.Transactions [] ds hds hwf
  simp only [List.nil_append, List.length_nil] at hloop
  obtain ⟨hu, hback⟩ := int64OfUint64_uint64OfInt h.Total ht1 ht2
  have hmod : h.Transactions.length % 18446744073709551616 = h.Transactions.length :=
    Nat.mod_eq_of_lt (by omega)
  refine ⟨putUint64LE (uint64OfInt h.Total) ++ putUint64LE h.Transactions.length ++ ds, ?_, ?_⟩
  · simp only [ResponseTxHistory.MarshalBinary, hds, hmod]
  · have hlen8 : ¬ (putUint64LE (uint64OfInt h.Total) ++ putUint64LE h.Transactions.length ++
        ds).length < 8 := by
      simp only [List.length_append, putUint64LE_length]; omega
    have hlen16 : ¬ (putUint64LE (uint64OfInt h.Total) ++ putUint64LE h.Transactions.length ++
        ds).length < 16 := by
      simp only [List.length_append, putUint64LE_length]; omega
    have hd8 : (putUint64LE (uint64OfInt h.Total) ++ putUint64LE h.Transactions.length ++ ds).drop 8 =
        putUint64LE h.Transactions.length ++ ds := by
      rw [List.append_assoc]
      have := putUint64LE_length (uint64OfInt h.Total)
      rw [← this, List.drop_left]
    have hd16 : (putUint64LE (uint64OfInt h.Total) ++ putUint64LE h.Transactions.length ++ ds).drop 16 =
        ds := by
      have hl : (putUint64LE (uint64OfInt h.Total) ++ putUint64LE h.Transactions.length).length =
          16 := by
        simp only [List.length_append, putUint64LE_length]
      rw [← hl, List.drop_left]
    have htotal : uint64LE (putUint64LE (uint64OfInt h.Total) ++
        putUint64LE h.Transactions.length ++ ds) = uint64OfInt h.Total := by
      rw [List.append_assoc]
      exact uint64LE_putUint64LE _ _ hu
    have hcount : uint64LE (putUint64LE h.Transactions.length ++ ds) = h.Transactions.length :=
      uint64LE_putUint64LE _ _ (by omega)
    have hint : int64OfUint64 h.Transactions.length = (h.Transactions.length : Int) := by
      unfold int64OfUint64
      rw [if_pos hn]
    have hcheck : ¬ ((ds.length : Int) < (h.Transactions.length : Int)) := by omega
    have hneg : ¬ ((h.Transactions.length : Int) < 0) := by omega
    simp only [ResponseTxHistory.UnmarshalBinary, hlen8, hlen16, if_false, hd8, hd16, htotal,
      hcount, hint, hcheck, hneg, Int.toNat_ofNat, hloop.1, hback]

/-- An error of the decoder of a response is never a panic. -/
theorem responseByTxId_unmarshal_no_panic (env : Env) (data : Bytes) (e : Error)
    (h : ResponseByTxId.UnmarshalBinary env data = Except.error e) : e.isPanic = false := by
  simp only [ResponseByTxId.UnmarshalBinary] at h
  split at h
  · cases h; rfl
  · split at h
    · cases h; rfl
    · split at h
      · cases h; rfl
      · split at h
        · cases h; rfl
        · cases h

/-- An error of the loop of the history decoder is never a panic. -/
theorem unmarshalTransactions_no_panic (env : Env) (l : Nat) :
    ∀ (data : Bytes) (j : Nat) (e : Error),
      unmarshalTransactions env l data j = Except.error e → e.isPanic = false := by
  induction l with
  | zero => intro data j e h; cases h
  | succ l ih =>
    intro data j e h
    simp only [unmarshalTransactions] at h
    split at h
    · cases h; rfl
    · cases hu : ResponseByTxId.UnmarshalBinary env (data.drop j) with
      | error e1 =>
        simp only [hu, Except.error.injEq] at h
        subst h
        exact responseByTxId_unmarshal_no_panic env _ _ hu
      | ok t =>
        simp only [hu] at h
        cases hs : t.Size env with
        | error p =>
          simp only [hs, Except.error.injEq] at h
          subst h
          rfl
        | ok n =>
          simp only [hs] at h
          cases hr : unmarshalTransactions env l data (j + n) with
          | error e2 =>
            simp only [hr, Except.error.injEq] at h
            subst h
            exact ih _ _ _ hr
          | ok ts => simp [hr] at h

/-- An error of the decoder of a history is never a panic. -/
theorem responseTxHistory_unmarshal_no_panic (env : Env) (data : Bytes) (e : Error)
    (h : ResponseTxHistory.UnmarshalBinary env data = Except.error e) : e.isPanic = false := by
  simp only [ResponseTxHistory.UnmarshalBinary] at h
  split at h
  · cases h; rfl
  · split at h
    · cases h; rfl
    · split at h
      · cases h; rfl
      · split at h
        · cases h; rfl
        · cases hr : unmarshalTransactions env
              (int64OfUint64 (uint64LE (data.drop 8))).toNat (data.drop 16) 0 with
          | error e2 =>
            simp only [hr, Except.error.injEq] at h
            subst h
            exact unmarshalTransactions_no_panic env _ _ _ _ hr
          | ok ts => simp [hr] at h

/-- Skipping the zeros in front of a positive number. -/
theorem dropWhile_zeros (k n : Nat) (l : Bytes) :
    (List.replicate k 0 ++ (n + 1) :: l).dropWhile (fun x => x == 0) = (n + 1) :: l := by
  induction k with
  | zero => simp [List.dropWhile_cons]
  | succ k ih =>
    simp only [List.replicate_succ, List.cons_append, List.dropWhile_cons, beq_self_eq_true,
      if_true]
    exact ih

/-- The byte-slice codec of `varintEnv` round-trips, does not panic on an
encoding, and its length prefix is as long as the unsigned varint. -/
theorem varintEnv_codec :
    (∀ b rest, varintEnv.bytesSlice (varintEnv.sliceBytes b ++ rest) = (b, rest)) ∧
    (∀ b rest, varintEnv.bytesSlicePanic (varintEnv.sliceBytes b ++ rest) = none) ∧
    (∀ b, (varintEnv.sliceBytes b).length = putUvarintSize 9 b.length + b.length) := by
  refine ⟨?_, ?_, ?_⟩
  · intro b rest
    show (match (List.replicate (putUvarintSize 9 b.length - 1) 0 ++ (b.length + 1) :: b ++
        rest).dropWhile (fun x => x == 0) with
      | [] => ([], [])
      | n :: rest1 => (rest1.take (n - 1), rest1.drop (n - 1))) = (b, rest)
    rw [List.append_assoc, List.cons_append, dropWhile_zeros]
    simp
  · intro b rest
    show (match (List.replicate (putUvarintSize 9 b.length - 1) 0 ++ (b.length + 1) :: b ++
        rest).dropWhile (fun x => x == 0) with
      | [] => none
      | n :: rest1 => if rest1.length < n - 1 then some "slice bounds out of range" else none) =
      none
    rw [List.append_assoc, List.cons_append, dropWhile_zeros]
    simp
  · intro b
    show (List.replicate (putUvarintSize 9 b.length - 1) 0 ++ (b.length + 1) :: b).length = _
    have := putUvarintSize_pos 9 b.length
    simp only [List.length_append, List.length_replicate, List.length_cons]
    omega

/-- C40, counterexample.  In the example environment, where `BytesSlice` of
no bytes is the empty slice (as `binary.Uvarint` of an empty buffer is 0), the
encoding of the example response ends with the length 0 of its empty last
field; the input truncated by that byte is decoded without error.  The same
holds for the encoding of the example history. -/
theorem truncated_response_accepted :
    exampleResponse.MarshalBinary exampleEnv = Except.ok (toBytes32 [6] ++ [1, 7, 2, 8, 8, 0]) ∧
    ResponseByTxId.UnmarshalBinary exampleEnv (toBytes32 [6] ++ [1, 7, 2, 8, 8]) =
      Except.ok exampleResponse ∧
    exampleHistory.MarshalBinary exampleEnv =
      Except.ok (putUint64LE 12 ++ putUint64LE 2 ++ (toBytes32 [6] ++ [1, 7, 2, 8, 8, 0]) ++
        (toBytes32 [9] ++ [0, 2, 8, 8, 0])) ∧
    ResponseTxHistory.UnmarshalBinary exampleEnv
        (putUint64LE 12 ++ putUint64LE 2 ++ (toBytes32 [6] ++ [1, 7, 2, 8, 8, 0]) ++
          (toBytes32 [9] ++ [0, 2, 8, 8])) =
      Except.ok exampleHistory :=
  ⟨by rfl, by rfl, by rfl, by rfl⟩

/-- C40, amended.  The query response codecs round-trip, when `BytesSlice` undoes
`SliceBytes` and the length prefix of `SliceBytes` is the unsigned varint of the
length.  For every `ResponseByTxId` value `r` (its transaction ID has 32 bytes,
its byte strings are shorter than `2 ^ 56`), `Size(r)` equals the length of
`MarshalBinary(r)` and `UnmarshalBinary(MarshalBinary(r))` recovers `r`.  For
every `ResponseTxHistory` value `h` (its total is an `int64`, its
transactions are as above), `UnmarshalBinary(MarshalBinary(h))` recovers the
total of `h` and the same list of transactions in the same order.
`UnmarshalBinary` never panics: an input shorter than the fixed head (32
bytes, 16 bytes for a history), an input with fewer bytes than the history
announces transactions, and an input on which `BytesSlice` panics make it
return an error. -/
theorem query_codecs_roundtrip (env : Env)
    (hB : ∀ b rest, env.bytesSlice (env.sliceBytes b ++ rest) = (b, rest))
    (hP : ∀ b rest, env.bytesSlicePanic (env.sliceBytes b ++ rest) = none)
    (hL : ∀ b, (env.sliceBytes b).length = putUvarintSize 9 b.length + b.length) :
    (∀ r : ResponseByTxId, r.TxId.length = 32 → r.TxState.length < 72057594037927936 →
      r.TxPendingState.length < 72057594037927936 → r.TxSynthTxIds.length < 72057594037927936 →
      ∃ b, r.MarshalBinary env = Except.ok b ∧ r.Size env = Except.ok b.length ∧
        ResponseByTxId.UnmarshalBinary env b = Except.ok r) ∧
    (∀ h : ResponseTxHistory, -9223372036854775808 ≤ h.Total → h.Total < 9223372036854775808 →
      h.Transactions.length < 9223372036854775808 →
      (∀ t ∈ h.Transactions, t.TxId.length = 32 ∧ t.TxState.length < 72057594037927936 ∧
        t.TxPendingState.length < 72057594037927936 ∧
        t.TxSynthTxIds.length < 72057594037927936) →
      ∃ b, h.MarshalBinary env = Except.ok b ∧
        ResponseTxHistory.UnmarshalBinary env b = Except.ok h) ∧
    (∀ data : Bytes,
      (∀ e, ResponseByTxId.UnmarshalBinary env data = Except.error e → e.isPanic = false) ∧
      (∀ e, ResponseTxHistory.UnmarshalBinary env data = Except.error e → e.isPanic = false) ∧
      (data.length < 32 →
        ResponseByTxId.UnmarshalBinary env data =
          Except.error (errorf ("error unmarshaling ResponseByTxId data " ++
            env.slicePanicText 32 data.length))) ∧
      (∀ r, 32 ≤ data.length → env.bytesSlicePanic (data.drop 32) = some r →
        ResponseByTxId.UnmarshalBinary env data =
          Except.error (errorf ("error unmarshaling ResponseByTxId data " ++ r))) ∧
      (data.length < 16 → ∃ e, ResponseTxHistory.UnmarshalBinary env data = Except.error e) ∧
      (16 ≤ data.length →
        ((data.drop 16).length : Int) < int64OfUint64 (uint64LE (data.drop 8)) →
        ResponseTxHistory.UnmarshalBinary env data =
          Except.error (errorf "insufficient txid data for given range"))) := by
  refine ⟨?_, ?_, ?_⟩
  · intro r hid h1 h2 h3
    refine ⟨_, responseByTxId_marshal env r, ?_, ?_⟩
    · rw [responseByTxId_size env r h1 h2 h3]
      simp only [List.length_append, hid, hL]
      congr 1
      omega
    · have := responseByTxId_roundtrip env hB hP r hid []
      simpa using this
  · intro h ht1 ht2 hn hwf
    exact responseTxHistory_roundtrip env hB hP hL h ht1 ht2 hn hwf
  · intro data
    refine ⟨fun e h => responseByTxId_unmarshal_no_panic env data e h,
      fun e h => responseTxHistory_unmarshal_no_panic env data e h, ?_, ?_, ?_, ?_⟩
    · intro hlt
      simp only [ResponseByTxId.UnmarshalBinary, hlt, if_true]
    · intro r hge hp
      have hlt : ¬ data.length < 32 := by omega
      simp only [ResponseByTxId.UnmarshalBinary, hlt, if_false, hp]
    · intro hlt
      by_cases h8 : data.length < 8
      · exact ⟨errorf ("error unmarshaling ResponseTxHistory data " ++
          env.indexPanicText 7 data.length),
          by simp only [ResponseTxHistory.UnmarshalBinary, h8, if_true]⟩
      · exact ⟨errorf ("error unmarshaling ResponseTxHistory data " ++
          env.indexPanicText 7 (data.length - 8)),
          by simp only [ResponseTxHistory.UnmarshalBinary, h8, if_false, hlt, if_true]⟩
    · intro hge hshort
      have h8 : ¬ data.length < 8 := by omega
      have h16 : ¬ data.length < 16 := by omega
      simp only [ResponseTxHistory.UnmarshalBinary, h8, h16, if_false, hshort, if_true]

/-- C40 (amended), at a concrete input: the example response and the example
history under the codec of `varintEnv`. -/
theorem query_codecs_roundtrip_witness :
    (∃ b, exampleResponse.MarshalBinary varintEnv = Except.ok b ∧
      exampleResponse.Size varintEnv = Except.ok b.length ∧
      ResponseByTxId.UnmarshalBinary varintEnv b = Except.ok exampleResponse) ∧
    (∃ b, exampleHistory.MarshalBinary varintEnv = Except.ok b ∧
      ResponseTxHistory.UnmarshalBinary varintEnv b = Except.ok exampleHistory) :=
  have h := query_codecs_roundtrip varintEnv varintEnv_codec.1 varintEnv_codec.2.1
    varintEnv_codec.2.2
  ⟨h.1 exampleResponse (by rfl) (by decide) (by decide) (by decide),
   h.2.1 exampleHistory (by decide) (by decide) (by decide)
    (by
      intro t ht
      simp only [exampleHistory, List.mem_cons, List.mem_singleton, List.not_mem_nil,
        or_false] at ht
      rcases ht with rfl | rfl
      · exact ⟨by rfl, by decide, by decide, by decide⟩
      · exact ⟨by rfl, by decide, by decide, by decide⟩)⟩
/-! ### `init follower` and `init devnet` -/

/-- C38.  `initFollower` parses the port as a signed 16-bit integer
(`strconv.ParseInt(port, 10, 16)`): whenever the listen address has a port
whose digits stand for the number `p`, the node is initialised with
`Port = p` and the port is stripped from the listen address if `p < 32768`, and
the command exits with "invalid port number" if `p` is 32768 or more, which
includes the valid TCP ports 32768 to 65535. -/
theorem initFollower_port_range (env : Env) (listen : String) (u : NetURL) (p : Nat)
    (hu : env.netUrlParse listen = Except.ok u) (hne : env.hostPort u.Host ≠ "")
    (hsign : (env.hostPort u.Host).data.head? ≠ some '+' ∧ (env.hostPort u.Host).data.head? ≠ some '-')
    (hp : decimalDigits (env.hostPort u.Host).data 0 = some p) :
    initFollower env listen =
      if p < 32768 then
        Except.ok
          { Port := p
            ListenIP := [env.netUrlString { u with Host := String.mk (u.Host.data.take
              (u.Host.data.length - (env.hostPort u.Host).data.length - 1)) }] }
      else Except.error (errorf ("invalid port number " ++ quoted (env.hostPort u.Host))) := by
  have hdata : (env.hostPort u.Host).data ≠ [] := by
    intro h
    apply hne
    exact String.ext h
  by_cases hlt : p < 32768
  · have hge : ¬ p ≥ 32768 := by omega
    simp [initFollower, hu, hne, strconvParseInt, hsign.1, hsign.2, hdata, hp, hlt, hge]
  · have hge : p ≥ 32768 := by omega
    simp [initFollower, hu, hne, strconvParseInt, hsign.1, hsign.2, hdata, hp, hlt, hge]

/-- C38, at a concrete input: `--listen tcp://0.0.0.0:40000` is refused with
"invalid port number". -/
theorem initFollower_port_range_witness :
    initFollower listenEnv "tcp://0.0.0.0:40000" =
      Except.error (errorf "invalid port number \"40000\"") :=
  initFollower_port_range listenEnv "tcp://0.0.0.0:40000"
    { Scheme := "tcp", User := none, Host := "0.0.0.0:40000", Path := "", RawQuery := ""
      Fragment := "" } 40000 (by rfl) (by decide) (by decide) (by rfl)

/-- The port handling of `initFollower` at four listen addresses: the ports
65535 and 32768 are refused, the port 32767 is accepted and stripped, and
without a port the default 26656 is used. -/
theorem initFollower_examples :
    initFollower listenEnv "tcp://0.0.0.0:65535" =
      Except.error (errorf "invalid port number \"65535\"") ∧
    initFollower listenEnv "tcp://0.0.0.0:32768" =
      Except.error (errorf "invalid port number \"32768\"") ∧
    initFollower listenEnv "tcp://0.0.0.0:32767" =
      Except.ok { Port := 32767, ListenIP := ["tcp://0.0.0.0"] } ∧
    initFollower listenEnv "tcp://0.0.0.0" =
      Except.ok { Port := 26656, ListenIP := ["tcp://0.0.0.0"] } :=
  ⟨by rfl, by rfl, by rfl, by rfl⟩

/-- Writing back the byte that is at a position leaves the address as it is. -/
theorem set_getD_self (l : Bytes) (i : Nat) (h : i < l.length) : l.set i (l.getD i 0) = l := by
  apply List.ext_getElem
  · simp
  · intro j h1 h2
    by_cases hj : i = j
    · subst hj
      simp [List.getElem?_eq_getElem h]
    · simp [List.getElem_set_ne hj]

/-- The byte at a position that was just written. -/
theorem getD_set_self (l : Bytes) (i v : Nat) (h : i < l.length) : (l.set i v).getD i 0 = v := by
  rw [List.getD_eq_getElem _ _ (by simpa using h)]
  simp

/-- The loop of `initDevNet` over the nodes, as long as the last byte of the
base address does not wrap: the `i`-th address is the text of the base address
with `i` added to its last byte. -/
theorem devNetIPs_eq (env : Env) (n : Nat) :
    ∀ baseIP : Bytes, baseIP.length = 16 → baseIP.getD 15 0 + n ≤ 256 →
      devNetIPs env n baseIP =
        Except.ok ((List.range n).map
          (fun i => "tcp://" ++ env.ipText (baseIP.set 15 (baseIP.getD 15 0 + i)))) := by
  induction n with
  | zero => intro baseIP _ _; rfl
  | succ n ih =>
    intro baseIP hlen hn
    have h15 : 15 < baseIP.length := by omega
    have hnot : ¬ baseIP.length ≤ 15 := by omega
    cases n with
    | zero =>
      have hr : List.range (0 + 1) = [0] := rfl
      simp only [devNetIPs, nextIP, hnot, if_false, hr, List.map_cons, List.map_nil,
        Nat.add_zero, set_getD_self baseIP 15 h15]
    | succ k =>
      have hmod : (baseIP.getD 15 0 + 1) % 256 = baseIP.getD 15 0 + 1 :=
        Nat.mod_eq_of_lt (by omega)
      have hlen1 : (baseIP.set 15 (baseIP.getD 15 0 + 1)).length = 16 := by simpa using hlen
      have hget1 : (baseIP.set 15 (baseIP.getD 15 0 + 1)).getD 15 0 = baseIP.getD 15 0 + 1 :=
        getD_set_self baseIP 15 _ h15
      have hrec := ih (baseIP.set 15 (baseIP.getD 15 0 + 1)) hlen1 (by rw [hget1]; omega)
      rw [hget1] at hrec
      simp only [List.set_set] at hrec
      rw [devNetIPs]
      simp only [nextIP, hnot, if_false, hmod, hrec]
      rw [List.range_succ_eq_map (k + 1)]
      simp only [List.map_cons, List.map_map, Nat.add_zero, set_getD_self baseIP 15 h15]
      congr 2
      apply List.map_congr_left
      intro i _
      simp only [Function.comp]
      have hsum : baseIP.getD 15 0 + 1 + i = baseIP.getD 15 0 + i.succ := by omega
      rw [hsum]

/-- C36 (code bug).  `nextIP` increments the last byte of the base address
without carry: after an address whose last byte is 255 comes the one whose
last byte is 0, the other bytes unchanged.  With the base address 10.0.0.255,
which `initDevNet` accepts, one directory node and one validator, the second
listen address is `tcp://10.0.0.0`: it ends with .0 and is not the base
address advanced by one. -/
theorem devnet_ip_wraps :
    (∀ (env : Env) (baseIP : Bytes), baseIP.length = 16 → baseIP.getD 15 0 = 255 →
      nextIP env baseIP = Except.ok (baseIP, baseIP.set 15 0)) ∧
    exampleEnv.parseIP "10.0.0.255" = some (ipv4 10 0 0 255) ∧
    (ipv4 10 0 0 255).getD 15 0 ≠ 0 ∧
    initDevNet exampleEnv false
        { NumDirNodes := 1, NumValidators := 1, NumFollowers := 0, BasePort := 26656
          BaseIP := "10.0.0.255" } =
      Except.ok ["tcp://10.0.0.255", "tcp://10.0.0.0"] ∧
    (nextIP exampleEnv (ipv4 10 0 0 255)).map (fun r => r.2) = Except.ok (ipv4 10 0 0 0) :=
  ⟨fun env baseIP hlen hb => by
      have hnot : ¬ baseIP.length ≤ 15 := by omega
      simp only [nextIP, hnot, if_false, hb],
    by rfl, by decide, by rfl, by rfl⟩

/-- The addresses of `init devnet` as long as the last octet does not wrap: for
every 16-byte base IP whose last octet `b` is not 0
and every node count `n` = directory nodes + validators + followers with
`b + n ≤ 256`, the listen addresses are the texts `tcp://` + address of `n`
addresses that are pairwise distinct, the `i`-th (0-based) being the base IP
with `i` added to its last octet, and none of them has the last octet 0; the
texts are pairwise distinct when the texts of distinct addresses are. -/
theorem devnet_next_ip (env : Env) (flags : DevnetFlags) (baseIP : Bytes)
    (hd : 0 < flags.NumDirNodes) (hv : 0 < flags.NumValidators) (hf : 0 ≤ flags.NumFollowers)
    (hparse : env.parseIP flags.BaseIP = some baseIP) (hlen : baseIP.length = 16)
    (hb : baseIP.getD 15 0 ≠ 0)
    (hn : (baseIP.getD 15 0 : Int) + (flags.NumDirNodes + flags.NumValidators + flags.NumFollowers)
      ≤ 256) :
    ∃ ips : List Bytes,
      initDevNet env false flags = Except.ok (ips.map (fun ip => "tcp://" ++ env.ipText ip)) ∧
      (ips.length : Int) = flags.NumDirNodes + flags.NumValidators + flags.NumFollowers ∧
      (∀ i, i < ips.length → ips[i]? = some (baseIP.set 15 (baseIP.getD 15 0 + i))) ∧
      ips.Nodup ∧
      (∀ ip ∈ ips, ip.getD 15 0 ≠ 0) ∧
      ((∀ a ∈ ips, ∀ b ∈ ips, env.ipText a = env.ipText b → a = b) →
        (ips.map (fun ip => "tcp://" ++ env.ipText ip)).Nodup) := by
  have h15 : 15 < baseIP.length := by omega
  have hnot : ¬ baseIP.length ≤ 15 := by omega
  have hn0 : ¬ flags.NumDirNodes + flags.NumValidators + flags.NumFollowers < 0 := by omega
  have hcount : (baseIP.getD 15 0) +
      (flags.NumDirNodes + flags.NumValidators + flags.NumFollowers).toNat ≤ 256 := by omega
  have hinj : ∀ i j : Nat, baseIP.set 15 (baseIP.getD 15 0 + i) = baseIP.set 15 (baseIP.getD 15 0 + j) →
      i = j := by
    intro i j h
    have h1 := congrArg (fun l => l.getD 15 0) h
    simp only [getD_set_self baseIP 15 _ h15] at h1
    omega
  refine ⟨(List.range (flags.NumDirNodes + flags.NumValidators + flags.NumFollowers).toNat).map
    (fun i => baseIP.set 15 (baseIP.getD 15 0 + i)), ?_, ?_, ?_, ?_, ?_, ?_⟩
  · have hd0 : ¬ flags.NumDirNodes = 0 := by omega
    have hv0 : ¬ flags.NumValidators = 0 := by omega
    simp only [initDevNet, Bool.false_eq_true, if_false, hd0, hv0, hparse, hnot, hb, hn0]
    rw [devNetIPs_eq env _ baseIP hlen hcount]
    simp [List.map_map, Function.comp]
  · simp only [List.length_map, List.length_range]
    omega
  · intro i hi
    simp only [List.length_map, List.length_range] at hi
    simp [List.getElem?_map, List.getElem?_range hi]
  · exact (List.nodup_range _).map (fun i j h => hinj i j h)
  · intro ip hip
    simp only [List.mem_map, List.mem_range] at hip
    obtain ⟨i, -, rfl⟩ := hip
    rw [getD_set_self baseIP 15 _ h15]
    omega
  · intro htext
    have hnodup : ((List.range (flags.NumDirNodes + flags.NumValidators +
        flags.NumFollowers).toNat).map (fun i => baseIP.set 15 (baseIP.getD 15 0 + i))).Nodup :=
      (List.nodup_range _).map (fun i j h => hinj i j h)
    refine List.Nodup.map_on ?_ hnodup
    intro a ha b hb2 hab
    apply htext a ha b hb2
    have h1 := congrArg String.data hab
    simp only [String.data_append] at h1
    exact String.ext (List.append_cancel_left h1)

/-- The addresses of `init devnet` at a concrete input: the default base address
127.0.1.1 with one directory node, two validators and one follower. -/
theorem devnet_next_ip_witness :
    ∃ ips : List Bytes,
      initDevNet exampleEnv false
          { NumDirNodes := 1, NumValidators := 2, NumFollowers := 1, BasePort := 26656
            BaseIP := "127.0.1.1" } =
        Except.ok (ips.map (fun ip => "tcp://" ++ exampleEnv.ipText ip)) ∧
      (ips.length : Int) = 1 + 2 + 1 ∧
      (∀ i, i < ips.length →
        ips[i]? = some ((ipv4 127 0 1 1).set 15 ((ipv4 127 0 1 1).getD 15 0 + i))) ∧
      ips.Nodup ∧
      (∀ ip ∈ ips, ip.getD 15 0 ≠ 0) ∧
      ((∀ a ∈ ips, ∀ b ∈ ips, exampleEnv.ipText a = exampleEnv.ipText b → a = b) →
        (ips.map (fun ip => "tcp://" ++ exampleEnv.ipText ip)).Nodup) :=
  devnet_next_ip exampleEnv
    { NumDirNodes := 1, NumValidators := 2, NumFollowers := 1, BasePort := 26656
      BaseIP := "127.0.1.1" }
    (ipv4 127 0 1 1) (by decide) (by decide) (by decide) (by rfl) (by rfl) (by decide) (by decide)
/-! ### The KV manager -/

/-- The write cache after a sequence of `PutBatch` calls, as a fold over the
cache. -/
theorem putBatches_txCache (calls : List (Bytes × Bytes)) :
    ∀ m : Manager, (m.putBatches calls).txCache =
      calls.foldl (fun c w => setWrite c w.1 w.2) m.txCache := by
  induction calls with
  | nil => intro m; rfl
  | cons w rest ih =>
    intro m
    simp only [Manager.putBatches, List.foldl_cons] at ih ⊢
    rw [ih (m.PutBatch w.1 w.2)]
    rfl

/-- No `PutBatch` call touches the backend. -/
theorem putBatches_DB (calls : List (Bytes × Bytes)) :
    ∀ m : Manager, (m.putBatches calls).DB = m.DB := by
  induction calls with
  | nil => intro m; rfl
  | cons w rest ih =>
    intro m
    simp only [Manager.putBatches, List.foldl_cons] at ih ⊢
    rw [ih (m.PutBatch w.1 w.2)]
    rfl

/-- Writes to other keys leave the cached value of a key as it is. -/
theorem foldl_setWrite_other (k : Bytes) (post : List (Bytes × Bytes)) :
    ∀ cache : List (Bytes × Bytes), (∀ w ∈ post, w.1 ≠ k) →
      lookupWrite (post.foldl (fun c w => setWrite c w.1 w.2) cache) k = lookupWrite cache k := by
  induction post with
  | nil => intro cache _; rfl
  | cons w rest ih =>
    intro cache h
    simp only [List.foldl_cons]
    rw [ih _ (fun w1 hw1 => h w1 (List.mem_cons_of_mem _ hw1)), find_setWrite]
    have hne : ¬ k = w.1 := fun hk => h w (List.mem_cons_self _ _) hk.symm
    simp [hne]

/-- The cached value of a key after a sequence of writes is the value of the
last write to the key. -/
theorem foldl_setWrite_last (k v : Bytes) (pre post : List (Bytes × Bytes))
    (cache : List (Bytes × Bytes)) (h : ∀ w ∈ post, w.1 ≠ k) :
    lookupWrite ((pre ++ (k, v) :: post).foldl (fun c w => setWrite c w.1 w.2) cache) k =
      some v := by
  rw [List.foldl_append, List.foldl_cons, foldl_setWrite_other k post _ h, find_setWrite]
  simp

/-- The length-prefixed encodings of the same parts under two buckets differ
when the buckets do, provided a counted byte slice can be read back and the
bytes of a text determine the text. -/
theorem keyEncoding_bucket_injective (env : Env)
    (hB : ∀ c rest, env.bytesSlice (env.sliceBytes c ++ rest) = (c, rest))
    (hS : ∀ s t, env.stringBytes s = env.stringBytes t → s = t)
    (a b : String) (parts : List KeyPart)
    (h : keyEncoding env (KeyPart.str a :: parts) = keyEncoding env (KeyPart.str b :: parts)) :
    a = b := by
  simp only [keyEncoding, keyPartBytes] at h
  have h1 := congrArg env.bytesSlice h
  rw [hB, hB] at h1
  exact hS a b (Prod.mk.inj h1).1

/-- The keys of the same parts under two different buckets are different, when
`ComputeKey` is the hash of the length-prefixed encoding and the hash does
not collide on the two encodings. -/
theorem key_bucket_ne (env : Env)
    (hkey : ∀ ps, env.computeKey ps = env.sha256 (keyEncoding env ps))
    (hB : ∀ c rest, env.bytesSlice (env.sliceBytes c ++ rest) = (c, rest))
    (hS : ∀ s t, env.stringBytes s = env.stringBytes t → s = t)
    (a b : String) (parts : List KeyPart) (hab : a ≠ b)
    (hcoll : env.sha256 (keyEncoding env (KeyPart.str a :: parts)) =
        env.sha256 (keyEncoding env (KeyPart.str b :: parts)) →
      keyEncoding env (KeyPart.str a :: parts) = keyEncoding env (KeyPart.str b :: parts)) :
    Manager.Key env a parts ≠ Manager.Key env b parts := by
  intro h
  simp only [Manager.Key, hkey] at h
  exact hab (keyEncoding_bucket_injective env hB hS a b parts (hcoll h))

/-- C33.  KV batch semantics.  For every sequence of `PutBatch(key, value)`
calls on a KV manager, and for every key submitted in it, with `value` the
value of the last call for that key: (1) before `EndBatch` the write cache
holds `value` under the key, and the backend is as it was; (2) after
`EndBatch` a `Get` of the key from the backend returns `value`, and the cache
is empty.  (3) Keys built from the same parts under different buckets are
distinct entries: with `ComputeKey` the SHA-256 of the length-prefixed encoding
of bucket and parts, and SHA-256 not colliding on the two encodings, the two
keys are different, and a value put under one (at once or in a batch) is read
back under it whatever is put under the other. -/
theorem kv_batch_last_write_wins (env : Env) (m : Manager) :
    (∀ (pre post : List (Bytes × Bytes)) (k value : Bytes), (∀ w ∈ post, w.1 ≠ k) →
      lookupWrite (m.putBatches (pre ++ (k, value) :: post)).txCache k = some value ∧
      (m.putBatches (pre ++ (k, value) :: post)).DB = m.DB ∧
      (m.putBatches (pre ++ (k, value) :: post)).EndBatch.Get k = Except.ok value ∧
      (m.putBatches (pre ++ (k, value) :: post)).EndBatch.txCache = []) ∧
    ((∀ ps, env.computeKey ps = env.sha256 (keyEncoding env ps)) →
      (∀ c rest, env.bytesSlice (env.sliceBytes c ++ rest) = (c, rest)) →
      (∀ s t, env.stringBytes s = env.stringBytes t → s = t) →
      ∀ (a b : String) (parts : List KeyPart) (va vb : Bytes), a ≠ b →
      (env.sha256 (keyEncoding env (KeyPart.str a :: parts)) =
          env.sha256 (keyEncoding env (KeyPart.str b :: parts)) →
        keyEncoding env (KeyPart.str a :: parts) = keyEncoding env (KeyPart.str b :: parts)) →
      Manager.Key env a parts ≠ Manager.Key env b parts ∧
      ((m.Put (Manager.Key env a parts) va).Put (Manager.Key env b parts) vb).Get
          (Manager.Key env a parts) = Except.ok va ∧
      ((m.Put (Manager.Key env a parts) va).Put (Manager.Key env b parts) vb).Get
          (Manager.Key env b parts) = Except.ok vb ∧
      ((m.PutBatch (Manager.Key env a parts) va).PutBatch (Manager.Key env b parts) vb).EndBatch.Get
          (Manager.Key env a parts) = Except.ok va ∧
      ((m.PutBatch (Manager.Key env a parts) va).PutBatch (Manager.Key env b parts) vb).EndBatch.Get
          (Manager.Key env b parts) = Except.ok vb) := by
  constructor
  · intro pre post k value h
    have hcache : lookupWrite (m.putBatches (pre ++ (k, value) :: post)).txCache k = some value := by
      rw [putBatches_txCache]
      exact foldl_setWrite_last k value pre post m.txCache h
    refine ⟨hcache, putBatches_DB _ m, ?_, rfl⟩
    simp only [Manager.Get, Manager.EndBatch, hcache]
  · intro hkey hB hS a b parts va vb hab hcoll
    have hne := key_bucket_ne env hkey hB hS a b parts hab hcoll
    refine ⟨hne, ?_, ?_, ?_, ?_⟩
    · simp [Manager.Get, Manager.Put, hne]
    · simp [Manager.Get, Manager.Put]
    · simp [Manager.Get, Manager.EndBatch, Manager.PutBatch, find_setWrite, hne]
    · simp [Manager.Get, Manager.EndBatch, Manager.PutBatch, find_setWrite]

/-- The environment `bucketEnv` meets the conditions on `ComputeKey`, on the
counted byte slices and on the bytes of a text. -/
theorem bucketEnv_keys :
    (∀ ps, bucketEnv.computeKey ps = bucketEnv.sha256 (keyEncoding bucketEnv ps)) ∧
    (∀ c rest, bucketEnv.bytesSlice (bucketEnv.sliceBytes c ++ rest) = (c, rest)) ∧
    (∀ s t, bucketEnv.stringBytes s = bucketEnv.stringBytes t → s = t) := by
  refine ⟨?_, ?_, ?_⟩
  · intro ps
    have henc : ∀ qs, keyEncoding bucketEnv qs = keyEncoding textEnv qs := by
      intro qs
      induction qs with
      | nil => rfl
      | cons p rest ih =>
        simp only [keyEncoding, ih]
        cases p <;> rfl
    rw [henc]
    rfl
  · intro c rest
    show ((c ++ rest).take c.length, (c ++ rest).drop c.length) = (c, rest)
    simp
  · intro s t h
    have h1 : s.data.map Char.toNat = t.data.map Char.toNat := h
    have hinj : Function.Injective Char.toNat := by
      intro x y hxy
      have hx := Char.ofNat_toNat x
      have hy := Char.ofNat_toNat y
      rw [← hx, ← hy, hxy]
    exact String.ext (List.map_injective_iff.mpr hinj h1)

/-- C33, at a concrete input: the key `[1]` is written twice in a batch of three
writes, and the second value is the one cached and, after `EndBatch`, stored;
the key of `horse` in bucket `a` and its key in bucket `b` are different and
hold their own values. -/
theorem kv_batch_last_write_wins_witness :
    (lookupWrite (emptyKV.putBatches ([([1], [10])] ++ ([1], [11]) :: [([2], [20])])).txCache [1] =
        some [11] ∧
      (emptyKV.putBatches ([([1], [10])] ++ ([1], [11]) :: [([2], [20])])).DB = emptyKV.DB ∧
      (emptyKV.putBatches ([([1], [10])] ++ ([1], [11]) :: [([2], [20])])).EndBatch.Get [1] =
        Except.ok [11] ∧
      (emptyKV.putBatches ([([1], [10])] ++ ([1], [11]) :: [([2], [20])])).EndBatch.txCache = []) ∧
    Manager.Key bucketEnv "a" [KeyPart.str "", KeyPart.str "horse"] ≠
      Manager.Key bucketEnv "b" [KeyPart.str "", KeyPart.str "horse"] ∧
    ((emptyKV.Put (Manager.Key bucketEnv "a" [KeyPart.str "", KeyPart.str "horse"]) [1, 2, 3]).Put
        (Manager.Key bucketEnv "b" [KeyPart.str "", KeyPart.str "horse"]) [2, 3, 4]).Get
      (Manager.Key bucketEnv "a" [KeyPart.str "", KeyPart.str "horse"]) = Except.ok [1, 2, 3] :=
  have h := (kv_batch_last_write_wins bucketEnv emptyKV).2 bucketEnv_keys.1 bucketEnv_keys.2.1
    bucketEnv_keys.2.2 "a" "b" [KeyPart.str "", KeyPart.str "horse"] [1, 2, 3] [2, 3, 4]
    (by decide) (fun hc => hc)
  ⟨(kv_batch_last_write_wins bucketEnv emptyKV).1 [([1], [10])] [([2], [20])] [1] [11]
      (by decide), h.1, h.2.1⟩
/-! ### A chain ID staged more than once -/

/-- The assignment of a chain ID in the map of stores, looked up under any chain
ID. -/
theorem find_setStore (stores : List storeState) (s : storeState) (c : Bytes) :
    lookupStore (setStore stores s) c = if c = s.chainId then some s else lookupStore stores c := by
  simp only [lookupStore, setStore]
  by_cases hany : stores.any (fun t => t.chainId == s.chainId) = true
  · simp only [hany, if_true, List.find?_map]
    have hcomp : ((fun t : storeState => t.chainId == c) ∘
        fun t : storeState => if (t.chainId == s.chainId) = true then s else t) =
        fun t : storeState => t.chainId == c := by
      funext t
      simp only [Function.comp]
      by_cases ht : t.chainId = s.chainId
      · simp [ht]
      · simp [ht]
    rw [hcomp]
    by_cases hk : c = s.chainId
    · subst hk
      simp only [if_true]
      rw [List.any_eq_true] at hany
      obtain ⟨t, ht, htk⟩ := hany
      cases hf : stores.find? (fun t => t.chainId == s.chainId) with
      | none =>
        rw [List.find?_eq_none] at hf
        exact absurd htk (hf t ht)
      | some t1 =>
        have h0 := List.find?_some hf
        have h1 : t1.chainId = s.chainId := by simpa using h0
        simp [h1]
    · simp only [hk, if_false]
      cases hf : stores.find? (fun t => t.chainId == c) with
      | none => rfl
      | some t1 =>
        have h0 := List.find?_some hf
        have h1 : t1.chainId = c := by simpa using h0
        have h2 : ¬ t1.chainId = s.chainId := fun e => hk (h1.symm.trans e)
        simp [h2]
  · simp only [hany, Bool.false_eq_true, if_false, List.find?_append]
    simp only [Bool.not_eq_true] at hany
    by_cases hk : c = s.chainId
    · subst hk
      have hnone : stores.find? (fun t => t.chainId == s.chainId) = none := by
        rw [List.find?_eq_none]
        intro t ht
        rw [List.any_eq_false] at hany
        exact hany t ht
      simp [hnone]
    · have hk1 : ¬ s.chainId = c := fun e => hk e.symm
      simp [hk, hk1]

/-- The chain IDs of the map of stores after an assignment are pairwise distinct
when they were before. -/
theorem setStore_nodup (stores : List storeState) (s : storeState)
    (h : (stores.map (fun t => t.chainId)).Nodup) :
    ((setStore stores s).map (fun t => t.chainId)).Nodup := by
  simp only [setStore]
  by_cases hany : stores.any (fun t => t.chainId == s.chainId) = true
  · simp only [hany, if_true, List.map_map]
    have hcomp : ((fun t : storeState => t.chainId) ∘
        fun t : storeState => if (t.chainId == s.chainId) = true then s else t) =
        fun t : storeState => t.chainId := by
      funext t
      simp only [Function.comp]
      by_cases ht : t.chainId = s.chainId
      · simp [ht]
      · simp [ht]
    rw [hcomp]
    exact h
  · simp only [hany, Bool.false_eq_true, if_false, List.map_append, List.map_cons, List.map_nil]
    simp only [Bool.not_eq_true] at hany
    rw [List.nodup_append]
    refine ⟨h, by simp, ?_⟩
    intro a ha hb
    simp only [List.mem_singleton] at hb
    subst hb
    rw [List.mem_map] at ha
    obtain ⟨t, ht, hta⟩ := ha
    rw [List.any_eq_false] at hany
    exact hany t ht (by simp [hta])

/-- Storing a record assigns it in the map of stores under its chain ID, with the
current sequence number. -/
theorem store_stores (env : Env) (m m1 : StateManager) (r : Record) (c : Bool)
    (h : m.store env r c = Except.ok m1) :
    m1.stores = setStore m.stores { isCreate := c, order := m.storeCount,
                                    chainId := chainIdOf env r, record := r } ∧
      m1.storeCount = m.storeCount + 1 ∧ m1.txHash = m.txHash ∧
      m1.submissions = m.submissions := by
  unfold StateManager.store at h
  cases hu : r.Header.ParseUrl env with
  | error e => simp [hu] at h
  | ok u =>
    simp only [hu, Except.ok.injEq] at h
    have hid : chainIdOf env r = toBytes32 (u.ResourceChain env) := by simp [chainIdOf, hu]
    subst h
    simp [hid]

/-- One `Update` or `Create` call assigns the record in the map of stores under
its chain ID, with the intent of the call and the current sequence number. -/
theorem stage_stores (env : Env) (m m1 : StateManager) (c : Bool × Record)
    (h : m.stage env c = Except.ok m1) :
    m1.stores = setStore m.stores { isCreate := c.1, order := m.storeCount,
                                    chainId := chainIdOf env c.2, record := c.2 } ∧
      m1.storeCount = m.storeCount + 1 ∧ m1.txHash = m.txHash ∧
      m1.submissions = m.submissions := by
  unfold StateManager.stage at h
  by_cases hc : c.1 = true
  · simp only [hc, if_true, StateManager.Create] at h
    split at h
    · simp at h
    · simp only [createLoop] at h
      split at h
      · simp at h
      · cases hs : m.store env c.2 true with
        | error e => simp [hs] at h
        | ok m2 =>
          simp only [hs, Except.ok.injEq] at h
          subst h
          simpa [hc] using store_stores env m m2 c.2 true hs
  · have hc2 : c.1 = false := by simpa using hc
    simp only [hc2, Bool.false_eq_true, if_false, StateManager.Update] at h
    cases hs : m.store env c.2 false with
    | error e => simp [hs] at h
    | ok m2 =>
      simp only [hs, Except.ok.injEq] at h
      subst h
      simpa [hc2] using store_stores env m m2 c.2 false hs

/-- The staged records of a sequence of calls carry the chain IDs of the
records of the calls. -/
theorem stagedStores_chainId (env : Env) (calls : List (Bool × Record)) :
    ∀ (count : Nat) (s : storeState), s ∈ stagedStores env count calls →
      ∃ d ∈ calls, s.chainId = chainIdOf env d.2 := by
  induction calls with
  | nil => intro count s hs; simp [stagedStores] at hs
  | cons c rest ih =>
    intro count s hs
    simp only [stagedStores, List.mem_cons] at hs
    rcases hs with rfl | hs
    · exact ⟨c, List.mem_cons_self _ _, rfl⟩
    · obtain ⟨d, hd, hid⟩ := ih (count + 1) s hs
      exact ⟨d, List.mem_cons_of_mem _ hd, hid⟩

/-- The staged records of two sequences of calls one after the other. -/
theorem stagedStores_append (env : Env) (pre post : List (Bool × Record)) :
    ∀ count : Nat, stagedStores env count (pre ++ post) =
      stagedStores env count pre ++ stagedStores env (count + pre.length) post := by
  induction pre with
  | nil => intro count; simp [stagedStores]
  | cons c rest ih =>
    intro count
    have e := ih (count + 1)
    have hlen : count + 1 + rest.length = count + (rest.length + 1) := by omega
    rw [hlen] at e
    show stagedStores env count (c :: (rest ++ post)) = _
    simp only [stagedStores, List.length_cons, e, List.cons_append]

/-- The map of stores after a sequence of `Update` and `Create` calls: under
every chain ID it holds the record of the most recent call for that chain ID,
or else what it held before. -/
theorem stageAll_lookup (env : Env) (calls : List (Bool × Record)) :
    ∀ (m m1 : StateManager), m.stageAll env calls = Except.ok m1 →
      (m.stores.map (fun t => t.chainId)).Nodup →
      (m1.stores.map (fun t => t.chainId)).Nodup ∧ m1.txHash = m.txHash ∧
      m1.submissions = m.submissions ∧
      ∀ c, lookupStore m1.stores c =
        match lookupStore (stagedStores env m.storeCount calls).reverse c with
        | some s => some s
        | none => lookupStore m.stores c := by
  induction calls with
  | nil =>
    intro m m1 h hnd
    simp only [StateManager.stageAll, Except.ok.injEq] at h
    subst h
    exact ⟨hnd, rfl, rfl, fun c => by simp [stagedStores, lookupStore]⟩
  | cons call rest ih =>
    intro m m1 h hnd
    simp only [StateManager.stageAll] at h
    cases hs : m.stage env call with
    | error e => simp [hs] at h
    | ok m2 =>
      simp only [hs] at h
      obtain ⟨h1, h2, h3, h4⟩ := stage_stores env m m2 call hs
      have hnd2 : (m2.stores.map (fun t => t.chainId)).Nodup := by
        rw [h1]; exact setStore_nodup _ _ hnd
      obtain ⟨r1, r2, r3, r4⟩ := ih m2 m1 h hnd2
      refine ⟨r1, r2.trans h3, r3.trans h4, ?_⟩
      intro c
      rw [r4 c, h2, h1, find_setStore]
      simp only [stagedStores, List.reverse_cons, lookupStore, List.find?_append]
      cases hf : (stagedStores env (m.storeCount + 1) rest).reverse.find?
          (fun t => t.chainId == c) with
      | some s => simp
      | none =>
        by_cases hc : c = chainIdOf env call.2
        · subst hc; simp
        · have hc2 : ¬ chainIdOf env call.2 = c := fun e => hc e.symm
          simp [hc, hc2]

/-- The most recent stagings are among the stagings, in their order. -/
theorem lastStaged_sublist (l : List storeState) : (lastStaged l).Sublist l := by
  induction l with
  | nil => exact List.Sublist.slnil
  | cons s rest ih =>
    simp only [lastStaged]
    split
    · exact List.Sublist.cons _ ih
    · exact List.Sublist.cons₂ _ ih

/-- No two of the most recent stagings have the same chain ID. -/
theorem lastStaged_nodup (l : List storeState) :
    ((lastStaged l).map (fun t => t.chainId)).Nodup := by
  induction l with
  | nil => simp [lastStaged]
  | cons s rest ih =>
    simp only [lastStaged]
    split
    · exact ih
    · rename_i hany
      simp only [List.map_cons, List.nodup_cons]
      refine ⟨?_, ih⟩
      intro hmem
      rw [List.mem_map] at hmem
      obtain ⟨t, ht, hid⟩ := hmem
      apply hany
      rw [List.any_eq_true]
      exact ⟨t, (lastStaged_sublist rest).subset ht, by simp [hid]⟩

/-- Under every chain ID the most recent stagings hold the last staging of that
chain ID. -/
theorem lookup_lastStaged (l : List storeState) (c : Bytes) :
    lookupStore (lastStaged l) c = lookupStore l.reverse c := by
  induction l with
  | nil => rfl
  | cons s rest ih =>
    simp only [lookupStore] at ih
    simp only [lastStaged, List.reverse_cons, lookupStore, List.find?_append]
    split
    · rename_i hany
      rw [ih]
      cases hf : rest.reverse.find? (fun t => t.chainId == c) with
      | some t => simp
      | none =>
        rw [List.find?_eq_none] at hf
        rw [List.any_eq_true] at hany
        obtain ⟨t, ht, hid⟩ := hany
        have hid2 : t.chainId = s.chainId := by simpa using hid
        have hne : ¬ s.chainId = c := by
          intro hsc
          exact hf t (List.mem_reverse.mpr ht) (by simp [hid2, hsc])
        simp [hne]
    · rename_i hany
      simp only [List.find?_cons]
      by_cases hsc : s.chainId = c
      · have hnone : rest.reverse.find? (fun t => t.chainId == c) = none := by
          rw [List.find?_eq_none]
          intro t ht hid
          apply hany
          rw [List.any_eq_true]
          exact ⟨t, List.mem_reverse.mp ht, by simp at hid; simp [hid, hsc]⟩
        simp [hsc, hnone]
      · rw [ih]
        have hb : (s.chainId == c) = false := by simp [hsc]
        cases hf : rest.reverse.find? (fun t => t.chainId == c) <;> simp [hb]

/-- In a map of stores with pairwise distinct chain IDs, the stores are those
that the lookup of their chain ID finds. -/
theorem mem_iff_lookupStore (l : List storeState) (h : (l.map (fun t => t.chainId)).Nodup)
    (s : storeState) : s ∈ l ↔ lookupStore l s.chainId = some s := by
  constructor
  · intro hs
    induction l with
    | nil => simp at hs
    | cons t rest ih =>
      simp only [List.map_cons, List.nodup_cons] at h
      simp only [lookupStore, List.find?_cons]
      rcases List.mem_cons.mp hs with rfl | hs1
      · simp
      · have hne : ¬ t.chainId = s.chainId := by
          intro e
          exact h.1 (List.mem_map.mpr ⟨s, hs1, e.symm⟩)
        have hb : (t.chainId == s.chainId) = false := by simp [hne]
        simp only [hb]
        exact ih h.2 hs1
  · intro hf
    exact List.mem_of_find?_eq_some hf

/-- Two maps of stores, each with pairwise distinct chain IDs, that hold the same
under every chain ID, hold the same stores. -/
theorem perm_of_lookupStore (l1 l2 : List storeState)
    (h1 : (l1.map (fun t => t.chainId)).Nodup) (h2 : (l2.map (fun t => t.chainId)).Nodup)
    (h : ∀ c, lookupStore l1 c = lookupStore l2 c) : l1.Perm l2 := by
  rw [List.perm_ext_iff_of_nodup (List.Nodup.of_map _ h1) (List.Nodup.of_map _ h2)]
  intro s
  rw [mem_iff_lookupStore l1 h1, mem_iff_lookupStore l2 h2, h]

/-- The most recent stagings hold the last call for a chain ID under that chain
ID, with the intent of the call and its position among the calls. -/
theorem last_call_staged (env : Env) (count : Nat) (pre post : List (Bool × Record))
    (c : Bool × Record) (hlast : ∀ d ∈ post, chainIdOf env d.2 ≠ chainIdOf env c.2) :
    lookupStore (lastStaged (stagedStores env count (pre ++ c :: post))) (chainIdOf env c.2) =
      some { isCreate := c.1, order := count + pre.length, chainId := chainIdOf env c.2
             record := c.2 } := by
  rw [lookup_lastStaged, stagedStores_append]
  simp only [stagedStores, List.reverse_append, List.reverse_cons, lookupStore, List.find?_append,
    List.append_assoc]
  have hnone : (stagedStores env (count + pre.length + 1) post).reverse.find?
      (fun t => t.chainId == chainIdOf env c.2) = none := by
    rw [List.find?_eq_none]
    intro t ht hid
    obtain ⟨d, hd, hdt⟩ := stagedStores_chainId env post _ t (List.mem_reverse.mp ht)
    apply hlast d hd
    rw [← hdt]
    simpa using hid
  simp [hnone]

/-- C39.  When the same chain ID is staged more than once, `commit` processes
it once, as the most recent call staged it.  For every sequence of
`Update`/`Create` calls made on a state manager with nothing staged, and for
every order `iteration` in which the map `stores` may hand out the staged
records: (1) the ordered list that `commit` builds consists of the most recent
staging of every chain ID, in the order of these calls; (2) no chain ID occurs
in it twice; (3) for every call that is the last one for its chain ID, the list
holds the record of that call with the intent (create or update) and the
sequence number of that call, and nothing else under that chain ID; (4)
`commit` is its loop run over that list; (5) when `commit` returns without
error, the state entries it wrote are those of the records whose most recent
staging is an update, and the chain lists of the SyntheticCreateChain
submissions it queued hold the records whose most recent staging is a create,
and no other. -/
theorem commit_uses_last_staging (env : Env) (m0 m : StateManager)
    (calls : List (Bool × Record)) (iteration : List storeState) (db : DBTransaction)
    (h0 : m0.stores = []) (hs : m0.stageAll env calls = Except.ok m)
    (hp : iteration.Perm m.stores) :
    sortedStores { m with stores := iteration } =
      lastStaged (stagedStores env m0.storeCount calls) ∧
    ((sortedStores { m with stores := iteration }).map (fun t => t.chainId)).Nodup ∧
    (∀ pre c post, calls = pre ++ c :: post →
      (∀ d ∈ post, chainIdOf env d.2 ≠ chainIdOf env c.2) →
      { isCreate := c.1, order := m0.storeCount + pre.length, chainId := chainIdOf env c.2
        record := c.2 } ∈ sortedStores { m with stores := iteration } ∧
      ∀ s ∈ sortedStores { m with stores := iteration }, s.chainId = chainIdOf env c.2 →
        s = { isCreate := c.1, order := m0.storeCount + pre.length, chainId := chainIdOf env c.2
              record := c.2 }) ∧
    StateManager.commit env { m with stores := iteration } db =
      commitResult (commitLoop env (lastStaged (stagedStores env m0.storeCount calls))
        (commitStart { m with stores := iteration } db)) ∧
    ((StateManager.commit env { m with stores := iteration } db).1 = none →
      (StateManager.commit env { m with stores := iteration } db).2.2.stateEntries =
        db.stateEntries ++
          updateEntries env m.txHash (lastStaged (stagedStores env m0.storeCount calls)) ∧
      ∃ fresh : List submittedTx,
        (StateManager.commit env { m with stores := iteration } db).2.1.submissions =
          m.submissions ++ fresh ∧
        ∀ sub ∈ fresh,
          sub.body = Body.createChain
            { Cause := m.txHash
              Chains := chainsOf
                (createItems env (lastStaged (stagedStores env m0.storeCount calls)))
                (submissionKey env sub) }) := by
  obtain ⟨hnd, -, -, hlook⟩ := stageAll_lookup env calls m0 m hs (by simp [h0])
  have hnd2 := lastStaged_nodup (stagedStores env m0.storeCount calls)
  have hperm : m.stores.Perm (lastStaged (stagedStores env m0.storeCount calls)) := by
    apply perm_of_lookupStore _ _ hnd hnd2
    intro c
    rw [hlook c, lookup_lastStaged, h0]
    cases lookupStore (stagedStores env m0.storeCount calls).reverse c <;> rfl
  have hsorted : (lastStaged (stagedStores env m0.storeCount calls)).Pairwise
      (fun a b => a.order < b.order) :=
    (stagedStores_sorted env calls m0.storeCount).sublist (lastStaged_sublist _)
  have hsort : sortedStores { m with stores := iteration } =
      lastStaged (stagedStores env m0.storeCount calls) := by
    unfold sortedStores
    exact insertionSort_perm_sorted _ iteration hsorted (hp.trans hperm)
  refine ⟨hsort, by rw [hsort]; exact hnd2, ?_, ?_, ?_⟩
  · intro pre c post hcalls hlast
    rw [hsort, hcalls]
    have hl := last_call_staged env m0.storeCount pre post c hlast
    have hnd3 := lastStaged_nodup (stagedStores env m0.storeCount (pre ++ c :: post))
    constructor
    · exact List.mem_of_find?_eq_some hl
    · intro s hmem hid
      have h1 := (mem_iff_lookupStore _ hnd3 s).mp hmem
      rw [hid, hl] at h1
      exact (Option.some.inj h1).symm
  · simp only [StateManager.commit, hsort]
  · intro hok
    simp only [StateManager.commit, commitResult, hsort] at hok ⊢
    generalize hr : commitLoop env (lastStaged (stagedStores env m0.storeCount calls))
      (commitStart { m with stores := iteration } db) = r at hok ⊢
    obtain ⟨e, s1⟩ := r
    simp only at hok
    subst hok
    obtain ⟨⟨fresh, hsub, -, hC, -⟩, hentries, -⟩ :=
      commitLoop_inv env m.txHash m.submissions (lastStaged (stagedStores env m0.storeCount calls))
        (commitStart { m with stores := iteration } db) s1 [] db.stateEntries
        (CreateInv_start env { m with stores := iteration } db) rfl
        (by simp [commitStart, flushWrites_stateEntries]) hr
    refine ⟨hentries, fresh, hsub, ?_⟩
    intro sub hmem
    obtain ⟨j, hj⟩ := List.mem_iff_getElem?.mp hmem
    have := (hC j sub hj).1
    simpa using this

/-- C39, at a concrete input: Alice's account was created and then updated, Bob's
updated and then created; whatever the order of the map, `commit` processes
Alice's account once, as the update of the third call, and Bob's once, as the
create of the fourth. -/
theorem commit_uses_last_staging_witness :
    sortedStores { restagedManager with stores := restagedManager.stores.reverse } =
      [{ isCreate := false, order := 2, chainId := toBytes32 [3]
         record := exampleAccount "acc://alice/tokens" [33] },
       { isCreate := true, order := 3, chainId := toBytes32 [5]
         record := exampleAccount "acc://bob/tokens" [55] }] :=
  (commit_uses_last_staging exampleEnv (emptyManager (TxType.user 4)) restagedManager
    restagedCalls restagedManager.stores.reverse exampleDB (by rfl) (by rfl)
    (List.reverse_perm _)).1.trans (by rfl)

end Accumulate
